import Mathlib

/-!
# xmlsec node sets: `src/nodeset.c` and the XPath transforms of `src/xpath.c`

A shallow embedding of the node-set algebra of xmlsec and of the transform
execute functions that combine node sets, followed by the properties
proved about them.

Conventions of the embedding.

* C `int` results are `Int`; a C condition `if(e)` is `e ≠ 0`.
* `xmlSecNodeSet` records live in a heap of cells addressed by natural
  numbers; a C pointer to such a record is an `Option Nat`, `none` being
  `NULL`.  Reading a cell that is not allocated is undefined behaviour in C;
  the embedding then yields `none` (no result).
* Loops and recursion through the heap take a `fuel` argument; `none` is also
  the answer when the fuel runs out.  The theorems state that enough fuel
  yields a result.
* The XML document is owned by libxml and only read here.  A pointer to a node
  is a value: null, or the address of the node together with the fields this
  program reads, the parent link being again such a value.
-/

namespace XmlSec

/-! ## libxml: the parts of the tree interface this program reads -/

/-- The node kinds of libxml (`xmlElementType` in `libxml/tree.h`). -/
inductive xmlElementType where
  | XML_ELEMENT_NODE
  | XML_ATTRIBUTE_NODE
  | XML_TEXT_NODE
  | XML_CDATA_SECTION_NODE
  | XML_ENTITY_REF_NODE
  | XML_ENTITY_NODE
  | XML_PI_NODE
  | XML_COMMENT_NODE
  | XML_DOCUMENT_NODE
  | XML_DOCUMENT_TYPE_NODE
  | XML_DOCUMENT_FRAG_NODE
  | XML_NOTATION_NODE
  | XML_HTML_DOCUMENT_NODE
  | XML_DTD_NODE
  | XML_ELEMENT_DECL
  | XML_ATTRIBUTE_DECL
  | XML_ENTITY_DECL
  | XML_NAMESPACE_DECL
  | XML_XINCLUDE_START
  | XML_XINCLUDE_END
  deriving DecidableEq, Repr

open xmlElementType

/-- A namespace declaration as it hangs off an element (`xmlNs`, an entry of
`nsDef`): its address, its prefix (`none` for the default namespace) and its
URI. -/
structure xmlNs where
  addr : Nat
  pfx : Option String
  href : Option String
  deriving DecidableEq, Repr

/-- A value of type `xmlNodePtr`: the null pointer, or a pointer to a record of
which this program reads

* `addr`: the address of the record (pointer equality is equality of `addr`);
* `type`: the `type` slot, which `xmlNode`, `xmlAttr`, `xmlDoc` and `xmlNs`
  share;
* `parent`: the `parent` link of a tree node;
* `nsDef`: the declarations of namespaces on an element;
* `pfx`, `nsNext`: for a record of type `XML_NAMESPACE_DECL` (an `xmlNs` cast
  to `xmlNodePtr`), its `prefix` slot and its `next` slot.  In the copies that
  libxml stores in an XPath node set the `next` slot holds the element the
  namespace node belongs to. -/
inductive xmlNodePtr where
  | NULL
  | node (addr : Nat) (type : xmlElementType) (parent : xmlNodePtr)
      (nsDef : List xmlNs) (pfx : Option String) (nsNext : xmlNodePtr)
  deriving DecidableEq, Repr

namespace xmlNodePtr

/-- Address of the record pointed to (`0` for the null pointer). -/
def addr : xmlNodePtr → Nat
  | NULL => 0
  | node a _ _ _ _ _ => a

/-- The C field `type`.  The program reads it through non-null pointers only. -/
def type : xmlNodePtr → xmlElementType
  | NULL => XML_ELEMENT_NODE
  | node _ t _ _ _ _ => t

/-- The C field `parent`. -/
def parent : xmlNodePtr → xmlNodePtr
  | NULL => NULL
  | node _ _ p _ _ _ => p

/-- The C field `nsDef`. -/
def nsDef : xmlNodePtr → List xmlNs
  | NULL => []
  | node _ _ _ d _ _ => d

/-- The C field `prefix` of an `xmlNs`. -/
def pfx : xmlNodePtr → Option String
  | NULL => none
  | node _ _ _ _ x _ => x

/-- The C field `next` of an `xmlNs`. -/
def nsNext : xmlNodePtr → xmlNodePtr
  | NULL => NULL
  | node _ _ _ _ _ n => n

/-- The C test `p == NULL`. -/
def isNull : xmlNodePtr → Bool
  | NULL => true
  | node _ _ _ _ _ _ => false

/-- The C test `p == q` on pointers. -/
def ptrEq : xmlNodePtr → xmlNodePtr → Bool
  | NULL, NULL => true
  | node a _ _ _ _ _, node b _ _ _ _ _ => a == b
  | _, _ => false

end xmlNodePtr

open xmlNodePtr (NULL)

/-- An XPath node set of libxml (`xmlNodeSet`): the table `nodeTab`, whose
length is `nodeNr`. -/
abbrev xmlNodeSet := List xmlNodePtr

/-- The membership test of libxml, `xmlXPathNodeSetContains(cur, val)`.

For a `val` that is not a namespace declaration it looks for an entry with the
same address.  For a namespace declaration it looks for a namespace entry
whose `next` slot equals the non-null `next` slot of `val` and whose prefix is
equal.  (libxml also accepts an entry that is `val` itself; the only namespace
argument this program passes is the address of a local copy, which no entry of
a node set can be, so that test is left out.) -/
def xmlXPathNodeSetContains (cur : xmlNodeSet) (val : xmlNodePtr) : Int :=
  if val.type = XML_NAMESPACE_DECL then
    if cur.any (fun e => e.type = XML_NAMESPACE_DECL && !val.nsNext.isNull &&
        e.nsNext.ptrEq val.nsNext && (val.pfx == e.pfx)) then 1 else 0
  else
    if cur.any (fun e => e.ptrEq val) then 1 else 0

/-! ## The node-set records and the heap that holds them -/

/-- The variant tag `xmlSecNodeSetType`.  `unknownType` stands for any other
value of the C enumeration. -/
inductive xmlSecNodeSetType where
  | xmlSecNodeSetNormal
  | xmlSecNodeSetInvert
  | xmlSecNodeSetTree
  | xmlSecNodeSetTreeWithoutComments
  | xmlSecNodeSetTreeInvert
  | xmlSecNodeSetTreeWithoutCommentsInvert
  | xmlSecNodeSetList
  | unknownType (tag : Int)
  deriving DecidableEq, Repr

/-- The combinator tag `xmlSecNodeSetOp`.  `unknownOp` stands for any other
value of the C enumeration. -/
inductive xmlSecNodeSetOp where
  | xmlSecNodeSetIntersection
  | xmlSecNodeSetSubtraction
  | xmlSecNodeSetUnion
  | unknownOp (tag : Int)
  deriving DecidableEq, Repr

open xmlSecNodeSetType xmlSecNodeSetOp

/-- The record `xmlSecNodeSet`.  `doc` is the address of the document,
`nodes` the raw collection (`NULL` is `none`), `next`, `prev` and `children`
are pointers to other records. -/
structure xmlSecNodeSet where
  nodes : Option xmlNodeSet
  doc : Option Nat
  type : xmlSecNodeSetType
  op : xmlSecNodeSetOp
  next : Option Nat
  prev : Option Nat
  children : Option Nat

/-- The record after `memset(nset, 0, sizeof(xmlSecNodeSet))`: null pointers
and the first enumerator of each tag. -/
def xmlSecNodeSet.zero : xmlSecNodeSet :=
  { nodes := none, doc := none, type := xmlSecNodeSetNormal, op := xmlSecNodeSetIntersection,
    next := none, prev := none, children := none }

/-- What the program hands back to the allocator, in the order it does so. -/
inductive HeapEvent where
  | xmlFree (p : Nat)
  | xmlXPathFreeNodeSet (nodes : xmlNodeSet)

/-- The heap of `xmlSecNodeSet` records.  Cell `p` is `cells[p]`; a freed or
never allocated cell reads as `none`.  `avail` is the number of allocations
that will still succeed; `log` records the releases, latest first. -/
structure Heap where
  cells : List (Option xmlSecNodeSet)
  avail : Nat
  log : List HeapEvent

namespace Heap

/-- Dereference a pointer to a record. -/
def read (h : Heap) (p : Nat) : Option xmlSecNodeSet :=
  match h.cells[p]? with
  | some (some s) => some s
  | _ => none

/-- Store a record at an address. -/
def write (h : Heap) (p : Nat) (s : xmlSecNodeSet) : Heap :=
  { h with cells := h.cells.set p (some s) }

/-- The allocator `xmlMalloc(sizeof(xmlSecNodeSet))`: `NULL` when no memory is
available, otherwise a fresh address, one past every address handed out
before.  The new cell holds the all-zero record that the `memset` following
the call leaves. -/
def xmlMalloc (h : Heap) : Heap × Option Nat :=
  match h.avail with
  | 0 => (h, none)
  | n + 1 =>
    ({ h with cells := h.cells ++ [some xmlSecNodeSet.zero], avail := n }, some h.cells.length)

/-- The release `xmlFree(p)` of a record. -/
def xmlFree (h : Heap) (p : Nat) : Heap :=
  { h with cells := h.cells.set p none, log := HeapEvent.xmlFree p :: h.log }

/-- The release `xmlXPathFreeNodeSet(nodes)` of a raw collection. -/
def xmlXPathFreeNodeSet (h : Heap) (nodes : xmlNodeSet) : Heap :=
  { h with log := HeapEvent.xmlXPathFreeNodeSet nodes :: h.log }

end Heap

/-! ## `src/nodeset.c` -/

/-- The function `xmlSecNodeSetCreate(doc, nodes, type)`. -/
def xmlSecNodeSetCreate (h : Heap) (doc : Option Nat) (nodes : Option xmlNodeSet)
    (type : xmlSecNodeSetType) : Heap × Option Nat :=
  match h.xmlMalloc with
  | (h1, none) => (h1, none)
  | (h1, some nset) =>
    (h1.write nset { xmlSecNodeSet.zero with
        doc := doc, nodes := nodes, type := type, next := some nset, prev := some nset },
      some nset)

/-- The C negation `!x`. -/
def cNot (x : Int) : Int := if x = 0 then 1 else 0

/-- The value of the local `in_nodes_set` of `xmlSecNodeSetOneContains` when
the final `switch` is reached: `1` when the set has no raw collection,
otherwise the libxml membership test, applied to the node itself or, for a
declaration of a namespace, to a copy whose `next` slot is the parent. -/
def in_nodes_set (nodes : Option xmlNodeSet) (node : xmlNodePtr) (parent : xmlNodePtr) : Int :=
  match nodes with
  | none => 1
  | some tab =>
    if node.type ≠ XML_NAMESPACE_DECL then
      xmlXPathNodeSetContains tab node
    else
      xmlXPathNodeSetContains tab
        (xmlNodePtr.node node.addr node.type node.parent node.nsDef node.pfx parent)

mutual

/-- The function `xmlSecNodeSetOneContains(nset, node, parent)`. -/
def xmlSecNodeSetOneContains (h : Heap) :
    Nat → Option Nat → xmlNodePtr → xmlNodePtr → Option Int
  | 0, _, _, _ => none
  | fuel + 1, nset, node, parent =>
    match nset with
    | none => some 0
    | some p =>
      if node.isNull then some 0
      else
      match h.read p with
      | none => none
      | some s =>
        if (s.type = xmlSecNodeSetTreeWithoutComments ∨
            s.type = xmlSecNodeSetTreeWithoutCommentsInvert) ∧
            node.type = XML_COMMENT_NODE then
          some 0
        else if s.type = xmlSecNodeSetList then
          xmlSecNodeSetContains h fuel s.children node parent
        else
          match s.type with
          | xmlSecNodeSetNormal => some (in_nodes_set s.nodes node parent)
          | xmlSecNodeSetInvert => some (cNot (in_nodes_set s.nodes node parent))
          | xmlSecNodeSetTree
          | xmlSecNodeSetTreeWithoutComments =>
            if in_nodes_set s.nodes node parent ≠ 0 then some 1
            else if parent.isNull = false ∧ parent.type = XML_ELEMENT_NODE then
              xmlSecNodeSetOneContains h fuel nset parent parent.parent
            else some 0
          | xmlSecNodeSetTreeInvert
          | xmlSecNodeSetTreeWithoutCommentsInvert =>
            if in_nodes_set s.nodes node parent ≠ 0 then some 0
            else if parent.isNull = false ∧ parent.type = XML_ELEMENT_NODE then
              xmlSecNodeSetOneContains h fuel nset parent parent.parent
            else some 1
          | _ => some 0

/-- The function `xmlSecNodeSetContains(nset, node, parent)`. -/
def xmlSecNodeSetContains (h : Heap) :
    Nat → Option Nat → xmlNodePtr → xmlNodePtr → Option Int
  | 0, _, _, _ => none
  | fuel + 1, nset, node, parent =>
    if node.isNull then some 0
    else
      match nset with
      | none => some 1
      | some p => xmlSecNodeSetContainsLoop h fuel p p 1 node parent

/-- The `do ... while(cur != nset)` loop of `xmlSecNodeSetContains`, entered
with the current member `cur` and the current `status`. -/
def xmlSecNodeSetContainsLoop (h : Heap) :
    Nat → Nat → Nat → Int → xmlNodePtr → xmlNodePtr → Option Int
  | 0, _, _, _, _, _ => none
  | fuel + 1, nset, cur, status, node, parent =>
    match h.read cur with
    | none => none
    | some c =>
      let again : Int → Option Int := fun status1 =>
        match c.next with
        | none => none
        | some nx =>
          if nx ≠ nset then xmlSecNodeSetContainsLoop h fuel nset nx status1 node parent
          else some status1
      match c.op with
      | xmlSecNodeSetIntersection =>
        if status ≠ 0 then
          match xmlSecNodeSetOneContains h fuel (some cur) node parent with
          | none => none
          | some r => again (if r = 0 then 0 else status)
        else again status
      | xmlSecNodeSetSubtraction =>
        if status ≠ 0 then
          match xmlSecNodeSetOneContains h fuel (some cur) node parent with
          | none => none
          | some r => again (if r ≠ 0 then 0 else status)
        else again status
      | xmlSecNodeSetUnion =>
        if status = 0 then
          match xmlSecNodeSetOneContains h fuel (some cur) node parent with
          | none => none
          | some r => again (if r ≠ 0 then 1 else status)
        else again status
      | unknownOp _ => some (-1)

end

/-- The function `xmlSecNodeSetAdd(nset, newNSet, op)`. -/
def xmlSecNodeSetAdd (h : Heap) (nset newNSet : Option Nat) (op : xmlSecNodeSetOp) :
    Option (Heap × Option Nat) :=
  match newNSet with
  | none => some (h, none)
  | some n =>
    match h.read n with
    | none => none
    | some new0 =>
      if new0.next ≠ some n then some (h, none)
      else
        let h1 := h.write n { new0 with op := op }
        match nset with
        | none => some (h1, some n)
        | some a =>
          -- newNSet->next = nset; newNSet->prev = nset->prev;
          match h1.read a, h1.read n with
          | some anchor, some new1 =>
            let h2 := h1.write n { new1 with next := some a, prev := anchor.prev }
            -- nset->prev->next = newNSet;
            match (h2.read a).bind (fun s => s.prev) with
            | none => none
            | some last =>
              match h2.read last with
              | none => none
              | some l =>
                let h3 := h2.write last { l with next := some n }
                -- nset->prev = newNSet;
                match h3.read a with
                | none => none
                | some anchor3 => some (h3.write a { anchor3 with prev := some n }, some a)
          | _, _ => none

mutual

/-- The function `xmlSecNodeSetDestroy(nset)`. -/
def xmlSecNodeSetDestroy : Nat → Heap → Option Nat → Option Heap
  | 0, _, _ => none
  | fuel + 1, h, nset =>
    match nset with
    | none => some h
    | some p => xmlSecNodeSetDestroyLoop fuel h (some p)

/-- The loop `while((tmp = nset) != NULL)` of `xmlSecNodeSetDestroy`. -/
def xmlSecNodeSetDestroyLoop : Nat → Heap → Option Nat → Option Heap
  | 0, _, _ => none
  | fuel + 1, h, nset =>
    match nset with
    | none => some h
    | some tmp =>
      match h.read tmp with
      | none => none
      | some t =>
        let unlinked : Option (Heap × Option Nat) :=
          if t.next ≠ some tmp then
            -- nset->next->prev = nset->prev;
            match t.next.bind h.read, t.next with
            | some nxr, some nx =>
              let h1 := h.write nx { nxr with prev := t.prev }
              -- nset->prev->next = nset->next;
              match h1.read tmp with
              | none => none
              | some t1 =>
                match t1.prev.bind h1.read, t1.prev with
                | some pvr, some pv =>
                  let h2 := h1.write pv { pvr with next := t1.next }
                  -- nset = nset->next;
                  (h2.read tmp).map (fun t2 => (h2, t2.next))
                | _, _ => none
            | _, _ => none
          else some (h, none)
        match unlinked with
        | none => none
        | some (h2, nset1) =>
          match h2.read tmp with
          | none => none
          | some t2 =>
            let h3 :=
              match t2.nodes with
              | some nodes => h2.xmlXPathFreeNodeSet nodes
              | none => h2
            let destroyed : Option Heap :=
              match t2.children with
              | some c => xmlSecNodeSetDestroy fuel h3 (some c)
              | none => some h3
            match destroyed with
            | none => none
            | some h4 =>
              match h4.read tmp with
              | none => none
              | some _ => xmlSecNodeSetDestroyLoop fuel (h4.xmlFree tmp) nset1

end

/-- The function `xmlSecNodeSetAddList(nset, newNSet, op)`.  The fuel is for
the `xmlSecNodeSetDestroy` of the failure path. -/
def xmlSecNodeSetAddList (fuel : Nat) (h : Heap) (nset newNSet : Option Nat)
    (op : xmlSecNodeSetOp) : Option (Heap × Option Nat) :=
  match newNSet with
  | none => some (h, none)
  | some m =>
    match h.read m with
    | none => none
    | some mr =>
      match xmlSecNodeSetCreate h mr.doc none xmlSecNodeSetList with
      | (h1, none) => some (h1, none)
      | (h1, some tmp1) =>
        match h1.read tmp1 with
        | none => none
        | some t =>
          let h2 := h1.write tmp1 { t with children := some m }
          match xmlSecNodeSetAdd h2 nset (some tmp1) op with
          | none => none
          | some (h3, none) =>
            (xmlSecNodeSetDestroy fuel h3 (some tmp1)).map (fun h4 => (h4, none))
          | some (h3, some tmp2) => some (h3, some tmp2)

/-! ## libxml: the XPath evaluation interface -/

/-- The fields of an `xmlXPathContext` that this program sets, and the bindings
of namespaces registered in it so far (latest first).  `pointer` tells a
context built by `xmlXPtrNewContext` from one built by `xmlXPathNewContext`. -/
structure xmlXPathContext where
  doc : Option Nat
  pointer : Bool
  here : xmlNodePtr
  xptr : Int
  funcs : List String
  nsReg : List (String × Option String)

/-- The result object of an evaluation (`xmlXPathObject`): its `nodesetval`,
which is `NULL` when the expression did not yield a node set. -/
structure xmlXPathObject where
  nodesetval : Option xmlNodeSet

/-- The expression evaluator of libxml, a collaborator outside this program:
whether a context can be built, whether a namespace binding is accepted, and
what an expression evaluates to in a context (`none` is `NULL`, a failure). -/
structure LibXml where
  xmlDocGetRootElement : Option Nat → xmlNodePtr
  xmlXPathNewContext : Option Nat → Option xmlXPathContext
  xmlXPtrNewContext : Option Nat → xmlNodePtr → xmlNodePtr → Option xmlXPathContext
  registerNsStatus : xmlXPathContext → String → Option String → Int
  xmlXPathEvalExpression : Option String → xmlXPathContext → Option xmlXPathObject
  xmlXPtrEval : Option String → xmlXPathContext → Option xmlXPathObject

/-- The call `xmlXPathRegisterNs(ctx, prefix, href)`: libxml answers `0` when it
accepts the binding, which the context then holds. -/
def xmlXPathRegisterNs (lib : LibXml) (ctx : xmlXPathContext) (pfx : String)
    (href : Option String) : Int × xmlXPathContext :=
  let r := lib.registerNsStatus ctx pfx href
  (r, if r = 0 then { ctx with nsReg := (pfx, href) :: ctx.nsReg } else ctx)

/-! ## `src/xpath.c` -/

/-- The dialect tag `xmlSecXPathType` (without `XMLSEC_XPATH2_ALLOW_XPOINTER`). -/
inductive xmlSecXPathType where
  | xmlSecXPathTypeXPath
  | xmlSecXPathTypeXPath2
  | xmlSecXPathTypeXPointer
  deriving DecidableEq, Repr

/-- The filter tag `xmlSecXPath2TransformType`.  `unknownFilter` stands for any
other value of the C enumeration. -/
inductive xmlSecXPath2TransformType where
  | xmlSecXPathTransformIntersect
  | xmlSecXPathTransformSubtract
  | xmlSecXPathTransformUnion
  | unknownFilter (tag : Int)
  deriving DecidableEq, Repr

open xmlSecXPathType xmlSecXPath2TransformType

/-- The record `xmlSecXPathData` without its `next` link: a chain of records is
the list of its records in `next` order, `NULL` being the empty list. -/
structure xmlSecXPathData where
  expr : Option String
  nsList : Option (List (Option String))
  nsListSize : Nat
  xpathType : xmlSecXPathType
  xpath2Type : xmlSecXPath2TransformType

/-- The loop `for(i = data->nsListSize - 1; i > 0; )` of
`xmlSecXPathDataExecute` that registers the namespaces, entered with index `i`.
The answer is `none` when the index leaves the array, otherwise the context
and `0`, or `-1` as soon as a registration fails.  Each round lowers `i` by
two, so `steps` rounds are enough when `i < 2 * steps`. -/
def registerNamespaces (lib : LibXml) (nsList : List (Option String)) :
    Nat → Int → xmlXPathContext → Option (Int × xmlXPathContext)
  | 0, i, ctx => if i > 0 then none else some (0, ctx)
  | steps + 1, i, ctx =>
    if i > 0 then
      match nsList[i.toNat]?, nsList[(i - 1).toNat]? with
      | some href, some pfx =>
        match pfx with
        | none => registerNamespaces lib nsList steps (i - 2) ctx
        | some p =>
          match xmlXPathRegisterNs lib ctx p href with
          | (r, ctx1) =>
            if r ≠ 0 then some (-1, ctx1)
            else registerNamespaces lib nsList steps (i - 2) ctx1
      | _, _ => none
    else some (0, ctx)

/-- The body of the loop `while(data != NULL)` of `xmlSecXPathDataExecute`,
with `res` the ring built so far.  The fuel is for the calls of
`xmlSecNodeSetDestroy` on the failure paths. -/
def xmlSecXPathDataExecuteLoop (lib : LibXml) (fuel : Nat) (doc : Option Nat)
    (hereNode : xmlNodePtr) :
    Heap → List xmlSecXPathData → Option Nat → Option (Heap × Option Nat)
  | h, [], res => some (h, res)
  | h, data :: next, res =>
    let fail : Heap → Option (Heap × Option Nat) := fun h0 =>
      match res with
      | some r => (xmlSecNodeSetDestroy fuel h0 (some r)).map (fun h1 => (h1, none))
      | none => some (h0, none)
    let opOf : Option xmlSecNodeSetOp :=
      match data.xpath2Type with
      | xmlSecXPathTransformIntersect => some xmlSecNodeSetIntersection
      | xmlSecXPathTransformSubtract => some xmlSecNodeSetSubtraction
      | xmlSecXPathTransformUnion => some xmlSecNodeSetUnion
      | unknownFilter _ => none
    match opOf with
    | none => fail h
    | some op =>
      let newCtx : Option xmlXPathContext :=
        match data.xpathType with
        | xmlSecXPathTypeXPath => lib.xmlXPathNewContext doc
        | xmlSecXPathTypeXPath2 => lib.xmlXPathNewContext doc
        | xmlSecXPathTypeXPointer =>
          lib.xmlXPtrNewContext doc (lib.xmlDocGetRootElement doc) NULL
      match newCtx with
      | none => fail h
      | some ctx0 =>
        let ctx1 : xmlXPathContext :=
          if hereNode.isNull = false then
            { ctx0 with funcs := "here" :: ctx0.funcs, here := hereNode, xptr := 1 }
          else ctx0
        let registered : Option (Int × xmlXPathContext) :=
          match data.nsList with
          | some l => registerNamespaces lib l data.nsListSize ((data.nsListSize : Int) - 1) ctx1
          | none => some (0, ctx1)
        match registered with
        | none => none
        | some (status, ctx) =>
          if status ≠ 0 then fail h
          else
            let xpath : Option xmlXPathObject :=
              match data.xpathType with
              | xmlSecXPathTypeXPath => lib.xmlXPathEvalExpression data.expr ctx
              | xmlSecXPathTypeXPath2 => lib.xmlXPathEvalExpression data.expr ctx
              | xmlSecXPathTypeXPointer => lib.xmlXPtrEval data.expr ctx
            match xpath with
            | none => fail h
            | some obj =>
              let nodeSetType : xmlSecNodeSetType :=
                match data.xpathType with
                | xmlSecXPathTypeXPath => xmlSecNodeSetNormal
                | xmlSecXPathTypeXPath2 => xmlSecNodeSetTree
                | xmlSecXPathTypeXPointer => xmlSecNodeSetTree
              match xmlSecNodeSetCreate h doc obj.nodesetval nodeSetType with
              | (h1, none) => fail h1
              | (h1, some tmp1) =>
                match xmlSecNodeSetAdd h1 res (some tmp1) op with
                | none => none
                | some (h2, none) =>
                  match xmlSecNodeSetDestroy fuel h2 (some tmp1) with
                  | none => none
                  | some h3 => fail h3
                | some (h2, some tmp2) =>
                  xmlSecXPathDataExecuteLoop lib fuel doc hereNode h2 next (some tmp2)

/-- The function `xmlSecXPathDataExecute(data, doc, hereNode)`. -/
def xmlSecXPathDataExecute (lib : LibXml) (fuel : Nat) (h : Heap) (data : List xmlSecXPathData)
    (doc : Option Nat) (hereNode : xmlNodePtr) : Option (Heap × Option Nat) :=
  match data with
  | [] => some (h, none)
  | d :: _ =>
    if d.expr = none then some (h, none)
    else if doc = none then some (h, none)
    else xmlSecXPathDataExecuteLoop lib fuel doc hereNode h data none

/-- The transform identifiers; `otherTransform` is any transform that is none
of the three of this file. -/
inductive xmlSecTransformId where
  | xmlSecTransformXPath
  | xmlSecTransformXPath2
  | xmlSecTransformXPointer
  | otherTransform (tag : Nat)
  deriving DecidableEq, Repr

open xmlSecTransformId

/-- The fields of `struct _xmlSecXmlTransform` that this file uses: the
identifier, the filter chain `xmlData` and the node `here` of the transform. -/
structure xmlSecXmlTransform where
  id : xmlSecTransformId
  xmlData : List xmlSecXPathData
  here : xmlNodePtr

/-- What an execute function leaves: its return value, the heap, and the
argument `nodes` with the working set it now points to. -/
structure Executed where
  ret : Int
  heap : Heap
  nodes : Option (Option Nat)

/-- The function `xmlSecTransformXPathExecute(transform, ctxDoc, doc, nodes)`.
The arguments `doc` and `nodes` point to variables of the caller: the outer
`none` is a null pointer, the inner value is the variable. -/
def xmlSecTransformXPathExecute (lib : LibXml) (fuel : Nat) (h : Heap)
    (transform : Option xmlSecXmlTransform) (ctxDoc : Option Nat)
    (doc : Option (Option Nat)) (nodes : Option (Option Nat)) : Option Executed :=
  match transform, doc, nodes with
  | some xmlTransform, some (some d), some ns =>
    if xmlTransform.id ≠ xmlSecTransformXPath then some ⟨-1, h, nodes⟩
    else
      match xmlTransform.xmlData with
      | [] => some ⟨-1, h, nodes⟩
      | data :: next =>
        if data.expr = none then some ⟨-1, h, nodes⟩
        else
          match next with
          | _ :: _ => some ⟨-1, h, nodes⟩
          | [] =>
            let hereNode := if some d = ctxDoc then xmlTransform.here else NULL
            match xmlSecXPathDataExecute lib fuel h (data :: next) (some d) hereNode with
            | none => none
            | some (h1, none) => some ⟨-1, h1, nodes⟩
            | some (h1, some res) =>
              match xmlSecNodeSetAdd h1 ns (some res) xmlSecNodeSetIntersection with
              | none => none
              | some (h2, none) =>
                (xmlSecNodeSetDestroy fuel h2 (some res)).map (fun h3 => ⟨-1, h3, some none⟩)
              | some (h2, some r) => some ⟨0, h2, some (some r)⟩
  | _, _, _ => some ⟨-1, h, nodes⟩

/-- The function `xmlSecTransformXPath2Execute(transform, ctxDoc, doc, nodes)`. -/
def xmlSecTransformXPath2Execute (lib : LibXml) (fuel : Nat) (h : Heap)
    (transform : Option xmlSecXmlTransform) (ctxDoc : Option Nat)
    (doc : Option (Option Nat)) (nodes : Option (Option Nat)) : Option Executed :=
  match transform, doc, nodes with
  | some xmlTransform, some (some d), some ns =>
    if xmlTransform.id ≠ xmlSecTransformXPath2 then some ⟨-1, h, nodes⟩
    else
      let hereNode := if some d = ctxDoc then xmlTransform.here else NULL
      match xmlTransform.xmlData with
      | [] => some ⟨-1, h, nodes⟩
      | data :: next =>
        match xmlSecXPathDataExecute lib fuel h (data :: next) (some d) hereNode with
        | none => none
        | some (h1, none) => some ⟨-1, h1, nodes⟩
        | some (h1, some res) =>
          match xmlSecNodeSetAddList fuel h1 ns (some res) xmlSecNodeSetIntersection with
          | none => none
          | some (h2, none) =>
            (xmlSecNodeSetDestroy fuel h2 (some res)).map (fun h3 => ⟨-1, h3, some none⟩)
          | some (h2, some r) => some ⟨0, h2, some (some r)⟩
  | _, _, _ => some ⟨-1, h, nodes⟩

/-- The function `xmlSecTransformXPointerExecute(transform, ctxDoc, doc, nodes)`. -/
def xmlSecTransformXPointerExecute (lib : LibXml) (fuel : Nat) (h : Heap)
    (transform : Option xmlSecXmlTransform) (ctxDoc : Option Nat)
    (doc : Option (Option Nat)) (nodes : Option (Option Nat)) : Option Executed :=
  match transform, doc, nodes with
  | some xmlTransform, some (some d), some ns =>
    if xmlTransform.id ≠ xmlSecTransformXPointer then some ⟨-1, h, nodes⟩
    else
      match xmlTransform.xmlData with
      | [] => some ⟨-1, h, nodes⟩
      | data :: next =>
        if data.expr = none then some ⟨-1, h, nodes⟩
        else
          match next with
          | _ :: _ => some ⟨-1, h, nodes⟩
          | [] =>
            let hereNode := if some d = ctxDoc then xmlTransform.here else NULL
            match xmlSecXPathDataExecute lib fuel h (data :: next) (some d) hereNode with
            | none => none
            | some (h1, none) => some ⟨-1, h1, nodes⟩
            | some (h1, some res) =>
              match xmlSecNodeSetAdd h1 ns (some res) xmlSecNodeSetIntersection with
              | none => none
              | some (h2, none) =>
                (xmlSecNodeSetDestroy fuel h2 (some res)).map (fun h3 => ⟨-1, h3, some none⟩)
              | some (h2, some r) => some ⟨0, h2, some (some r)⟩
  | _, _, _ => some ⟨-1, h, nodes⟩

/-! ## Fuel-free readings of the containment tests

The definitions below restate what the functions above compute without fuel,
on the parent chain of a node and on the shape of a ring.  The theorems that
follow prove that the functions above, given enough fuel, return these values.
-/

/-- The structural parents of a node: the parent handed in, its parent link,
and so on up to the null pointer. -/
def parentChain : xmlNodePtr → List xmlNodePtr
  | xmlNodePtr.NULL => []
  | xmlNodePtr.node a t p d x n => xmlNodePtr.node a t p d x n :: parentChain p

/-- The answer of the `Tree` branches of `xmlSecNodeSetOneContains` along the
parent chain: `hit` as soon as the node at hand is a raw member, `miss` when
the chain ends or leaves the elements before that. -/
def treeWalk (nodes : Option xmlNodeSet) (hit miss : Int) : xmlNodePtr → xmlNodePtr → Int
  | node, xmlNodePtr.NULL => if in_nodes_set nodes node NULL ≠ 0 then hit else miss
  | node, xmlNodePtr.node a t p d x n =>
    if in_nodes_set nodes node (xmlNodePtr.node a t p d x n) ≠ 0 then hit
    else if t = XML_ELEMENT_NODE then treeWalk nodes hit miss (xmlNodePtr.node a t p d x n) p
    else miss

/-- The answer of `xmlSecNodeSetOneContains` for a member that is not a `List`,
for a non-null node. -/
def oneContainsFlat (type : xmlSecNodeSetType) (nodes : Option xmlNodeSet)
    (node parent : xmlNodePtr) : Int :=
  match type with
  | xmlSecNodeSetNormal => in_nodes_set nodes node parent
  | xmlSecNodeSetInvert => cNot (in_nodes_set nodes node parent)
  | xmlSecNodeSetTree => treeWalk nodes 1 0 node parent
  | xmlSecNodeSetTreeWithoutComments =>
    if node.type = XML_COMMENT_NODE then 0 else treeWalk nodes 1 0 node parent
  | xmlSecNodeSetTreeInvert => treeWalk nodes 0 1 node parent
  | xmlSecNodeSetTreeWithoutCommentsInvert =>
    if node.type = XML_COMMENT_NODE then 0 else treeWalk nodes 0 1 node parent
  | xmlSecNodeSetList => 0
  | unknownType _ => 0

/-- Some structural parent `p_k` is a raw member of `S` while `p_1 .. p_k` are all
elements (`p_1` the parent handed in, `p_(i+1)` the parent link of `p_i`). -/
def ancestorIncluded (S : xmlNodeSet) (parent : xmlNodePtr) : Prop :=
  ∃ k, 1 ≤ k ∧ k ≤ (parentChain parent).length ∧
    (∀ r ∈ (parentChain parent).take k, r.type = XML_ELEMENT_NODE) ∧
    xmlXPathNodeSetContains S ((parentChain parent).getD (k - 1) NULL) ≠ 0

/-! ## A small document and heaps used as concrete instances

The document is `<a><b><c/></b><!--x--></a>`. -/

/-- The document node. -/
def exDoc : xmlNodePtr := xmlNodePtr.node 100 XML_DOCUMENT_NODE NULL [] none NULL

/-- The element `a`, child of the document. -/
def exA : xmlNodePtr := xmlNodePtr.node 101 XML_ELEMENT_NODE exDoc [] none NULL

/-- The element `b`, child of `a`. -/
def exB : xmlNodePtr := xmlNodePtr.node 102 XML_ELEMENT_NODE exA [] none NULL

/-- The element `c`, child of `b`. -/
def exC : xmlNodePtr := xmlNodePtr.node 103 XML_ELEMENT_NODE exB [] none NULL

/-- The comment, child of `a`. -/
def exComment : xmlNodePtr := xmlNodePtr.node 104 XML_COMMENT_NODE exA [] none NULL

/-- A one-member ring at address `self`, as `xmlSecNodeSetCreate` leaves it. -/
def exCell (self : Nat) (type : xmlSecNodeSetType) (S : xmlNodeSet) : xmlSecNodeSet :=
  { xmlSecNodeSet.zero with
    doc := some 100, nodes := some S, type := type, next := some self, prev := some self }

/-- Six one-member rings over the raw collection `S`, one per variant, at the
addresses `0` (Normal), `1` (Invert), `2` (Tree), `3` (TreeWithoutComments),
`4` (TreeInvert) and `5` (TreeWithoutCommentsInvert). -/
def exHeap (S : xmlNodeSet) : Heap :=
  { cells := [some (exCell 0 xmlSecNodeSetNormal S), some (exCell 1 xmlSecNodeSetInvert S),
      some (exCell 2 xmlSecNodeSetTree S), some (exCell 3 xmlSecNodeSetTreeWithoutComments S),
      some (exCell 4 xmlSecNodeSetTreeInvert S),
      some (exCell 5 xmlSecNodeSetTreeWithoutCommentsInvert S)],
    avail := 8, log := [] }


/-! ## The fold over a ring

The loop of `xmlSecNodeSetContains` seen as a fold over the members it meets. -/

/-- A fuelled computation returns `v`: every sufficiently large fuel yields `v`. -/
def Returns {α : Type} (run : Nat → Option α) (v : α) : Prop :=
  ∃ N, ∀ fuel, N ≤ fuel → run fuel = some v

/-- The cells at `ms` are chained by `next` in this order, none but possibly the
first being `head`, and the last one points to `head`. -/
def nextChain (h : Heap) (head : Nat) : List Nat → Bool
  | [] => true
  | [a] => decide ((h.read a).map (fun c => c.next) = some (some head))
  | a :: b :: rest =>
    decide ((h.read a).map (fun c => c.next) = some (some b)) && decide (b ≠ head) &&
      nextChain h head (b :: rest)

/-- The status that the loop of `xmlSecNodeSetContains` computes from the
combinators and the test results of the members it meets, entered with
`status`. -/
def foldStatus : List (xmlSecNodeSetOp × Int) → Int → Int
  | [], status => status
  | (xmlSecNodeSetIntersection, r) :: rest, status =>
    foldStatus rest (if status ≠ 0 ∧ r = 0 then 0 else status)
  | (xmlSecNodeSetSubtraction, r) :: rest, status =>
    foldStatus rest (if status ≠ 0 ∧ r ≠ 0 then 0 else status)
  | (xmlSecNodeSetUnion, r) :: rest, status =>
    foldStatus rest (if status = 0 ∧ r ≠ 0 then 1 else status)
  | (unknownOp _, _) :: _, _ => -1

/-- The member at `m` carries the combinator `x.1` and its single-variant test
returns `x.2`. -/
def MemberStep (h : Heap) (node parent : xmlNodePtr) (m : Nat) (x : xmlSecNodeSetOp × Int) :
    Prop :=
  (h.read m).map (fun c => c.op) = some x.1 ∧
    Returns (fun fuel => xmlSecNodeSetOneContains h fuel (some m) node parent) x.2

/-! ## Rings in the heap -/

/-- The member following index `i` in a ring of `len` members. -/
def succIdx (len i : Nat) : Nat := if i + 1 < len then i + 1 else 0

/-- The member preceding index `i` in a ring of `len` members. -/
def predIdx (len i : Nat) : Nat := if i = 0 then len - 1 else i - 1

/-- The cells at the distinct addresses `ms` form a ring in this order: the
`next` link of each leads to the following one and the `prev` link to the
preceding one, cyclically. -/
def IsRing (h : Heap) (ms : List Nat) : Prop :=
  ms ≠ [] ∧ ms.Nodup ∧ ∀ i, i < ms.length →
    (h.read (ms.getD i 0)).map (fun c => c.next) = some ms[succIdx ms.length i]? ∧
    (h.read (ms.getD i 0)).map (fun c => c.prev) = some ms[predIdx ms.length i]?

instance (h : Heap) (ms : List Nat) : Decidable (IsRing h ms) := by
  unfold IsRing; infer_instance

/-- Follow the `next` link `k` times, starting at `x`. -/
def iterNext (h : Heap) : Nat → Nat → Option Nat
  | 0, x => some x
  | k + 1, x =>
    match (h.read x).bind (fun c => c.next) with
    | none => none
    | some y => iterNext h k y

/-- What `xmlSecNodeSetAdd(a, n, op)` writes into the cell at `q`, where `last`
is the member before the entry point `a`. -/
def addUpdate (n a last : Nat) (op : xmlSecNodeSetOp) (q : Nat) (c : xmlSecNodeSet) :
    xmlSecNodeSet :=
  { c with
    op := if q = n then op else c.op
    next := if q = n then some a else if q = last then some n else c.next
    prev := if q = n then some last else if q = a then some n else c.prev }

/-- What C9 asks of a ring: along every member `next` and `prev` undo each
other, and following `next` from any member meets the members in ring order,
each once, and is back after exactly as many steps as there are members. -/
def RingLaws (h : Heap) (ms : List Nat) : Prop :=
  (∀ x ∈ ms, ((h.read x).bind (fun c => c.next)).bind
        (fun y => (h.read y).bind (fun c => c.prev)) = some x ∧
      ((h.read x).bind (fun c => c.prev)).bind
        (fun y => (h.read y).bind (fun c => c.next)) = some x) ∧
  (∀ i x, ms[i]? = some x →
    (List.range ms.length).map (fun j => iterNext h j x) = (ms.rotate i).map some ∧
    iterNext h ms.length x = some x ∧
    ∀ j, 0 < j → j < ms.length → iterNext h j x ≠ some x)

/-- Repeated `xmlSecNodeSetAdd`: the records at the given addresses are added
to the ring `nset` one after the other, each with its combinator. -/
def addAll : Heap → Option Nat → List (Nat × xmlSecNodeSetOp) → Option (Heap × Option Nat)
  | h, nset, [] => some (h, nset)
  | h, nset, (m, op) :: rest =>
    match xmlSecNodeSetAdd h nset (some m) op with
    | none => none
    | some (h1, nset1) => addAll h1 nset1 rest

/-- The fields of a record that `xmlSecNodeSetAdd` never writes. -/
def xmlSecNodeSet.payload (c : xmlSecNodeSet) :
    Option xmlNodeSet × Option Nat × xmlSecNodeSetType × Option Nat :=
  (c.nodes, c.doc, c.type, c.children)

/-! ## Shapes of rings and the value of the containment test

A shape lists the addresses of a ring and of its nested rings; `wired` and
`chained` say that the heap holds such a ring, and `containsValue` is the
value that `xmlSecNodeSetContains` returns on it. -/

/-- How a combinator joins the status so far with the test of a member, in
the words of the specification: `Intersection` is AND, `Subtraction` is
AND-NOT, `Union` is OR. -/
def combine (op : xmlSecNodeSetOp) (status test : Bool) : Bool :=
  match op with
  | xmlSecNodeSetIntersection => status && test
  | xmlSecNodeSetSubtraction => status && !test
  | xmlSecNodeSetUnion => status || test
  | unknownOp _ => status

/-- The combinator is one of the three of the enumeration. -/
def validOp (op : xmlSecNodeSetOp) : Prop :=
  op = xmlSecNodeSetIntersection ∨ op = xmlSecNodeSetSubtraction ∨ op = xmlSecNodeSetUnion

instance (op : xmlSecNodeSetOp) : Decidable (validOp op) := by
  unfold validOp; infer_instance

/-- The C value of a truth value. -/
def boolInt (b : Bool) : Int := if b then 1 else 0

/-- The left fold of the specification: start from true and join each member
test with the combinator of the member, in ring order. -/
def foldSpec (steps : List (xmlSecNodeSetOp × Bool)) : Bool :=
  steps.foldl (fun status x => combine x.1 status x.2) true

/-- The shape of a ring with its nested rings: the addresses of the members in
`next` order, each with the shape of the ring its `children` field leads to
(`nil` for a null `children`). -/
inductive RingShape where
  | nil
  | cons (addr : Nat) (children : RingShape) (rest : RingShape)
  deriving DecidableEq

namespace RingShape

/-- The members of the ring itself, in order. -/
def members : RingShape → List Nat
  | nil => []
  | cons a _ rest => a :: members rest

/-- The pointer to the ring: its first member, or `NULL` for `nil`. -/
def headPtr : RingShape → Option Nat
  | nil => none
  | cons a _ _ => some a

/-- All addresses of the shape, nested rings included. -/
def addrs : RingShape → List Nat
  | nil => []
  | cons a ch rest => a :: (addrs ch ++ addrs rest)

/-- The addresses inside the nested rings. -/
def nested : RingShape → List Nat
  | nil => []
  | cons _ ch rest => addrs ch ++ nested rest

/-- The ring followed by the members of a second one. -/
def append : RingShape → RingShape → RingShape
  | nil, t => t
  | cons a ch rest, t => cons a ch (append rest t)

end RingShape

/-- The members of the shape are chained by `next` into a ring entered at its
first member. -/
def chained (h : Heap) (t : RingShape) : Bool :=
  match t.headPtr with
  | none => true
  | some a => nextChain h a t.members

/-- The heap agrees with the shape below the ring itself: every address of the
shape is allocated, and the `children` field of every member of variant
`List` leads to the ring described for it, which is chained by `next`. -/
def wired (h : Heap) : RingShape → Bool
  | RingShape.nil => true
  | RingShape.cons a ch rest =>
    (match h.read a with
      | none => false
      | some c =>
        if c.type = xmlSecNodeSetList then
          decide (c.children = ch.headPtr) && chained h ch
        else true) && wired h ch && wired h rest

/-- The combinator and the value of the single-variant test of every member of
a shape, for a non-null node: the flat test for a plain member, the fold of
the nested ring for a `List`.  (A member that is not allocated is left out;
`wired` excludes that.) -/
def memberSteps (h : Heap) (node parent : xmlNodePtr) : RingShape → List (xmlSecNodeSetOp × Int)
  | RingShape.nil => []
  | RingShape.cons a ch rest =>
    match h.read a with
    | none => memberSteps h node parent rest
    | some c =>
      (c.op, if c.type = xmlSecNodeSetList then foldStatus (memberSteps h node parent ch) 1
        else oneContainsFlat c.type c.nodes node parent) :: memberSteps h node parent rest

/-- The value of `xmlSecNodeSetContains` on a ring of the given shape. -/
def containsValue (h : Heap) (node parent : xmlNodePtr) (t : RingShape) : Int :=
  foldStatus (memberSteps h node parent t) 1

/-- Three one-variant members `A`, `B`, `C` chained into a ring entered at `A`,
with the combinators Intersection, Union, Subtraction; each is a `Normal` set
that holds the element `a` or nothing, as the three flags say. -/
def exRing3 (inA inB inC : Bool) : Heap :=
  { cells :=
      [some { exCell 0 xmlSecNodeSetNormal (if inA then [exA] else []) with
          op := xmlSecNodeSetIntersection, next := some 1, prev := some 2 },
        some { exCell 1 xmlSecNodeSetNormal (if inB then [exA] else []) with
          op := xmlSecNodeSetUnion, next := some 2, prev := some 0 },
        some { exCell 2 xmlSecNodeSetNormal (if inC then [exA] else []) with
          op := xmlSecNodeSetSubtraction, next := some 0, prev := some 1 }],
    avail := 8, log := [] }

/-- What `xmlSecNodeSetAddList` does up to its call of `xmlSecNodeSetAdd`: a new
record of variant `List` without raw collection, a ring of one, whose
`children` is the ring handed in. -/
def listWrapper (doc : Option Nat) (w m : Nat) : xmlSecNodeSet :=
  { xmlSecNodeSet.zero with
    doc := doc, nodes := none, type := xmlSecNodeSetList, next := some w, prev := some w,
    children := some m }

/-- The combinator that `xmlSecXPathDataExecute` takes from the filter tag of a
descriptor; `none` for a tag outside the enumeration. -/
def opOfFilter : xmlSecXPath2TransformType → Option xmlSecNodeSetOp
  | xmlSecXPath2TransformType.xmlSecXPathTransformIntersect => some xmlSecNodeSetIntersection
  | xmlSecXPath2TransformType.xmlSecXPathTransformSubtract => some xmlSecNodeSetSubtraction
  | xmlSecXPath2TransformType.xmlSecXPathTransformUnion => some xmlSecNodeSetUnion
  | xmlSecXPath2TransformType.unknownFilter _ => none

/-- The variant that `xmlSecXPathDataExecute` gives the node set of a
descriptor. -/
def typeOfDialect : xmlSecXPathType → xmlSecNodeSetType
  | xmlSecXPathType.xmlSecXPathTypeXPath => xmlSecNodeSetNormal
  | xmlSecXPathType.xmlSecXPathTypeXPath2 => xmlSecNodeSetTree
  | xmlSecXPathType.xmlSecXPathTypeXPointer => xmlSecNodeSetTree

/-- The shape of a ring without nested rings. -/
def flatShape : List Nat → RingShape
  | [] => RingShape.nil
  | a :: l => RingShape.cons a RingShape.nil (flatShape l)

/-- The node handed to the evaluation as `here`: that of the transform when the
document filtered is the document of the transform, null otherwise. -/
def hereNodeOf (transform : xmlSecXmlTransform) (ctxDoc : Option Nat) (d : Nat) : xmlNodePtr :=
  if some d = ctxDoc then transform.here else NULL

/-- One of the three execute functions of `xpath.c`, on a transform, a document
and a working set, leaves `ex`. -/
def ExecutesTo (lib : LibXml) (fuel : Nat) (h : Heap) (transform : xmlSecXmlTransform)
    (ctxDoc : Option Nat) (d : Nat) (nodes : Option Nat) (ex : Executed) : Prop :=
  xmlSecTransformXPathExecute lib fuel h (some transform) ctxDoc (some (some d)) (some nodes) =
      some ex ∨
    xmlSecTransformXPath2Execute lib fuel h (some transform) ctxDoc (some (some d))
      (some nodes) = some ex ∨
    xmlSecTransformXPointerExecute lib fuel h (some transform) ctxDoc (some (some d))
      (some nodes) = some ex

/-! ## An evaluator and a transform used as concrete instances -/

/-- An evaluator for the instances: every context can be built, every binding
is accepted, and every expression selects the element `b`. -/
def exLib : LibXml :=
  { xmlDocGetRootElement := fun _ => exA
    xmlXPathNewContext := fun doc =>
      some { doc := doc, pointer := false, here := NULL, xptr := 0, funcs := [], nsReg := [] }
    xmlXPtrNewContext := fun doc here _ =>
      some { doc := doc, pointer := true, here := here, xptr := 1, funcs := [], nsReg := [] }
    registerNsStatus := fun _ _ _ => 0
    xmlXPathEvalExpression := fun _ _ => some { nodesetval := some [exB] }
    xmlXPtrEval := fun _ _ => some { nodesetval := some [exB] } }

/-- A second-generation transform with the chain `[Intersect][Union]`. -/
def exTransform2 : xmlSecXmlTransform :=
  { id := xmlSecTransformId.xmlSecTransformXPath2
    xmlData :=
      [{ expr := some "//b", nsList := none, nsListSize := 0,
          xpathType := xmlSecXPathType.xmlSecXPathTypeXPath2,
          xpath2Type := xmlSecXPath2TransformType.xmlSecXPathTransformIntersect },
        { expr := some "//b", nsList := none, nsListSize := 0,
          xpathType := xmlSecXPathType.xmlSecXPathTypeXPath2,
          xpath2Type := xmlSecXPath2TransformType.xmlSecXPathTransformUnion }]
    here := NULL }

/-- What `xmlSecTransformXPath2Execute` leaves for `exTransform2` on the working
set at address `2` (the `Tree` set over `{a}`) of `exHeap [exA]`. -/
def exExecuted : Executed :=
  (xmlSecTransformXPath2Execute exLib 0 (exHeap [exA]) (some exTransform2) (some 100)
    (some (some 100)) (some (some 2))).getD { ret := -1, heap := exHeap [exA], nodes := none }

/-- The shape of the one-member ring at address `p`. -/
def exShape (p : Nat) : RingShape := RingShape.cons p RingShape.nil RingShape.nil
/-! ## The document below a node, and the walk of `src/nodeset.c` -/

/-- A pointer to a record of the document together with what the walk reaches
from it: null, or the fields of the pointer as in `xmlNodePtr`, followed by
`properties`, the chain of attributes (`cur->properties`, then `attr->next`),
`children`, the chain of children (`cur->children`, then `node->next`), and
`next`, the record that follows in the chain this record is part of. -/
inductive xmlTreePtr where
  | NULL
  | node (addr : Nat) (type : xmlElementType) (parent : xmlNodePtr) (nsDef : List xmlNs)
      (pfx : Option String) (nsNext : xmlNodePtr)
      (properties : xmlTreePtr) (children : xmlTreePtr) (next : xmlTreePtr)
  deriving DecidableEq, Repr

namespace xmlTreePtr

/-- The pointer itself, as a value of type `xmlNodePtr`. -/
def self : xmlTreePtr → xmlNodePtr
  | NULL => xmlNodePtr.NULL
  | node a t p d x n _ _ _ => xmlNodePtr.node a t p d x n

/-- The C field `properties`. -/
def properties : xmlTreePtr → xmlTreePtr
  | NULL => NULL
  | node _ _ _ _ _ _ p _ _ => p

/-- The C field `children`. -/
def children : xmlTreePtr → xmlTreePtr
  | NULL => NULL
  | node _ _ _ _ _ _ _ c _ => c

/-- The C field `next`. -/
def next : xmlTreePtr → xmlTreePtr
  | NULL => NULL
  | node _ _ _ _ _ _ _ _ n => n

/-- The pointer `s` with the chains that hang below it. -/
def mk (s : xmlNodePtr) (properties children next : xmlTreePtr) : xmlTreePtr :=
  match s with
  | xmlNodePtr.NULL => NULL
  | xmlNodePtr.node a t p d x n => node a t p d x n properties children next

end xmlTreePtr

/-- The macro `xmlSecGetParent(node)` of `nodeset.c`: the `parent` link, or for
a namespace node its `next` slot. -/
def xmlSecGetParent (node : xmlNodePtr) : xmlNodePtr :=
  if node.type ≠ XML_NAMESPACE_DECL then node.parent else node.nsNext

/-- The pointer `(xmlNodePtr)ns` to the first declaration of a chain of
declarations, `NULL` for the empty chain.  Its `type` slot reads
`XML_NAMESPACE_DECL` and its `next` slot leads to the rest of the chain. -/
def nsPtr : List xmlNs → xmlNodePtr
  | [] => NULL
  | d :: rest => xmlNodePtr.node d.addr XML_NAMESPACE_DECL NULL [] d.pfx (nsPtr rest)

/-- The callback type `xmlSecNodeSetWalkCallback`: called with the node set, a
node, its parent and the user data, it answers a status and leaves the user
data changed.  It touches neither the node sets nor the document. -/
abbrev xmlSecNodeSetWalkCallback (σ : Type) :=
  Option Nat → xmlNodePtr → xmlNodePtr → σ → Int × σ

/-- The step `if(xmlSecNodeSetContains(nset, node, parent)) ret = walkFunc(nset,
node, parent, data);` of the walk: the status of the callback with the data it
leaves, or `0` with the data unchanged when the node is not contained. -/
def walkVisit {σ : Type} (h : Heap) (walkFunc : xmlSecNodeSetWalkCallback σ) (fuel : Nat)
    (nset : Option Nat) (node parent : xmlNodePtr) (data : σ) : Option (Int × σ) :=
  match xmlSecNodeSetContains h fuel nset node parent with
  | none => none
  | some c => if c ≠ 0 then some (walkFunc nset node parent data) else some (0, data)

/-- The loop `while(attr != NULL)` of `xmlSecNodeSetWalkRecursive` over
the attributes of `cur`.  A negative status is what the function returns at once;
otherwise the status is `0`. -/
def walkAttributes {σ : Type} (h : Heap) (walkFunc : xmlSecNodeSetWalkCallback σ) (fuel : Nat)
    (nset : Option Nat) (cur : xmlNodePtr) : xmlTreePtr → σ → Option (Int × σ)
  | xmlTreePtr.NULL, data => some (0, data)
  | xmlTreePtr.node a t p d x n _ _ next, data =>
    match walkVisit h walkFunc fuel nset (xmlNodePtr.node a t p d x n) cur data with
    | none => none
    | some (ret, data1) =>
      if ret < 0 then some (ret, data1)
      else walkAttributes h walkFunc fuel nset cur next data1

/-- The loop `while(ns != NULL)` of `xmlSecNodeSetWalkRecursive` over the
declarations of one node: a declaration is tested and visited, with `cur` as
parent, when `xmlSearchNs(nset->doc, cur, ns->prefix)` answers this very
declaration.  `xmlSearchNs` is the function of libxml. -/
def walkNsDef {σ : Type} (h : Heap)
    (xmlSearchNs : Option Nat → xmlNodePtr → Option String → xmlNodePtr)
    (walkFunc : xmlSecNodeSetWalkCallback σ) (fuel : Nat) (nset : Nat) (cur : xmlNodePtr) :
    List xmlNs → σ → Option (Int × σ)
  | [], data => some (0, data)
  | d :: rest, data =>
    match h.read nset with
    | none => none
    | some s =>
      if (xmlSearchNs s.doc cur d.pfx).ptrEq (nsPtr (d :: rest)) then
        match walkVisit h walkFunc fuel (some nset) (nsPtr (d :: rest)) cur data with
        | none => none
        | some (ret, data1) =>
          if ret < 0 then some (ret, data1)
          else walkNsDef h xmlSearchNs walkFunc fuel nset cur rest data1
      else walkNsDef h xmlSearchNs walkFunc fuel nset cur rest data

/-- The loop `while(node != NULL)` of `xmlSecNodeSetWalkRecursive` that goes
from `cur` up the `parent` links and runs over the declarations of each node
it meets. -/
def walkNamespaces {σ : Type} (h : Heap)
    (xmlSearchNs : Option Nat → xmlNodePtr → Option String → xmlNodePtr)
    (walkFunc : xmlSecNodeSetWalkCallback σ) (fuel : Nat) (nset : Nat) (cur : xmlNodePtr) :
    xmlNodePtr → σ → Option (Int × σ)
  | xmlNodePtr.NULL, data => some (0, data)
  | xmlNodePtr.node _ _ p d _ _, data =>
    match walkNsDef h xmlSearchNs walkFunc fuel nset cur d data with
    | none => none
    | some (ret, data1) =>
      if ret < 0 then some (ret, data1)
      else walkNamespaces h xmlSearchNs walkFunc fuel nset cur p data1

mutual

/-- The function `xmlSecNodeSetWalkRecursive(nset, walkFunc, data, cur, parent)`:
its return value and the user data it leaves. -/
def xmlSecNodeSetWalkRecursive {σ : Type} (h : Heap)
    (xmlSearchNs : Option Nat → xmlNodePtr → Option String → xmlNodePtr)
    (walkFunc : xmlSecNodeSetWalkCallback σ) :
    Nat → Option Nat → σ → xmlTreePtr → xmlNodePtr → Option (Int × σ)
  | 0, _, _, _, _ => none
  | fuel + 1, nset, data, cur, parent =>
    match nset with
    | none => some (-1, data)
    | some p =>
      if cur.self.isNull then some (-1, data)
      else
        -- the node itself
        match walkVisit h walkFunc fuel nset cur.self parent data with
        | none => none
        | some (ret, data1) =>
          if ret < 0 then some (ret, data1)
          else
            -- element node has attributes, namespaces
            let inner : Option (Int × σ) :=
              if cur.self.type = XML_ELEMENT_NODE then
                match walkAttributes h walkFunc fuel nset cur.self cur.properties data1 with
                | none => none
                | some (ret, data2) =>
                  if ret < 0 then some (ret, data2)
                  else walkNamespaces h xmlSearchNs walkFunc fuel p cur.self cur.self data2
              else some (0, data1)
            match inner with
            | none => none
            | some (ret, data3) =>
              if ret < 0 then some (ret, data3)
              else
                -- element and document nodes have children
                if cur.self.type = XML_ELEMENT_NODE ∨ cur.self.type = XML_DOCUMENT_NODE then
                  xmlSecNodeSetWalkChildren h xmlSearchNs walkFunc fuel nset data3
                    cur.children cur.self
                else some (0, data3)

/-- The loop `while(node != NULL)` of `xmlSecNodeSetWalkRecursive` over the
children of `cur`, entered at the child `node`. -/
def xmlSecNodeSetWalkChildren {σ : Type} (h : Heap)
    (xmlSearchNs : Option Nat → xmlNodePtr → Option String → xmlNodePtr)
    (walkFunc : xmlSecNodeSetWalkCallback σ) :
    Nat → Option Nat → σ → xmlTreePtr → xmlNodePtr → Option (Int × σ)
  | 0, _, _, _, _ => none
  | fuel + 1, nset, data, node, cur =>
    match node with
    | xmlTreePtr.NULL => some (0, data)
    | xmlTreePtr.node a t p d x n pr ch next =>
      match xmlSecNodeSetWalkRecursive h xmlSearchNs walkFunc fuel nset data
          (xmlTreePtr.node a t p d x n pr ch next) cur with
      | none => none
      | some (ret, data1) =>
        if ret < 0 then some (ret, data1)
        else xmlSecNodeSetWalkChildren h xmlSearchNs walkFunc fuel nset data1 next cur

end

/-- The loop `for(i = 0; (ret >= 0) && (i < nset->nodes->nodeNr); ++i)` of the
`Normal` case of `xmlSecNodeSetWalk`, entered with the rest of the table and
the current `ret`. -/
def walkNormal {σ : Type} (walkFunc : xmlSecNodeSetWalkCallback σ) (nset : Option Nat) :
    List xmlNodePtr → Int → σ → Int × σ
  | [], ret, data => (ret, data)
  | n :: rest, ret, data =>
    if ret ≥ 0 then
      match walkFunc nset n (xmlSecGetParent n) data with
      | (ret1, data1) => walkNormal walkFunc nset rest ret1 data1
    else (ret, data)

/-- The record of the document that a pointer of a raw collection points to,
with what hangs below it in the memory `mem` of the document. -/
def cursor (mem : Nat → xmlTreePtr) (n : xmlNodePtr) : xmlTreePtr :=
  xmlTreePtr.mk n (mem n.addr).properties (mem n.addr).children xmlTreePtr.NULL

/-- The loop `for(i = 0; (ret >= 0) && (i < nset->nodes->nodeNr); ++i)` of the
`Tree` cases of `xmlSecNodeSetWalk`. -/
def walkTree {σ : Type} (h : Heap)
    (xmlSearchNs : Option Nat → xmlNodePtr → Option String → xmlNodePtr)
    (mem : Nat → xmlTreePtr) (walkFunc : xmlSecNodeSetWalkCallback σ) (fuel : Nat)
    (nset : Option Nat) : List xmlNodePtr → Int → σ → Option (Int × σ)
  | [], ret, data => some (ret, data)
  | n :: rest, ret, data =>
    if ret ≥ 0 then
      match xmlSecNodeSetWalkRecursive h xmlSearchNs walkFunc fuel nset data (cursor mem n)
          (xmlSecGetParent n) with
      | none => none
      | some (ret1, data1) => walkTree h xmlSearchNs mem walkFunc fuel nset rest ret1 data1
    else some (ret, data)

/-- The function `xmlSecNodeSetWalk(nset, walkFunc, data)`: its return value and
the user data it leaves.  `mem d` is the record at the address `d` of the
memory of the document, with what hangs below it. -/
def xmlSecNodeSetWalk {σ : Type} (h : Heap)
    (xmlSearchNs : Option Nat → xmlNodePtr → Option String → xmlNodePtr)
    (mem : Nat → xmlTreePtr) (walkFunc : xmlSecNodeSetWalkCallback σ) (fuel : Nat)
    (nset : Option Nat) (data : σ) : Option (Int × σ) :=
  match nset with
  | none => some (-1, data)
  | some p =>
    match h.read p with
    | none => none
    | some s =>
      -- other cases
      let other : Option (Int × σ) :=
        match s.doc with
        | none => some (-1, data)
        | some d =>
          xmlSecNodeSetWalkRecursive h xmlSearchNs walkFunc fuel nset data (mem d) NULL
      -- special cases
      match s.nodes with
      | none => other
      | some tab =>
        match s.type with
        | xmlSecNodeSetNormal => some (walkNormal walkFunc nset tab 0 data)
        | xmlSecNodeSetTree
        | xmlSecNodeSetTreeWithoutComments =>
          walkTree h xmlSearchNs mem walkFunc fuel nset tab 0 data
        | _ => other

/-! ## The walk in the words of the specification -/

/-- A call of the visitor: the node and the parent handed to it. -/
abbrev Visit := xmlNodePtr × xmlNodePtr

/-- The visitor called on the visits of a list, in order, until it answers a
negative status: that status, or `0` when it never does, with the user data
left. -/
def visitAll {σ : Type} (walkFunc : xmlSecNodeSetWalkCallback σ) (nset : Option Nat) :
    List Visit → σ → Int × σ
  | [], data => (0, data)
  | x :: rest, data =>
    match walkFunc nset x.1 x.2 data with
    | (ret, data1) => if ret < 0 then (ret, data1) else visitAll walkFunc nset rest data1

/-- The calls that `visitAll` makes, each with the status answered. -/
def calls {σ : Type} (walkFunc : xmlSecNodeSetWalkCallback σ) (nset : Option Nat) :
    List Visit → σ → List (Visit × Int)
  | [], _ => []
  | x :: rest, data =>
    match walkFunc nset x.1 x.2 data with
    | (ret, data1) => (x, ret) :: (if ret < 0 then [] else calls walkFunc nset rest data1)

/-- A visitor that behaves as `walkFunc` and keeps a journal of its calls: the
node, the parent and the status it answered, in the order of the calls. -/
def record {σ : Type} (walkFunc : xmlSecNodeSetWalkCallback σ) :
    xmlSecNodeSetWalkCallback (σ × List (Visit × Int)) :=
  fun nset node parent d =>
    match walkFunc nset node parent d.1 with
    | (ret, data1) => (ret, (data1, d.2 ++ [((node, parent), ret)]))

/-- The pointers to the declarations of a chain, in `next` order. -/
def nsPtrs : List xmlNs → List xmlNodePtr
  | [] => []
  | d :: rest => nsPtr (d :: rest) :: nsPtrs rest

/-- The declarations met when walking from an element up through every
ancestor: those of the element first, then those of its parent, and so on. -/
def scopeDecls (e : xmlNodePtr) : List xmlNodePtr :=
  (parentChain e).flatMap (fun a => nsPtrs a.nsDef)

/-- The in-scope declarations of an element in the words of the specification:
of the declarations of the element and its ancestors, those that resolving
their prefix from the element yields. -/
def inScopeNs (xmlSearchNs : Option Nat → xmlNodePtr → Option String → xmlNodePtr)
    (doc : Option Nat) (e : xmlNodePtr) : List xmlNodePtr :=
  (scopeDecls e).filter (fun ns => (xmlSearchNs doc e ns.pfx).ptrEq ns)

/-- The pointers of a chain, in `next` order. -/
def chainSelves : xmlTreePtr → List xmlNodePtr
  | xmlTreePtr.NULL => []
  | xmlTreePtr.node a t p d x n _ _ next => xmlNodePtr.node a t p d x n :: chainSelves next

/-- The depth-first pre-order enumeration of the specification, for the records
of a chain handed in with their parent: each node, then, for an element,
its attributes in attribute order and its in-scope declarations, both with the
element as parent, then, for an element or a document, its children in
document order, each enumerated in the same way. -/
def docOrderChain (xmlSearchNs : Option Nat → xmlNodePtr → Option String → xmlNodePtr)
    (doc : Option Nat) : xmlTreePtr → xmlNodePtr → List Visit
  | xmlTreePtr.NULL, _ => []
  | xmlTreePtr.node a t p d x n pr ch next, parent =>
    ((xmlNodePtr.node a t p d x n, parent) ::
      ((if t = XML_ELEMENT_NODE then
          (chainSelves pr).map (fun y => (y, xmlNodePtr.node a t p d x n)) ++
            (inScopeNs xmlSearchNs doc (xmlNodePtr.node a t p d x n)).map
              (fun y => (y, xmlNodePtr.node a t p d x n))
        else []) ++
        (if t = XML_ELEMENT_NODE ∨ t = XML_DOCUMENT_NODE then
          docOrderChain xmlSearchNs doc ch (xmlNodePtr.node a t p d x n)
        else []))) ++
      docOrderChain xmlSearchNs doc next parent

/-- The enumeration of the specification for one node and what lies below it. -/
def docOrder (xmlSearchNs : Option Nat → xmlNodePtr → Option String → xmlNodePtr)
    (doc : Option Nat) (cur : xmlTreePtr) (parent : xmlNodePtr) : List Visit :=
  match cur with
  | xmlTreePtr.NULL => []
  | xmlTreePtr.node a t p d x n pr ch _ =>
    docOrderChain xmlSearchNs doc (xmlTreePtr.node a t p d x n pr ch xmlTreePtr.NULL) parent

/-- The number of records below a pointer and after it in its chain, twice. -/
def xmlTreePtr.weight : xmlTreePtr → Nat
  | xmlTreePtr.NULL => 0
  | xmlTreePtr.node _ _ _ _ _ _ _ ch next => 2 + weight ch + weight next

/-- The value of `xmlSecNodeSetContains` on a ring of the given shape, for any
node: `0` for the null pointer. -/
def containsAt (h : Heap) (t : RingShape) (node parent : xmlNodePtr) : Int :=
  if node.isNull then 0 else containsValue h node parent t

/-- The ring of shape `t` accepts the visit: `xmlSecNodeSetContains` is not `0`. -/
def accepts (h : Heap) (t : RingShape) (x : Visit) : Bool :=
  decide (containsAt h t x.1 x.2 ≠ 0)

/-- The walk goes over the whole document: the head of the ring carries no raw
collection, or its variant is none of `Normal`, `Tree`, `TreeWithoutComments`. -/
def wholeDocument (s : xmlSecNodeSet) : Prop :=
  s.nodes = none ∨ (s.type ≠ xmlSecNodeSetNormal ∧ s.type ≠ xmlSecNodeSetTree ∧
    s.type ≠ xmlSecNodeSetTreeWithoutComments)

instance (s : xmlSecNodeSet) : Decidable (wholeDocument s) := by
  unfold wholeDocument
  cases s.nodes <;> infer_instance

/-- The visits that `xmlSecNodeSetWalk` goes through for a ring with head `s`,
whether accepted or not: the entries of the raw collection of a `Normal` head,
the enumeration below each entry of the raw collection of a `Tree` or
`TreeWithoutComments` head, and otherwise the enumeration of the document. -/
def walkOrder (xmlSearchNs : Option Nat → xmlNodePtr → Option String → xmlNodePtr)
    (mem : Nat → xmlTreePtr) (s : xmlSecNodeSet) : List Visit :=
  let whole : List Visit :=
    match s.doc with
    | none => []
    | some d => docOrder xmlSearchNs s.doc (mem d) NULL
  match s.nodes with
  | none => whole
  | some tab =>
    match s.type with
    | xmlSecNodeSetNormal => tab.map (fun n => (n, xmlSecGetParent n))
    | xmlSecNodeSetTree
    | xmlSecNodeSetTreeWithoutComments =>
      tab.flatMap (fun n => docOrder xmlSearchNs s.doc (cursor mem n) (xmlSecGetParent n))
    | _ => whole

/-- What tells two visits of the same node apart from visits of two nodes.  A
node other than a namespace node is known by the address of its record.  For a
namespace node it is the address of the element it is visited with and its
prefix: a declaration and the copy of it that libxml keeps in an XPath node
set, whose `next` slot holds that element, count as the same node. -/
def visitKey (x : Visit) : Nat × Option (Option String) :=
  if x.1.type = XML_NAMESPACE_DECL then (x.2.addr, some x.1.pfx) else (x.1.addr, none)

/-- The visits that `xmlSecNodeSetWalk` makes when the visitor never stops it:
every entry of the raw collection of a `Normal` head, and otherwise the
accepted visits among those it goes through. -/
def walkPlan (xmlSearchNs : Option Nat → xmlNodePtr → Option String → xmlNodePtr)
    (mem : Nat → xmlTreePtr) (h : Heap) (t : RingShape) (s : xmlSecNodeSet) : List Visit :=
  if s.nodes ≠ none ∧ s.type = xmlSecNodeSetNormal then walkOrder xmlSearchNs mem s
  else (walkOrder xmlSearchNs mem s).filter (accepts h t)

/-! ## The small document as the walk reads it, and rings used as instances -/

/-- The element `c` with what hangs below it. -/
def exTreeC : xmlTreePtr :=
  xmlTreePtr.mk exC xmlTreePtr.NULL xmlTreePtr.NULL xmlTreePtr.NULL

/-- The comment with what hangs below it. -/
def exTreeComment : xmlTreePtr :=
  xmlTreePtr.mk exComment xmlTreePtr.NULL xmlTreePtr.NULL xmlTreePtr.NULL

/-- The element `b`: its child is `c`, the comment follows it. -/
def exTreeB : xmlTreePtr := xmlTreePtr.mk exB xmlTreePtr.NULL exTreeC exTreeComment

/-- The element `a`: its first child is `b`. -/
def exTreeA : xmlTreePtr := xmlTreePtr.mk exA xmlTreePtr.NULL exTreeB xmlTreePtr.NULL

/-- The document node: its child is `a`. -/
def exTreeDoc : xmlTreePtr := xmlTreePtr.mk exDoc xmlTreePtr.NULL exTreeA xmlTreePtr.NULL

/-- The memory of the small document: the record at each of its addresses. -/
def exMem (a : Nat) : xmlTreePtr :=
  if a = 100 then exTreeDoc else if a = 101 then exTreeA else if a = 102 then exTreeB
  else if a = 103 then exTreeC else if a = 104 then exTreeComment else xmlTreePtr.NULL

/-- Prefix resolution in the small document, which declares no namespace. -/
def exSearch : Option Nat → xmlNodePtr → Option String → xmlNodePtr := fun _ _ _ => NULL

/-- A visitor that never stops the walk. -/
def exVisitor : xmlSecNodeSetWalkCallback Unit := fun _ _ _ d => (0, d)

/-- An evaluator that selects `a` and `b` for the expression `a|b` and `b` for
any other. -/
def exLibAB : LibXml :=
  { exLib with
    xmlXPathEvalExpression := fun e _ =>
      if e = some "a|b" then some { nodesetval := some [exA, exB] }
      else some { nodesetval := some [exB] } }

/-- A first-generation transform with the expression `e`. -/
def exXPath (e : String) : xmlSecXmlTransform :=
  { id := xmlSecTransformId.xmlSecTransformXPath
    xmlData :=
      [{ expr := some e, nsList := none, nsListSize := 0,
          xpathType := xmlSecXPathType.xmlSecXPathTypeXPath,
          xpath2Type := xmlSecXPath2TransformType.xmlSecXPathTransformIntersect }]
    here := NULL }

/-- A heap without records. -/
def exHeap0 : Heap := { cells := [], avail := 8, log := [] }

/-- What two first-generation transforms leave, executed one after the other
on the small document, starting without a working set: the first selects `a`
and `b`, the second `b`. -/
def exTwice : Executed :=
  let first := (xmlSecTransformXPathExecute exLibAB 0 exHeap0 (some (exXPath "a|b")) (some 100)
    (some (some 100)) (some none)).getD { ret := -1, heap := exHeap0, nodes := none }
  (xmlSecTransformXPathExecute exLibAB 0 first.heap (some (exXPath "b")) (some 100)
    (some (some 100)) first.nodes).getD { ret := -1, heap := exHeap0, nodes := none }

/-- A ring of two `Tree` sets: the head over `{c}` with Intersection, then one
over `{a}` with Union. -/
def exRingUnion : Heap :=
  { cells :=
      [some { exCell 0 xmlSecNodeSetTree [exC] with
          op := xmlSecNodeSetIntersection, next := some 1, prev := some 1 },
        some { exCell 1 xmlSecNodeSetTree [exA] with
          op := xmlSecNodeSetUnion, next := some 0, prev := some 0 }],
    avail := 8, log := [] }

/-- Prefix resolution in the words of the specification: the declaration of
the prefix that is nearest to the element, on the element itself or on an
ancestor; null when the prefix is not declared. -/
def resolvePrefix (e : xmlNodePtr) (pfx : Option String) : xmlNodePtr :=
  ((scopeDecls e).find? (fun ns => ns.pfx == pfx)).getD NULL

/-- The element `r` of the document `<r xmlns:x="urn:1" xmlns:y="urn:y"><i
xmlns:x="urn:2"/></r>`. -/
def exR : xmlNodePtr :=
  xmlNodePtr.node 301 XML_ELEMENT_NODE (xmlNodePtr.node 300 XML_DOCUMENT_NODE NULL [] none NULL)
    [{ addr := 311, pfx := some "x", href := some "urn:1" },
      { addr := 312, pfx := some "y", href := some "urn:y" }] none NULL

/-- The element `i`, child of `r`, which declares the prefix `x` again. -/
def exI : xmlNodePtr :=
  xmlNodePtr.node 302 XML_ELEMENT_NODE exR [{ addr := 313, pfx := some "x", href := some "urn:2" }]
    none NULL

/-- Prefix resolution as libxml does it in the document of `exR` and `exI`. -/
def exResolve : Option Nat → xmlNodePtr → Option String → xmlNodePtr :=
  fun _ e pfx => resolvePrefix e pfx

/-! ## The subtree constructor -/

/-- The function `xmlXPathNodeSetCreate(val)` of libxml: a new node set that
holds `val`, or `NULL` when libxml has no memory for it, which `ok` tells. -/
def xmlXPathNodeSetCreate (ok : Bool) (val : xmlNodePtr) : Option xmlNodeSet :=
  if ok then some [val] else none

/-- The function `xmlSecNodeSetGetChildren(doc, parent, withComments, invert)`. -/
def xmlSecNodeSetGetChildren (h : Heap) (ok : Bool) (doc : Option Nat) (parent : xmlNodePtr)
    (withComments invert : Int) : Heap × Option Nat :=
  match doc with
  | none => (h, none)
  | some _ =>
    if parent.isNull then (h, none)
    else
      match xmlXPathNodeSetCreate ok parent with
      | none => (h, none)
      | some nodes =>
        let type : xmlSecNodeSetType :=
          if withComments ≠ 0 ∧ invert ≠ 0 then xmlSecNodeSetTreeInvert
          else if withComments ≠ 0 ∧ ¬ invert ≠ 0 then xmlSecNodeSetTree
          else if ¬ withComments ≠ 0 ∧ invert ≠ 0 then xmlSecNodeSetTreeWithoutCommentsInvert
          else xmlSecNodeSetTreeWithoutComments
        xmlSecNodeSetCreate h doc (some nodes) type

/-- The records of a chain of children and the records below them carry the
`parent` link that leads to the record they hang from, and none of them is a
document node. -/
def linked : xmlTreePtr → xmlNodePtr → Bool
  | xmlTreePtr.NULL, _ => true
  | xmlTreePtr.node a t p d x n _ ch next, parent =>
    decide (p = parent) && decide (t ≠ XML_DOCUMENT_NODE) &&
      linked ch (xmlNodePtr.node a t p d x n) && linked next parent

/-- The heap `exHeap [exA]` after three calls: `xmlSecNodeSetAdd` adds the
`Normal` set (address `0`) to the ring of the `Invert` set (address `1`) with a
combinator tag outside the enumeration, `xmlSecNodeSetAddList` wraps that ring
into a `List` member of a new ring (address `6`), and `xmlSecNodeSetCreate`
makes a set with a variant tag outside the enumeration (address `7`). -/
def exUnknown : Heap :=
  let added := (xmlSecNodeSetAdd (exHeap [exA]) (some 1) (some 0) (unknownOp 7)).getD
    (exHeap0, none)
  let wrapped := (xmlSecNodeSetAddList 0 added.1 none (some 1) xmlSecNodeSetIntersection).getD
    (exHeap0, none)
  (xmlSecNodeSetCreate wrapped.1 (some 100) (some [exA]) (unknownType 9)).1

/-! ## What the chain evaluator obtains from libxml -/

/-- What one round of the loop of `xmlSecXPathDataExecute` obtains from libxml
for a descriptor: the context, with the function `here` and the namespaces
registered in it, and the result of the evaluation.  `some (some obj)` is the
object that the evaluation returned; `some none` tells that the creation of
the context, a registration or the evaluation failed; `none` that the list
of namespaces is shorter than `nsListSize` says. -/
def evalDescriptor (lib : LibXml) (doc : Option Nat) (hereNode : xmlNodePtr)
    (data : xmlSecXPathData) : Option (Option xmlXPathObject) :=
  let newCtx : Option xmlXPathContext :=
    match data.xpathType with
    | xmlSecXPathType.xmlSecXPathTypeXPath => lib.xmlXPathNewContext doc
    | xmlSecXPathType.xmlSecXPathTypeXPath2 => lib.xmlXPathNewContext doc
    | xmlSecXPathType.xmlSecXPathTypeXPointer =>
      lib.xmlXPtrNewContext doc (lib.xmlDocGetRootElement doc) NULL
  match newCtx with
  | none => some none
  | some ctx0 =>
    let ctx1 : xmlXPathContext :=
      if hereNode.isNull = false then
        { ctx0 with funcs := "here" :: ctx0.funcs, here := hereNode, xptr := 1 }
      else ctx0
    let registered : Option (Int × xmlXPathContext) :=
      match data.nsList with
      | some l => registerNamespaces lib l data.nsListSize ((data.nsListSize : Int) - 1) ctx1
      | none => some (0, ctx1)
    match registered with
    | none => none
    | some (status, ctx) =>
      if status ≠ 0 then some none
      else
        match data.xpathType with
        | xmlSecXPathType.xmlSecXPathTypeXPath => some (lib.xmlXPathEvalExpression data.expr ctx)
        | xmlSecXPathType.xmlSecXPathTypeXPath2 => some (lib.xmlXPathEvalExpression data.expr ctx)
        | xmlSecXPathType.xmlSecXPathTypeXPointer => some (lib.xmlXPtrEval data.expr ctx)

/-- The failure path of `xmlSecXPathDataExecute`: the ring built so far is
destroyed and `NULL` is returned. -/
def executeFail (fuel : Nat) (h : Heap) (res : Option Nat) : Option (Heap × Option Nat) :=
  match res with
  | some r => (xmlSecNodeSetDestroy fuel h (some r)).map (fun h1 => (h1, none))
  | none => some (h, none)

/-- The records at the given addresses are linked by `next` in this order. -/
def linkedNext (h : Heap) : List Nat → Bool
  | a :: b :: rest =>
    decide ((h.read a).map (fun c => c.next) = some (some b)) && linkedNext h (b :: rest)
  | _ => true

/-- An evaluator that fails on every expression but `a|b`. -/
def exLibFail : LibXml :=
  { exLib with
    xmlXPathEvalExpression := fun e _ =>
      if e = some "a|b" then some { nodesetval := some [exA, exB] } else none }

/-- A second-generation descriptor with the expression `e` and the filter tag
`tag`. -/
def exFilter (e : String) (tag : xmlSecXPath2TransformType) : xmlSecXPathData :=
  { expr := some e, nsList := none, nsListSize := 0,
    xpathType := xmlSecXPathType.xmlSecXPathTypeXPath2, xpath2Type := tag }

/-- A second-generation transform whose second descriptor the evaluator
`exLibFail` fails on. -/
def exTransformFail : xmlSecXmlTransform :=
  { id := xmlSecTransformId.xmlSecTransformXPath2
    xmlData :=
      [exFilter "a|b" xmlSecXPath2TransformType.xmlSecXPathTransformIntersect,
        exFilter "bad" xmlSecXPath2TransformType.xmlSecXPathTransformUnion]
    here := NULL }

/-! ## `src/io.c`: the registry of input handlers -/

/-- The record `xmlSecInputCallback`: the four function pointers of a handler,
`none` for `NULL`.  A function pointer is the address of the function. -/
structure xmlSecInputCallback where
  matchcallback : Option Nat
  opencallback : Option Nat
  readcallback : Option Nat
  closecallback : Option Nat
  deriving DecidableEq, Repr

/-- The constant `MAX_INPUT_CALLBACK`. -/
def MAX_INPUT_CALLBACK : Nat := 15

/-- A slot of the table with its four pointers `NULL`. -/
def emptyCallback : xmlSecInputCallback :=
  { matchcallback := none, opencallback := none, readcallback := none, closecallback := none }

/-- The static variables of `io.c`: the array `xmlSecInputCallbackTable` of
`MAX_INPUT_CALLBACK` slots, the counter `xmlSecInputCallbackNr` and the flag
`xmlSecInputCallbackInitialized`. -/
structure InputCallbacks where
  xmlSecInputCallbackTable : List xmlSecInputCallback
  xmlSecInputCallbackNr : Int
  xmlSecInputCallbackInitialized : Int
  deriving DecidableEq, Repr

/-- The static variables when the program starts: an all-zero table, and both
integers `0`. -/
def InputCallbacks.start : InputCallbacks :=
  { xmlSecInputCallbackTable := List.replicate MAX_INPUT_CALLBACK emptyCallback
    xmlSecInputCallbackNr := 0
    xmlSecInputCallbackInitialized := 0 }

/-- The function `xmlSecRegisterInputCallbacks(matchFunc, openFunc, readFunc,
closeFunc)`: its return value and the static variables it leaves.  The answer
is `none` when the store would go outside the table. -/
def xmlSecRegisterInputCallbacks (s : InputCallbacks)
    (matchFunc openFunc readFunc closeFunc : Option Nat) : Option (Int × InputCallbacks) :=
  if s.xmlSecInputCallbackNr ≥ (MAX_INPUT_CALLBACK : Int) then some (-1, s)
  else if 0 ≤ s.xmlSecInputCallbackNr ∧
      s.xmlSecInputCallbackNr.toNat < s.xmlSecInputCallbackTable.length then
    some (s.xmlSecInputCallbackNr,
      { s with
        xmlSecInputCallbackTable := s.xmlSecInputCallbackTable.set s.xmlSecInputCallbackNr.toNat
          { matchcallback := matchFunc, opencallback := openFunc, readcallback := readFunc,
            closecallback := closeFunc }
        xmlSecInputCallbackNr := s.xmlSecInputCallbackNr + 1 })
  else none

/-- The loop `for (i = xmlSecInputCallbackNr - 1; i >= 0; i--)` of
`xmlSecCleanupInputCallbacks`, entered with `i = n - 1`: the four pointers of
slot `i` are set to `NULL`. -/
def clearSlots : Nat → List xmlSecInputCallback → List xmlSecInputCallback
  | 0, table => table
  | n + 1, table => clearSlots n (table.set n emptyCallback)

/-- The function `xmlSecCleanupInputCallbacks()`.  The answer is `none` when a
store would go outside the table. -/
def xmlSecCleanupInputCallbacks (s : InputCallbacks) : Option InputCallbacks :=
  if s.xmlSecInputCallbackInitialized = 0 then some s
  else if s.xmlSecInputCallbackNr.toNat ≤ s.xmlSecInputCallbackTable.length then
    some { s with
      xmlSecInputCallbackTable := clearSlots s.xmlSecInputCallbackNr.toNat
        s.xmlSecInputCallbackTable
      xmlSecInputCallbackNr := 0 }
  else none

/-- What the build and libxml give `xmlSecRegisterDefaultInputCallbacks`:
whether `LIBXML_HTTP_ENABLED` and `LIBXML_FTP_ENABLED` are defined, and the
handlers of libxml for files, HTTP and FTP. -/
structure DefaultInput where
  LIBXML_HTTP_ENABLED : Bool
  LIBXML_FTP_ENABLED : Bool
  file : xmlSecInputCallback
  http : xmlSecInputCallback
  ftp : xmlSecInputCallback

/-- The function `xmlSecRegisterDefaultInputCallbacks()`; the return values of
the registrations are not looked at. -/
def xmlSecRegisterDefaultInputCallbacks (cfg : DefaultInput) (s : InputCallbacks) :
    Option InputCallbacks :=
  if s.xmlSecInputCallbackInitialized ≠ 0 then some s
  else
    match xmlSecRegisterInputCallbacks s cfg.file.matchcallback cfg.file.opencallback
        cfg.file.readcallback cfg.file.closecallback with
    | none => none
    | some (_, s1) =>
      let afterHttp : Option InputCallbacks :=
        if cfg.LIBXML_HTTP_ENABLED then
          (xmlSecRegisterInputCallbacks s1 cfg.http.matchcallback cfg.http.opencallback
            cfg.http.readcallback cfg.http.closecallback).map Prod.snd
        else some s1
      match afterHttp with
      | none => none
      | some s2 =>
        let afterFtp : Option InputCallbacks :=
          if cfg.LIBXML_FTP_ENABLED then
            (xmlSecRegisterInputCallbacks s2 cfg.ftp.matchcallback cfg.ftp.opencallback
              cfg.ftp.readcallback cfg.ftp.closecallback).map Prod.snd
          else some s2
        match afterFtp with
        | none => none
        | some s3 => some { s3 with xmlSecInputCallbackInitialized := 1 }

/-- The states of the registry that the program can be in: the state at the
start, and what the three functions that write the static variables leave. -/
inductive Reachable (cfg : DefaultInput) : InputCallbacks → Prop where
  | start : Reachable cfg InputCallbacks.start
  | register {s s1 : InputCallbacks} {ret : Int} (matchFunc openFunc readFunc closeFunc :
      Option Nat) : Reachable cfg s →
      xmlSecRegisterInputCallbacks s matchFunc openFunc readFunc closeFunc = some (ret, s1) →
      Reachable cfg s1
  | registerDefault {s s1 : InputCallbacks} : Reachable cfg s →
      xmlSecRegisterDefaultInputCallbacks cfg s = some s1 → Reachable cfg s1
  | cleanup {s s1 : InputCallbacks} : Reachable cfg s →
      xmlSecCleanupInputCallbacks s = some s1 → Reachable cfg s1

/-- The identifier of a binary transform: `xmlSecInputUri`, or another one. -/
inductive xmlSecBinTransformId where
  | xmlSecInputUri
  | otherBinTransform (tag : Nat)
  deriving DecidableEq, Repr

/-- The fields of `xmlSecBinTransform` that `io.c` uses: the identifier, `data`
(the stream that the open callback returned, `none` for `NULL`) and `binData`
(a pointer to a slot of the table, given by the index of the slot). -/
structure xmlSecBinTransform where
  id : xmlSecBinTransformId
  data : Option Nat
  binData : Option Nat
  deriving DecidableEq, Repr

/-- What the handlers and libxml do when called: `matchFn f uri` and
`openFn f uri` are the answers of the functions at the address `f`, and
`xmlURIUnescapeString` is the function of libxml (`none` when it fails). -/
structure InputFuncs where
  matchFn : Nat → String → Int
  openFn : Nat → String → Option Nat
  xmlURIUnescapeString : String → Option String

/-- The loop `for (i = xmlSecInputCallbackNr - 1; i >= 0; i--)` of
`xmlSecInputUriTransformOpen`, entered with `i = n - 1`.  The answer is `none`
when the slot is outside the table or the open callback to call is `NULL`. -/
def openLoop (fns : InputFuncs) (table : List xmlSecInputCallback) (uri : String) :
    Nat → xmlSecBinTransform → Option xmlSecBinTransform
  | 0, t => some t
  | n + 1, t =>
    match table[n]? with
    | none => none
    | some cb =>
      match cb.matchcallback with
      | none => openLoop fns table uri n t
      | some m =>
        if fns.matchFn m uri ≠ 0 then
          match cb.opencallback with
          | none => none
          | some o =>
            let t1 : xmlSecBinTransform := { t with data := fns.openFn o uri }
            if t1.data ≠ none then some { t1 with binData := some n }
            else openLoop fns table uri n t1
        else openLoop fns table uri n t

/-- The function `xmlSecInputUriTransformOpen(transform, uri)`: its return value
and the transform it leaves. -/
def xmlSecInputUriTransformOpen (fns : InputFuncs) (s : InputCallbacks)
    (transform : Option xmlSecBinTransform) (uri : Option String) :
    Option (Int × Option xmlSecBinTransform) :=
  match transform, uri with
  | some t, some u =>
    if t.id ≠ xmlSecBinTransformId.xmlSecInputUri then some (-1, some t)
    else
      -- try with an unescaped version of the uri
      let first : Option xmlSecBinTransform :=
        match fns.xmlURIUnescapeString u with
        | some unescaped =>
          openLoop fns s.xmlSecInputCallbackTable unescaped s.xmlSecInputCallbackNr.toNat t
        | none => some t
      match first with
      | none => none
      | some t1 =>
        -- if this failed try with a non-escaped uri
        let second : Option xmlSecBinTransform :=
          if t1.data = none then
            openLoop fns s.xmlSecInputCallbackTable u s.xmlSecInputCallbackNr.toNat t1
          else some t1
        match second with
        | none => none
        | some t2 => if t2.data = none then some (-1, some t2) else some (0, some t2)
  | _, _ => some (-1, transform)

/-- The handler in slot `i` opens `uri`: it has a match callback that accepts
`uri` and an open callback that returns a stream for it. -/
def opensAt (fns : InputFuncs) (s : InputCallbacks) (uri : String) (i : Nat) : Prop :=
  ∃ cb m o, s.xmlSecInputCallbackTable[i]? = some cb ∧ cb.matchcallback = some m ∧
    cb.opencallback = some o ∧ fns.matchFn m uri ≠ 0 ∧ fns.openFn o uri ≠ none

/-- Slot `i` holds the registered handler with the highest registration index
among those that open `uri`. -/
def Selected (fns : InputFuncs) (s : InputCallbacks) (uri : String) (i : Nat) : Prop :=
  (i : Int) < s.xmlSecInputCallbackNr ∧ opensAt fns s uri i ∧
    ∀ j, i < j → (j : Int) < s.xmlSecInputCallbackNr → ¬ opensAt fns s uri j

/-- No registered handler opens `uri`. -/
def NoneOpens (fns : InputFuncs) (s : InputCallbacks) (uri : String) : Prop :=
  ∀ j : Nat, (j : Int) < s.xmlSecInputCallbackNr → ¬ opensAt fns s uri j

/-- The stream that the open callback of slot `i` returns for `uri`. -/
def streamOf (fns : InputFuncs) (s : InputCallbacks) (uri : String) (i : Nat) : Option Nat :=
  match s.xmlSecInputCallbackTable[i]? with
  | some cb =>
    match cb.opencallback with
    | some o => fns.openFn o uri
    | none => none
  | none => none

/-- The registry holds handlers that can be called: the counter is within the
table, and a registered handler with a match callback has an open callback. -/
def Callable (s : InputCallbacks) : Prop :=
  0 ≤ s.xmlSecInputCallbackNr ∧
    s.xmlSecInputCallbackNr.toNat ≤ s.xmlSecInputCallbackTable.length ∧
    ∀ (i : Nat) (cb : xmlSecInputCallback), (i : Int) < s.xmlSecInputCallbackNr →
      s.xmlSecInputCallbackTable[i]? = some cb →
      cb.matchcallback ≠ none → cb.opencallback ≠ none

/-- Handlers for the instances: the function at address `10` matches every URI
and the one at `11` opens none; the function at `20` matches the URIs that
start with `h` and the one at `21` opens every URI, as stream `7`; unescaping
removes the `%` signs. -/
def exFuncs : InputFuncs :=
  { matchFn := fun f uri => if f = 10 then 1 else if f = 20 ∧ uri.get 0 = 'h' then 1 else 0
    openFn := fun f _ => if f = 21 then some 7 else none
    xmlURIUnescapeString := fun uri => some (uri.replace "%" "") }

/-- The registry after the handlers `(20, 21)`, `(10, 11)` and `(20, 21)` have
been registered in this order, starting from the start of the program. -/
def exRegistry : InputCallbacks :=
  let s0 := ((xmlSecRegisterInputCallbacks InputCallbacks.start (some 20) (some 21) (some 22)
    (some 23)).getD (-1, InputCallbacks.start)).2
  let s1 := ((xmlSecRegisterInputCallbacks s0 (some 10) (some 11) (some 12)
    (some 13)).getD (-1, InputCallbacks.start)).2
  ((xmlSecRegisterInputCallbacks s1 (some 20) (some 21) (some 22)
    (some 23)).getD (-1, InputCallbacks.start)).2

/-- A transform `xmlSecInputUri` as `xmlSecInputUriTransformCreate` leaves it. -/
def exInput : xmlSecBinTransform :=
  { id := xmlSecBinTransformId.xmlSecInputUri, data := none, binData := none }

/-- What holds of the registry in every state the program can be in: the table
has `MAX_INPUT_CALLBACK` slots, the counter lies between `0` and
`MAX_INPUT_CALLBACK`, and the slots from the counter on are empty. -/
def RegistryInv (s : InputCallbacks) : Prop :=
  s.xmlSecInputCallbackTable.length = MAX_INPUT_CALLBACK ∧
    0 ≤ s.xmlSecInputCallbackNr ∧ s.xmlSecInputCallbackNr ≤ (MAX_INPUT_CALLBACK : Int) ∧
    ∀ i : Nat, s.xmlSecInputCallbackNr ≤ (i : Int) → i < MAX_INPUT_CALLBACK →
      s.xmlSecInputCallbackTable[i]? = some emptyCallback

/-- The handlers of libxml for the instances, with HTTP and without FTP. -/
def exDefault : DefaultInput :=
  { LIBXML_HTTP_ENABLED := true
    LIBXML_FTP_ENABLED := false
    file :=
      { matchcallback := some 10, opencallback := some 21, readcallback := some 12,
        closecallback := some 13 }
    http :=
      { matchcallback := some 20, opencallback := some 21, readcallback := some 22,
        closecallback := some 23 }
    ftp :=
      { matchcallback := some 30, opencallback := some 31, readcallback := some 32,
        closecallback := some 33 } }

/-- The registry after a program has registered one handler of its own and
nothing else: the default handlers have never been registered. -/
def exUserOnly : InputCallbacks :=
  ((xmlSecRegisterInputCallbacks InputCallbacks.start (some 20) (some 21) (some 22)
    (some 23)).getD (-1, InputCallbacks.start)).2

/-! ## `src/xpath.c`: reading the configuration of a transform -/

deriving instance DecidableEq for xmlSecXPathData
deriving instance DecidableEq for xmlXPathContext

/-- The constant `xpathPattern`. -/
def xpathPattern : String := "(//. | //@* | //namespace::*)[%s]"

/-- The characters that `sprintf(buf, format, arg)` of the C library writes for
a format whose conversion is `%s`: those of the format, with the `%s` replaced
by the characters of the argument. -/
def sprintfChars : List Char → List Char → List Char
  | '%' :: 's' :: rest, arg => arg ++ rest
  | c :: rest, arg => c :: sprintfChars rest arg
  | [], _ => []

/-- The string that `sprintf(buf, format, arg)` leaves in `buf`. -/
def sprintf (format arg : String) : String :=
  String.mk (sprintfChars format.data arg.data)

/-- What reading a configuration takes from outside `xpath.c`: the functions
`xmlNodeGetContent` and `xmlGetProp` of libxml (`none` is `NULL`), the helper
`xmlSecCheckNodeName` of `xmltree.c`, the namespace constants of the xmlsec
headers, and `zeroFilter`, the value of the enumeration
`xmlSecXPath2TransformType` (declared in `xpath.h`) whose number is `0`, which
is what `memset` leaves in a new descriptor. -/
structure ReadEnv where
  xmlNodeGetContent : xmlNodePtr → Option String
  xmlGetProp : xmlNodePtr → String → Option String
  xmlSecCheckNodeName : xmlNodePtr → String → String → Bool
  xmlSecDSigNs : String
  xmlSecXPath2Ns : String
  xmlSecXPointerNs : String
  zeroFilter : xmlSecXPath2TransformType

/-- Modelled from the spec: the helper `xmlSecGetNextElementNode` of
`xmltree.c`, which is not under `src/`.  The configuration is read through its
element children: the answer is the first record of type element in the chain
of siblings that starts at `cur`, null when there is none. -/
def xmlSecGetNextElementNode : xmlTreePtr → xmlTreePtr
  | xmlTreePtr.NULL => xmlTreePtr.NULL
  | xmlTreePtr.node a t p d x n pr ch next =>
    if t = XML_ELEMENT_NODE then xmlTreePtr.node a t p d x n pr ch next
    else xmlSecGetNextElementNode next

/-- The function `xmlStrdup(s)` of libxml for a non-null `s`, with `avail`
allocations left to succeed: the copy, or `NULL` when no memory is left. -/
def xmlStrdup (avail : Nat) (s : String) : Nat × Option String :=
  match avail with
  | 0 => (0, none)
  | n + 1 => (n, some s)

/-- The first loop of `xmlSecXPathDataReadNsList`: the number of declarations
on `node` and its ancestors. -/
def countNs : xmlNodePtr → Nat
  | xmlNodePtr.NULL => 0
  | xmlNodePtr.node _ _ p d _ _ => d.length + countNs p

/-- The loop `while((ns != NULL) && (count < data->nsListSize))` of
`xmlSecXPathDataReadNsList` over the declarations of one node.  `written` are
the slots `0 .. count - 1` of the array, written so far. -/
def readNsDefs (size : Nat) :
    List xmlNs → Nat → List (Option String) → Nat × List (Option String)
  | [], avail, written => (avail, written)
  | ns :: rest, avail, written =>
    if written.length < size then
      let pfx : Nat × Option String :=
        match ns.pfx with
        | some s => xmlStrdup avail s
        | none => (avail, none)
      let href : Nat × Option String :=
        match ns.href with
        | some s => xmlStrdup pfx.1 s
        | none => (pfx.1, none)
      readNsDefs size rest href.1 (written ++ [pfx.2, href.2])
    else (avail, written)

/-- The second loop `for(tmp = node; tmp != NULL; tmp = tmp->parent)` of
`xmlSecXPathDataReadNsList`. -/
def readNsChain (size : Nat) :
    xmlNodePtr → Nat → List (Option String) → Nat × List (Option String)
  | xmlNodePtr.NULL, avail, written => (avail, written)
  | xmlNodePtr.node _ _ p d _ _, avail, written =>
    match readNsDefs size d avail written with
    | (avail1, written1) => readNsChain size p avail1 written1

/-- The function `xmlSecXPathDataReadNsList(data, node)`, with `avail`
allocations left to succeed: the allocations left, the return value and the
descriptor. -/
def xmlSecXPathDataReadNsList (avail : Nat) (data : xmlSecXPathData) (node : xmlNodePtr) :
    Nat × Int × xmlSecXPathData :=
  if data.nsList ≠ none then (avail, -1, data)
  else if node.isNull then (avail, -1, data)
  else
    -- how many namespaces we have?
    let count := countNs node
    match avail with
    | 0 => (0, -1, data)
    | a + 1 =>
      let size := 2 * count
      match readNsChain size node a [] with
      | (a1, written) =>
        (a1, 0, { data with
          nsList := some (written ++ List.replicate (size - written.length) none)
          nsListSize := size })

/-- The function `xmlSecXPathDataReadNode(data, node)`, with `avail`
allocations left to succeed: the allocations left, the return value and the
descriptor. -/
def xmlSecXPathDataReadNode (env : ReadEnv) (avail : Nat) (data : xmlSecXPathData)
    (node : xmlNodePtr) : Nat × Int × xmlSecXPathData :=
  if data.expr ≠ none then (avail, -1, data)
  else if node.isNull then (avail, -1, data)
  else
    match env.xmlNodeGetContent node with
    | none => (avail, -1, data)
    | some expr =>
      -- create full XPath expression
      let stored : Option (Nat × xmlSecXPathData) :=
        match data.xpathType with
        | xmlSecXPathType.xmlSecXPathTypeXPath =>
          match avail with
          | 0 => none
          | a + 1 => some (a, { data with expr := some (sprintf xpathPattern expr) })
        | xmlSecXPathType.xmlSecXPathTypeXPath2 => some (avail, { data with expr := some expr })
        | xmlSecXPathType.xmlSecXPathTypeXPointer => some (avail, { data with expr := some expr })
      match stored with
      | none => (avail, -1, data)
      | some (a1, data1) =>
        match xmlSecXPathDataReadNsList a1 data1 node with
        | (a2, r, data2) =>
          if r < 0 then (a2, -1, data2)
          else
            match data2.xpathType with
            | xmlSecXPathType.xmlSecXPathTypeXPath => (a2, 0, data2)
            | xmlSecXPathType.xmlSecXPathTypeXPointer => (a2, 0, data2)
            | xmlSecXPathType.xmlSecXPathTypeXPath2 =>
              match env.xmlGetProp node "Filter" with
              | none => (a2, -1, data2)
              | some xpath2Type =>
                if xpath2Type = "intersect" then
                  (a2, 0, { data2 with
                    xpath2Type := xmlSecXPath2TransformType.xmlSecXPathTransformIntersect })
                else if xpath2Type = "subtract" then
                  (a2, 0, { data2 with
                    xpath2Type := xmlSecXPath2TransformType.xmlSecXPathTransformSubtract })
                else if xpath2Type = "union" then
                  (a2, 0, { data2 with
                    xpath2Type := xmlSecXPath2TransformType.xmlSecXPathTransformUnion })
                else (a2, -1, data2)

/-- A record `xmlSecXPathData` in memory: its fields and its `next` link. -/
structure xmlSecXPathDataCell where
  data : xmlSecXPathData
  next : Option Nat
  deriving DecidableEq

/-- The memory that holds the descriptors: the record at each address (`none`
where no record is, or where it was released), and the number of allocations
that will still succeed. -/
structure DataHeap where
  cells : List (Option xmlSecXPathDataCell)
  avail : Nat
  deriving DecidableEq

namespace DataHeap

/-- Dereference a pointer to a descriptor. -/
def read (h : DataHeap) (p : Nat) : Option xmlSecXPathDataCell :=
  match h.cells[p]? with
  | some (some c) => some c
  | _ => none

/-- Store a descriptor at an address. -/
def write (h : DataHeap) (p : Nat) (c : xmlSecXPathDataCell) : DataHeap :=
  { h with cells := h.cells.set p (some c) }

/-- The release `xmlFree(p)` of a descriptor. -/
def xmlFree (h : DataHeap) (p : Nat) : DataHeap :=
  { h with cells := h.cells.set p none }

end DataHeap

/-- The function `xmlSecXPathDataDestroy(data)`: the records of the chain are
released one after the other (their strings with them).  The answer is `none`
when a record of the chain is not there. -/
def xmlSecXPathDataDestroy : Nat → DataHeap → Option Nat → Option DataHeap
  | 0, _, _ => none
  | fuel + 1, h, data =>
    match data with
    | none => some h
    | some tmp =>
      match h.read tmp with
      | none => none
      | some c => xmlSecXPathDataDestroy fuel (h.xmlFree tmp) c.next

/-- The fields of the record that `xmlSecXPathDataCreate` has allocated: all
zero after `memset`, then `xpathType`, then what `xmlSecXPathDataReadNode`
reads when a node is given; with the allocations left and the status of the
reading (`0` when no node is given). -/
def newDescriptor (env : ReadEnv) (avail : Nat) (node : xmlNodePtr)
    (xpathType : xmlSecXPathType) : Nat × Int × xmlSecXPathData :=
  let zero : xmlSecXPathData :=
    { expr := none, nsList := none, nsListSize := 0, xpathType := xpathType,
      xpath2Type := env.zeroFilter }
  if node.isNull then (avail, 0, zero) else xmlSecXPathDataReadNode env avail zero node

/-- The function `xmlSecXPathDataCreate(node, prev, xpathType)`: the memory it
leaves and the pointer it returns.  The new record lies at the first unused
address. -/
def xmlSecXPathDataCreate (env : ReadEnv) (fuel : Nat) (h : DataHeap) (node : xmlNodePtr)
    (prev : Option Nat) (xpathType : xmlSecXPathType) : Option (DataHeap × Option Nat) :=
  match h.avail with
  | 0 => some (h, none)
  | a + 1 =>
    let read := newDescriptor env a node xpathType
    let h1 : DataHeap :=
      { cells := h.cells ++ [some { data := read.2.2, next := none }], avail := read.1 }
    if read.2.1 < 0 then
      (xmlSecXPathDataDestroy fuel h1 (some h.cells.length)).map (fun h2 => (h2, none))
    else
      match prev with
      | none => some (h1, some h.cells.length)
      | some q =>
        match h1.read q with
        | none => none
        | some c => some (h1.write q { c with next := some h.cells.length },
            some h.cells.length)

/-- The fields of `struct _xmlSecXmlTransform` as they lie in memory: `xmlData`
is the address of the first descriptor of the chain, `none` for `NULL`. -/
structure xmlSecXmlTransformCell where
  id : xmlSecTransformId
  xmlData : Option Nat
  here : xmlNodePtr
  deriving DecidableEq

/-- What a function that reads a configuration leaves: its return value, the
memory of the descriptors and the transform. -/
structure ReadResult where
  ret : Int
  heap : DataHeap
  transform : Option xmlSecXmlTransformCell
  deriving DecidableEq

/-- The body that `xmlSecTransformXPathReadNode` and
`xmlSecTransformXPointerReadNode` share: they differ in the identifier `id`
they check, in the name `name` and the namespace `ns` of the element they
expect, and in the dialect `xpathType` of the descriptor they create. -/
def readSingleFilter (env : ReadEnv) (id : xmlSecTransformId) (name ns : String)
    (xpathType : xmlSecXPathType) (fuel : Nat) (h : DataHeap)
    (transform : Option xmlSecXmlTransformCell) (transformNode : xmlTreePtr) :
    Option ReadResult :=
  match transform with
  | none => some ⟨-1, h, none⟩
  | some t =>
    if transformNode.self.isNull then some ⟨-1, h, some t⟩
    else if t.id ≠ id then some ⟨-1, h, some t⟩
    else
      -- there is only one required node
      let cur := xmlSecGetNextElementNode transformNode.children
      if cur.self.isNull ∨ env.xmlSecCheckNodeName cur.self name ns = false then
        some ⟨-1, h, some t⟩
      else
        match xmlSecXPathDataCreate env fuel h cur.self none xpathType with
        | none => none
        | some (h1, none) => some ⟨-1, h1, some t⟩
        | some (h1, some data) =>
          if (xmlSecGetNextElementNode cur.next).self.isNull = false then
            (xmlSecXPathDataDestroy fuel h1 (some data)).map (fun h2 => ⟨-1, h2, some t⟩)
          else
            let released : Option DataHeap :=
              match t.xmlData with
              | some old => xmlSecXPathDataDestroy fuel h1 (some old)
              | none => some h1
            released.map (fun h2 =>
              ⟨0, h2, some { t with xmlData := some data, here := transformNode.self }⟩)

/-- The function `xmlSecTransformXPathReadNode(transform, transformNode)`. -/
def xmlSecTransformXPathReadNode (env : ReadEnv) (fuel : Nat) (h : DataHeap)
    (transform : Option xmlSecXmlTransformCell) (transformNode : xmlTreePtr) :
    Option ReadResult :=
  readSingleFilter env xmlSecTransformId.xmlSecTransformXPath "XPath" env.xmlSecDSigNs
    xmlSecXPathType.xmlSecXPathTypeXPath fuel h transform transformNode

/-- The function `xmlSecTransformXPointerReadNode(transform, transformNode)`. -/
def xmlSecTransformXPointerReadNode (env : ReadEnv) (fuel : Nat) (h : DataHeap)
    (transform : Option xmlSecXmlTransformCell) (transformNode : xmlTreePtr) :
    Option ReadResult :=
  readSingleFilter env xmlSecTransformId.xmlSecTransformXPointer "XPointer" env.xmlSecXPointerNs
    xmlSecXPathType.xmlSecXPathTypeXPointer fuel h transform transformNode

/-- The loop `while(cur != NULL)` of `xmlSecTransformXPath2ReadNode` and the
test that follows it, entered with the chain of siblings that
`xmlSecGetNextElementNode` is about to look at: a record that is no element is
passed over; an element `XPath` gets a descriptor, linked behind `data`; at
another element the loop is left, `data` is destroyed and the answer is `-1`;
at the end of the chain the answer is `0`. -/
def xpath2ReadLoop (env : ReadEnv) (fuel : Nat) (transformNode : xmlNodePtr) :
    xmlTreePtr → DataHeap → xmlSecXmlTransformCell → Option Nat → Option ReadResult
  | xmlTreePtr.NULL, h, t, _ => some ⟨0, h, some { t with here := transformNode }⟩
  | xmlTreePtr.node a ty p d x n _ _ next, h, t, data =>
    if ty ≠ XML_ELEMENT_NODE then xpath2ReadLoop env fuel transformNode next h t data
    else if env.xmlSecCheckNodeName (xmlNodePtr.node a ty p d x n) "XPath" env.xmlSecXPath2Ns
        then
      match xmlSecXPathDataCreate env fuel h (xmlNodePtr.node a ty p d x n) data
          xmlSecXPathType.xmlSecXPathTypeXPath2 with
      | none => none
      | some (h1, none) => some ⟨-1, h1, some t⟩
      | some (h1, some new) =>
        let t1 : xmlSecXmlTransformCell :=
          if t.xmlData = none then { t with xmlData := some new } else t
        xpath2ReadLoop env fuel transformNode next h1 t1 (some new)
    else
      (xmlSecXPathDataDestroy fuel h data).map (fun h1 => ⟨-1, h1, some t⟩)

/-- The function `xmlSecTransformXPath2ReadNode(transform, transformNode)`. -/
def xmlSecTransformXPath2ReadNode (env : ReadEnv) (fuel : Nat) (h : DataHeap)
    (transform : Option xmlSecXmlTransformCell) (transformNode : xmlTreePtr) :
    Option ReadResult :=
  match transform with
  | none => some ⟨-1, h, none⟩
  | some t =>
    if transformNode.self.isNull then some ⟨-1, h, some t⟩
    else if t.id ≠ xmlSecTransformId.xmlSecTransformXPath2 then some ⟨-1, h, some t⟩
    else
      let cleared : Option (DataHeap × xmlSecXmlTransformCell) :=
        match t.xmlData with
        | some old =>
          (xmlSecXPathDataDestroy fuel h (some old)).map (fun h1 =>
            (h1, { t with xmlData := none }))
        | none => some (h, t)
      match cleared with
      | none => none
      | some (h1, t1) =>
        -- there are only XPath nodes
        xpath2ReadLoop env fuel transformNode.self transformNode.children h1 t1 none

/-- The chain of descriptors that starts at `p`, in `next` order; `none` when a
record of the chain is not there, or the chain is longer than `fuel`. -/
def chainAt (h : DataHeap) : Nat → Option Nat → Option (List xmlSecXPathData)
  | _, none => some []
  | 0, some _ => none
  | fuel + 1, some p =>
    match h.read p with
    | none => none
    | some c => (chainAt h fuel c.next).map (fun rest => c.data :: rest)

/-- The bindings in scope at a node, as prefix and URI: those declared on the
node first, then those of its parent, and so on. -/
def capturedBindings (node : xmlNodePtr) : List (Option String × Option String) :=
  (parentChain node).flatMap (fun a => a.nsDef.map (fun ns => (ns.pfx, ns.href)))

/-- The array `nsList` that holds the bindings: prefix and URI of each, in this
order. -/
def flattenBindings (l : List (Option String × Option String)) : List (Option String) :=
  l.flatMap (fun b => [b.1, b.2])

/-- The bindings with a prefix, as what `xmlXPathRegisterNs` is called with. -/
def withPrefix (l : List (Option String × Option String)) : List (String × Option String) :=
  l.filterMap (fun b => b.1.map (fun p => (p, b.2)))

/-- The context that `xmlSecXPathDataExecute` hands to the evaluation of the
expression of a descriptor: the one libxml built, with the function `here` and
the namespaces registered in it; `none` when no evaluation takes place. -/
def evalContext (lib : LibXml) (doc : Option Nat) (hereNode : xmlNodePtr)
    (data : xmlSecXPathData) : Option xmlXPathContext :=
  let newCtx : Option xmlXPathContext :=
    match data.xpathType with
    | xmlSecXPathType.xmlSecXPathTypeXPath => lib.xmlXPathNewContext doc
    | xmlSecXPathType.xmlSecXPathTypeXPath2 => lib.xmlXPathNewContext doc
    | xmlSecXPathType.xmlSecXPathTypeXPointer =>
      lib.xmlXPtrNewContext doc (lib.xmlDocGetRootElement doc) NULL
  match newCtx with
  | none => none
  | some ctx0 =>
    let ctx1 : xmlXPathContext :=
      if hereNode.isNull = false then
        { ctx0 with funcs := "here" :: ctx0.funcs, here := hereNode, xptr := 1 }
      else ctx0
    let registered : Option (Int × xmlXPathContext) :=
      match data.nsList with
      | some l => registerNamespaces lib l data.nsListSize ((data.nsListSize : Int) - 1) ctx1
      | none => some (0, ctx1)
    match registered with
    | none => none
    | some (status, ctx) => if status ≠ 0 then none else some ctx

/-! ### Configurations for the instances -/

/-- The element `Transform` of the instances, child of `a`, which declares the
prefix `ds`. -/
def exTransformNode : xmlNodePtr :=
  xmlNodePtr.node 400 XML_ELEMENT_NODE exA
    [{ addr := 450, pfx := some "ds", href := some "http://www.w3.org/2000/09/xmldsig#" }] none
    NULL

/-- A child of `exTransformNode` at the address `a`, of type `t`, which declares
the namespaces `d`. -/
def exChild (a : Nat) (t : xmlElementType) (d : List xmlNs) : xmlNodePtr :=
  xmlNodePtr.node a t exTransformNode d none NULL

/-- The environment of the instances.  The elements at `401`, `402`, `405` and
`406` are `XPath` elements of the second-generation namespace, with the `Filter`
attributes `intersect`, `union`, `Intersect` and none; the elements at `411` and
`412` are `XPath` elements of the signature namespace; the element at `421` is
an `XPointer` element; every one of them has the content `//b`.  The element at
`404` has another name. -/
def exEnv : ReadEnv :=
  { xmlNodeGetContent := fun n =>
      if n.addr = 401 ∨ n.addr = 402 ∨ n.addr = 405 ∨ n.addr = 406 ∨ n.addr = 411 ∨
          n.addr = 412 ∨ n.addr = 421 then some "//b" else none
    xmlGetProp := fun n name =>
      if name = "Filter" then
        if n.addr = 401 then some "intersect"
        else if n.addr = 402 then some "union"
        else if n.addr = 405 then some "Intersect"
        else none
      else none
    xmlSecCheckNodeName := fun n name ns =>
      if n.addr = 401 ∨ n.addr = 402 ∨ n.addr = 405 ∨ n.addr = 406 then
        name == "XPath" && ns == "http://www.w3.org/2002/06/xmldsig-filter2"
      else if n.addr = 411 ∨ n.addr = 412 then
        name == "XPath" && ns == "http://www.w3.org/2000/09/xmldsig#"
      else if n.addr = 421 then
        name == "XPointer" && ns == "http://www.w3.org/2001/04/xmldsig-more/xptr"
      else false
    xmlSecDSigNs := "http://www.w3.org/2000/09/xmldsig#"
    xmlSecXPath2Ns := "http://www.w3.org/2002/06/xmldsig-filter2"
    xmlSecXPointerNs := "http://www.w3.org/2001/04/xmldsig-more/xptr"
    zeroFilter := xmlSecXPath2TransformType.xmlSecXPathTransformIntersect }

/-- A chain of siblings: the children of `exTransformNode` at the given
addresses, each of the given type, none with children of its own. -/
def exSiblings : List (Nat × xmlElementType) → xmlTreePtr
  | [] => xmlTreePtr.NULL
  | (a, t) :: rest =>
    xmlTreePtr.mk (exChild a t []) xmlTreePtr.NULL xmlTreePtr.NULL (exSiblings rest)

/-- The element `Transform` with the given children. -/
def exConfig (children : List (Nat × xmlElementType)) : xmlTreePtr :=
  xmlTreePtr.mk exTransformNode xmlTreePtr.NULL (exSiblings children) xmlTreePtr.NULL

/-- A transform with the identifier `id`, as `xmlSecTransformXPathCreate` leaves
it. -/
def exNew (id : xmlSecTransformId) : xmlSecXmlTransformCell :=
  { id := id, xmlData := none, here := NULL }

/-- A memory without descriptors. -/
def exData0 : DataHeap := { cells := [], avail := 16 }

/-! ### Registration of namespaces and the context of an evaluation -/

/-- The calls of `xmlXPathRegisterNs` for a list of bindings, made in the order
of the list: a binding without prefix is passed over, and the first
registration that libxml refuses ends the calls with `-1`. -/
def registerSeq (lib : LibXml) :
    List (Option String × Option String) → xmlXPathContext → Int × xmlXPathContext
  | [], ctx => (0, ctx)
  | (none, _) :: rest, ctx => registerSeq lib rest ctx
  | (some p, href) :: rest, ctx =>
    if (xmlXPathRegisterNs lib ctx p href).1 ≠ 0 then (-1, (xmlXPathRegisterNs lib ctx p href).2)
    else registerSeq lib rest (xmlXPathRegisterNs lib ctx p href).2

/-- The bindings registered in a context, in the order in which they were
registered (`nsReg` holds the latest first). -/
def registrationOrder (ctx : xmlXPathContext) : List (String × Option String) :=
  ctx.nsReg.reverse

/-- The evaluation of the expression of a descriptor in a context, by
`xmlXPathEvalExpression` or by `xmlXPtrEval` as the dialect tells. -/
def evalIn (lib : LibXml) (data : xmlSecXPathData) (ctx : xmlXPathContext) :
    Option xmlXPathObject :=
  match data.xpathType with
  | xmlSecXPathType.xmlSecXPathTypeXPath => lib.xmlXPathEvalExpression data.expr ctx
  | xmlSecXPathType.xmlSecXPathTypeXPath2 => lib.xmlXPathEvalExpression data.expr ctx
  | xmlSecXPathType.xmlSecXPathTypeXPointer => lib.xmlXPtrEval data.expr ctx

/-- The document node of a second document, at the address `200`. -/
def exDoc2 : xmlNodePtr := xmlNodePtr.node 200 XML_DOCUMENT_NODE NULL [] none NULL

/-- The root element of the second document. -/
def exRoot2 : xmlNodePtr := xmlNodePtr.node 201 XML_ELEMENT_NODE exDoc2 [] none NULL

/-- An evaluator that stands for libxml2 as far as the function `here` goes.
`xmlXPathNewContext` gives a context without `here` node and without the
function `here`; `xmlXPtrNewContext(doc, here, origin)` stores its argument
`here` in the context and registers the functions of XPointer, `here` among
them.  `xmlXPathEvalExpression` on the expression `here()`, in a context of
`xmlXPathNewContext`, calls the function that this program has registered,
`xmlSecXPathHereFunction`, which answers the node set of the `here` node; the
evaluation fails when no function `here` is registered or the `here` node is
null.  `xmlXPtrEval` takes the pointer `here()` for a scheme it does not know
and fails.  On the pointer `xpointer(here())`, in a context of
`xmlXPtrNewContext` with a `here` node, it calls the function `here` that
`xmlXPtrNewContext` has registered, which answers a location set: the object
returned has no `nodesetval`.  What other expressions evaluate to depends on
the document, and this evaluator fails on them. -/
def exLibXPtr : LibXml :=
  { xmlDocGetRootElement := fun doc => if doc = some 200 then exRoot2 else exA
    xmlXPathNewContext := fun doc =>
      some { doc := doc, pointer := false, here := NULL, xptr := 0, funcs := [], nsReg := [] }
    xmlXPtrNewContext := fun doc here _ =>
      some { doc := doc, pointer := true, here := here, xptr := 1,
             funcs := ["range-to", "range", "range-inside", "string-range", "start-point",
               "end-point", "here", " origin"],
             nsReg := [] }
    registerNsStatus := fun _ _ _ => 0
    xmlXPathEvalExpression := fun e ctx =>
      if e = some "here()" ∧ ctx.pointer = false ∧ "here" ∈ ctx.funcs ∧ ctx.here.isNull = false
        then some { nodesetval := some [ctx.here] }
      else none
    xmlXPtrEval := fun e ctx =>
      if e = some "xpointer(here())" ∧ ctx.pointer = true ∧ "here" ∈ ctx.funcs ∧
          ctx.here.isNull = false then some { nodesetval := none }
      else none }

/-- A descriptor of the dialect `xpathType` with the expression `here()` and
without namespaces. -/
def exHereData (xpathType : xmlSecXPathType) : xmlSecXPathData :=
  { expr := some "here()", nsList := none, nsListSize := 0, xpathType := xpathType,
    xpath2Type := xmlSecXPath2TransformType.xmlSecXPathTransformIntersect }

/-- A pointer descriptor with the expression `xpointer(here())`, without
any namespace. -/
def exPointerData : xmlSecXPathData :=
  { expr := some "xpointer(here())", nsList := none, nsListSize := 0,
    xpathType := xmlSecXPathType.xmlSecXPathTypeXPointer,
    xpath2Type := xmlSecXPath2TransformType.xmlSecXPathTransformIntersect }

/-- A pointer transform declared at `exTransformNode`, in the document at the
address `100`, with the expression `xpointer(here())`. -/
def exPointer : xmlSecXmlTransform :=
  { id := xmlSecTransformId.xmlSecTransformXPointer
    xmlData := [exPointerData]
    here := exTransformNode }


/-- The context of an evaluation before the namespaces are registered: the one
libxml built for the dialect, with the function `here`, the `here` node and
`xptr` set when `hereNode` is not null; `none` when libxml built none. -/
def baseContext (lib : LibXml) (doc : Option Nat) (hereNode : xmlNodePtr)
    (xpathType : xmlSecXPathType) : Option xmlXPathContext :=
  let newCtx : Option xmlXPathContext :=
    match xpathType with
    | xmlSecXPathType.xmlSecXPathTypeXPath => lib.xmlXPathNewContext doc
    | xmlSecXPathType.xmlSecXPathTypeXPath2 => lib.xmlXPathNewContext doc
    | xmlSecXPathType.xmlSecXPathTypeXPointer =>
      lib.xmlXPtrNewContext doc (lib.xmlDocGetRootElement doc) NULL
  newCtx.map (fun ctx0 =>
    if hereNode.isNull = false then
      { ctx0 with funcs := "here" :: ctx0.funcs, here := hereNode, xptr := 1 }
    else ctx0)

/-- The descriptor `exScoped` before its namespaces are read. -/
def exUnscoped : xmlSecXPathData :=
  { expr := some "//b", nsList := none, nsListSize := 0,
    xpathType := xmlSecXPathType.xmlSecXPathTypeXPath2,
    xpath2Type := xmlSecXPath2TransformType.xmlSecXPathTransformIntersect }

/-- The context that `exLib` builds for the document at the address `100`. -/
def exContext : xmlXPathContext :=
  { doc := some 100, pointer := false, here := NULL, xptr := 0, funcs := [], nsReg := [] }

/-- An evaluator that refuses to register the prefix `y`. -/
def exLibNoY : LibXml :=
  { exLib with registerNsStatus := fun _ p _ => if p = "y" then -1 else 0 }

/-- A descriptor as `xmlSecXPathDataReadNsList` leaves it for the element `i` of
`<r xmlns:x="urn:1" xmlns:y="urn:y"><i xmlns:x="urn:2"/></r>`. -/
def exScoped : xmlSecXPathData :=
  (xmlSecXPathDataReadNsList 16 exUnscoped exI).2.2

/-- A descriptor of the dialect `xpathType` as `xmlSecXPathDataCreate` has it
before it reads the node. -/
def exFresh (xpathType : xmlSecXPathType) : xmlSecXPathData :=
  { expr := none, nsList := none, nsListSize := 0, xpathType := xpathType,
    xpath2Type := xmlSecXPath2TransformType.xmlSecXPathTransformIntersect }

/-- A descriptor whose array holds a default namespace and the prefix `x`. -/
def exDefaultNs : xmlSecXPathData :=
  { expr := some "//b", nsList := some [none, some "urn:d", some "x", some "urn:2"],
    nsListSize := 4, xpathType := xmlSecXPathType.xmlSecXPathTypeXPath2,
    xpath2Type := xmlSecXPath2TransformType.xmlSecXPathTransformIntersect }

/-! ## What `xmlSecNodeSetDestroy` hands back -/

deriving instance DecidableEq for HeapEvent

/-- The addresses of the records released by `xmlFree`, in the order of the
events. -/
def freedRecords : List HeapEvent → List Nat
  | [] => []
  | HeapEvent.xmlFree p :: rest => p :: freedRecords rest
  | HeapEvent.xmlXPathFreeNodeSet _ :: rest => freedRecords rest

/-- The raw collections released by `xmlXPathFreeNodeSet`, in the order of the
events. -/
def freedCollections : List HeapEvent → List xmlNodeSet
  | [] => []
  | HeapEvent.xmlFree _ :: rest => freedCollections rest
  | HeapEvent.xmlXPathFreeNodeSet nodes :: rest => nodes :: freedCollections rest

/-- The raw collection of the record at `q`, when it has one. -/
def rawOf (h : Heap) (q : Nat) : List xmlNodeSet :=
  match (h.read q).bind (fun c => c.nodes) with
  | some nodes => [nodes]
  | none => []

/-- The nested record of the record at `q`, when it has one. -/
def childOf (h : Heap) (q : Nat) : Option Nat :=
  (h.read q).bind (fun c => c.children)

/-- What a round of the loop of `xmlSecNodeSetDestroy` is to release for the
member `q`, in this order: the raw collection of `q`; for a nested record its
raw collection and the record; and the record `q`. -/
def releasesOf (h : Heap) (q : Nat) : List HeapEvent :=
  (rawOf h q).map HeapEvent.xmlXPathFreeNodeSet ++
    (match childOf h q with
      | some m => (rawOf h m).map HeapEvent.xmlXPathFreeNodeSet ++ [HeapEvent.xmlFree m]
      | none => []) ++
    [HeapEvent.xmlFree q]

/-- A nested record that is a ring of its own without a nested record: what
`xmlSecNodeSetAddList` hangs below a wrapper for a single node set. -/
def singletonChild (h : Heap) (m : Nat) : Prop :=
  ∃ mc, h.read m = some mc ∧ mc.next = some m ∧ mc.children = none

/-- The members `ms` form a ring, and each nested record lies outside the
ring, is a ring of its own without a nested record, and hangs below one member
only. -/
def NestedRing (h : Heap) (ms : List Nat) : Prop :=
  IsRing h ms ∧
    (∀ q ∈ ms, ∀ m, childOf h q = some m → m ∉ ms ∧ singletonChild h m) ∧
    ∀ q ∈ ms, ∀ q1 ∈ ms, ∀ m, childOf h q = some m → childOf h q1 = some m → q = q1

/-- The records that `xmlSecNodeSetDestroy` is to release for the ring `ms`: the
members and their nested records. -/
def recordsOf (h : Heap) (ms : List Nat) : List Nat :=
  ms.flatMap (fun q => (childOf h q).toList ++ [q])

/-! ## The walk called with pointers that may be null -/

/-- The function `xmlSecNodeSetWalk(nset, walkFunc, data)` called with a pointer
`walkFunc` that may be null (`none`): the assertions
`xmlSecAssert2(nset != NULL, -1)` and `xmlSecAssert2(walkFunc != NULL, -1)`, then
the body. -/
def xmlSecNodeSetWalkPtr {σ : Type} (h : Heap)
    (xmlSearchNs : Option Nat → xmlNodePtr → Option String → xmlNodePtr)
    (mem : Nat → xmlTreePtr) (walkFunc : Option (xmlSecNodeSetWalkCallback σ)) (fuel : Nat)
    (nset : Option Nat) (data : σ) : Option (Int × σ) :=
  match nset, walkFunc with
  | none, _ => some (-1, data)
  | some _, none => some (-1, data)
  | some p, some f => xmlSecNodeSetWalk h xmlSearchNs mem f fuel (some p) data

/-! ## The chain of a transform in memory -/

/-- The addresses of the records of the chain of descriptors that starts at
`p`, in `next` order; `none` when a record of the chain is not there, or the
chain is longer than `fuel`. -/
def chainCells (h : DataHeap) : Nat → Option Nat → Option (List Nat)
  | _, none => some []
  | 0, some _ => none
  | fuel + 1, some p =>
    match h.read p with
    | none => none
    | some c => (chainCells h fuel c.next).map (fun rest => p :: rest)

/-- The transform as the execute functions read it: its identifier, the
descriptors of the chain that `xmlData` points to, and its `here` node. -/
def loadTransform (h : DataHeap) (fuel : Nat) (t : xmlSecXmlTransformCell) :
    Option xmlSecXmlTransform :=
  (chainAt h fuel t.xmlData).map (fun l => { id := t.id, xmlData := l, here := t.here })

/-! ## `src/io.c`: initialisation -/

/-- The function `xmlSecIOInit()`, as far as the static variables of `io.c` go:
`xmlNanoHTTPInit` and `xmlNanoFTPInit` of libxml do not touch them. -/
def xmlSecIOInit (cfg : DefaultInput) (s : InputCallbacks) : Option InputCallbacks :=
  xmlSecRegisterDefaultInputCallbacks cfg s

/-- The function `xmlSecIOShutdown()`, as far as the static variables of `io.c`
go. -/
def xmlSecIOShutdown (s : InputCallbacks) : Option InputCallbacks :=
  xmlSecCleanupInputCallbacks s

/-- The states of the registry that the program can get to from the state
`s0`, by the functions of `io.c` that write the static variables. -/
inductive ReachableFrom (cfg : DefaultInput) (s0 : InputCallbacks) : InputCallbacks → Prop where
  | here : ReachableFrom cfg s0 s0
  | register {s s1 : InputCallbacks} {ret : Int} (matchFunc openFunc readFunc closeFunc :
      Option Nat) : ReachableFrom cfg s0 s →
      xmlSecRegisterInputCallbacks s matchFunc openFunc readFunc closeFunc = some (ret, s1) →
      ReachableFrom cfg s0 s1
  | registerDefault {s s1 : InputCallbacks} : ReachableFrom cfg s0 s →
      xmlSecRegisterDefaultInputCallbacks cfg s = some s1 → ReachableFrom cfg s0 s1
  | ioInit {s s1 : InputCallbacks} : ReachableFrom cfg s0 s →
      xmlSecIOInit cfg s = some s1 → ReachableFrom cfg s0 s1
  | cleanup {s s1 : InputCallbacks} : ReachableFrom cfg s0 s →
      xmlSecCleanupInputCallbacks s = some s1 → ReachableFrom cfg s0 s1
  | ioShutdown {s s1 : InputCallbacks} : ReachableFrom cfg s0 s →
      xmlSecIOShutdown s = some s1 → ReachableFrom cfg s0 s1

/-! ## The buffer of the wrapped expression -/

/-- An evaluator whose every expression evaluates to a value that is no node
set: the object it returns has no `nodesetval`. -/
def exLibScalar : LibXml :=
  { exLib with
    xmlXPathEvalExpression := fun _ _ => some { nodesetval := none }
    xmlXPtrEval := fun _ _ => some { nodesetval := none } }

/-- A ring of three members on the document `<a><b><c/></b><!--x--></a>`: the
head at `0` with the raw collection `{a}`, a `List` wrapper at `1` below which
hangs the record at `3`, with the raw collection `{b}`, and a member at `2`
without raw collection. -/
def exNested : Heap :=
  { cells :=
      [some { xmlSecNodeSet.zero with
          nodes := some [exA], doc := some 100, next := some 1, prev := some 2 },
       some { xmlSecNodeSet.zero with
          doc := some 100, type := xmlSecNodeSetList, next := some 2, prev := some 0,
          children := some 3 },
       some { xmlSecNodeSet.zero with
          doc := some 100, type := xmlSecNodeSetTree, next := some 0, prev := some 1 },
       some { xmlSecNodeSet.zero with
          nodes := some [exB], doc := some 100, type := xmlSecNodeSetTree, next := some 3,
          prev := some 3 }]
    avail := 4
    log := [] }

/-- A record of the variant `type` without raw collection and without
document, a ring of its own at the address `0`. -/
def exBareCell (type : xmlSecNodeSetType) : xmlSecNodeSet :=
  { xmlSecNodeSet.zero with type := type, next := some 0, prev := some 0 }

/-- The record `exBareCell type`, alone in the heap. -/
def exBare (type : xmlSecNodeSetType) : Heap :=
  { cells := [some (exBareCell type)]
    avail := 4
    log := [] }

/-- A second-generation transform whose chain is the two descriptors at `0`
and `1`. -/
def exStored : xmlSecXmlTransformCell :=
  { id := xmlSecTransformId.xmlSecTransformXPath2, xmlData := some 0, here := NULL }

/-- The memory with the chain of `exStored`. -/
def exData2 : DataHeap :=
  { cells :=
      [some { data := exFilter "//b" xmlSecXPath2TransformType.xmlSecXPathTransformIntersect,
              next := some 1 },
       some { data := exFilter "//c" xmlSecXPath2TransformType.xmlSecXPathTransformUnion,
              next := none }]
    avail := 16 }

/-! ## The records that a walk reaches -/

/-- The records of a chain and what hangs below them: each record of the
chain, the records of its chain of attributes and those of its chain of
children. -/
def chainRecords : xmlTreePtr → List xmlNodePtr
  | xmlTreePtr.NULL => []
  | xmlTreePtr.node a t p d x n pr ch next =>
    xmlNodePtr.node a t p d x n :: (chainRecords pr ++ chainRecords ch ++ chainRecords next)

/-- The record a walk starts at and what hangs below it.  The records that
follow it in its chain are not part of the walk. -/
def recordsBelow : xmlTreePtr → List xmlNodePtr
  | xmlTreePtr.NULL => []
  | xmlTreePtr.node a t p d x n pr ch _ =>
    xmlNodePtr.node a t p d x n :: (chainRecords pr ++ chainRecords ch)

/-- The records are distinct records of a document: no two have the same
address, none is a namespace record (these hang off `nsDef` only), and the
declarations on an element among them and on its ancestors are distinct
records. -/
def DistinctRecords (recs : List xmlNodePtr) : Prop :=
  (recs.map xmlNodePtr.addr).Nodup ∧ (∀ r ∈ recs, r.type ≠ XML_NAMESPACE_DECL) ∧
    ∀ r ∈ recs, r.type = XML_ELEMENT_NODE → ((scopeDecls r).map xmlNodePtr.addr).Nodup

/-- The test `node->type == XML_NAMESPACE_DECL`. -/
def isNamespaceNode (n : xmlNodePtr) : Bool := decide (n.type = XML_NAMESPACE_DECL)

/-- No node is met twice by the walk of a ring with the head `s`, told of the
head and the document alone.  For a walk over the whole document: the records
of the document are distinct.  For a `Normal` head: the entries of the raw
collection are distinct nodes.  For a `Tree` or `TreeWithoutComments` head: the
records at and below the entries that are no namespace nodes are distinct, so
that these entries are distinct and none lies below another; the entries that
are namespace nodes are distinct nodes; and the element of none of them lies at
or below another entry. -/
def ReachedOnce (mem : Nat → xmlTreePtr) (s : xmlSecNodeSet) : Prop :=
  let whole : Prop :=
    match s.doc with
    | none => True
    | some d => DistinctRecords (recordsBelow (mem d))
  match s.nodes with
  | none => whole
  | some tab =>
    match s.type with
    | xmlSecNodeSetNormal => (tab.map (fun n => visitKey (n, xmlSecGetParent n))).Nodup
    | xmlSecNodeSetTree
    | xmlSecNodeSetTreeWithoutComments =>
      DistinctRecords
        ((tab.filter (fun n => !isNamespaceNode n)).flatMap
          (fun n => recordsBelow (cursor mem n))) ∧
      ((tab.filter isNamespaceNode).map (fun n => visitKey (n, xmlSecGetParent n))).Nodup ∧
      ∀ n ∈ tab.filter isNamespaceNode, (xmlSecGetParent n).addr ∉
        ((tab.filter (fun n => !isNamespaceNode n)).flatMap
          (fun n => recordsBelow (cursor mem n))).map xmlNodePtr.addr
    | _ => whole

instance (recs : List xmlNodePtr) : Decidable (DistinctRecords recs) := by
  unfold DistinctRecords
  infer_instance

instance (mem : Nat → xmlTreePtr) (s : xmlSecNodeSet) : Decidable (ReachedOnce mem s) := by
  unfold ReachedOnce
  cases s.nodes with
  | none =>
    cases s.doc with
    | none => exact isTrue trivial
    | some d => exact inferInstanceAs (Decidable (DistinctRecords (recordsBelow (mem d))))
  | some tab =>
    cases s.type <;> cases s.doc <;> dsimp only <;> infer_instance

/-- The document of `exR` and `exI` as a tree: the document at the address
`300`, its child `r` and the child `i` of `r`. -/
def exNsMem (a : Nat) : xmlTreePtr :=
  if a = 300 then
    xmlTreePtr.mk exR.parent xmlTreePtr.NULL
      (xmlTreePtr.mk exR xmlTreePtr.NULL
        (xmlTreePtr.mk exI xmlTreePtr.NULL xmlTreePtr.NULL xmlTreePtr.NULL) xmlTreePtr.NULL)
      xmlTreePtr.NULL
  else if a = 301 then
    xmlTreePtr.mk exR xmlTreePtr.NULL
      (xmlTreePtr.mk exI xmlTreePtr.NULL xmlTreePtr.NULL xmlTreePtr.NULL) xmlTreePtr.NULL
  else if a = 302 then xmlTreePtr.mk exI xmlTreePtr.NULL xmlTreePtr.NULL xmlTreePtr.NULL
  else xmlTreePtr.NULL

/-- A `Normal` set without raw collection over the document at `300`, a ring
of its own at the address `0`. -/
def exNsCell : xmlSecNodeSet :=
  { xmlSecNodeSet.zero with doc := some 300, next := some 0, prev := some 0 }

/-- The record `exNsCell`, alone in the heap. -/
def exNsHeap : Heap :=
  { cells := [some exNsCell]
    avail := 4
    log := [] }

/-! ## Reading a descriptor, with the size of the buffer -/

/-- C1. Vacuous truth: on an absent node set `xmlSecNodeSetContains` answers `1`
for every (non-null) node and every structural parent, with any fuel that
allows the call at all. -/
theorem contains_absent (h : Heap) (fuel : Nat) (a : Nat) (t : xmlElementType)
    (p : xmlNodePtr) (d : List xmlNs) (x : Option String) (n : xmlNodePtr)
    (parent : xmlNodePtr) :
    xmlSecNodeSetContains h (fuel + 1) none (xmlNodePtr.node a t p d x n) parent = some 1 := by
  simp [xmlSecNodeSetContains, xmlNodePtr.isNull]

/-! ### The single-variant test without fuel -/

theorem oneContains_flat (h : Heap) (p : Nat) (s : xmlSecNodeSet) (hread : h.read p = some s)
    (hty : s.type ≠ xmlSecNodeSetList) :
    ∀ (parent node : xmlNodePtr), node.isNull = false →
      ∀ fuel, (parentChain parent).length < fuel →
        xmlSecNodeSetOneContains h fuel (some p) node parent =
          some (oneContainsFlat s.type s.nodes node parent) := by
  intro parent
  induction parent with
  | NULL =>
    intro node hnode fuel hfuel
    cases fuel with
    | zero => simp at hfuel
    | succ f =>
      simp only [xmlSecNodeSetOneContains, hnode, hread]
      cases hs : s.type <;> simp_all [oneContainsFlat, treeWalk, xmlNodePtr.isNull] <;>
        split_ifs <;> simp_all
  | node a t p d x n ihp _ =>
    intro node hnode fuel hfuel
    cases fuel with
    | zero => simp at hfuel
    | succ f =>
      have hf : (parentChain p).length < f := by
        simp [parentChain] at hfuel; omega
      have ih := ihp (xmlNodePtr.node a t p d x n) rfl f hf
      simp only [xmlSecNodeSetOneContains, hnode, hread]
      cases hs : s.type <;>
        simp_all [oneContainsFlat, treeWalk, xmlNodePtr.isNull, xmlNodePtr.type, xmlNodePtr.parent] <;>
        split_ifs <;> simp_all

theorem xmlXPathNodeSetContains_bool (cur : xmlNodeSet) (val : xmlNodePtr) :
    xmlXPathNodeSetContains cur val = 0 ∨ xmlXPathNodeSetContains cur val = 1 := by
  unfold xmlXPathNodeSetContains
  split_ifs <;> simp

theorem in_nodes_set_bool (nodes : Option xmlNodeSet) (node parent : xmlNodePtr) :
    in_nodes_set nodes node parent = 0 ∨ in_nodes_set nodes node parent = 1 := by
  unfold in_nodes_set
  cases nodes with
  | none => simp
  | some tab =>
    simp only
    split_ifs
    · exact xmlXPathNodeSetContains_bool _ _
    · exact xmlXPathNodeSetContains_bool _ _

theorem in_nodes_set_element (S : xmlNodeSet) (a : Nat) (p : xmlNodePtr) (d : List xmlNs)
    (x : Option String) (n q : xmlNodePtr) :
    in_nodes_set (some S) (xmlNodePtr.node a XML_ELEMENT_NODE p d x n) q =
      xmlXPathNodeSetContains S (xmlNodePtr.node a XML_ELEMENT_NODE p d x n) := by
  simp [in_nodes_set, xmlNodePtr.type]

theorem treeWalk_invert (nodes : Option xmlNodeSet) :
    ∀ (parent node : xmlNodePtr),
      treeWalk nodes 0 1 node parent = cNot (treeWalk nodes 1 0 node parent) := by
  intro parent
  induction parent with
  | NULL => intro node; simp only [treeWalk]; split_ifs <;> simp [cNot]
  | node a t p d x n ihp _ =>
    intro node
    simp only [treeWalk]
    split_ifs
    · simp [cNot]
    · exact ihp _
    · simp [cNot]

theorem treeWalk_bool (nodes : Option xmlNodeSet) :
    ∀ (parent node : xmlNodePtr),
      treeWalk nodes 1 0 node parent = 0 ∨ treeWalk nodes 1 0 node parent = 1 := by
  intro parent
  induction parent with
  | NULL => intro node; simp only [treeWalk]; split_ifs <;> simp
  | node a t p d x n ihp _ =>
    intro node
    simp only [treeWalk]
    split_ifs
    · simp
    · exact ihp _
    · simp

theorem treeWalk_hit_iff (S : xmlNodeSet) :
    ∀ (parent node : xmlNodePtr),
      treeWalk (some S) 1 0 node parent ≠ 0 ↔
        (in_nodes_set (some S) node parent ≠ 0 ∨ ancestorIncluded S parent) := by
  intro parent
  induction parent with
  | NULL =>
    intro node
    simp only [treeWalk, ancestorIncluded, parentChain]
    split_ifs with hin
    · simp [hin]
    · simp [hin]; intro k hk hk0; omega
  | node a t p d x n ihp _ =>
    intro node
    simp only [treeWalk]
    split_ifs with hin ht
    · simp [hin]
    · subst ht
      rw [ihp]
      rw [in_nodes_set_element]
      have hin0 : in_nodes_set (some S) node (xmlNodePtr.node a XML_ELEMENT_NODE p d x n) = 0 := by
        simpa using hin
      simp only [hin0, ne_eq, not_true_eq_false, false_or]
      constructor
      · rintro (h1 | ⟨k, hk1, hk2, hall, hmem⟩)
        · refine ⟨1, le_refl _, by simp [parentChain], ?_, ?_⟩
          · simp [parentChain, xmlNodePtr.type]
          · simpa [parentChain] using h1
        · refine ⟨k + 1, by omega, by simp [parentChain]; omega, ?_, ?_⟩
          · intro r hr
            simp only [parentChain, List.take_succ_cons, List.mem_cons] at hr
            rcases hr with hr | hr
            · subst hr; rfl
            · exact hall r hr
          · obtain ⟨j, rfl⟩ : ∃ j, k = j + 1 := ⟨k - 1, by omega⟩
            simpa [parentChain] using hmem
      · rintro ⟨k, hk1, hk2, hall, hmem⟩
        obtain ⟨j, rfl⟩ : ∃ j, k = j + 1 := ⟨k - 1, by omega⟩
        cases j with
        | zero => left; simpa [parentChain] using hmem
        | succ i =>
          right
          refine ⟨i + 1, by omega, by simp [parentChain] at hk2; omega, ?_, ?_⟩
          · intro r hr
            apply hall
            simp only [parentChain, List.take_succ_cons, List.mem_cons]
            right; exact hr
          · simpa [parentChain] using hmem
    · have hin0 : in_nodes_set (some S) node (xmlNodePtr.node a t p d x n) = 0 := by
        simpa using hin
      simp only [hin0, ne_eq, not_true_eq_false, false_or, false_iff]
      rintro ⟨k, hk1, hk2, hall, hmem⟩
      apply ht
      have := hall (xmlNodePtr.node a t p d x n) (by
        obtain ⟨j, rfl⟩ : ∃ j, k = j + 1 := ⟨k - 1, by omega⟩
        simp [parentChain])
      simpa [xmlNodePtr.type] using this


/-- C3. Tree inclusion: for a node set of variant `Tree` with raw collection
`S`, a node is contained if and only if it is a raw member, or some structural
parent `p_k` is a raw member with `p_1 .. p_k` all element nodes.  The test
returns for every fuel above the length of the parent chain. -/
theorem tree_inclusion (h : Heap) (p : Nat) (s : xmlSecNodeSet) (S : xmlNodeSet)
    (hread : h.read p = some s) (htype : s.type = xmlSecNodeSetTree)
    (hnodes : s.nodes = some S) (node parent : xmlNodePtr) (hnode : node.isNull = false)
    (fuel : Nat) (hfuel : (parentChain parent).length < fuel) :
    ∃ r, xmlSecNodeSetOneContains h fuel (some p) node parent = some r ∧
      (r ≠ 0 ↔ (in_nodes_set (some S) node parent ≠ 0 ∨ ancestorIncluded S parent)) := by
  refine ⟨_, oneContains_flat h p s hread (by simp [htype]) parent node hnode fuel hfuel, ?_⟩
  rw [htype, hnodes]
  exact treeWalk_hit_iff S parent node

/-- C3, instance: in `<a><b><c/></b></a>` with `S = {a}` the `Tree` variant
contains `c` (through `b` and `a`), and the test evaluates to `1` on `a`, `b`
and `c`. -/
theorem tree_inclusion_witness :
    ((exHeap [exA]).read 2 = some (exCell 2 xmlSecNodeSetTree [exA]) ∧
      (parentChain exB).length < 4) ∧
    (∃ r, xmlSecNodeSetOneContains (exHeap [exA]) 4 (some 2) exC exB = some r ∧
      (r ≠ 0 ↔ (in_nodes_set (some [exA]) exC exB ≠ 0 ∨ ancestorIncluded [exA] exB))) ∧
    xmlSecNodeSetOneContains (exHeap [exA]) 4 (some 2) exA exDoc = some 1 ∧
    xmlSecNodeSetOneContains (exHeap [exA]) 4 (some 2) exB exA = some 1 ∧
    xmlSecNodeSetOneContains (exHeap [exA]) 4 (some 2) exC exB = some 1 :=
  ⟨⟨rfl, by decide⟩,
    tree_inclusion (exHeap [exA]) 2 (exCell 2 xmlSecNodeSetTree [exA]) [exA] rfl rfl rfl
      exC exB rfl 4 (by decide),
    by decide, by decide, by decide⟩

/-- C4. Comment exclusion: a comment node is never contained in a
`TreeWithoutComments` or `TreeWithoutCommentsInvert` node set, whatever the raw
collection and the parents are; a `Tree` node set contains a comment node that
is a raw member. -/
theorem comment_exclusion (h : Heap) (p : Nat) (s : xmlSecNodeSet) (hread : h.read p = some s)
    (node parent : xmlNodePtr) (hnode : node.isNull = false)
    (hcomment : node.type = XML_COMMENT_NODE) (fuel : Nat) :
    (s.type = xmlSecNodeSetTreeWithoutComments ∨
        s.type = xmlSecNodeSetTreeWithoutCommentsInvert →
      xmlSecNodeSetOneContains h (fuel + 1) (some p) node parent = some 0) ∧
    (s.type = xmlSecNodeSetTree → in_nodes_set s.nodes node parent ≠ 0 →
      xmlSecNodeSetOneContains h (fuel + 1) (some p) node parent = some 1) := by
  constructor
  · intro ht
    simp only [xmlSecNodeSetOneContains, hnode, hread]
    simp [ht, hcomment]
  · intro ht hin
    simp only [xmlSecNodeSetOneContains, hnode, hread]
    simp [ht, hin]

/-- C4, instance: with the raw collection `{a, comment}` the comment inside `a`
is contained by neither `WithoutComments` variant and is contained by `Tree`. -/
theorem comment_exclusion_witness :
    ((exHeap [exA, exComment]).read 3 =
        some (exCell 3 xmlSecNodeSetTreeWithoutComments [exA, exComment]) ∧
      exComment.isNull = false ∧ exComment.type = XML_COMMENT_NODE) ∧
    xmlSecNodeSetOneContains (exHeap [exA, exComment]) 1 (some 3) exComment exA = some 0 ∧
    xmlSecNodeSetOneContains (exHeap [exA, exComment]) 1 (some 5) exComment exA = some 0 ∧
    xmlSecNodeSetOneContains (exHeap [exA, exComment]) 1 (some 2) exComment exA = some 1 :=
  ⟨⟨rfl, rfl, rfl⟩,
    (comment_exclusion (exHeap [exA, exComment]) 3 _ rfl exComment exA rfl rfl 0).1
      (Or.inl rfl),
    (comment_exclusion (exHeap [exA, exComment]) 5 _ rfl exComment exA rfl rfl 0).1
      (Or.inr rfl),
    (comment_exclusion (exHeap [exA, exComment]) 2 _ rfl exComment exA rfl rfl 0).2
      rfl (by decide)⟩

/-- C5. Inverted variants are exact complements: over the same raw collection,
for every node and parent chain, the test of `Invert` is the negation of the
test of `Normal`, and the test of `TreeInvert` is the negation of the test of
`Tree`; both tests return, with a value that is `0` or `1`. -/
theorem invert_complement (h : Heap) (p q : Nat) (sp sq : xmlSecNodeSet)
    (hp : h.read p = some sp) (hq : h.read q = some sq) (hnodes : sp.nodes = sq.nodes)
    (htypes : (sq.type = xmlSecNodeSetNormal ∧ sp.type = xmlSecNodeSetInvert) ∨
      (sq.type = xmlSecNodeSetTree ∧ sp.type = xmlSecNodeSetTreeInvert))
    (node parent : xmlNodePtr) (hnode : node.isNull = false)
    (fuel : Nat) (hfuel : (parentChain parent).length < fuel) :
    ∃ r, (r = 0 ∨ r = 1) ∧
      xmlSecNodeSetOneContains h fuel (some q) node parent = some r ∧
      xmlSecNodeSetOneContains h fuel (some p) node parent = some (cNot r) := by
  rcases htypes with ⟨hq1, hp1⟩ | ⟨hq1, hp1⟩
  · refine ⟨_, ?_, oneContains_flat h q sq hq (by simp [hq1]) parent node hnode fuel hfuel, ?_⟩
    · rw [hq1]; exact in_nodes_set_bool _ _ _
    · rw [oneContains_flat h p sp hp (by simp [hp1]) parent node hnode fuel hfuel, hp1, hq1,
        hnodes]
      rfl
  · refine ⟨_, ?_, oneContains_flat h q sq hq (by simp [hq1]) parent node hnode fuel hfuel, ?_⟩
    · rw [hq1]; exact treeWalk_bool _ _ _
    · rw [oneContains_flat h p sp hp (by simp [hp1]) parent node hnode fuel hfuel, hp1, hq1,
        hnodes]
      simp only [oneContainsFlat]
      rw [treeWalk_invert]

/-- C5, instance: in `<a><b><c/></b></a>` with `S = {a}` the `TreeInvert` variant
contains none of `a`, `b`, `c`, while `Tree` contains `c`. -/
theorem invert_complement_witness :
    ((exHeap [exA]).read 4 = some (exCell 4 xmlSecNodeSetTreeInvert [exA]) ∧
      (exHeap [exA]).read 2 = some (exCell 2 xmlSecNodeSetTree [exA]) ∧
      (parentChain exB).length < 4) ∧
    (∃ r, (r = 0 ∨ r = 1) ∧
      xmlSecNodeSetOneContains (exHeap [exA]) 4 (some 2) exC exB = some r ∧
      xmlSecNodeSetOneContains (exHeap [exA]) 4 (some 4) exC exB = some (cNot r)) ∧
    xmlSecNodeSetOneContains (exHeap [exA]) 4 (some 4) exA exDoc = some 0 ∧
    xmlSecNodeSetOneContains (exHeap [exA]) 4 (some 4) exB exA = some 0 ∧
    xmlSecNodeSetOneContains (exHeap [exA]) 4 (some 4) exC exB = some 0 :=
  ⟨⟨rfl, rfl, by decide⟩,
    invert_complement (exHeap [exA]) 4 2 _ _ rfl rfl rfl (Or.inr ⟨rfl, rfl⟩) exC exB rfl 4
      (by decide),
    by decide, by decide, by decide⟩

/-- C6, as stated, fails on a comment node: with `S = {a}` the comment inside `a`
is contained neither by `TreeWithoutComments` nor by
`TreeWithoutCommentsInvert`, so the second is not the negation of the first. -/
theorem without_comments_invert_counterexample :
    xmlSecNodeSetOneContains (exHeap [exA]) 4 (some 3) exComment exA = some 0 ∧
    xmlSecNodeSetOneContains (exHeap [exA]) 4 (some 5) exComment exA = some 0 ∧
    ¬ ∃ r, xmlSecNodeSetOneContains (exHeap [exA]) 4 (some 3) exComment exA = some r ∧
      xmlSecNodeSetOneContains (exHeap [exA]) 4 (some 5) exComment exA = some (cNot r) := by
  refine ⟨by decide, by decide, ?_⟩
  rintro ⟨r, h1, h2⟩
  have e1 : xmlSecNodeSetOneContains (exHeap [exA]) 4 (some 3) exComment exA = some 0 := by
    decide
  have e2 : xmlSecNodeSetOneContains (exHeap [exA]) 4 (some 5) exComment exA = some 0 := by
    decide
  rw [e1] at h1
  rw [e2] at h2
  have hr : r = 0 := by simpa using h1.symm
  subst hr
  simp [cNot] at h2

/-- C6, amended. On every node that is not a comment,
`TreeWithoutCommentsInvert` is the complement of `TreeWithoutComments` over the
same raw collection `S`: it contains the node unless the node or an
element-chain ancestor is a raw member.  A comment node is contained by
neither. -/
theorem without_comments_invert_complement (h : Heap) (p q : Nat) (sp sq : xmlSecNodeSet)
    (S : xmlNodeSet) (hp : h.read p = some sp) (hq : h.read q = some sq)
    (hpn : sp.nodes = some S) (hqn : sq.nodes = some S)
    (hqt : sq.type = xmlSecNodeSetTreeWithoutComments)
    (hpt : sp.type = xmlSecNodeSetTreeWithoutCommentsInvert)
    (node parent : xmlNodePtr) (hnode : node.isNull = false)
    (fuel : Nat) (hfuel : (parentChain parent).length < fuel) :
    (node.type ≠ XML_COMMENT_NODE →
      ∃ r, (r = 0 ∨ r = 1) ∧
        xmlSecNodeSetOneContains h fuel (some q) node parent = some r ∧
        xmlSecNodeSetOneContains h fuel (some p) node parent = some (cNot r) ∧
        (cNot r ≠ 0 ↔ ¬ (in_nodes_set (some S) node parent ≠ 0 ∨ ancestorIncluded S parent))) ∧
    (node.type = XML_COMMENT_NODE →
      xmlSecNodeSetOneContains h fuel (some q) node parent = some 0 ∧
      xmlSecNodeSetOneContains h fuel (some p) node parent = some 0) := by
  have e1 := oneContains_flat h q sq hq (by simp [hqt]) parent node hnode fuel hfuel
  have e2 := oneContains_flat h p sp hp (by simp [hpt]) parent node hnode fuel hfuel
  rw [hqt, hqn] at e1
  rw [hpt, hpn] at e2
  constructor
  · intro hc
    refine ⟨treeWalk (some S) 1 0 node parent, treeWalk_bool _ _ _, ?_, ?_, ?_⟩
    · simpa [oneContainsFlat, hc] using e1
    · simpa [oneContainsFlat, hc, treeWalk_invert] using e2
    · rw [← treeWalk_hit_iff S parent node]
      rcases treeWalk_bool (some S) parent node with h0 | h0 <;> simp [h0, cNot]
  · intro hc
    exact ⟨by simpa [oneContainsFlat, hc] using e1, by simpa [oneContainsFlat, hc] using e2⟩

/-- C6, amended, instance: with `S = {a}`, on the element `c` the two variants
are complements, and on the comment both answer `0`. -/
theorem without_comments_invert_complement_witness :
    ((exHeap [exA]).read 5 = some (exCell 5 xmlSecNodeSetTreeWithoutCommentsInvert [exA]) ∧
      (exHeap [exA]).read 3 = some (exCell 3 xmlSecNodeSetTreeWithoutComments [exA]) ∧
      exC.type ≠ XML_COMMENT_NODE ∧ (parentChain exB).length < 4) ∧
    (∃ r, (r = 0 ∨ r = 1) ∧
      xmlSecNodeSetOneContains (exHeap [exA]) 4 (some 3) exC exB = some r ∧
      xmlSecNodeSetOneContains (exHeap [exA]) 4 (some 5) exC exB = some (cNot r) ∧
      (cNot r ≠ 0 ↔ ¬ (in_nodes_set (some [exA]) exC exB ≠ 0 ∨ ancestorIncluded [exA] exB))) ∧
    (xmlSecNodeSetOneContains (exHeap [exA]) 4 (some 3) exComment exA = some 0 ∧
      xmlSecNodeSetOneContains (exHeap [exA]) 4 (some 5) exComment exA = some 0) :=
  ⟨⟨rfl, rfl, by decide, by decide⟩,
    (without_comments_invert_complement (exHeap [exA]) 5 3 _ _ [exA] rfl rfl rfl rfl rfl rfl
      exC exB rfl 4 (by decide)).1 (by decide),
    (without_comments_invert_complement (exHeap [exA]) 5 3 _ _ [exA] rfl rfl rfl rfl rfl rfl
      exComment exA rfl 4 (by decide)).2 rfl⟩


/-! ### The loop of `xmlSecNodeSetContains` -/

theorem loop_returns (h : Heap) (head : Nat) (node parent : xmlNodePtr) :
    ∀ (ms : List Nat) (steps : List (xmlSecNodeSetOp × Int)) (a : Nat),
      nextChain h head (a :: ms) = true →
      List.Forall₂ (MemberStep h node parent) (a :: ms) steps →
      ∃ N, ∀ fuel, N ≤ fuel → ∀ status,
        xmlSecNodeSetContainsLoop h fuel head a status node parent =
          some (foldStatus steps status) := by
  intro ms
  induction ms with
  | nil =>
    intro steps a hchain hsteps
    cases hsteps with
    | cons hstep hrest =>
      cases hrest
      rename_i x
      obtain ⟨hop, N, hN⟩ := hstep
      simp only [nextChain, decide_eq_true_eq] at hchain
      cases hc : h.read a with
      | none => simp [hc] at hchain
      | some c =>
        simp only [hc, Option.map_some', Option.some.injEq] at hchain hop
        refine ⟨N + 1, ?_⟩
        intro fuel hfuel status
        obtain ⟨f, rfl⟩ : ∃ f, fuel = f + 1 := ⟨fuel - 1, by omega⟩
        have hone := hN f (by omega)
        simp only at hone
        obtain ⟨op, r⟩ := x
        simp only at hop hone
        simp only [xmlSecNodeSetContainsLoop, hc, hchain, hop]
        cases op <;> simp [foldStatus, hone] <;> split_ifs <;> simp_all
  | cons b rest ih =>
    intro steps a hchain hsteps
    cases hsteps with
    | cons hstep hrest =>
      rename_i x steps'
      obtain ⟨hop, N, hN⟩ := hstep
      simp only [nextChain, decide_eq_true_eq, Bool.and_eq_true] at hchain
      obtain ⟨⟨hnext, hne⟩, hchain'⟩ := hchain
      obtain ⟨N2, hN2⟩ := ih steps' b hchain' hrest
      cases hc : h.read a with
      | none => simp [hc] at hnext
      | some c =>
        simp only [hc, Option.map_some', Option.some.injEq] at hnext hop
        refine ⟨max N N2 + 1, ?_⟩
        intro fuel hfuel status
        obtain ⟨f, rfl⟩ : ∃ f, fuel = f + 1 := ⟨fuel - 1, by omega⟩
        have hone := hN f (by omega)
        have hloop := hN2 f (by omega)
        simp only at hone
        obtain ⟨op, r⟩ := x
        simp only at hop hone
        simp only [xmlSecNodeSetContainsLoop, hc, hnext, hop]
        cases op <;> simp [foldStatus, hone, hne, hloop] <;> split_ifs <;> simp_all

/-! ### Heap cells, `xmlSecNodeSetCreate` and `xmlSecNodeSetAdd` -/

namespace Heap

theorem read_lt {h : Heap} {p : Nat} {s : xmlSecNodeSet} (hr : h.read p = some s) :
    p < h.cells.length := by
  unfold read at hr
  by_contra hlt
  rw [List.getElem?_eq_none (by omega)] at hr
  simp at hr

theorem read_eq_some_iff {h : Heap} {p : Nat} {s : xmlSecNodeSet} :
    h.read p = some s ↔ h.cells[p]? = some (some s) := by
  unfold read
  constructor
  · intro hr
    split at hr
    · rename_i t heq; simp at hr; rw [heq, hr]
    · simp at hr
  · intro hr; rw [hr]

theorem read_write_same {h : Heap} {p : Nat} (s : xmlSecNodeSet) (hp : p < h.cells.length) :
    (h.write p s).read p = some s := by
  simp [read, write, List.getElem?_set, hp]

theorem read_write_other {h : Heap} {p q : Nat} (s : xmlSecNodeSet) (hne : q ≠ p) :
    (h.write p s).read q = h.read q := by
  simp [read, write, List.getElem?_set, Ne.symm hne]

theorem read_write {h : Heap} {p q : Nat} (s : xmlSecNodeSet) (hp : p < h.cells.length) :
    (h.write p s).read q = if q = p then some s else h.read q := by
  split_ifs with hq
  · subst hq; exact read_write_same s hp
  · exact read_write_other s hq

@[simp] theorem length_write (h : Heap) (p : Nat) (s : xmlSecNodeSet) :
    (h.write p s).cells.length = h.cells.length := by
  simp [write]

@[simp] theorem avail_write (h : Heap) (p : Nat) (s : xmlSecNodeSet) :
    (h.write p s).avail = h.avail := rfl

@[simp] theorem log_write (h : Heap) (p : Nat) (s : xmlSecNodeSet) :
    (h.write p s).log = h.log := rfl

end Heap

/-- What `xmlSecNodeSetCreate` does when memory is available: the new record sits
at the first unused address, points to itself both ways, and no other cell
changes. -/
theorem create_spec (h : Heap) (doc : Option Nat) (nodes : Option xmlNodeSet)
    (type : xmlSecNodeSetType) (havail : 0 < h.avail) :
    ∃ h1, xmlSecNodeSetCreate h doc nodes type = (h1, some h.cells.length) ∧
      h1.read h.cells.length = some { xmlSecNodeSet.zero with
        doc := doc, nodes := nodes, type := type, next := some h.cells.length,
        prev := some h.cells.length } ∧
      (∀ q, q ≠ h.cells.length → h1.read q = h.read q) ∧
      h1.cells.length = h.cells.length + 1 ∧ h1.avail + 1 = h.avail ∧ h1.log = h.log := by
  obtain ⟨n, hn⟩ : ∃ n, h.avail = n + 1 := ⟨h.avail - 1, by omega⟩
  have hc : xmlSecNodeSetCreate h doc nodes type =
      (Heap.write { h with cells := h.cells ++ [some xmlSecNodeSet.zero], avail := n }
        h.cells.length { xmlSecNodeSet.zero with
          doc := doc, nodes := nodes, type := type, next := some h.cells.length,
          prev := some h.cells.length }, some h.cells.length) := by
    simp only [xmlSecNodeSetCreate, Heap.xmlMalloc, hn]
  refine ⟨_, hc, ?_, ?_, ?_, ?_, ?_⟩
  · simp [Heap.read, Heap.write, xmlSecNodeSet.zero, List.getElem?_set]
  · intro q hq
    simp only [Heap.read, Heap.write, List.getElem?_set, List.length_append]
    rw [if_neg (Ne.symm hq)]
    by_cases hlt : q < h.cells.length
    · rw [List.getElem?_append_left hlt]
    · rw [List.getElem?_eq_none (by simp; omega), List.getElem?_eq_none (by omega)]
  · simp [Heap.write]
  · simp [Heap.write, hn]
  · simp [Heap.write]

theorem create_fails (h : Heap) (doc : Option Nat) (nodes : Option xmlNodeSet)
    (type : xmlSecNodeSetType) (havail : h.avail = 0) :
    xmlSecNodeSetCreate h doc nodes type = (h, none) := by
  simp [xmlSecNodeSetCreate, Heap.xmlMalloc, havail]

theorem add_spec (h : Heap) (n a last : Nat) (op : xmlSecNodeSetOp)
    (new0 anchor l : xmlSecNodeSet)
    (hn : h.read n = some new0) (hself : new0.next = some n)
    (ha : h.read a = some anchor) (hprev : anchor.prev = some last)
    (hl : h.read last = some l) (hna : n ≠ a) (hnl : n ≠ last) :
    ∃ h1, xmlSecNodeSetAdd h (some a) (some n) op = some (h1, some a) ∧
      (∀ q, h1.read q = (h.read q).map (addUpdate n a last op q)) ∧
      h1.cells.length = h.cells.length ∧ h1.avail = h.avail ∧ h1.log = h.log := by
  have hnlt := Heap.read_lt hn
  have halt := Heap.read_lt ha
  have hllt := Heap.read_lt hl
  by_cases hla : last = a
  · subst hla
    have hl1 : l = anchor := by rw [hl] at ha; exact Option.some.inj ha
    subst hl1
    cases hadd : xmlSecNodeSetAdd h (some last) (some n) op with
    | none =>
      exfalso
      simp only [xmlSecNodeSetAdd, hn, hself] at hadd
      simp [Heap.read_write, hnlt, halt, hna, Ne.symm hna, ha, hn, hprev, hl] at hadd
    | some res =>
      obtain ⟨h1, r⟩ := res
      simp only [xmlSecNodeSetAdd, hn, hself] at hadd
      simp [Heap.read_write, hnlt, halt, hna, Ne.symm hna, ha, hn, hprev, hl] at hadd
      obtain ⟨rfl, rfl⟩ := hadd
      refine ⟨_, rfl, ?_, ?_, ?_, ?_⟩
      · intro q
        simp only [Heap.read_write, Heap.length_write, hnlt, halt]
        by_cases hqa : q = last
        · subst hqa; simp [Ne.symm hna, ha, addUpdate, hprev]
        · by_cases hqn : q = n
          · subst hqn; simp [hqa, hn, addUpdate, hna]
          · simp only [hqa, hqn, if_false]
            cases hq : h.read q with
            | none => simp
            | some c => simp [addUpdate, hqa, hqn]
      · simp
      · simp
      · simp
  · cases hadd : xmlSecNodeSetAdd h (some a) (some n) op with
    | none =>
      exfalso
      simp only [xmlSecNodeSetAdd, hn, hself] at hadd
      simp [Heap.read_write, hnlt, halt, hllt, hna, Ne.symm hna, hnl, Ne.symm hnl, ha, hn,
        hprev, hl, hla, Ne.symm hla] at hadd
    | some res =>
      obtain ⟨h1, r⟩ := res
      simp only [xmlSecNodeSetAdd, hn, hself] at hadd
      simp [Heap.read_write, hnlt, halt, hllt, hna, Ne.symm hna, hnl, Ne.symm hnl, ha, hn,
        hprev, hl, hla, Ne.symm hla] at hadd
      obtain ⟨rfl, rfl⟩ := hadd
      refine ⟨_, rfl, ?_, ?_, ?_, ?_⟩
      · intro q
        simp only [Heap.read_write, Heap.length_write, hnlt, halt, hllt]
        by_cases hqa : q = a
        · subst hqa; simp [Ne.symm hna, ha, addUpdate, hprev, Ne.symm hla]
        · by_cases hqn : q = n
          · subst hqn; simp [hqa, hn, addUpdate, hnl]
          · by_cases hql : q = last
            · subst hql; simp [hqa, hqn, hl, addUpdate]
            · simp only [hqa, hqn, hql, if_false]
              cases hq : h.read q with
              | none => simp
              | some c => simp [addUpdate, hqa, hqn, hql]
      · simp
      · simp
      · simp

theorem add_absent (h : Heap) (n : Nat) (op : xmlSecNodeSetOp) (new0 : xmlSecNodeSet)
    (hn : h.read n = some new0) (hself : new0.next = some n) :
    xmlSecNodeSetAdd h none (some n) op = some (h.write n { new0 with op := op }, some n) := by
  simp [xmlSecNodeSetAdd, hn, hself]

theorem IsRing.at {h : Heap} {ms : List Nat} (hr : IsRing h ms) {i e : Nat}
    (he : ms[i]? = some e) :
    (h.read e).map (fun c => c.next) = some ms[succIdx ms.length i]? ∧
    (h.read e).map (fun c => c.prev) = some ms[predIdx ms.length i]? := by
  obtain ⟨hi, rfl⟩ := List.getElem?_eq_some.mp he
  have := hr.2.2 i hi
  rwa [List.getD_eq_getElem _ _ hi] at this

theorem IsRing.intro {h : Heap} {ms : List Nat} (hne : ms ≠ []) (hnd : ms.Nodup)
    (hat : ∀ i e, ms[i]? = some e →
      (h.read e).map (fun c => c.next) = some ms[succIdx ms.length i]? ∧
      (h.read e).map (fun c => c.prev) = some ms[predIdx ms.length i]?) :
    IsRing h ms := by
  refine ⟨hne, hnd, ?_⟩
  intro i hi
  rw [List.getD_eq_getElem _ _ hi]
  exact hat i _ (List.getElem?_eq_getElem hi)

theorem IsRing.length_pos {h : Heap} {ms : List Nat} (hr : IsRing h ms) : 0 < ms.length :=
  List.length_pos.mpr hr.1

theorem succIdx_lt {len i : Nat} (hlen : 0 < len) : succIdx len i < len := by
  unfold succIdx; split_ifs <;> omega

theorem predIdx_lt {len i : Nat} (hi : i < len) : predIdx len i < len := by
  unfold predIdx; split_ifs <;> omega

theorem predIdx_succIdx {len i : Nat} (hi : i < len) : predIdx len (succIdx len i) = i := by
  unfold predIdx succIdx
  by_cases h1 : i + 1 < len
  · simp [h1]
  · simp [h1]; omega

theorem succIdx_predIdx {len i : Nat} (hi : i < len) : succIdx len (predIdx len i) = i := by
  unfold predIdx succIdx
  by_cases h0 : i = 0
  · subst h0
    have : ¬ (len - 1 + 1 < len) := by omega
    simp [this]
  · have e : i - 1 + 1 = i := by omega
    simp [h0, e, hi]

/-- The cell of a ring member, with its links. -/
theorem IsRing.cell {h : Heap} {ms : List Nat} (hr : IsRing h ms) {i e : Nat}
    (he : ms[i]? = some e) :
    ∃ c, h.read e = some c ∧ c.next = ms[succIdx ms.length i]? ∧
      c.prev = ms[predIdx ms.length i]? := by
  obtain ⟨h1, h2⟩ := hr.at he
  cases hc : h.read e with
  | none => simp [hc] at h1
  | some c =>
    refine ⟨c, rfl, ?_, ?_⟩
    · simpa [hc] using h1
    · simpa [hc] using h2

theorem isRing_singleton_iff {h : Heap} {m : Nat} :
    IsRing h [m] ↔ ∃ c, h.read m = some c ∧ c.next = some m ∧ c.prev = some m := by
  constructor
  · intro hr
    obtain ⟨c, hc, hn, hp⟩ := hr.cell (i := 0) (e := m) rfl
    exact ⟨c, hc, by simpa [succIdx] using hn, by simpa [predIdx] using hp⟩
  · rintro ⟨c, hc, hn, hp⟩
    refine IsRing.intro (by simp) (by simp) ?_
    intro i e he
    have hi : i = 0 := by
      have := (List.getElem?_eq_some.mp he).1
      simpa using this
    subst hi
    simp at he
    subst he
    simp [hc, hn, hp, succIdx, predIdx]

theorem addUpdate_other {n a last q : Nat} (op : xmlSecNodeSetOp) (c : xmlSecNodeSet)
    (h1 : q ≠ n) (h2 : q ≠ a) (h3 : q ≠ last) : addUpdate n a last op q c = c := by
  simp [addUpdate, h1, h2, h3]

/-- Adding a one-member ring `n` to a ring `ms` that does not hold it yields the
ring `ms ++ [n]`, entered at the same member; only the combinator of `n` and
the links of `n`, of the entry point and of the last member change. -/
theorem add_ring (h : Heap) (ms : List Nat) (a n : Nat) (op : xmlSecNodeSetOp)
    (hr : IsRing h ms) (ha : ms[0]? = some a) (hn : IsRing h [n]) (hfresh : n ∉ ms) :
    ∃ h1 last, ms[ms.length - 1]? = some last ∧
      xmlSecNodeSetAdd h (some a) (some n) op = some (h1, some a) ∧
      IsRing h1 (ms ++ [n]) ∧
      (∀ q, h1.read q = (h.read q).map (addUpdate n a last op q)) ∧
      h1.cells.length = h.cells.length ∧ h1.avail = h.avail ∧ h1.log = h.log := by
  obtain ⟨new0, hnew, hself, -⟩ := isRing_singleton_iff.mp hn
  obtain ⟨anchor, hanchor, -, haprev⟩ := hr.cell ha
  have hlen : 0 < ms.length := hr.length_pos
  have hpred0 : predIdx ms.length 0 = ms.length - 1 := by simp [predIdx]
  rw [hpred0] at haprev
  obtain ⟨last, hlast⟩ : ∃ last, ms[ms.length - 1]? = some last :=
    ⟨ms[ms.length - 1], List.getElem?_eq_getElem (by omega)⟩
  rw [hlast] at haprev
  obtain ⟨l, hl, -, -⟩ := hr.cell hlast
  have hmem : ∀ {i e : Nat}, ms[i]? = some e → e ≠ n := by
    intro i e he hen
    subst hen
    obtain ⟨hi, hie⟩ := List.getElem?_eq_some.mp he
    exact hfresh (hie ▸ List.getElem_mem hi)
  have hna : n ≠ a := fun hh => hmem ha hh.symm
  have hnl : n ≠ last := fun hh => hmem hlast hh.symm
  obtain ⟨h1, hadd, hread, hlen1, hav, hlog⟩ :=
    add_spec h n a last op new0 anchor l hnew hself hanchor haprev hl hna hnl
  have hnd : (ms ++ [n]).Nodup := by
    rw [List.nodup_append]
    refine ⟨hr.2.1, by simp, ?_⟩
    intro x hx hx2
    simp at hx2
    subst hx2
    exact hfresh hx
  refine ⟨h1, last, hlast, hadd, ?_, hread, hlen1, hav, hlog⟩
  refine IsRing.intro (by simp) hnd ?_
  intro i e he
  have hlen2 : (ms ++ [n]).length = ms.length + 1 := by simp
  rw [hlen2, hread e]
  by_cases hik : i < ms.length
  · -- an old member
    have he1 : ms[i]? = some e := by
      rwa [List.getElem?_append_left hik] at he
    obtain ⟨c, hc, hcn, hcp⟩ := hr.cell he1
    have hen : e ≠ n := hmem he1
    rw [hc]
    simp only [Option.map_some', addUpdate, hen, if_false]
    constructor
    · by_cases hil : i = ms.length - 1
      · have hel : e = last := by
          rw [hil, hlast] at he1
          exact (Option.some.inj he1).symm
        have hs : succIdx (ms.length + 1) i = ms.length := by
          unfold succIdx; split_ifs <;> omega
        rw [hs, List.getElem?_append_right (le_refl _)]
        simp [hel]
      · have hel : e ≠ last := by
          intro hh
          subst hh
          have := List.getElem?_inj hik hr.2.1 (he1.trans hlast.symm)
          exact hil this
        have hs : succIdx (ms.length + 1) i = i + 1 := by
          unfold succIdx; split_ifs <;> omega
        have hs1 : succIdx ms.length i = i + 1 := by unfold succIdx; split_ifs <;> omega
        rw [hs, List.getElem?_append_left (by omega)]
        rw [hs1] at hcn
        simp [hel, hcn]
    · by_cases hi0 : i = 0
      · subst hi0
        have hea : e = a := by
          rw [ha] at he1
          exact (Option.some.inj he1).symm
        have hp : predIdx (ms.length + 1) 0 = ms.length := by simp [predIdx]
        rw [hp, List.getElem?_append_right (le_refl _)]
        simp [hea]
      · have hea : e ≠ a := by
          intro hh
          subst hh
          have := List.getElem?_inj hik hr.2.1 (he1.trans ha.symm)
          exact hi0 this
        have hp : predIdx (ms.length + 1) i = i - 1 := by unfold predIdx; split_ifs; omega
        have hp1 : predIdx ms.length i = i - 1 := by unfold predIdx; split_ifs; omega
        rw [hp, List.getElem?_append_left (by omega)]
        rw [hp1] at hcp
        simp [hea, hcp]
  · -- the new member
    have hik1 : i = ms.length := by
      have := (List.getElem?_eq_some.mp he).1
      rw [hlen2] at this
      omega
    subst hik1
    have hen : e = n := by
      rw [List.getElem?_append_right (le_refl _)] at he
      simpa using he.symm
    subst hen
    rw [hnew]
    have hs : succIdx (ms.length + 1) ms.length = 0 := by unfold succIdx; split_ifs <;> omega
    have hp : predIdx (ms.length + 1) ms.length = ms.length - 1 := by
      unfold predIdx; split_ifs <;> omega
    rw [hs, hp, List.getElem?_append_left (by omega), List.getElem?_append_left (by omega)]
    simp [addUpdate, hlast, ha]

theorem isRing_nextChain_aux (h : Heap) (ms : List Nat) (a : Nat) (hr : IsRing h ms)
    (ha : ms[0]? = some a) :
    ∀ (l : List Nat) (j : Nat), ms.drop j = l → l ≠ [] → nextChain h a l = true := by
  intro l
  induction l with
  | nil => intro j _ hne; exact absurd rfl hne
  | cons e tl ih =>
    intro j hdrop _
    have hej : ms[j]? = some e := by
      have := @List.getElem?_drop _ ms j 0
      rw [hdrop] at this
      simpa using this.symm
    have hj : j < ms.length := (List.getElem?_eq_some.mp hej).1
    have htl : ms.drop (j + 1) = tl := by
      rw [← List.tail_drop, hdrop]; rfl
    obtain ⟨c, hc, hcn, -⟩ := hr.cell hej
    cases tl with
    | nil =>
      have hjl : j + 1 = ms.length := by
        have := congrArg List.length htl
        simp at this
        omega
      have hs : succIdx ms.length j = 0 := by unfold succIdx; split_ifs <;> omega
      rw [hs, ha] at hcn
      simp [nextChain, hc, hcn]
    | cons b rest =>
      have hbj : ms[j + 1]? = some b := by
        have := @List.getElem?_drop _ ms (j + 1) 0
        rw [htl] at this
        simpa using this.symm
      have hj1 : j + 1 < ms.length := (List.getElem?_eq_some.mp hbj).1
      have hs : succIdx ms.length j = j + 1 := by unfold succIdx; split_ifs; omega
      rw [hs, hbj] at hcn
      have hba : b ≠ a := by
        intro hh
        subst hh
        have := List.getElem?_inj hj1 hr.2.1 (hbj.trans ha.symm)
        omega
      have := ih (j + 1) htl (by simp)
      simp [nextChain, hc, hcn, hba, this]

theorem isRing_nextChain {h : Heap} {ms : List Nat} {a : Nat} (hr : IsRing h ms)
    (ha : ms[0]? = some a) : nextChain h a ms = true :=
  isRing_nextChain_aux h ms a hr ha ms 0 (by simp) hr.1

theorem iterNext_ring {h : Heap} {ms : List Nat} (hr : IsRing h ms) :
    ∀ (j i e : Nat), ms[i]? = some e → iterNext h j e = ms[(i + j) % ms.length]? := by
  intro j
  induction j with
  | zero =>
    intro i e he
    have hi := (List.getElem?_eq_some.mp he).1
    simp [iterNext, Nat.mod_eq_of_lt hi, he]
  | succ j ih =>
    intro i e he
    have hi := (List.getElem?_eq_some.mp he).1
    obtain ⟨c, hc, hcn, -⟩ := hr.cell he
    have hlt := succIdx_lt (i := i) hr.length_pos
    obtain ⟨y, hy⟩ : ∃ y, ms[succIdx ms.length i]? = some y :=
      ⟨ms[succIdx ms.length i], List.getElem?_eq_getElem hlt⟩
    rw [hy] at hcn
    simp only [iterNext, hc, Option.some_bind, hcn]
    rw [ih _ _ hy]
    congr 1
    unfold succIdx
    split_ifs with h1
    · congr 1; omega
    · have : i + 1 = ms.length := by omega
      rw [show i + (j + 1) = j + ms.length by omega, Nat.add_mod_right]
      simp

theorem IsRing.laws {h : Heap} {ms : List Nat} (hr : IsRing h ms) : RingLaws h ms := by
  constructor
  · intro x hx
    obtain ⟨i, hi, rfl⟩ := List.getElem_of_mem hx
    have he : ms[i]? = some ms[i] := List.getElem?_eq_getElem hi
    obtain ⟨c, hc, hcn, hcp⟩ := hr.cell he
    have hs := succIdx_lt (i := i) hr.length_pos
    have hp := predIdx_lt hi
    obtain ⟨c1, hc1, -, hc1p⟩ := hr.cell (List.getElem?_eq_getElem hs)
    obtain ⟨c2, hc2, hc2n, -⟩ := hr.cell (List.getElem?_eq_getElem hp)
    rw [predIdx_succIdx hi] at hc1p
    rw [succIdx_predIdx hi] at hc2n
    constructor
    · simp [hc, hcn, List.getElem?_eq_getElem hs, hc1, hc1p, he]
    · simp [hc, hcp, List.getElem?_eq_getElem hp, hc2, hc2n, he]
  · intro i x hx
    have hi := (List.getElem?_eq_some.mp hx).1
    refine ⟨?_, ?_, ?_⟩
    · apply List.ext_getElem?
      intro j
      by_cases hj : j < ms.length
      · simp only [List.getElem?_map, List.getElem?_range hj, Option.map_some']
        rw [List.getElem?_rotate hj, iterNext_ring hr j i x hx, Nat.add_comm]
        have hlt : (j + i) % ms.length < ms.length := Nat.mod_lt _ hr.length_pos
        rw [List.getElem?_eq_getElem hlt]
        rfl
      · rw [List.getElem?_eq_none (by simp; omega), List.getElem?_eq_none (by simp; omega)]
    · rw [iterNext_ring hr _ i x hx, Nat.add_mod_right, Nat.mod_eq_of_lt hi, hx]
    · intro j hj0 hj hcontra
      rw [iterNext_ring hr j i x hx, ← hx] at hcontra
      have hlt : (i + j) % ms.length < ms.length := Nat.mod_lt _ hr.length_pos
      have := List.getElem?_inj hlt hr.2.1 hcontra
      by_cases hij : i + j < ms.length
      · rw [Nat.mod_eq_of_lt hij] at this; omega
      · have e : (i + j) % ms.length = i + j - ms.length := by
          rw [Nat.mod_eq_sub_mod (by omega), Nat.mod_eq_of_lt (by omega)]
        omega

theorem addUpdate_payload (n a last q : Nat) (op : xmlSecNodeSetOp) (c : xmlSecNodeSet) :
    (addUpdate n a last op q c).payload = c.payload := rfl

theorem addUpdate_op (n a last q : Nat) (op : xmlSecNodeSetOp) (c : xmlSecNodeSet) :
    (addUpdate n a last op q c).op = if q = n then op else c.op := rfl

theorem addAll_ring :
    ∀ (rest : List (Nat × xmlSecNodeSetOp)) (h : Heap) (cur : List Nat) (a : Nat),
      IsRing h cur → cur[0]? = some a → (∀ x ∈ rest, IsRing h [x.1]) →
      (cur ++ rest.map Prod.fst).Nodup →
      ∃ h1, addAll h (some a) rest = some (h1, some a) ∧
        IsRing h1 (cur ++ rest.map Prod.fst) ∧
        (∀ x ∈ rest, (h1.read x.1).map (fun c => c.op) = some x.2) ∧
        (∀ q, q ∉ rest.map Prod.fst →
          (h1.read q).map (fun c => c.op) = (h.read q).map (fun c => c.op)) ∧
        (∀ q, (h1.read q).map xmlSecNodeSet.payload = (h.read q).map xmlSecNodeSet.payload) ∧
        h1.cells.length = h.cells.length ∧ h1.avail = h.avail ∧ h1.log = h.log := by
  intro rest
  induction rest with
  | nil =>
    intro h cur a hr _ _ _
    exact ⟨h, rfl, by simpa using hr, by simp, by simp, by simp, rfl, rfl, rfl⟩
  | cons x rest ih =>
    intro h cur a hr ha hsingle hnd
    obtain ⟨m, op⟩ := x
    have hnd1 : (cur ++ [m] ++ rest.map Prod.fst).Nodup := by
      simpa [List.append_assoc] using hnd
    have hmcur : m ∉ cur := by
      intro hm
      have := (List.nodup_append.mp hnd).2.2 hm
      simp at this
    have hmrest : m ∉ rest.map Prod.fst := by
      have := (List.nodup_append.mp hnd).2.1
      simp only [List.map_cons, List.nodup_cons] at this
      exact this.1
    obtain ⟨h1, last, hlast, hadd, hr1, hread, hlen, hav, hlog⟩ :=
      add_ring h cur a m op hr ha (hsingle (m, op) (by simp)) hmcur
    have hsingle1 : ∀ x ∈ rest, IsRing h1 [x.1] := by
      intro x hx
      have hx1 : x.1 ∈ rest.map Prod.fst := List.mem_map_of_mem _ hx
      have hxm : x.1 ≠ m := fun hh => hmrest (hh ▸ hx1)
      have hxcur : x.1 ∉ cur := fun hh => (List.nodup_append.mp hnd).2.2 hh (by simp [hx1])
      have hxa : x.1 ≠ a := fun hh => hxcur (hh ▸ List.getElem?_mem ha)
      have hxl : x.1 ≠ last := fun hh => hxcur (hh ▸ List.getElem?_mem hlast)
      obtain ⟨c, hc, hcn, hcp⟩ := isRing_singleton_iff.mp (hsingle x (by simp [hx]))
      refine isRing_singleton_iff.mpr ⟨c, ?_, hcn, hcp⟩
      rw [hread, hc]
      simp [addUpdate_other op c hxm hxa hxl]
    have ha1 : (cur ++ [m])[0]? = some a := by
      rw [List.getElem?_append_left hr.length_pos]; exact ha
    obtain ⟨h2, hall, hr2, hops, hopsOther, hpay, hlen2, hav2, hlog2⟩ :=
      ih h1 (cur ++ [m]) a hr1 ha1 hsingle1 hnd1
    refine ⟨h2, ?_, ?_, ?_, ?_, ?_, by omega, by omega, by rw [hlog2, hlog]⟩
    · simp only [addAll, hadd]
      exact hall
    · simpa [List.append_assoc] using hr2
    · intro x hx
      simp only [List.mem_cons] at hx
      rcases hx with rfl | hx
      · rw [hopsOther m hmrest, hread]
        obtain ⟨c, hc, -, -⟩ := isRing_singleton_iff.mp (hsingle (m, op) (by simp))
        simp [hc, addUpdate_op]
      · exact hops x hx
    · intro q hq
      simp only [List.map_cons, List.mem_cons, not_or] at hq
      rw [hopsOther q hq.2, hread]
      cases hc : h.read q with
      | none => simp
      | some c => simp [addUpdate_op, hq.1]
    · intro q
      rw [hpay q, hread]
      cases hc : h.read q with
      | none => simp
      | some c => simp [addUpdate_payload]

theorem addAll_absent (h : Heap) (m1 : Nat) (op1 : xmlSecNodeSetOp)
    (rest : List (Nat × xmlSecNodeSetOp))
    (hnodup : (((m1, op1) :: rest).map Prod.fst).Nodup)
    (hsingle : ∀ x ∈ (m1, op1) :: rest, IsRing h [x.1]) :
    ∃ h1, addAll h none ((m1, op1) :: rest) = some (h1, some m1) ∧
      IsRing h1 (m1 :: rest.map Prod.fst) ∧
      (∀ x ∈ (m1, op1) :: rest, (h1.read x.1).map (fun c => c.op) = some x.2) ∧
      (∀ q, (h1.read q).map xmlSecNodeSet.payload = (h.read q).map xmlSecNodeSet.payload) := by
  obtain ⟨c, hc, hcn, hcp⟩ := isRing_singleton_iff.mp (hsingle (m1, op1) (by simp))
  have hlt := Heap.read_lt hc
  have hadd := add_absent h m1 op1 c hc hcn
  have hread : ∀ q, (h.write m1 { c with op := op1 }).read q =
      if q = m1 then some { c with op := op1 } else h.read q :=
    fun q => Heap.read_write _ hlt
  have hm1rest : m1 ∉ rest.map Prod.fst := by
    simp only [List.map_cons, List.nodup_cons] at hnodup
    exact hnodup.1
  have hr1 : IsRing (h.write m1 { c with op := op1 }) [m1] :=
    isRing_singleton_iff.mpr ⟨{ c with op := op1 }, by rw [hread]; simp, hcn, hcp⟩
  have hsingle1 : ∀ x ∈ rest, IsRing (h.write m1 { c with op := op1 }) [x.1] := by
    intro x hx
    have hxm : x.1 ≠ m1 := fun hh => hm1rest (hh ▸ List.mem_map_of_mem _ hx)
    obtain ⟨d, hd, hdn, hdp⟩ := isRing_singleton_iff.mp (hsingle x (by simp [hx]))
    exact isRing_singleton_iff.mpr ⟨d, by rw [hread]; simp [hxm, hd], hdn, hdp⟩
  obtain ⟨h2, hall, hr2, hops, hopsOther, hpay, -, -, -⟩ :=
    addAll_ring rest _ [m1] m1 hr1 (by simp) hsingle1 (by simpa using hnodup)
  refine ⟨h2, ?_, by simpa using hr2, ?_, ?_⟩
  · simp only [addAll, hadd]
    exact hall
  · intro x hx
    simp only [List.mem_cons] at hx
    rcases hx with rfl | hx
    · rw [hopsOther m1 hm1rest, hread]; simp
    · exact hops x hx
  · intro q
    rw [hpay q, hread]
    split_ifs with hq
    · subst hq; simp [hc, xmlSecNodeSet.payload]
    · rfl

/-- C8. Ring insertion order: building a ring by repeated `xmlSecNodeSetAdd`
from an absent ring, out of distinct one-member rings `m1 .. mk` (as
`xmlSecNodeSetCreate` leaves them), returns `m1` as head after every single
addition; then following `next` from the head visits `m1, m2, .., mk` in this
order and is back at `m1` after `k` steps, and each member carries the
combinator it was added with. -/
theorem ring_insertion_order (h : Heap) (m1 : Nat) (op1 : xmlSecNodeSetOp)
    (rest : List (Nat × xmlSecNodeSetOp))
    (hnodup : (((m1, op1) :: rest).map Prod.fst).Nodup)
    (hsingle : ∀ x ∈ (m1, op1) :: rest, IsRing h [x.1]) :
    (∀ k, 1 ≤ k → k ≤ rest.length + 1 →
      ∃ hk, addAll h none (((m1, op1) :: rest).take k) = some (hk, some m1)) ∧
    ∃ h1, addAll h none ((m1, op1) :: rest) = some (h1, some m1) ∧
      IsRing h1 (m1 :: rest.map Prod.fst) ∧
      (List.range (rest.length + 1)).map (fun j => iterNext h1 j m1) =
        (m1 :: rest.map Prod.fst).map some ∧
      iterNext h1 (rest.length + 1) m1 = some m1 ∧
      ∀ x ∈ (m1, op1) :: rest, (h1.read x.1).map (fun c => c.op) = some x.2 := by
  constructor
  · intro k hk1 hk2
    obtain ⟨j, rfl⟩ : ∃ j, k = j + 1 := ⟨k - 1, by omega⟩
    have htake : ((m1, op1) :: rest).take (j + 1) = (m1, op1) :: rest.take j := rfl
    rw [htake]
    have hsub : ∀ x ∈ (m1, op1) :: rest.take j, x ∈ (m1, op1) :: rest := by
      intro x hx
      simp only [List.mem_cons] at hx ⊢
      rcases hx with hx | hx
      · exact Or.inl hx
      · exact Or.inr (List.mem_of_mem_take hx)
    have hnd : (((m1, op1) :: rest.take j).map Prod.fst).Nodup := by
      have hsl : (((m1, op1) :: rest.take j).map Prod.fst).Sublist
          (((m1, op1) :: rest).map Prod.fst) := by
        simp only [List.map_cons]
        exact List.Sublist.cons₂ _ ((List.take_sublist j rest).map _)
      exact hnodup.sublist hsl
    obtain ⟨hk, hadd, -⟩ :=
      addAll_absent h m1 op1 (rest.take j) hnd (fun x hx => hsingle x (hsub x hx))
    exact ⟨hk, hadd⟩
  · obtain ⟨h1, hadd, hr, hops, -⟩ := addAll_absent h m1 op1 rest hnodup hsingle
    have hlaws := hr.laws.2 0 m1 (by simp)
    refine ⟨h1, hadd, hr, ?_, ?_, hops⟩
    · simpa using hlaws.1
    · simpa using hlaws.2.1

/-- C9. Ring well-formedness: `xmlSecNodeSetCreate` yields a record whose `next`
and `prev` are the record itself, a ring of one; and `xmlSecNodeSetAdd` of a
one-member ring `n` into a well-formed ring of `s` members that does not hold
`n` yields a well-formed ring of `s + 1` members, in which `next` and `prev`
undo each other at every member and following `next` from any member is
back after exactly `s + 1` steps, having met every member once. -/
theorem ring_wellformed (h : Heap) (doc : Option Nat) (nodes : Option xmlNodeSet)
    (type : xmlSecNodeSetType) (havail : 0 < h.avail)
    (ms : List Nat) (a n : Nat) (op : xmlSecNodeSetOp)
    (hr : IsRing h ms) (ha : ms[0]? = some a) (hn : IsRing h [n]) (hfresh : n ∉ ms) :
    (∃ h1 p, xmlSecNodeSetCreate h doc nodes type = (h1, some p) ∧
      (h1.read p).map (fun c => c.next) = some (some p) ∧
      (h1.read p).map (fun c => c.prev) = some (some p) ∧ IsRing h1 [p]) ∧
    (∃ h2, xmlSecNodeSetAdd h (some a) (some n) op = some (h2, some a) ∧
      IsRing h2 (ms ++ [n]) ∧ (ms ++ [n]).length = ms.length + 1 ∧
      RingLaws h2 (ms ++ [n])) := by
  constructor
  · obtain ⟨h1, hc, hread, -⟩ := create_spec h doc nodes type havail
    refine ⟨h1, _, hc, by simp [hread], by simp [hread], ?_⟩
    exact isRing_singleton_iff.mpr ⟨_, hread, rfl, rfl⟩
  · obtain ⟨h2, last, -, hadd, hr2, -⟩ := add_ring h ms a n op hr ha hn hfresh
    exact ⟨h2, hadd, hr2, by simp, hr2.laws⟩

/-! ### Rings with nested rings, `xmlSecNodeSetAddList` and the transforms -/

theorem Returns.unique {α : Type} {run : Nat → Option α} {v w : α} (hv : Returns run v)
    (hw : Returns run w) : v = w := by
  obtain ⟨N, hN⟩ := hv
  obtain ⟨M, hM⟩ := hw
  have h1 := hN (max N M) (le_max_left _ _)
  have h2 := hM (max N M) (le_max_right _ _)
  rw [h1] at h2
  exact Option.some.inj h2

theorem Returns.shift {α : Type} {run run1 : Nat → Option α} {v : α} (hv : Returns run v)
    (hs : ∀ fuel, run1 (fuel + 1) = run fuel) : Returns run1 v := by
  obtain ⟨N, hN⟩ := hv
  refine ⟨N + 1, ?_⟩
  intro fuel hf
  obtain ⟨f, rfl⟩ : ∃ f, fuel = f + 1 := ⟨fuel - 1, by omega⟩
  rw [hs]
  exact hN f (by omega)

theorem oneContains_returns (h : Heap) (p : Nat) (s : xmlSecNodeSet) (hread : h.read p = some s)
    (hty : s.type ≠ xmlSecNodeSetList) (node parent : xmlNodePtr) (hnode : node.isNull = false) :
    Returns (fun fuel => xmlSecNodeSetOneContains h fuel (some p) node parent)
      (oneContainsFlat s.type s.nodes node parent) :=
  ⟨(parentChain parent).length + 1, fun fuel hf =>
    oneContains_flat h p s hread hty parent node hnode fuel (by omega)⟩

theorem oneContains_list (h : Heap) (p : Nat) (s : xmlSecNodeSet) (hread : h.read p = some s)
    (hty : s.type = xmlSecNodeSetList) (node parent : xmlNodePtr) (hnode : node.isNull = false)
    (fuel : Nat) :
    xmlSecNodeSetOneContains h (fuel + 1) (some p) node parent =
      xmlSecNodeSetContains h fuel s.children node parent := by
  simp [xmlSecNodeSetOneContains, hnode, hread, hty]

theorem contains_of_steps (h : Heap) (node parent : xmlNodePtr) (hnode : node.isNull = false)
    (t : RingShape) (hch : chained h t = true)
    (hsteps : List.Forall₂ (MemberStep h node parent) t.members (memberSteps h node parent t)) :
    Returns (fun fuel => xmlSecNodeSetContains h fuel t.headPtr node parent)
      (containsValue h node parent t) := by
  cases t with
  | nil =>
    refine ⟨1, ?_⟩
    intro fuel hf
    obtain ⟨f, rfl⟩ : ∃ f, fuel = f + 1 := ⟨fuel - 1, by omega⟩
    simp [xmlSecNodeSetContains, hnode, RingShape.headPtr, containsValue, memberSteps,
      foldStatus]
  | cons a ch rest =>
    simp only [chained, RingShape.headPtr, RingShape.members] at hch
    simp only [RingShape.members] at hsteps
    obtain ⟨N, hN⟩ := loop_returns h a node parent rest.members _ a hch hsteps
    refine ⟨N + 1, ?_⟩
    intro fuel hf
    obtain ⟨f, rfl⟩ : ∃ f, fuel = f + 1 := ⟨fuel - 1, by omega⟩
    simp only [xmlSecNodeSetContains, hnode, RingShape.headPtr]
    exact hN f (by omega) 1

theorem member_steps (h : Heap) (node parent : xmlNodePtr) (hnode : node.isNull = false) :
    ∀ t : RingShape, wired h t = true →
      List.Forall₂ (MemberStep h node parent) t.members (memberSteps h node parent t) := by
  intro t
  induction t with
  | nil => intro _; exact List.Forall₂.nil
  | cons a ch rest ihc ihr =>
    intro hw
    simp only [wired, Bool.and_eq_true] at hw
    obtain ⟨⟨hcell, hwc⟩, hrest⟩ := hw
    cases hc : h.read a with
    | none => simp [hc] at hcell
    | some c =>
      rw [hc] at hcell
      simp only [RingShape.members, memberSteps, hc]
      refine List.Forall₂.cons ⟨by simp [hc], ?_⟩ (ihr hrest)
      by_cases hty : c.type = xmlSecNodeSetList
      · simp only [hty, if_true, Bool.and_eq_true, decide_eq_true_eq] at hcell ⊢
        obtain ⟨hchild, hchain⟩ := hcell
        have := contains_of_steps h node parent hnode ch hchain (ihc hwc)
        refine Returns.shift this ?_
        intro fuel
        rw [oneContains_list h a c hc hty node parent hnode fuel, hchild]
      · simp only [hty, if_false]
        exact oneContains_returns h a c hc hty node parent hnode

/-- On a ring whose shape agrees with the heap, `xmlSecNodeSetContains` returns
the value read off the shape. -/
theorem contains_eval (h : Heap) (node parent : xmlNodePtr) (hnode : node.isNull = false)
    (t : RingShape) (hch : chained h t = true) (hw : wired h t = true) :
    Returns (fun fuel => xmlSecNodeSetContains h fuel t.headPtr node parent)
      (containsValue h node parent t) :=
  contains_of_steps h node parent hnode t hch (member_steps h node parent hnode t hw)

theorem foldStatus_bool (steps : List (xmlSecNodeSetOp × Int)) :
    ∀ st : Int, (st = 0 ∨ st = 1) → (∀ x ∈ steps, validOp x.1) →
      foldStatus steps st =
        boolInt (steps.foldl (fun s x => combine x.1 s (decide (x.2 ≠ 0))) (decide (st ≠ 0))) := by
  induction steps with
  | nil =>
    intro st hst _
    rcases hst with rfl | rfl <;> simp [foldStatus, boolInt]
  | cons x rest ih =>
    intro st hst hv
    obtain ⟨op, r⟩ := x
    have hvr : ∀ x ∈ rest, validOp x.1 := fun x hx => hv x (by simp [hx])
    have hop := hv (op, r) (by simp)
    simp only [validOp] at hop
    rcases hop with rfl | rfl | rfl
    · simp only [foldStatus, List.foldl_cons]
      rw [ih _ (by split_ifs <;> simp [hst]) hvr]
      congr 2
      rcases hst with rfl | rfl <;> by_cases hr : r = 0 <;> simp [combine, hr]
    · simp only [foldStatus, List.foldl_cons]
      rw [ih _ (by split_ifs <;> simp [hst]) hvr]
      congr 2
      rcases hst with rfl | rfl <;> by_cases hr : r = 0 <;> simp [combine, hr]
    · simp only [foldStatus, List.foldl_cons]
      rw [ih _ (by split_ifs <;> simp [hst]) hvr]
      congr 2
      rcases hst with rfl | rfl <;> by_cases hr : r = 0 <;> simp [combine, hr]

theorem foldStatus_append (xs ys : List (xmlSecNodeSetOp × Int)) :
    ∀ st : Int, (st = 0 ∨ st = 1) →
      foldStatus (xs ++ ys) st =
        if foldStatus xs st = -1 then -1 else foldStatus ys (foldStatus xs st) := by
  induction xs with
  | nil =>
    intro st hst
    rcases hst with rfl | rfl <;> simp [foldStatus]
  | cons x rest ih =>
    intro st hst
    obtain ⟨op, r⟩ := x
    cases op with
    | xmlSecNodeSetIntersection =>
      simp only [List.cons_append, foldStatus]
      exact ih _ (by split_ifs <;> simp [hst])
    | xmlSecNodeSetSubtraction =>
      simp only [List.cons_append, foldStatus]
      exact ih _ (by split_ifs <;> simp [hst])
    | xmlSecNodeSetUnion =>
      simp only [List.cons_append, foldStatus]
      exact ih _ (by split_ifs <;> simp [hst])
    | unknownOp t => simp [foldStatus]

theorem foldStatus_range (xs : List (xmlSecNodeSetOp × Int)) :
    ∀ st : Int, (st = 0 ∨ st = 1) →
      foldStatus xs st = -1 ∨ foldStatus xs st = 0 ∨ foldStatus xs st = 1 := by
  induction xs with
  | nil => intro st hst; simp only [foldStatus]; exact Or.inr hst
  | cons x rest ih =>
    intro st hst
    obtain ⟨op, r⟩ := x
    cases op with
    | xmlSecNodeSetIntersection =>
      simp only [foldStatus]; exact ih _ (by split_ifs <;> simp [hst])
    | xmlSecNodeSetSubtraction =>
      simp only [foldStatus]; exact ih _ (by split_ifs <;> simp [hst])
    | xmlSecNodeSetUnion =>
      simp only [foldStatus]; exact ih _ (by split_ifs <;> simp [hst])
    | unknownOp t => simp [foldStatus]

/-- C2. Fold semantics: on a well-formed ring whose members all carry a valid
combinator, and whose member tests return, `xmlSecNodeSetContains` returns
the left fold that starts from true and joins, in `next` order from the entry
point, each member test with the combinator of the member: Intersection is
AND, Subtraction is AND-NOT, Union is OR. -/
theorem contains_fold (h : Heap) (head : Nat) (ms : List Nat)
    (steps : List (xmlSecNodeSetOp × Int)) (node parent : xmlNodePtr)
    (hnode : node.isNull = false) (hring : IsRing h (head :: ms))
    (hsteps : List.Forall₂ (MemberStep h node parent) (head :: ms) steps)
    (hvalid : ∀ x ∈ steps, validOp x.1) :
    Returns (fun fuel => xmlSecNodeSetContains h fuel (some head) node parent)
      (boolInt (foldSpec (steps.map (fun x => (x.1, decide (x.2 ≠ 0)))))) := by
  have hchain := isRing_nextChain hring (a := head) (by simp)
  obtain ⟨N, hN⟩ := loop_returns h head node parent ms steps head hchain hsteps
  refine ⟨N + 1, ?_⟩
  intro fuel hf
  obtain ⟨f, rfl⟩ : ∃ f, fuel = f + 1 := ⟨fuel - 1, by omega⟩
  simp only [xmlSecNodeSetContains, hnode]
  rw [hN f (by omega) 1, foldStatus_bool steps 1 (Or.inr rfl) hvalid]
  simp [foldSpec, List.foldl_map]

/-- C2, instance: the ring `[A Intersection][B Union][C Subtraction]`.  With the
node in `A` and in `C` but not in `B` the fold is false; and for all eight
combinations of memberships the function returns `((true AND A) OR B) AND
NOT C`. -/
theorem contains_fold_witness :
    (exA.isNull = false ∧ IsRing (exRing3 true false true) [0, 1, 2]) ∧
    Returns (fun fuel => xmlSecNodeSetContains (exRing3 true false true) fuel (some 0) exA exDoc)
      (boolInt (foldSpec [(xmlSecNodeSetIntersection, true), (xmlSecNodeSetUnion, false),
        (xmlSecNodeSetSubtraction, true)])) ∧
    ([true, false].all fun inA => [true, false].all fun inB => [true, false].all fun inC =>
      xmlSecNodeSetContains (exRing3 inA inB inC) 8 (some 0) exA exDoc ==
        some (boolInt (((true && inA) || inB) && !inC))) = true :=
  ⟨⟨rfl, by decide⟩,
    contains_fold (exRing3 true false true) 0 [1, 2]
      [(xmlSecNodeSetIntersection, 1), (xmlSecNodeSetUnion, 0), (xmlSecNodeSetSubtraction, 1)]
      exA exDoc rfl (by decide)
      (List.Forall₂.cons
        ⟨rfl, oneContains_returns (exRing3 true false true) 0 _ rfl (by decide) exA exDoc rfl⟩
        (List.Forall₂.cons
          ⟨rfl, oneContains_returns (exRing3 true false true) 1 _ rfl (by decide) exA exDoc rfl⟩
          (List.Forall₂.cons
            ⟨rfl, oneContains_returns (exRing3 true false true) 2 _ rfl (by decide) exA exDoc
              rfl⟩
            List.Forall₂.nil)))
      (by decide),
    by decide⟩

namespace RingShape

theorem members_append (t u : RingShape) : (t.append u).members = t.members ++ u.members := by
  induction t with
  | nil => rfl
  | cons a ch rest _ ihr => simp [append, members, ihr]

theorem addrs_append (t u : RingShape) : ∀ q, q ∈ (t.append u).addrs ↔ q ∈ t.addrs ∨ q ∈ u.addrs := by
  induction t with
  | nil => intro q; simp [append, addrs]
  | cons a ch rest _ ihr => intro q; simp [append, addrs, ihr, or_assoc]

theorem nested_append (t u : RingShape) :
    ∀ q, q ∈ (t.append u).nested ↔ q ∈ t.nested ∨ q ∈ u.nested := by
  induction t with
  | nil => intro q; simp [append, nested]
  | cons a ch rest _ ihr => intro q; simp [append, nested, ihr, or_assoc]

theorem headPtr_append (t u : RingShape) :
    (t.append u).headPtr = match t.headPtr with
      | some a => some a
      | none => u.headPtr := by
  cases t <;> rfl

theorem members_subset_addrs (t : RingShape) : ∀ q, q ∈ t.members → q ∈ t.addrs := by
  induction t with
  | nil => intro q hq; simp [members] at hq
  | cons a ch rest _ ihr =>
    intro q hq
    simp only [members, List.mem_cons] at hq
    simp only [addrs, List.mem_cons, List.mem_append]
    rcases hq with hq | hq
    · exact Or.inl hq
    · exact Or.inr (Or.inr (ihr q hq))

theorem nested_subset_addrs (t : RingShape) : ∀ q, q ∈ t.nested → q ∈ t.addrs := by
  induction t with
  | nil => intro q hq; simp [nested] at hq
  | cons a ch rest _ ihr =>
    intro q hq
    simp only [nested, List.mem_append] at hq
    simp only [addrs, List.mem_cons, List.mem_append]
    rcases hq with hq | hq
    · exact Or.inr (Or.inl hq)
    · exact Or.inr (Or.inr (ihr q hq))

theorem headPtr_eq_members (t : RingShape) : t.headPtr = t.members[0]? := by
  cases t <;> simp [headPtr, members]

end RingShape

theorem nextChain_congr {h h1 : Heap} (a : Nat) :
    ∀ l : List Nat,
      (∀ q ∈ l, (h1.read q).map (fun c => c.next) = (h.read q).map (fun c => c.next)) →
      nextChain h1 a l = nextChain h a l := by
  intro l
  induction l with
  | nil => intro _; rfl
  | cons e tl ih =>
    intro hq
    cases tl with
    | nil => simp [nextChain, hq e (by simp)]
    | cons b rest =>
      simp only [nextChain]
      rw [hq e (by simp), ih (fun q hq1 => hq q (by simp [List.mem_cons] at hq1 ⊢; tauto))]

theorem chained_congr {h h1 : Heap} (t : RingShape)
    (hq : ∀ q ∈ t.members, (h1.read q).map (fun c => c.next) = (h.read q).map (fun c => c.next)) :
    chained h1 t = chained h t := by
  unfold chained
  cases t.headPtr with
  | none => rfl
  | some a => exact nextChain_congr a _ hq

theorem wired_congr {h h1 : Heap} :
    ∀ t : RingShape,
      (∀ q ∈ t.addrs, (h1.read q).map (fun c => (c.type, c.children)) =
        (h.read q).map (fun c => (c.type, c.children))) →
      (∀ q ∈ t.nested, (h1.read q).map (fun c => c.next) = (h.read q).map (fun c => c.next)) →
      wired h1 t = wired h t := by
  intro t
  induction t with
  | nil => intro _ _; rfl
  | cons a ch rest ihc ihr =>
    intro hv hn
    have hva := hv a (by simp [RingShape.addrs])
    have hrest : wired h1 rest = wired h rest :=
      ihr (fun q hq => hv q (by simp [RingShape.addrs, hq]))
        (fun q hq => hn q (by simp [RingShape.nested, hq]))
    have hchw : wired h1 ch = wired h ch :=
      ihc (fun q hq => hv q (by simp [RingShape.addrs, hq]))
        (fun q hq => hn q (by
          simp only [RingShape.nested, List.mem_append]
          exact Or.inl (RingShape.nested_subset_addrs ch q hq)))
    have hchc : chained h1 ch = chained h ch :=
      chained_congr ch (fun q hq => hn q (by
        simp only [RingShape.nested, List.mem_append]
        exact Or.inl (RingShape.members_subset_addrs ch q hq)))
    simp only [wired, hrest, hchw, hchc]
    cases hc : h.read a with
    | none =>
      cases hc1 : h1.read a with
      | none => rfl
      | some c1 => simp [hc, hc1] at hva
    | some c =>
      cases hc1 : h1.read a with
      | none => simp [hc, hc1] at hva
      | some c1 =>
        simp only [hc, hc1, Option.map_some', Option.some.injEq, Prod.mk.injEq] at hva
        simp only [hva.1, hva.2]

theorem memberSteps_congr {h h1 : Heap} (node parent : xmlNodePtr) :
    ∀ t : RingShape,
      (∀ q ∈ t.addrs, (h1.read q).map (fun c => (c.op, c.type, c.nodes)) =
        (h.read q).map (fun c => (c.op, c.type, c.nodes))) →
      memberSteps h1 node parent t = memberSteps h node parent t := by
  intro t
  induction t with
  | nil => intro _; rfl
  | cons a ch rest ihc ihr =>
    intro hv
    have hva := hv a (by simp [RingShape.addrs])
    have hrest := ihr (fun q hq => hv q (by simp [RingShape.addrs, hq]))
    have hch := ihc (fun q hq => hv q (by simp [RingShape.addrs, hq]))
    simp only [memberSteps, hrest, hch]
    cases hc : h.read a with
    | none =>
      cases hc1 : h1.read a with
      | none => rfl
      | some c1 => simp [hc, hc1] at hva
    | some c =>
      cases hc1 : h1.read a with
      | none => simp [hc, hc1] at hva
      | some c1 =>
        simp only [hc, hc1, Option.map_some', Option.some.injEq, Prod.mk.injEq] at hva
        simp only [hva.1, hva.2.1, hva.2.2]

theorem wired_append (h : Heap) (t u : RingShape) :
    wired h (t.append u) = (wired h t && wired h u) := by
  induction t with
  | nil => simp [RingShape.append, wired]
  | cons a ch rest _ ihr => simp [RingShape.append, wired, ihr, Bool.and_assoc]

theorem wired_readable {h : Heap} :
    ∀ t : RingShape, wired h t = true → ∀ q ∈ t.addrs, ∃ c, h.read q = some c := by
  intro t
  induction t with
  | nil => intro _ q hq; simp [RingShape.addrs] at hq
  | cons a ch rest ihc ihr =>
    intro hw q hq
    simp only [wired, Bool.and_eq_true] at hw
    obtain ⟨⟨hcell, hwc⟩, hrest⟩ := hw
    simp only [RingShape.addrs, List.mem_cons, List.mem_append] at hq
    rcases hq with rfl | hq | hq
    · cases hc : h.read q with
      | none => simp [hc] at hcell
      | some c => exact ⟨c, rfl⟩
    · exact ihc hwc q hq
    · exact ihr hrest q hq

theorem wired_allocated {h : Heap} (t : RingShape) (hw : wired h t = true) :
    ∀ q ∈ t.addrs, q < h.cells.length := by
  intro q hq
  obtain ⟨c, hc⟩ := wired_readable t hw q hq
  exact Heap.read_lt hc

theorem wired_cons_list {h : Heap} {w : Nat} {c : xmlSecNodeSet} {t : RingShape}
    (hc : h.read w = some c) (hty : c.type = xmlSecNodeSetList)
    (hch : c.children = t.headPtr) (hcht : chained h t = true) (hwt : wired h t = true) :
    wired h (RingShape.cons w t RingShape.nil) = true := by
  have e : wired h (RingShape.cons w t RingShape.nil) =
      ((match h.read w with
        | none => false
        | some c =>
          if c.type = xmlSecNodeSetList then decide (c.children = t.headPtr) && chained h t
          else true) && wired h t && wired h RingShape.nil) := rfl
  rw [e, hc, hwt, hcht]
  simp [hty, hch, wired]

theorem memberSteps_cons_list {h : Heap} {w : Nat} {c : xmlSecNodeSet} {t : RingShape}
    (node parent : xmlNodePtr) (hc : h.read w = some c) (hty : c.type = xmlSecNodeSetList) :
    memberSteps h node parent (RingShape.cons w t RingShape.nil) =
      [(c.op, containsValue h node parent t)] := by
  have e : memberSteps h node parent (RingShape.cons w t RingShape.nil) =
      (match h.read w with
        | none => memberSteps h node parent RingShape.nil
        | some c =>
          (c.op, if c.type = xmlSecNodeSetList then foldStatus (memberSteps h node parent t) 1
            else oneContainsFlat c.type c.nodes node parent) ::
            memberSteps h node parent RingShape.nil) := rfl
  rw [e, hc]
  simp [hty, containsValue, memberSteps]

theorem memberSteps_cons_flat {h : Heap} {w : Nat} {c : xmlSecNodeSet}
    (node parent : xmlNodePtr) (hc : h.read w = some c) (hty : c.type ≠ xmlSecNodeSetList) :
    memberSteps h node parent (RingShape.cons w RingShape.nil RingShape.nil) =
      [(c.op, oneContainsFlat c.type c.nodes node parent)] := by
  simp [memberSteps, hc, hty]

theorem wired_cons_flat {h : Heap} {w : Nat} {c : xmlSecNodeSet}
    (hc : h.read w = some c) (hty : c.type ≠ xmlSecNodeSetList) :
    wired h (RingShape.cons w RingShape.nil RingShape.nil) = true := by
  simp [wired, hc, hty]

theorem memberSteps_append (h : Heap) (node parent : xmlNodePtr) (t u : RingShape) :
    memberSteps h node parent (t.append u) =
      memberSteps h node parent t ++ memberSteps h node parent u := by
  induction t with
  | nil => simp [RingShape.append, memberSteps]
  | cons a ch rest _ ihr =>
    simp only [RingShape.append, memberSteps, ihr]
    cases h.read a <;> simp

theorem chained_of_isRing {h : Heap} {t : RingShape} (hr : IsRing h t.members) :
    chained h t = true := by
  unfold chained
  cases hp : t.headPtr with
  | none => rfl
  | some a =>
    rw [RingShape.headPtr_eq_members] at hp
    exact isRing_nextChain hr hp

/-- The frame of an addition: if a heap update keeps the variant, the raw
collection and the `children` of every record, changes no combinator but
that of `n`, and no `next` link inside the nested rings, then the shape
extended by the member `n` agrees with the new heap and its member tests
are those of the old heap, `n` carrying the combinator `op`. -/
theorem frame_after_add (h h1 : Heap) (tR ch : RingShape) (n : Nat) (op : xmlSecNodeSetOp)
    (node parent : xmlNodePtr)
    (hA : ∀ q, (h1.read q).map (fun c => (c.type, c.children)) =
      (h.read q).map (fun c => (c.type, c.children)))
    (hB : ∀ q, q ≠ n → (h1.read q).map (fun c => (c.op, c.type, c.nodes)) =
      (h.read q).map (fun c => (c.op, c.type, c.nodes)))
    (hC : ∀ q, q ∈ tR.nested ∨ q ∈ ch.addrs →
      (h1.read q).map (fun c => c.next) = (h.read q).map (fun c => c.next))
    (hD : (h1.read n).map (fun c => (c.op, c.type, c.nodes)) =
      (h.read n).map (fun c => (op, c.type, c.nodes)))
    (hRw : wired h tR = true)
    (hnw : wired h (RingShape.cons n ch RingShape.nil) = true)
    (hfresh : n ∉ tR.addrs) (hnch : n ∉ ch.addrs) :
    wired h1 (tR.append (RingShape.cons n ch RingShape.nil)) = true ∧
    memberSteps h1 node parent (tR.append (RingShape.cons n ch RingShape.nil)) =
      memberSteps h node parent tR ++
        (memberSteps h node parent (RingShape.cons n ch RingShape.nil)).map
          (fun x => (op, x.2)) := by
  constructor
  · rw [wired_append, Bool.and_eq_true]
    constructor
    · rw [wired_congr tR (fun q _ => hA q) (fun q hq => hC q (Or.inl hq))]
      exact hRw
    · rw [wired_congr _ (fun q _ => hA q) (fun q hq => hC q (Or.inr (by
        simpa [RingShape.nested] using hq)))]
      exact hnw
  · rw [memberSteps_append]
    congr 1
    · exact memberSteps_congr node parent tR (fun q hq => hB q (fun hh => hfresh (hh ▸ hq)))
    · have hch : memberSteps h1 node parent ch = memberSteps h node parent ch :=
        memberSteps_congr node parent ch (fun q hq => hB q (fun hh => hnch (hh ▸ hq)))
      simp only [memberSteps, hch]
      cases hc : h.read n with
      | none => simp [wired, hc] at hnw
      | some c =>
        cases hc1 : h1.read n with
        | none => simp [hc, hc1] at hD
        | some c1 =>
          simp only [hc, hc1, Option.map_some', Option.some.injEq, Prod.mk.injEq] at hD
          simp [hD.1, hD.2.1, hD.2.2]

/-- Adding the one-member ring `n`, whose nested ring has the shape `ch`, to the
ring of shape `tR` (possibly absent): the result is a ring of the shape
`tR` followed by `n`, and the member tests are unchanged. -/
theorem add_member (h : Heap) (tR ch : RingShape) (n : Nat) (op : xmlSecNodeSetOp)
    (node parent : xmlNodePtr)
    (hR : tR = RingShape.nil ∨ IsRing h tR.members) (hRw : wired h tR = true)
    (hn : IsRing h [n]) (hnw : wired h (RingShape.cons n ch RingShape.nil) = true)
    (hfresh : n ∉ tR.addrs) (hnch : n ∉ ch.addrs)
    (hsep : ∀ q ∈ tR.members, q ∉ tR.nested ∧ q ∉ ch.addrs) :
    ∃ h1, xmlSecNodeSetAdd h tR.headPtr (some n) op =
        some (h1, (tR.append (RingShape.cons n ch RingShape.nil)).headPtr) ∧
      IsRing h1 (tR.append (RingShape.cons n ch RingShape.nil)).members ∧
      wired h1 (tR.append (RingShape.cons n ch RingShape.nil)) = true ∧
      memberSteps h1 node parent (tR.append (RingShape.cons n ch RingShape.nil)) =
        memberSteps h node parent tR ++
          (memberSteps h node parent (RingShape.cons n ch RingShape.nil)).map
            (fun x => (op, x.2)) ∧
      (∀ q, q ∉ (tR.append (RingShape.cons n ch RingShape.nil)).members →
        h1.read q = h.read q) ∧
      (∀ q, (h1.read q).map xmlSecNodeSet.payload = (h.read q).map xmlSecNodeSet.payload) ∧
      (∀ q, q ≠ n → (h1.read q).map (fun c => c.op) = (h.read q).map (fun c => c.op)) ∧
      h1.cells.length = h.cells.length ∧ h1.avail = h.avail ∧ h1.log = h.log := by
  obtain ⟨c, hc, hcn, hcp⟩ := isRing_singleton_iff.mp hn
  rcases hR with rfl | hR
  · -- absent ring
    have hlt := Heap.read_lt hc
    have hadd := add_absent h n op c hc hcn
    have hread : ∀ q, (h.write n { c with op := op }).read q =
        if q = n then some { c with op := op } else h.read q :=
      fun q => Heap.read_write _ hlt
    have hview : ∀ q, q ≠ n → (h.write n { c with op := op }).read q = h.read q := by
      intro q hq; rw [hread, if_neg hq]
    obtain ⟨hw1, hsteps⟩ := frame_after_add h (h.write n { c with op := op }) RingShape.nil ch n op
      node parent
      (by intro q; rw [hread]; split_ifs with hq
          · subst hq; simp [hc]
          · rfl)
      (by intro q hq; rw [hview q hq])
      (by intro q hq
          rcases hq with hq | hq
          · simp [RingShape.nested] at hq
          · rw [hview q (fun hh => hnch (hh ▸ hq))])
      (by rw [hread]; simp [hc])
      hRw hnw hfresh hnch
    refine ⟨_, hadd, ?_, hw1, hsteps, ?_, ?_, ?_, by simp, by simp, by simp⟩
    · simp only [RingShape.append, RingShape.members]
      exact isRing_singleton_iff.mpr ⟨{ c with op := op }, by rw [hread]; simp, hcn, hcp⟩
    · intro q hq
      simp only [RingShape.append, RingShape.members, List.mem_singleton] at hq
      exact hview q hq
    · intro q
      rw [hread]
      split_ifs with hq
      · subst hq; simp [hc, xmlSecNodeSet.payload]
      · rfl
    · intro q hq
      rw [hview q hq]
  · -- ring present
    have hpos := hR.length_pos
    obtain ⟨a, ha⟩ : ∃ a, tR.members[0]? = some a :=
      ⟨tR.members[0], List.getElem?_eq_getElem hpos⟩
    have hhead : tR.headPtr = some a := by rw [RingShape.headPtr_eq_members]; exact ha
    have hnmem : n ∉ tR.members := fun hh => hfresh (RingShape.members_subset_addrs tR n hh)
    obtain ⟨h1, last, hlast, hadd, hr1, hread, hlen, hav, hlog⟩ :=
      add_ring h tR.members a n op hR ha hn hnmem
    have hlastmem : last ∈ tR.members := List.getElem?_mem hlast
    have hamem : a ∈ tR.members := List.getElem?_mem ha
    have hmap : ∀ {β : Type} (f : xmlSecNodeSet → β) (q : Nat),
        (∀ c, f (addUpdate n a last op q c) = f c) →
        (h1.read q).map f = (h.read q).map f := by
      intro β f q hf
      rw [hread]
      cases h.read q with
      | none => rfl
      | some c => simp [hf]
    obtain ⟨hw1, hsteps⟩ := frame_after_add h h1 tR ch n op node parent
      (fun q => hmap _ q (fun c => rfl))
      (fun q hq => hmap _ q (fun c => by simp [addUpdate, hq]))
      (by intro q hq
          have hqn : q ≠ n := by
            rcases hq with hq | hq
            · exact fun hh => hfresh (hh ▸ RingShape.nested_subset_addrs tR q hq)
            · exact fun hh => hnch (hh ▸ hq)
          have hql : q ≠ last := by
            rcases hq with hq | hq
            · exact fun hh => (hsep last hlastmem).1 (hh ▸ hq)
            · exact fun hh => (hsep last hlastmem).2 (hh ▸ hq)
          exact hmap _ q (fun c => by simp [addUpdate, hqn, hql]))
      (by rw [hread, hc]; simp [addUpdate])
      hRw hnw hfresh hnch
    have hhead1 : (tR.append (RingShape.cons n ch RingShape.nil)).headPtr = some a := by
      rw [RingShape.headPtr_append, hhead]
    have hmem1 : (tR.append (RingShape.cons n ch RingShape.nil)).members = tR.members ++ [n] := by
      rw [RingShape.members_append]; rfl
    rw [hhead, hhead1, hmem1]
    refine ⟨h1, hadd, hr1, hw1, hsteps, ?_, ?_, ?_, hlen, hav, hlog⟩
    · intro q hq
      simp only [List.mem_append, List.mem_singleton, not_or] at hq
      rw [hread]
      cases hcq : h.read q with
      | none => rfl
      | some cq =>
        have hqa : q ≠ a := fun hh => hq.1 (hh ▸ hamem)
        have hql : q ≠ last := fun hh => hq.1 (hh ▸ hlastmem)
        simp [addUpdate_other op cq hq.2 hqa hql]
    · intro q
      exact hmap _ q (fun c => rfl)
    · intro q hq
      exact hmap _ q (fun c => by simp [addUpdate, hq])

theorem isRing_congr {h h1 : Heap} {ms : List Nat} (hq : ∀ q ∈ ms, h1.read q = h.read q)
    (hr : IsRing h ms) : IsRing h1 ms := by
  refine IsRing.intro hr.1 hr.2.1 ?_
  intro i e he
  rw [hq e (List.getElem?_mem he)]
  exact hr.at he

theorem wired_frame {h h1 : Heap} (t : RingShape) (hq : ∀ q ∈ t.addrs, h1.read q = h.read q) :
    wired h1 t = wired h t :=
  wired_congr t (fun q hm => by rw [hq q hm])
    (fun q hm => by rw [hq q (RingShape.nested_subset_addrs t q hm)])

theorem memberSteps_frame {h h1 : Heap} (node parent : xmlNodePtr) (t : RingShape)
    (hq : ∀ q ∈ t.addrs, h1.read q = h.read q) :
    memberSteps h1 node parent t = memberSteps h node parent t :=
  memberSteps_congr node parent t (fun q hm => by rw [hq q hm])

theorem chained_frame {h h1 : Heap} (t : RingShape) (hq : ∀ q ∈ t.addrs, h1.read q = h.read q) :
    chained h1 t = chained h t :=
  chained_congr t (fun q hm => by rw [hq q (RingShape.members_subset_addrs t q hm)])

theorem foldStatus_single (op : xmlSecNodeSetOp) (r m : Int) (hr : r = 0 ∨ r = 1)
    (hop : validOp op) :
    foldStatus [(op, m)] r = boolInt (combine op (decide (r ≠ 0)) (decide (m ≠ 0))) := by
  rw [foldStatus_bool [(op, m)] r hr (by simpa using hop)]
  rfl

/-- The value of a ring extended by one member: the error value `-1` of the
ring is kept, otherwise the status is joined with the test of the member. -/
theorem foldStatus_snoc (xs : List (xmlSecNodeSetOp × Int)) (op : xmlSecNodeSetOp) (m : Int)
    (hop : validOp op) :
    foldStatus (xs ++ [(op, m)]) 1 =
      if foldStatus xs 1 = -1 then -1
      else boolInt (combine op (decide (foldStatus xs 1 ≠ 0)) (decide (m ≠ 0))) := by
  rw [foldStatus_append xs _ 1 (Or.inr rfl)]
  split_ifs with he
  · rfl
  · rcases foldStatus_range xs 1 (Or.inr rfl) with h1 | h1
    · exact absurd h1 he
    · exact foldStatus_single op _ m h1 hop

/-- What `xmlSecNodeSetAddList(R, M, op)` leaves when memory is available: the
ring `R` followed by a new member `w` of variant `List` whose nested ring is
`M`; the member tests of `R` and the value of `M` are unchanged. -/
theorem addList_spec (h : Heap) (fuel : Nat) (tR tM : RingShape) (op : xmlSecNodeSetOp)
    (node parent : xmlNodePtr) (hnode : node.isNull = false)
    (hR : tR = RingShape.nil ∨ IsRing h tR.members) (hRw : wired h tR = true)
    (hMne : tM ≠ RingShape.nil) (hMc : chained h tM = true) (hMw : wired h tM = true)
    (hsep : ∀ q ∈ tR.members, q ∉ tR.nested ∧ q ∉ tM.addrs)
    (havail : 0 < h.avail) :
    ∃ h1 new w, xmlSecNodeSetAddList fuel h tR.headPtr tM.headPtr op = some (h1, some new) ∧
      new = (match tR.headPtr with
        | some a => a
        | none => w) ∧
      (h1.read w).map (fun c => (c.type, c.children)) =
        some (xmlSecNodeSetList, tM.headPtr) ∧
      (∀ f, xmlSecNodeSetOneContains h1 (f + 1) (some w) node parent =
        xmlSecNodeSetContains h1 f tM.headPtr node parent) ∧
      Returns (fun f => xmlSecNodeSetContains h1 f tM.headPtr node parent)
        (containsValue h node parent tM) ∧
      Returns (fun f => xmlSecNodeSetContains h1 f (some new) node parent)
        (foldStatus (memberSteps h node parent tR ++ [(op, containsValue h node parent tM)])
          1) := by
  -- the ring handed in
  obtain ⟨m, hm⟩ : ∃ m, tM.headPtr = some m := by
    cases tM with
    | nil => exact absurd rfl hMne
    | cons a ch rest => exact ⟨a, rfl⟩
  have hmaddr : m ∈ tM.addrs := by
    cases tM with
    | nil => simp [RingShape.headPtr] at hm
    | cons a ch rest =>
      simp only [RingShape.headPtr, Option.some.injEq] at hm
      simp [RingShape.addrs, hm]
  have hMalloc := wired_allocated _ hMw
  have hRalloc := wired_allocated _ hRw
  obtain ⟨mr, hmr⟩ := wired_readable _ hMw m hmaddr
  -- the wrapper
  obtain ⟨h1, hcreate, hread1, hother1, hlen1, hav1, hlog1⟩ :=
    create_spec h mr.doc none xmlSecNodeSetList havail
  have hwlt : h.cells.length < h1.cells.length := by omega
  have hread2 : ∀ q, (h1.write h.cells.length (listWrapper mr.doc h.cells.length m)).read q =
      if q = h.cells.length then some (listWrapper mr.doc h.cells.length m) else h.read q := by
    intro q
    rw [Heap.read_write _ hwlt]
    split_ifs with hq
    · rfl
    · exact hother1 q hq
  generalize hh2 : h1.write h.cells.length (listWrapper mr.doc h.cells.length m) = h2 at hread2
  generalize hw : h.cells.length = w at hread2 hMalloc hRalloc hcreate hh2 hread1 hother1
  have hold : ∀ q, q < w → h2.read q = h.read q := by
    intro q hq
    rw [hread2, if_neg (by omega)]
  have hwR : w ∉ tR.addrs := fun hh => by have := hRalloc w hh; omega
  have hwM : w ∉ tM.addrs := fun hh => by have := hMalloc w hh; omega
  have hR2 : tR = RingShape.nil ∨ IsRing h2 tR.members := by
    rcases hR with hR | hR
    · exact Or.inl hR
    · exact Or.inr (isRing_congr (fun q hq =>
        hold q (hRalloc q (RingShape.members_subset_addrs tR q hq))) hR)
  have hRw2 : wired h2 tR = true := by
    rw [wired_frame tR (fun q hq => hold q (hRalloc q hq))]; exact hRw
  have hMw2 : wired h2 tM = true := by
    rw [wired_frame _ (fun q hq => hold q (hMalloc q hq))]; exact hMw
  have hMc2 : chained h2 tM = true := by
    rw [chained_frame _ (fun q hq => hold q (hMalloc q hq))]; exact hMc
  have hw2 : h2.read w = some (listWrapper mr.doc w m) := by rw [hread2]; simp
  have hn2 : IsRing h2 [w] := isRing_singleton_iff.mpr ⟨_, hw2, rfl, rfl⟩
  have hnw2 : wired h2 (RingShape.cons w tM RingShape.nil) = true :=
    wired_cons_list hw2 rfl (by rw [hm]; rfl) hMc2 hMw2
  obtain ⟨h3, hadd, hr3, hw3, hsteps3, hframe3, hpay3, hop3, hlen3, hav3, hlog3⟩ :=
    add_member h2 tR tM w op node parent hR2 hRw2 hn2 hnw2 hwR hwM hsep
  generalize ht1 : tR.append (RingShape.cons w tM RingShape.nil) = t1 at hadd hr3 hw3 hsteps3 hframe3
  obtain ⟨new, hnew⟩ : ∃ new, t1.headPtr = some new := by
    rw [← ht1, RingShape.headPtr_append]
    cases tR.headPtr with
    | none => exact ⟨w, rfl⟩
    | some a => exact ⟨a, rfl⟩
  have hnew2 : new = (match tR.headPtr with
      | some a => a
      | none => w) := by
    rw [← ht1, RingShape.headPtr_append] at hnew
    cases hp : tR.headPtr with
    | none => rw [hp] at hnew; simpa [RingShape.headPtr] using hnew.symm
    | some a => rw [hp] at hnew; simpa using hnew.symm
  -- the call itself
  have hcall : xmlSecNodeSetAddList fuel h tR.headPtr tM.headPtr op = some (h3, some new) := by
    rw [hm]
    simp only [xmlSecNodeSetAddList, hmr, hcreate, hread1]
    have e : (h1.write w { xmlSecNodeSet.zero with
        doc := mr.doc, nodes := none, type := xmlSecNodeSetList, next := some w,
        prev := some w, children := some m }) = h2 := hh2
    simp only [e, hadd, hnew]
  -- the wrapper in the final heap
  have hw3read : (h3.read w).map (fun c => (c.type, c.children)) =
      some (xmlSecNodeSetList, tM.headPtr) := by
    have := hpay3 w
    rw [hw2] at this
    cases hc : h3.read w with
    | none => simp [hc] at this
    | some c =>
      simp only [hc, Option.map_some', Option.some.injEq, xmlSecNodeSet.payload,
        Prod.mk.injEq, listWrapper] at this
      simp [this.2.2.1, this.2.2.2, hm]
  have hone : ∀ f, xmlSecNodeSetOneContains h3 (f + 1) (some w) node parent =
      xmlSecNodeSetContains h3 f tM.headPtr node parent := by
    intro f
    cases hc : h3.read w with
    | none => simp [hc] at hw3read
    | some c =>
      simp only [hc, Option.map_some', Option.some.injEq, Prod.mk.injEq] at hw3read
      rw [oneContains_list h3 w c hc hw3read.1 node parent hnode f, hw3read.2]
  -- the values
  have hMin3 : ∀ q ∈ tM.addrs, h3.read q = h.read q := by
    intro q hq
    have hqlt := hMalloc q hq
    rw [hframe3 q ?_, hold q hqlt]
    rw [← ht1, RingShape.members_append]
    simp only [List.mem_append, RingShape.members, List.mem_singleton, not_or]
    refine ⟨fun hh => (hsep q hh).2 hq, by omega⟩
  have hvalM3 := contains_eval h3 node parent hnode tM
    (by rw [chained_frame _ hMin3]; exact hMc) (by rw [wired_frame _ hMin3]; exact hMw)
  have hvalM3eq : containsValue h3 node parent tM = containsValue h node parent tM := by
    unfold containsValue; rw [memberSteps_frame node parent _ hMin3]
  rw [hvalM3eq] at hvalM3
  have hval3 := contains_eval h3 node parent hnode t1 (chained_of_isRing hr3) hw3
  rw [hnew] at hval3
  refine ⟨h3, new, w, hcall, hnew2, hw3read, hone, hvalM3, ?_⟩
  have hstepsR : memberSteps h2 node parent tR = memberSteps h node parent tR :=
    memberSteps_frame node parent tR (fun q hq => hold q (hRalloc q hq))
  have hvalM2 : containsValue h2 node parent tM = containsValue h node parent tM := by
    unfold containsValue
    rw [memberSteps_frame node parent _ (fun q hq => hold q (hMalloc q hq))]
  have hval : containsValue h3 node parent t1 =
      foldStatus (memberSteps h node parent tR ++ [(op, containsValue h node parent tM)]) 1 := by
    unfold containsValue
    rw [hsteps3, hstepsR, memberSteps_cons_list node parent hw2 rfl]
    simp only [List.map_cons, List.map_nil]
    rw [hvalM2]
    rfl
  rw [hval] at hval3
  exact hval3

/-- C7. Nested-list law.  Let `R` be a ring (possibly absent) and `M` a ring,
both agreeing with the heap, no member of `R` lying inside a nested ring of
`R` or in `M`, and let memory be available.  Then `xmlSecNodeSetAddList(R, M,
op)` returns a ring whose containment test is `combine(op, contains(R),
contains(M))`, with AND, AND-NOT, OR for the three combinators; where the
fold of `R` stops with the error value `-1`, so does the fold of the new
ring.  The test of the new `List` member is the containment test of `M`, and
the test of any `List` record is that of its nested ring, whatever its raw
collection. -/
theorem nested_list_law (h : Heap) (fuel : Nat) (tR tM : RingShape) (op : xmlSecNodeSetOp)
    (node parent : xmlNodePtr) (hnode : node.isNull = false)
    (hR : tR = RingShape.nil ∨ IsRing h tR.members) (hRw : wired h tR = true)
    (hMne : tM ≠ RingShape.nil) (hMc : chained h tM = true) (hMw : wired h tM = true)
    (hsep : ∀ q ∈ tR.members, q ∉ tR.nested ∧ q ∉ tM.addrs)
    (havail : 0 < h.avail) (hop : validOp op) :
    ∃ h1 new w, xmlSecNodeSetAddList fuel h tR.headPtr tM.headPtr op = some (h1, some new) ∧
      new = (match tR.headPtr with
        | some a => a
        | none => w) ∧
      (h1.read w).map (fun c => (c.type, c.children)) =
        some (xmlSecNodeSetList, tM.headPtr) ∧
      (∀ f, xmlSecNodeSetOneContains h1 (f + 1) (some w) node parent =
        xmlSecNodeSetContains h1 f tM.headPtr node parent) ∧
      (∀ (g : Heap) (p : Nat) (s : xmlSecNodeSet), g.read p = some s →
        s.type = xmlSecNodeSetList → ∀ f,
          xmlSecNodeSetOneContains g (f + 1) (some p) node parent =
            xmlSecNodeSetContains g f s.children node parent) ∧
      ∃ r m, Returns (fun f => xmlSecNodeSetContains h f tR.headPtr node parent) r ∧
        Returns (fun f => xmlSecNodeSetContains h f tM.headPtr node parent) m ∧
        Returns (fun f => xmlSecNodeSetContains h1 f tM.headPtr node parent) m ∧
        Returns (fun f => xmlSecNodeSetContains h1 f (some new) node parent)
          (if r = -1 then -1
            else boolInt (combine op (decide (r ≠ 0)) (decide (m ≠ 0)))) := by
  obtain ⟨h1, new, w, hcall, hnew, hwrap, hone, hvM1, hv1⟩ :=
    addList_spec h fuel tR tM op node parent hnode hR hRw hMne hMc hMw hsep havail
  have hvR := contains_eval h node parent hnode tR
    (by rcases hR with hR | hR
        · subst hR; rfl
        · exact chained_of_isRing hR) hRw
  have hvM := contains_eval h node parent hnode tM hMc hMw
  refine ⟨h1, new, w, hcall, hnew, hwrap, hone,
    fun g p s hs hty f => oneContains_list g p s hs hty node parent hnode f,
    containsValue h node parent tR, containsValue h node parent tM, hvR, hvM, hvM1, ?_⟩
  have e : foldStatus (memberSteps h node parent tR ++ [(op, containsValue h node parent tM)])
      1 = (if containsValue h node parent tR = -1 then -1
        else boolInt (combine op (decide (containsValue h node parent tR ≠ 0))
          (decide (containsValue h node parent tM ≠ 0)))) :=
    foldStatus_snoc _ op _ hop
  rw [e] at hv1
  exact hv1

theorem destroy_map_ne_some (fuel : Nat) (h0 : Heap) (r : Nat) (h1 : Heap) (p : Nat) :
    (xmlSecNodeSetDestroy fuel h0 (some r)).map (fun h1 => (h1, (none : Option Nat))) ≠
      some (h1, some p) := by
  cases xmlSecNodeSetDestroy fuel h0 (some r) <;> simp

theorem fail_ne_some (fuel : Nat) (res : Option Nat) (h0 h1 : Heap) (r : Nat) :
    (match res with
      | some r0 => (xmlSecNodeSetDestroy fuel h0 (some r0)).map (fun h1 => (h1, none))
      | none => some (h0, (none : Option Nat))) ≠ some (h1, some r) := by
  cases res with
  | none => simp
  | some r0 => exact destroy_map_ne_some fuel h0 r0 h1 r

/-- One successful round of the loop of `xmlSecXPathDataExecute`: a record is
created for the descriptor and added to the ring built so far. -/
theorem executeLoop_cons_inv (lib : LibXml) (fuel : Nat) (doc : Option Nat)
    (hereNode : xmlNodePtr) (h : Heap) (d : xmlSecXPathData) (next : List xmlSecXPathData)
    (res : Option Nat) (h1 : Heap) (r : Nat)
    (hloop : xmlSecXPathDataExecuteLoop lib fuel doc hereNode h (d :: next) res =
      some (h1, some r)) :
    ∃ op nodes ha tmp1 hb tmp2, opOfFilter d.xpath2Type = some op ∧
      xmlSecNodeSetCreate h doc nodes (typeOfDialect d.xpathType) = (ha, some tmp1) ∧
      xmlSecNodeSetAdd ha res (some tmp1) op = some (hb, some tmp2) ∧
      xmlSecXPathDataExecuteLoop lib fuel doc hereNode hb next (some tmp2) =
        some (h1, some r) := by
  have hfail := fun h0 : Heap => fail_ne_some fuel res h0 h1 r
  simp only [xmlSecXPathDataExecuteLoop] at hloop
  split at hloop
  · exact absurd hloop (hfail _)
  · rename_i op hop
    split at hloop
    · exact absurd hloop (hfail _)
    · rename_i ctx0 hctx
      split at hloop
      · simp at hloop
      · rename_i status ctx hreg
        split at hloop
        · exact absurd hloop (hfail _)
        · split at hloop
          · exact absurd hloop (hfail _)
          · rename_i obj hobj
            split at hloop
            · exact absurd hloop (hfail _)
            · rename_i ha tmp1 hcreate
              split at hloop
              · simp at hloop
              · split at hloop
                · simp at hloop
                · exact absurd hloop (hfail _)
              · rename_i hb tmp2 hadd
                refine ⟨op, obj.nodesetval, ha, tmp1, hb, tmp2, ?_, ?_, hadd, hloop⟩
                · revert hop
                  cases d.xpath2Type <;> simp [opOfFilter]
                · rw [← hcreate]
                  cases d.xpathType <;> rfl

theorem create_some_inv (h : Heap) (doc : Option Nat) (nodes : Option xmlNodeSet)
    (type : xmlSecNodeSetType) (h1 : Heap) (p : Nat)
    (hc : xmlSecNodeSetCreate h doc nodes type = (h1, some p)) : 0 < h.avail := by
  by_contra hlt
  have h0 : h.avail = 0 := by omega
  rw [create_fails h doc nodes type h0] at hc
  simp at hc

/-- The rounds of the loop of `xmlSecXPathDataExecute` that end in success: one
new record per descriptor, appended in descriptor order to the ring `cur`
built so far; records below the address `L0`, where the ring does not reach,
keep their contents. -/
theorem executeLoop_spec (lib : LibXml) (fuel : Nat) (doc : Option Nat)
    (hereNode : xmlNodePtr) (L0 : Nat) :
    ∀ (data : List xmlSecXPathData) (h : Heap) (cur : List Nat) (res : Option Nat)
      (h1 : Heap) (r : Nat),
      L0 ≤ h.cells.length →
      ((cur = [] ∧ res = none) ∨ (IsRing h cur ∧ res = cur[0]?)) →
      (∀ q ∈ cur, L0 ≤ q) →
      xmlSecXPathDataExecuteLoop lib fuel doc hereNode h data res = some (h1, some r) →
      ∃ new : List Nat, IsRing h1 (cur ++ new) ∧ (cur ++ new)[0]? = some r ∧
        new.length = data.length ∧
        (∀ q ∈ new, L0 ≤ q) ∧
        (∀ q, q < L0 → h1.read q = h.read q) ∧
        (∀ q ∈ cur, (h1.read q).map (fun c => (c.op, c.type, c.nodes)) =
          (h.read q).map (fun c => (c.op, c.type, c.nodes))) ∧
        List.Forall₂ (fun q d => ∃ c, h1.read q = some c ∧ some c.op = opOfFilter d.xpath2Type ∧
          c.type = typeOfDialect d.xpathType) new data := by
  intro data
  induction data with
  | nil =>
    intro h cur res h1 r _ hcur _ hloop
    simp only [xmlSecXPathDataExecuteLoop, Option.some.injEq, Prod.mk.injEq] at hloop
    obtain ⟨rfl, rfl⟩ := hloop
    rcases hcur with ⟨_, hres⟩ | ⟨hr, hres⟩
    · simp at hres
    · exact ⟨[], by simpa using hr, by simpa using hres.symm, rfl, by simp, fun _ _ => rfl,
        fun _ _ => rfl, List.Forall₂.nil⟩
  | cons d next ih =>
    intro h cur res h1 r hL0 hcur hge hloop
    obtain ⟨op, nodes, ha, tmp1, hb, tmp2, hop, hcreate, hadd, hrest⟩ :=
      executeLoop_cons_inv lib fuel doc hereNode h d next res h1 r hloop
    have havail := create_some_inv _ _ _ _ _ _ hcreate
    obtain ⟨ha1, hcreate1, hreadw, hother, hlena, -, -⟩ :=
      create_spec h doc nodes (typeOfDialect d.xpathType) havail
    rw [hcreate1] at hcreate
    simp only [Prod.mk.injEq, Option.some.injEq] at hcreate
    obtain ⟨rfl, rfl⟩ := hcreate
    generalize hw : h.cells.length = w at *
    have hwring : IsRing ha1 [w] := isRing_singleton_iff.mpr ⟨_, hreadw, rfl, rfl⟩
    -- the ring after this round
    have hstep : ∃ a, tmp2 = a ∧ (cur ++ [w])[0]? = some a ∧ IsRing hb (cur ++ [w]) ∧
        (∀ q, q ∉ cur ++ [w] → hb.read q = ha1.read q) ∧
        (∀ q, q ≠ w → (hb.read q).map (fun c => (c.op, c.type, c.nodes)) =
          (ha1.read q).map (fun c => (c.op, c.type, c.nodes))) ∧
        (hb.read w).map (fun c => (c.op, c.type, c.nodes)) =
          some (op, typeOfDialect d.xpathType, nodes) ∧
        hb.cells.length = ha1.cells.length := by
      rcases hcur with ⟨rfl, rfl⟩ | ⟨hr, hres⟩
      · rw [add_absent ha1 w op _ hreadw rfl] at hadd
        simp only [Option.some.injEq, Prod.mk.injEq] at hadd
        obtain ⟨rfl, rfl⟩ := hadd
        have hwlt : w < ha1.cells.length := by omega
        refine ⟨w, rfl, by simp, ?_, ?_, ?_, ?_, by simp⟩
        · exact isRing_singleton_iff.mpr ⟨_, Heap.read_write_same _ hwlt, rfl, rfl⟩
        · intro q hq
          exact Heap.read_write_other _ (by simpa using hq)
        · intro q hq
          rw [Heap.read_write_other _ hq]
        · rw [Heap.read_write_same _ hwlt]; rfl
      · have hpos := hr.length_pos
        obtain ⟨a, ha⟩ : ∃ a, cur[0]? = some a := ⟨cur[0], List.getElem?_eq_getElem hpos⟩
        have hcurlt : ∀ q ∈ cur, q < w := by
          intro q hq
          obtain ⟨i, hi, rfl⟩ := List.getElem_of_mem hq
          obtain ⟨c, hc, -, -⟩ := hr.cell (List.getElem?_eq_getElem hi)
          have := Heap.read_lt hc
          omega
        have hra : IsRing ha1 cur :=
          isRing_congr (fun q hq => hother q (by have := hcurlt q hq; omega)) hr
        have hwcur : w ∉ cur := fun hh => by have := hcurlt w hh; omega
        obtain ⟨hb1, last, hlast, hadd1, hrb, hreadb, hlenb, -, -⟩ :=
          add_ring ha1 cur a w op hra ha hwring hwcur
        rw [hres, ha, hadd1] at hadd
        simp only [Option.some.injEq, Prod.mk.injEq] at hadd
        obtain ⟨rfl, rfl⟩ := hadd
        have hmap : ∀ {β : Type} (f : xmlSecNodeSet → β) (q : Nat),
            (∀ c, f (addUpdate w a last op q c) = f c) →
            (hb1.read q).map f = (ha1.read q).map f := by
          intro β f q hf
          rw [hreadb]
          cases ha1.read q with
          | none => rfl
          | some c => simp [hf]
        refine ⟨a, rfl, by rw [List.getElem?_append_left hpos]; exact ha, hrb, ?_, ?_, ?_, hlenb⟩
        · intro q hq
          simp only [List.mem_append, List.mem_singleton, not_or] at hq
          rw [hreadb]
          cases hcq : ha1.read q with
          | none => rfl
          | some cq =>
            have hqa : q ≠ a := fun hh => hq.1 (hh ▸ List.getElem?_mem ha)
            have hql : q ≠ last := fun hh => hq.1 (hh ▸ List.getElem?_mem hlast)
            simp [addUpdate_other op cq hq.2 hqa hql]
        · intro q hq
          exact hmap _ q (fun c => by simp [addUpdate, hq])
        · rw [hreadb, hreadw]; simp [addUpdate]
    obtain ⟨a, rfl, hhead, hrb, hframeb, hviewb, hwb, hlenb⟩ := hstep
    have hge1 : ∀ q ∈ cur ++ [w], L0 ≤ q := by
      intro q hq
      simp only [List.mem_append, List.mem_singleton] at hq
      rcases hq with hq | rfl
      · exact hge q hq
      · exact hL0
    obtain ⟨new, hr1, hhead1, hlen1, hgenew, hframe1, hview1, hall1⟩ :=
      ih hb (cur ++ [w]) (some tmp2) h1 r (by omega) (Or.inr ⟨hrb, hhead.symm⟩) hge1 hrest
    refine ⟨w :: new, by simpa [List.append_assoc] using hr1,
      by simpa [List.append_assoc] using hhead1, by simp [hlen1], ?_, ?_, ?_, ?_⟩
    · intro q hq
      simp only [List.mem_cons] at hq
      rcases hq with rfl | hq
      · exact hL0
      · exact hgenew q hq
    · intro q hq
      rw [hframe1 q hq, hframeb q ?_, hother q (by omega)]
      intro hh
      have := hge1 q hh
      omega
    · intro q hq
      have hqw : q ≠ w := by
        intro hh
        subst hh
        rcases hcur with ⟨rfl, _⟩ | ⟨hr, _⟩
        · simp at hq
        · obtain ⟨i, hi, hqi⟩ := List.getElem_of_mem hq
          obtain ⟨c, hc, -, -⟩ := hr.cell (List.getElem?_eq_getElem hi)
          rw [hqi] at hc
          have := Heap.read_lt hc
          omega
      rw [hview1 q (by simp [hq]), hviewb q hqw, hother q hqw]
    · refine List.Forall₂.cons ?_ hall1
      have := hview1 w (by simp)
      rw [hwb] at this
      cases hc : h1.read w with
      | none => simp [hc] at this
      | some c =>
        simp only [hc, Option.map_some', Option.some.injEq, Prod.mk.injEq] at this
        exact ⟨c, rfl, by rw [this.1, hop], this.2.1⟩

theorem flatShape_members (l : List Nat) : (flatShape l).members = l := by
  induction l with
  | nil => rfl
  | cons a l ih => simp [flatShape, RingShape.members, ih]

theorem flatShape_addrs (l : List Nat) : (flatShape l).addrs = l := by
  induction l with
  | nil => rfl
  | cons a l ih => simp [flatShape, RingShape.addrs, ih]

theorem flatShape_headPtr (l : List Nat) : (flatShape l).headPtr = l[0]? := by
  cases l <;> simp [flatShape, RingShape.headPtr]

theorem flatShape_wired (h : Heap) (l : List Nat) (hl : ∀ q ∈ l, ∃ c, h.read q = some c ∧
    c.type ≠ xmlSecNodeSetList) : wired h (flatShape l) = true := by
  induction l with
  | nil => rfl
  | cons a l ih =>
    obtain ⟨c, hc, hty⟩ := hl a (by simp)
    simp [flatShape, wired, hc, hty, ih (fun q hq => hl q (by simp [hq]))]

theorem typeOfDialect_ne_list (t : xmlSecXPathType) : typeOfDialect t ≠ xmlSecNodeSetList := by
  cases t <;> simp [typeOfDialect]

theorem addList_some_inv (fuel : Nat) (h : Heap) (nset : Option Nat) (m : Nat)
    (op : xmlSecNodeSetOp) (mr : xmlSecNodeSet) (hm : h.read m = some mr) (h2 : Heap)
    (new : Nat) (hcall : xmlSecNodeSetAddList fuel h nset (some m) op = some (h2, some new)) :
    0 < h.avail := by
  by_contra hlt
  have h0 : h.avail = 0 := by omega
  simp [xmlSecNodeSetAddList, hm, create_fails h mr.doc none xmlSecNodeSetList h0] at hcall

/-- What a successful `xmlSecXPathDataExecute` leaves: a ring `ms` of new
records, one per descriptor and in their order, none of variant `List`, while
the records allocated before keep their contents. -/
theorem dataExecute_spec (lib : LibXml) (fuel : Nat) (h : Heap) (data : List xmlSecXPathData)
    (doc : Option Nat) (hereNode : xmlNodePtr) (h1 : Heap) (res : Nat)
    (hexec : xmlSecXPathDataExecute lib fuel h data doc hereNode = some (h1, some res)) :
    ∃ ms : List Nat, IsRing h1 ms ∧ ms[0]? = some res ∧ ms.length = data.length ∧
      (∀ q ∈ ms, h.cells.length ≤ q) ∧
      (∀ q, q < h.cells.length → h1.read q = h.read q) ∧
      List.Forall₂ (fun q d => ∃ c, h1.read q = some c ∧ some c.op = opOfFilter d.xpath2Type ∧
        c.type = typeOfDialect d.xpathType) ms data := by
  unfold xmlSecXPathDataExecute at hexec
  cases data with
  | nil => simp at hexec
  | cons d next =>
    simp only at hexec
    split_ifs at hexec with h1e h2e
    · simp at hexec
    · simp at hexec
    · obtain ⟨new, hr, hhead, hlen, hge, hframe, -, hall⟩ :=
        executeLoop_spec lib fuel doc hereNode h.cells.length (d :: next) h [] none h1 res
          (le_refl _) (Or.inl ⟨rfl, rfl⟩) (by simp) hexec
      exact ⟨new, by simpa using hr, by simpa using hhead, hlen, hge, hframe, hall⟩

/-- The working set after a merge through `xmlSecNodeSetAddList`. -/
theorem merge_list (fuel : Nat) (h h1 h2 : Heap) (tOld : RingShape) (ms : List Nat)
    (res new : Nat) (node parent : xmlNodePtr) (hnode : node.isNull = false)
    (hold : tOld = RingShape.nil ∨ IsRing h tOld.members) (hw : wired h tOld = true)
    (hsep : ∀ q ∈ tOld.members, q ∉ tOld.nested)
    (hr : IsRing h1 ms) (hhead : ms[0]? = some res) (hge : ∀ q ∈ ms, h.cells.length ≤ q)
    (hframe : ∀ q, q < h.cells.length → h1.read q = h.read q)
    (hflat : ∀ q ∈ ms, ∃ c, h1.read q = some c ∧ c.type ≠ xmlSecNodeSetList)
    (hcall : xmlSecNodeSetAddList fuel h1 tOld.headPtr (some res) xmlSecNodeSetIntersection =
      some (h2, some new)) :
    ∃ r c, Returns (fun f => xmlSecNodeSetContains h f tOld.headPtr node parent) r ∧
      Returns (fun f => xmlSecNodeSetContains h1 f (some res) node parent) c ∧
      Returns (fun f => xmlSecNodeSetContains h2 f (some new) node parent)
        (if r = -1 then -1 else boolInt (decide (r ≠ 0) && decide (c ≠ 0))) := by
  have halloc := wired_allocated tOld hw
  have hold1 : tOld = RingShape.nil ∨ IsRing h1 tOld.members := by
    rcases hold with ho | ho
    · exact Or.inl ho
    · exact Or.inr (isRing_congr (fun q hq =>
        hframe q (halloc q (RingShape.members_subset_addrs tOld q hq))) ho)
  have hw1 : wired h1 tOld = true := by
    rw [wired_frame tOld (fun q hq => hframe q (halloc q hq))]; exact hw
  have hne : flatShape ms ≠ RingShape.nil := by
    cases ms with
    | nil => simp at hhead
    | cons a l => simp [flatShape]
  have hCc : chained h1 (flatShape ms) = true :=
    chained_of_isRing (by rw [flatShape_members]; exact hr)
  have hCw : wired h1 (flatShape ms) = true := flatShape_wired h1 ms hflat
  have hsep1 : ∀ q ∈ tOld.members, q ∉ tOld.nested ∧ q ∉ (flatShape ms).addrs := by
    intro q hq
    refine ⟨hsep q hq, ?_⟩
    rw [flatShape_addrs]
    intro hh
    have h1q := hge q hh
    have h2q := halloc q (RingShape.members_subset_addrs tOld q hq)
    omega
  have hCh : (flatShape ms).headPtr = some res := by rw [flatShape_headPtr]; exact hhead
  obtain ⟨mr, hmr, -⟩ := hflat res (List.getElem?_mem hhead)
  have havail := addList_some_inv fuel h1 _ res _ mr hmr h2 new hcall
  obtain ⟨h3, new1, w, hcall1, -, -, -, hvc3, hv3⟩ :=
    addList_spec h1 fuel tOld (flatShape ms) xmlSecNodeSetIntersection node parent hnode
      hold1 hw1 hne hCc hCw hsep1 havail
  have hvc := contains_eval h1 node parent hnode (flatShape ms) hCc hCw
  rw [hCh] at hcall1 hvc
  rw [hcall1] at hcall
  simp only [Option.some.injEq, Prod.mk.injEq] at hcall
  obtain ⟨rfl, rfl⟩ := hcall
  -- the old working set has the same value before the chain was evaluated
  have hvr0 := contains_eval h node parent hnode tOld
    (by rcases hold with ho | ho
        · subst ho; rfl
        · exact chained_of_isRing ho) hw
  have hreq : containsValue h1 node parent tOld = containsValue h node parent tOld := by
    unfold containsValue
    rw [memberSteps_frame node parent tOld (fun q hq => hframe q (halloc q hq))]
  refine ⟨_, _, hvr0, hvc, ?_⟩
  rw [foldStatus_snoc _ _ _ (Or.inl rfl)] at hv3
  have e : foldStatus (memberSteps h1 node parent tOld) 1 = containsValue h node parent tOld :=
    hreq
  rw [e] at hv3
  simpa [combine] using hv3

/-- The working set after a merge through `xmlSecNodeSetAdd` of a one-member
chain result that carries the combinator Intersection. -/
theorem merge_add (h h1 h2 : Heap) (tOld : RingShape) (res new : Nat)
    (node parent : xmlNodePtr) (hnode : node.isNull = false)
    (hold : tOld = RingShape.nil ∨ IsRing h tOld.members) (hw : wired h tOld = true)
    (hsep : ∀ q ∈ tOld.members, q ∉ tOld.nested)
    (hr : IsRing h1 [res]) (hge : h.cells.length ≤ res)
    (hframe : ∀ q, q < h.cells.length → h1.read q = h.read q)
    (hcell : ∃ c, h1.read res = some c ∧ c.op = xmlSecNodeSetIntersection ∧
      c.type ≠ xmlSecNodeSetList)
    (hcall : xmlSecNodeSetAdd h1 tOld.headPtr (some res) xmlSecNodeSetIntersection =
      some (h2, some new)) :
    ∃ r c, Returns (fun f => xmlSecNodeSetContains h f tOld.headPtr node parent) r ∧
      Returns (fun f => xmlSecNodeSetContains h1 f (some res) node parent) c ∧
      Returns (fun f => xmlSecNodeSetContains h2 f (some new) node parent)
        (if r = -1 then -1 else boolInt (decide (r ≠ 0) && decide (c ≠ 0))) := by
  obtain ⟨c0, hc0, hc0op, hc0ty⟩ := hcell
  have halloc := wired_allocated tOld hw
  have hold1 : tOld = RingShape.nil ∨ IsRing h1 tOld.members := by
    rcases hold with ho | ho
    · exact Or.inl ho
    · exact Or.inr (isRing_congr (fun q hq =>
        hframe q (halloc q (RingShape.members_subset_addrs tOld q hq))) ho)
  have hw1 : wired h1 tOld = true := by
    rw [wired_frame tOld (fun q hq => hframe q (halloc q hq))]; exact hw
  have hfresh : res ∉ tOld.addrs := fun hh => by have := halloc res hh; omega
  obtain ⟨h3, hadd, hr3, hw3, hsteps3, -⟩ :=
    add_member h1 tOld RingShape.nil res xmlSecNodeSetIntersection node parent hold1 hw1 hr
      (wired_cons_flat hc0 hc0ty) hfresh (by simp [RingShape.addrs])
      (fun q hq => ⟨hsep q hq, by simp [RingShape.addrs]⟩)
  rw [hadd] at hcall
  simp only [Option.some.injEq, Prod.mk.injEq] at hcall
  obtain ⟨rfl, hnew⟩ := hcall
  have hv3 := contains_eval h3 node parent hnode _ (chained_of_isRing hr3) hw3
  rw [hnew] at hv3
  have hvr0 := contains_eval h node parent hnode tOld
    (by rcases hold with ho | ho
        · subst ho; rfl
        · exact chained_of_isRing ho) hw
  have hvc := contains_eval h1 node parent hnode
    (RingShape.cons res RingShape.nil RingShape.nil)
    (chained_of_isRing (by simpa [RingShape.members] using hr)) (wired_cons_flat hc0 hc0ty)
  simp only [RingShape.headPtr] at hvc
  refine ⟨_, _, hvr0, hvc, ?_⟩
  have hstepsOld : memberSteps h1 node parent tOld = memberSteps h node parent tOld :=
    memberSteps_frame node parent tOld (fun q hq => hframe q (halloc q hq))
  have hval : containsValue h3 node parent
      (tOld.append (RingShape.cons res RingShape.nil RingShape.nil)) =
      foldStatus (memberSteps h node parent tOld ++
        [(xmlSecNodeSetIntersection, oneContainsFlat c0.type c0.nodes node parent)]) 1 := by
    unfold containsValue
    rw [hsteps3, hstepsOld, memberSteps_cons_flat node parent hc0 hc0ty]
    rfl
  have hvalc : containsValue h1 node parent (RingShape.cons res RingShape.nil RingShape.nil) =
      boolInt (decide (oneContainsFlat c0.type c0.nodes node parent ≠ 0)) := by
    unfold containsValue
    rw [memberSteps_cons_flat node parent hc0 hc0ty, hc0op,
      foldStatus_single _ 1 _ (Or.inr rfl) (Or.inl rfl)]
    simp [combine]
  rw [hval, foldStatus_snoc _ _ _ (Or.inl rfl)] at hv3
  rw [hvalc]
  have e : decide (boolInt (decide (oneContainsFlat c0.type c0.nodes node parent ≠ 0)) ≠ 0) =
      decide (oneContainsFlat c0.type c0.nodes node parent ≠ 0) := by
    by_cases hz : oneContainsFlat c0.type c0.nodes node parent = 0 <;> simp [hz, boolInt]
  rw [e]
  simpa [combine, containsValue] using hv3

/-- C10. Chain evaluation only narrows the working set.  After a successful
execute of any of the three transforms on a working set that agrees with the
heap (or is absent), for every node the containment test of the new working
set is the test of the old one AND the test of the ring returned by
`xmlSecXPathDataExecute` for the chain; an error status `-1` of the old
working set is kept.  So a node contained afterwards was contained before.
The descriptor of a first-generation or pointer transform carries the filter
tag Intersect, the zero value that its creation leaves. -/
theorem execute_narrows (lib : LibXml) (fuel : Nat) (h : Heap) (transform : xmlSecXmlTransform)
    (ctxDoc : Option Nat) (d : Nat) (tOld : RingShape) (ex : Executed)
    (hold : tOld = RingShape.nil ∨ IsRing h tOld.members) (hw : wired h tOld = true)
    (hsep : ∀ q ∈ tOld.members, q ∉ tOld.nested)
    (hzero : transform.id ≠ xmlSecTransformId.xmlSecTransformXPath2 →
      ∀ x ∈ transform.xmlData,
        x.xpath2Type = xmlSecXPath2TransformType.xmlSecXPathTransformIntersect)
    (hexec : ExecutesTo lib fuel h transform ctxDoc d tOld.headPtr ex) (hret : ex.ret = 0) :
    ∃ h1 res new,
      xmlSecXPathDataExecute lib fuel h transform.xmlData (some d)
        (hereNodeOf transform ctxDoc d) = some (h1, some res) ∧
      ex.nodes = some (some new) ∧
      ∀ node parent : xmlNodePtr, node.isNull = false →
        ∃ r c v, Returns (fun f => xmlSecNodeSetContains h f tOld.headPtr node parent) r ∧
          Returns (fun f => xmlSecNodeSetContains h1 f (some res) node parent) c ∧
          Returns (fun f => xmlSecNodeSetContains ex.heap f (some new) node parent) v ∧
          v = (if r = -1 then -1 else boolInt (decide (r ≠ 0) && decide (c ≠ 0))) ∧
          (v ≠ 0 → r ≠ 0) := by
  have hfinal : ∀ (r c : Int), (if r = -1 then (-1 : Int)
      else boolInt (decide (r ≠ 0) && decide (c ≠ 0))) ≠ 0 → r ≠ 0 := by
    intro r c hv hr
    subst hr
    simp [boolInt] at hv
  -- the two ways of merging
  have hAdd : ∀ (data : xmlSecXPathData) (h1 h2 : Heap) (res r : Nat),
      transform.xmlData = [data] →
      transform.id ≠ xmlSecTransformId.xmlSecTransformXPath2 →
      xmlSecXPathDataExecute lib fuel h [data] (some d) (hereNodeOf transform ctxDoc d) =
        some (h1, some res) →
      xmlSecNodeSetAdd h1 tOld.headPtr (some res) xmlSecNodeSetIntersection =
        some (h2, some r) →
      ∀ node parent : xmlNodePtr, node.isNull = false →
        ∃ r0 c v, Returns (fun f => xmlSecNodeSetContains h f tOld.headPtr node parent) r0 ∧
          Returns (fun f => xmlSecNodeSetContains h1 f (some res) node parent) c ∧
          Returns (fun f => xmlSecNodeSetContains h2 f (some r) node parent) v ∧
          v = (if r0 = -1 then -1 else boolInt (decide (r0 ≠ 0) && decide (c ≠ 0))) ∧
          (v ≠ 0 → r0 ≠ 0) := by
    intro data h1 h2 res r hdata hid hde hadd node parent hnode
    obtain ⟨ms, hr, hhead, hlen, hge, hframe, hall⟩ :=
      dataExecute_spec lib fuel h [data] (some d) _ h1 res hde
    obtain ⟨q0, rfl⟩ : ∃ q0, ms = [q0] := by
      cases ms with
      | nil => simp at hlen
      | cons a l =>
        cases l with
        | nil => exact ⟨a, rfl⟩
        | cons b l2 => simp at hlen
    simp only [List.getElem?_cons_zero, Option.some.injEq] at hhead
    subst hhead
    cases hall with
    | cons hcell _ =>
      obtain ⟨c0, hc0, hc0op, hc0ty⟩ := hcell
      have hz := hzero hid data (by simp [hdata])
      rw [hz] at hc0op
      simp only [opOfFilter, Option.some.injEq] at hc0op
      obtain ⟨r0, c, hvr, hvc, hv⟩ := merge_add h h1 h2 tOld q0 r node parent hnode hold hw hsep
        hr (hge q0 (by simp)) hframe
        ⟨c0, hc0, hc0op, by rw [hc0ty]; exact typeOfDialect_ne_list _⟩ hadd
      exact ⟨r0, c, _, hvr, hvc, hv, rfl, hfinal r0 c⟩
  rcases hexec with hexec | hexec | hexec
  · -- first-generation transform
    simp only [xmlSecTransformXPathExecute] at hexec
    rw [show (if some d = ctxDoc then transform.here else NULL) =
      hereNodeOf transform ctxDoc d from rfl] at hexec
    generalize hereNodeOf transform ctxDoc d = hn at hexec hAdd ⊢
    split_ifs at hexec with hid
    · simp only [Option.some.injEq] at hexec; subst hexec; simp at hret
    · cases hdata : transform.xmlData with
      | nil => rw [hdata] at hexec; simp only [Option.some.injEq] at hexec; subst hexec; simp at hret
      | cons data next =>
        rw [hdata] at hexec
        simp only at hexec
        split_ifs at hexec with hexpr
        · simp only [Option.some.injEq] at hexec; subst hexec; simp at hret
        · cases next with
          | cons x y => simp only [Option.some.injEq] at hexec; subst hexec; simp at hret
          | nil =>
            simp only at hexec
            have hid2 : transform.id ≠ xmlSecTransformId.xmlSecTransformXPath2 := by
              have : transform.id = xmlSecTransformId.xmlSecTransformXPath := by
                simpa using hid
              rw [this]; simp
            cases hde : xmlSecXPathDataExecute lib fuel h [data] (some d) hn with
            | none => rw [hde] at hexec; simp at hexec
            | some pr =>
              obtain ⟨h1, res⟩ := pr
              rw [hde] at hexec
              cases res with
              | none =>
                simp only [Option.some.injEq] at hexec; subst hexec; simp at hret
              | some res =>
                simp only at hexec
                cases hadd : xmlSecNodeSetAdd h1 tOld.headPtr (some res)
                    xmlSecNodeSetIntersection with
                | none => rw [hadd] at hexec; simp at hexec
                | some pr2 =>
                  obtain ⟨h2, r⟩ := pr2
                  rw [hadd] at hexec
                  cases r with
                  | none =>
                    simp only at hexec
                    cases hdes : xmlSecNodeSetDestroy fuel h2 (some res) with
                    | none => rw [hdes] at hexec; simp at hexec
                    | some h3 =>
                      rw [hdes] at hexec
                      simp only [Option.map_some', Option.some.injEq] at hexec
                      subst hexec; simp at hret
                  | some r =>
                    simp only [Option.some.injEq] at hexec
                    subst hexec
                    exact ⟨h1, res, r, rfl, rfl, hAdd data h1 h2 res r hdata hid2 hde hadd⟩
  · -- second-generation transform
    simp only [xmlSecTransformXPath2Execute] at hexec
    rw [show (if some d = ctxDoc then transform.here else NULL) =
      hereNodeOf transform ctxDoc d from rfl] at hexec
    generalize hereNodeOf transform ctxDoc d = hn at hexec hAdd ⊢
    split_ifs at hexec with hid
    · simp only [Option.some.injEq] at hexec; subst hexec; simp at hret
    · cases hdata : transform.xmlData with
      | nil => rw [hdata] at hexec; simp only [Option.some.injEq] at hexec; subst hexec; simp at hret
      | cons data next =>
        rw [hdata] at hexec
        simp only at hexec
        cases hde : xmlSecXPathDataExecute lib fuel h (data :: next) (some d) hn with
        | none => rw [hde] at hexec; simp at hexec
        | some pr =>
          obtain ⟨h1, res⟩ := pr
          rw [hde] at hexec
          cases res with
          | none => simp only [Option.some.injEq] at hexec; subst hexec; simp at hret
          | some res =>
            simp only at hexec
            cases hadd : xmlSecNodeSetAddList fuel h1 tOld.headPtr (some res)
                xmlSecNodeSetIntersection with
            | none => rw [hadd] at hexec; simp at hexec
            | some pr2 =>
              obtain ⟨h2, r⟩ := pr2
              rw [hadd] at hexec
              cases r with
              | none =>
                simp only at hexec
                cases hdes : xmlSecNodeSetDestroy fuel h2 (some res) with
                | none => rw [hdes] at hexec; simp at hexec
                | some h3 =>
                  rw [hdes] at hexec
                  simp only [Option.map_some', Option.some.injEq] at hexec
                  subst hexec; simp at hret
              | some r =>
                simp only [Option.some.injEq] at hexec
                subst hexec
                refine ⟨h1, res, r, rfl, rfl, ?_⟩
                intro node parent hnode
                obtain ⟨ms, hr, hhead, hlen, hge, hframe, hall⟩ :=
                  dataExecute_spec lib fuel h (data :: next) (some d) _ h1 res hde
                have hflat : ∀ q ∈ ms, ∃ c, h1.read q = some c ∧
                    c.type ≠ xmlSecNodeSetList := by
                  intro q hq
                  obtain ⟨i, hi, rfl⟩ := List.getElem_of_mem hq
                  have hi2 : i < (data :: next).length := by rw [← hlen]; exact hi
                  obtain ⟨c, hc, -, hty⟩ := List.Forall₂.get hall hi hi2
                  exact ⟨c, hc, by rw [hty]; exact typeOfDialect_ne_list _⟩
                obtain ⟨r0, c, hvr, hvc, hv⟩ := merge_list fuel h h1 h2 tOld ms res r node parent
                  hnode hold hw hsep hr hhead hge hframe hflat hadd
                exact ⟨r0, c, _, hvr, hvc, hv, rfl, hfinal r0 c⟩
  · -- pointer transform
    simp only [xmlSecTransformXPointerExecute] at hexec
    rw [show (if some d = ctxDoc then transform.here else NULL) =
      hereNodeOf transform ctxDoc d from rfl] at hexec
    generalize hereNodeOf transform ctxDoc d = hn at hexec hAdd ⊢
    split_ifs at hexec with hid
    · simp only [Option.some.injEq] at hexec; subst hexec; simp at hret
    · cases hdata : transform.xmlData with
      | nil => rw [hdata] at hexec; simp only [Option.some.injEq] at hexec; subst hexec; simp at hret
      | cons data next =>
        rw [hdata] at hexec
        simp only at hexec
        split_ifs at hexec with hexpr
        · simp only [Option.some.injEq] at hexec; subst hexec; simp at hret
        · cases next with
          | cons x y => simp only [Option.some.injEq] at hexec; subst hexec; simp at hret
          | nil =>
            simp only at hexec
            have hid2 : transform.id ≠ xmlSecTransformId.xmlSecTransformXPath2 := by
              have : transform.id = xmlSecTransformId.xmlSecTransformXPointer := by
                simpa using hid
              rw [this]; simp
            cases hde : xmlSecXPathDataExecute lib fuel h [data] (some d) hn with
            | none => rw [hde] at hexec; simp at hexec
            | some pr =>
              obtain ⟨h1, res⟩ := pr
              rw [hde] at hexec
              cases res with
              | none =>
                simp only [Option.some.injEq] at hexec; subst hexec; simp at hret
              | some res =>
                simp only at hexec
                cases hadd : xmlSecNodeSetAdd h1 tOld.headPtr (some res)
                    xmlSecNodeSetIntersection with
                | none => rw [hadd] at hexec; simp at hexec
                | some pr2 =>
                  obtain ⟨h2, r⟩ := pr2
                  rw [hadd] at hexec
                  cases r with
                  | none =>
                    simp only at hexec
                    cases hdes : xmlSecNodeSetDestroy fuel h2 (some res) with
                    | none => rw [hdes] at hexec; simp at hexec
                    | some h3 =>
                      rw [hdes] at hexec
                      simp only [Option.map_some', Option.some.injEq] at hexec
                      subst hexec; simp at hret
                  | some r =>
                    simp only [Option.some.injEq] at hexec
                    subst hexec
                    exact ⟨h1, res, r, rfl, rfl, hAdd data h1 h2 res r hdata hid2 hde hadd⟩

/-! ### Concrete instances -/

/-- C10, instance: the second-generation chain `[Intersect][Union]`, both
filters selecting the subtree of `b`, is executed on the working set `Tree`
over `{a}`.  Afterwards the working set contains `c`, which both the old set
and the chain contain, but not `a`, which the chain does not contain. -/
theorem execute_narrows_witness :
    ((exShape 2 = RingShape.nil ∨ IsRing (exHeap [exA]) (exShape 2).members) ∧
      wired (exHeap [exA]) (exShape 2) = true ∧
      (∀ q ∈ (exShape 2).members, q ∉ (exShape 2).nested) ∧
      ExecutesTo exLib 0 (exHeap [exA]) exTransform2 (some 100) 100 (exShape 2).headPtr
        exExecuted ∧
      exExecuted.ret = 0) ∧
    (∃ h1 res new,
      xmlSecXPathDataExecute exLib 0 (exHeap [exA]) exTransform2.xmlData (some 100)
        (hereNodeOf exTransform2 (some 100) 100) = some (h1, some res) ∧
      exExecuted.nodes = some (some new) ∧
      ∀ node parent : xmlNodePtr, node.isNull = false →
        ∃ r c v,
          Returns (fun f => xmlSecNodeSetContains (exHeap [exA]) f (exShape 2).headPtr node
            parent) r ∧
          Returns (fun f => xmlSecNodeSetContains h1 f (some res) node parent) c ∧
          Returns (fun f => xmlSecNodeSetContains exExecuted.heap f (some new) node parent) v ∧
          v = (if r = -1 then -1 else boolInt (decide (r ≠ 0) && decide (c ≠ 0))) ∧
          (v ≠ 0 → r ≠ 0)) ∧
    xmlSecNodeSetContains exExecuted.heap 9 (some 2) exC exB = some 1 ∧
    xmlSecNodeSetContains exExecuted.heap 9 (some 2) exA exDoc = some 0 :=
  ⟨⟨Or.inr (by decide), rfl, by decide, Or.inr (Or.inl rfl), rfl⟩,
    execute_narrows exLib 0 (exHeap [exA]) exTransform2 (some 100) 100 (exShape 2) exExecuted
      (Or.inr (by decide)) rfl (by decide) (by decide) (Or.inr (Or.inl rfl)) rfl,
    by decide!, by decide!⟩

/-- C8, instance: the one-member rings `A`, `B`, `C` at the addresses `0`, `1`,
`2` are added in this order; the head stays `A`, and `next` leads from `A` to
`B` to `C` and back to `A`. -/
theorem ring_insertion_order_witness :
    ((([(0, xmlSecNodeSetIntersection), (1, xmlSecNodeSetUnion),
          (2, xmlSecNodeSetSubtraction)] : List (Nat × xmlSecNodeSetOp)).map Prod.fst).Nodup ∧
      ∀ x ∈ ([(0, xmlSecNodeSetIntersection), (1, xmlSecNodeSetUnion),
          (2, xmlSecNodeSetSubtraction)] : List (Nat × xmlSecNodeSetOp)),
        IsRing (exHeap [exA]) [x.1]) ∧
    ((∀ k, 1 ≤ k → k ≤ 2 + 1 →
      ∃ hk, addAll (exHeap [exA]) none
        (([(0, xmlSecNodeSetIntersection), (1, xmlSecNodeSetUnion),
          (2, xmlSecNodeSetSubtraction)] : List (Nat × xmlSecNodeSetOp)).take k) =
          some (hk, some 0)) ∧
      ∃ h1, addAll (exHeap [exA]) none [(0, xmlSecNodeSetIntersection),
          (1, xmlSecNodeSetUnion), (2, xmlSecNodeSetSubtraction)] = some (h1, some 0) ∧
        IsRing h1 [0, 1, 2] ∧
        (List.range 3).map (fun j => iterNext h1 j 0) = [some 0, some 1, some 2] ∧
        iterNext h1 3 0 = some 0 ∧
        ∀ x ∈ ([(0, xmlSecNodeSetIntersection), (1, xmlSecNodeSetUnion),
            (2, xmlSecNodeSetSubtraction)] : List (Nat × xmlSecNodeSetOp)),
          (h1.read x.1).map (fun c => c.op) = some x.2) :=
  ⟨⟨by decide, by decide⟩,
    ring_insertion_order (exHeap [exA]) 0 xmlSecNodeSetIntersection
      [(1, xmlSecNodeSetUnion), (2, xmlSecNodeSetSubtraction)] (by decide) (by decide)⟩

/-- C9, instance: a record created in `exHeap` is a ring of one, and adding the
one-member ring at `1` to the one-member ring at `0` gives the ring `[0, 1]`. -/
theorem ring_wellformed_witness :
    (0 < (exHeap [exA]).avail ∧ IsRing (exHeap [exA]) [0] ∧ IsRing (exHeap [exA]) [1] ∧
      1 ∉ [0]) ∧
    ((∃ h1 p, xmlSecNodeSetCreate (exHeap [exA]) (some 100) none xmlSecNodeSetNormal =
        (h1, some p) ∧
      (h1.read p).map (fun c => c.next) = some (some p) ∧
      (h1.read p).map (fun c => c.prev) = some (some p) ∧ IsRing h1 [p]) ∧
    (∃ h2, xmlSecNodeSetAdd (exHeap [exA]) (some 0) (some 1) xmlSecNodeSetUnion =
        some (h2, some 0) ∧
      IsRing h2 ([0] ++ [1]) ∧ ([0] ++ [1]).length = [0].length + 1 ∧
      RingLaws h2 ([0] ++ [1]))) :=
  ⟨⟨by decide, by decide, by decide, by decide⟩,
    ring_wellformed (exHeap [exA]) (some 100) none xmlSecNodeSetNormal (by decide) [0] 0 1
      xmlSecNodeSetUnion (by decide) rfl (by decide) (by decide)⟩

/-- C7, instance: the `Tree` set over `{a}` (address `2`) is added as a nested
list with Union to the ring of the `Normal` set over `{a}` (address `0`).  The
element `c` is not in the `Normal` set but in the `Tree` set, so the new ring
contains it; with Intersection it does not. -/
theorem nested_list_law_witness :
    (exC.isNull = false ∧
      (exShape 0 = RingShape.nil ∨ IsRing (exHeap [exA]) (exShape 0).members) ∧
      wired (exHeap [exA]) (exShape 0) = true ∧ exShape 2 ≠ RingShape.nil ∧
      chained (exHeap [exA]) (exShape 2) = true ∧ wired (exHeap [exA]) (exShape 2) = true ∧
      (∀ q ∈ (exShape 0).members, q ∉ (exShape 0).nested ∧ q ∉ (exShape 2).addrs) ∧
      0 < (exHeap [exA]).avail ∧ validOp xmlSecNodeSetUnion) ∧
    (∃ h1 new w,
      xmlSecNodeSetAddList 0 (exHeap [exA]) (exShape 0).headPtr (exShape 2).headPtr
        xmlSecNodeSetUnion = some (h1, some new) ∧
      new = (match (exShape 0).headPtr with
        | some a => a
        | none => w) ∧
      (h1.read w).map (fun c => (c.type, c.children)) =
        some (xmlSecNodeSetList, (exShape 2).headPtr) ∧
      (∀ f, xmlSecNodeSetOneContains h1 (f + 1) (some w) exC exB =
        xmlSecNodeSetContains h1 f (exShape 2).headPtr exC exB) ∧
      (∀ (g : Heap) (p : Nat) (s : xmlSecNodeSet), g.read p = some s →
        s.type = xmlSecNodeSetList → ∀ f,
          xmlSecNodeSetOneContains g (f + 1) (some p) exC exB =
            xmlSecNodeSetContains g f s.children exC exB) ∧
      ∃ r m,
        Returns (fun f => xmlSecNodeSetContains (exHeap [exA]) f (exShape 0).headPtr exC exB) r ∧
        Returns (fun f => xmlSecNodeSetContains (exHeap [exA]) f (exShape 2).headPtr exC exB) m ∧
        Returns (fun f => xmlSecNodeSetContains h1 f (exShape 2).headPtr exC exB) m ∧
        Returns (fun f => xmlSecNodeSetContains h1 f (some new) exC exB)
          (if r = -1 then -1
            else boolInt (combine xmlSecNodeSetUnion (decide (r ≠ 0)) (decide (m ≠ 0))))) ∧
    ((xmlSecNodeSetAddList 0 (exHeap [exA]) (some 0) (some 2) xmlSecNodeSetUnion).bind
      (fun x => xmlSecNodeSetContains x.1 9 x.2 exC exB)) = some 1 ∧
    ((xmlSecNodeSetAddList 0 (exHeap [exA]) (some 0) (some 2) xmlSecNodeSetIntersection).bind
      (fun x => xmlSecNodeSetContains x.1 9 x.2 exC exB)) = some 0 :=
  ⟨⟨rfl, Or.inr (by decide), rfl, by decide, rfl, rfl, by decide, by decide, by decide⟩,
    nested_list_law (exHeap [exA]) 0 (exShape 0) (exShape 2) xmlSecNodeSetUnion exC exB rfl
      (Or.inr (by decide)) rfl (by decide) rfl rfl (by decide) (by decide) (by decide),
    by decide!, by decide!⟩
/-! ## The walk: what `xmlSecNodeSetWalkRecursive` does -/

theorem visitAll_append {σ : Type} (f : xmlSecNodeSetWalkCallback σ) (nset : Option Nat)
    (l1 l2 : List Visit) (data : σ) :
    visitAll f nset (l1 ++ l2) data =
      if (visitAll f nset l1 data).1 < 0 then visitAll f nset l1 data
      else visitAll f nset l2 (visitAll f nset l1 data).2 := by
  induction l1 generalizing data with
  | nil => simp [visitAll]
  | cons x rest ih =>
    simp only [List.cons_append, visitAll]
    by_cases hr : (f nset x.1 x.2 data).1 < 0
    · simp [hr]
    · simp only [hr, if_false]
      exact ih _

theorem visitAll_nonneg_or {σ : Type} (f : xmlSecNodeSetWalkCallback σ) (nset : Option Nat)
    (l : List Visit) (data : σ) :
    (visitAll f nset l data).1 < 0 ∨ (visitAll f nset l data).1 = 0 := by
  induction l generalizing data with
  | nil => simp [visitAll]
  | cons x rest ih =>
    simp only [visitAll]
    by_cases hr : (f nset x.1 x.2 data).1 < 0
    · simp [hr]
    · simp only [hr, if_false]
      exact ih _

theorem walkVisit_val {σ : Type} (h : Heap) (f : xmlSecNodeSetWalkCallback σ) (fuel : Nat)
    (nset : Option Nat) (node parent : xmlNodePtr) (data : σ) (c : Int)
    (hc : xmlSecNodeSetContains h fuel nset node parent = some c) :
    walkVisit h f fuel nset node parent data =
      some (if c ≠ 0 then f nset node parent data else (0, data)) := by
  unfold walkVisit
  rw [hc]
  by_cases h0 : c = 0 <;> simp [h0]

theorem walkAttributes_spec {σ : Type} (h : Heap) (f : xmlSecNodeSetWalkCallback σ)
    (fuel : Nat) (nset : Option Nat) (cur : xmlNodePtr) (c : xmlNodePtr → xmlNodePtr → Int) :
    ∀ (pr : xmlTreePtr) (data : σ),
      (∀ y ∈ chainSelves pr, xmlSecNodeSetContains h fuel nset y cur = some (c y cur)) →
      walkAttributes h f fuel nset cur pr data =
        some (visitAll f nset
          (((chainSelves pr).map (fun y => (y, cur))).filter
            (fun x => decide (c x.1 x.2 ≠ 0))) data) := by
  intro pr
  induction pr with
  | NULL => intro data _; simp [walkAttributes, chainSelves, visitAll]
  | node a t p d x n pr ch next _ _ ih =>
    intro data hc
    have ih1 := fun d0 => ih d0 (fun y hy => hc y (by simp [chainSelves, hy]))
    simp only [walkAttributes, chainSelves, List.map_cons]
    rw [walkVisit_val h f fuel nset _ cur data _ (hc _ (by simp [chainSelves]))]
    by_cases h0 : c (xmlNodePtr.node a t p d x n) cur = 0
    · simp [List.filter, h0, ih1]
    · simp only [ne_eq, h0, not_false_eq_true, if_true, List.filter, decide_True, visitAll]
      rcases hf : f nset (xmlNodePtr.node a t p d x n) cur data with ⟨ret, d1⟩
      by_cases hr : ret < 0
      · simp [hr]
      · simp [hr, ih1]

theorem walkNsDef_spec {σ : Type} (h : Heap)
    (search : Option Nat → xmlNodePtr → Option String → xmlNodePtr)
    (f : xmlSecNodeSetWalkCallback σ) (fuel : Nat) (p : Nat) (s : xmlSecNodeSet)
    (hs : h.read p = some s) (cur : xmlNodePtr) (c : xmlNodePtr → xmlNodePtr → Int) :
    ∀ (l : List xmlNs) (data : σ),
      (∀ y ∈ (nsPtrs l).filter (fun ns => (search s.doc cur ns.pfx).ptrEq ns),
        xmlSecNodeSetContains h fuel (some p) y cur = some (c y cur)) →
      walkNsDef h search f fuel p cur l data =
        some (visitAll f (some p)
          ((((nsPtrs l).filter (fun ns => (search s.doc cur ns.pfx).ptrEq ns)).map
            (fun y => (y, cur))).filter (fun x => decide (c x.1 x.2 ≠ 0))) data) := by
  intro l
  induction l with
  | nil => intro data _; simp [walkNsDef, nsPtrs, visitAll]
  | cons d rest ih =>
    intro data hc
    have hpfx : (nsPtr (d :: rest)).pfx = d.pfx := rfl
    simp only [walkNsDef, hs, nsPtrs, List.filter_cons, hpfx]
    by_cases hq : (search s.doc cur d.pfx).ptrEq (nsPtr (d :: rest)) = true
    · have hc0 := hc (nsPtr (d :: rest)) (by simp [nsPtrs, List.filter_cons, hpfx, hq])
      have ih1 := fun d0 => ih d0 (fun y hy => hc y (by
        simp only [nsPtrs, List.filter_cons, hpfx, hq, if_true, List.mem_cons]
        exact Or.inr hy))
      simp only [hq, if_true, List.map_cons, List.filter_cons]
      rw [walkVisit_val h f fuel (some p) _ cur data _ hc0]
      by_cases h0 : c (nsPtr (d :: rest)) cur = 0
      · simp [h0, ih1]
      · simp only [ne_eq, h0, not_false_eq_true, if_true, decide_True, visitAll]
        rcases hf : f (some p) (nsPtr (d :: rest)) cur data with ⟨ret, d1⟩
        by_cases hr : ret < 0
        · simp [hr]
        · simp [hr, ih1]
    · have ih1 := fun d0 => ih d0 (fun y hy => hc y (by
        simp only [nsPtrs, List.filter_cons, hpfx, hq]
        simpa using hy))
      simp [hq, ih1]

theorem walkNamespaces_spec {σ : Type} (h : Heap)
    (search : Option Nat → xmlNodePtr → Option String → xmlNodePtr)
    (f : xmlSecNodeSetWalkCallback σ) (fuel : Nat) (p : Nat) (s : xmlSecNodeSet)
    (hs : h.read p = some s) (cur : xmlNodePtr) (c : xmlNodePtr → xmlNodePtr → Int) :
    ∀ (a : xmlNodePtr) (data : σ),
      (∀ y ∈ (scopeDecls a).filter (fun ns => (search s.doc cur ns.pfx).ptrEq ns),
        xmlSecNodeSetContains h fuel (some p) y cur = some (c y cur)) →
      walkNamespaces h search f fuel p cur a data =
        some (visitAll f (some p)
          ((((scopeDecls a).filter (fun ns => (search s.doc cur ns.pfx).ptrEq ns)).map
            (fun y => (y, cur))).filter (fun x => decide (c x.1 x.2 ≠ 0))) data) := by
  intro a
  induction a with
  | NULL => intro data _; simp [walkNamespaces, scopeDecls, parentChain, visitAll]
  | node a t q d x n ih _ =>
    intro data hc
    have hsc : scopeDecls (xmlNodePtr.node a t q d x n) = nsPtrs d ++ scopeDecls q := by
      simp [scopeDecls, parentChain, xmlNodePtr.nsDef]
    rw [hsc] at hc ⊢
    simp only [walkNamespaces, List.filter_append, List.map_append]
    rw [walkNsDef_spec h search f fuel p s hs cur c d data
      (fun y hy => hc y (by simp only [List.filter_append, List.mem_append]; exact Or.inl hy))]
    have ih1 := fun d0 => ih d0
      (fun y hy => hc y (by simp only [List.filter_append, List.mem_append]; exact Or.inr hy))
    rw [visitAll_append]
    rcases hv : visitAll f (some p) (List.filter (fun x => decide (c x.1 x.2 ≠ 0))
      (List.map (fun y => (y, cur))
        (List.filter (fun ns => (search s.doc cur ns.pfx).ptrEq ns) (nsPtrs d)))) data
      with ⟨ret, d1⟩
    by_cases hr : ret < 0
    · simp [hr]
    · simp [hr, ih1]

theorem docOrder_node (search : Option Nat → xmlNodePtr → Option String → xmlNodePtr)
    (doc : Option Nat) (a : Nat) (t : xmlElementType) (p : xmlNodePtr) (d : List xmlNs)
    (x : Option String) (n : xmlNodePtr) (pr ch nx : xmlTreePtr) (parent : xmlNodePtr) :
    docOrder search doc (xmlTreePtr.node a t p d x n pr ch nx) parent =
      (xmlNodePtr.node a t p d x n, parent) ::
        ((if t = XML_ELEMENT_NODE then
            (chainSelves pr).map (fun y => (y, xmlNodePtr.node a t p d x n)) ++
              (inScopeNs search doc (xmlNodePtr.node a t p d x n)).map
                (fun y => (y, xmlNodePtr.node a t p d x n))
          else []) ++
          (if t = XML_ELEMENT_NODE ∨ t = XML_DOCUMENT_NODE then
            docOrderChain search doc ch (xmlNodePtr.node a t p d x n)
          else [])) := by
  simp [docOrder, docOrderChain]

theorem docOrderChain_node (search : Option Nat → xmlNodePtr → Option String → xmlNodePtr)
    (doc : Option Nat) (a : Nat) (t : xmlElementType) (p : xmlNodePtr) (d : List xmlNs)
    (x : Option String) (n : xmlNodePtr) (pr ch nx : xmlTreePtr) (parent : xmlNodePtr) :
    docOrderChain search doc (xmlTreePtr.node a t p d x n pr ch nx) parent =
      docOrder search doc (xmlTreePtr.node a t p d x n pr ch nx) parent ++
        docOrderChain search doc nx parent := by
  simp [docOrder, docOrderChain]

/-- Sequencing: a block that behaves as `visitAll` on `L1`, followed, unless it
answered a negative status, by one that behaves as `visitAll` on `L2`. -/
theorem visitAll_seq {σ : Type} (f : xmlSecNodeSetWalkCallback σ) (nset : Option Nat)
    (L1 L2 : List Visit) (data : σ) (K : σ → Option (Int × σ))
    (hK : ∀ d, K d = some (visitAll f nset L2 d)) :
    (if (visitAll f nset L1 data).1 < 0 then some (visitAll f nset L1 data)
      else K (visitAll f nset L1 data).2) = some (visitAll f nset (L1 ++ L2) data) := by
  rw [visitAll_append]
  by_cases hr : (visitAll f nset L1 data).1 < 0
  · simp [hr]
  · simp [hr, hK]

theorem visitAll_seq_some {σ : Type} (f : xmlSecNodeSetWalkCallback σ) (nset : Option Nat)
    (L1 L2 : List Visit) (data : σ) :
    (if (visitAll f nset L1 data).1 < 0 then
        some ((visitAll f nset L1 data).1, (visitAll f nset L1 data).2)
      else some (visitAll f nset L2 (visitAll f nset L1 data).2)) =
      some (visitAll f nset (L1 ++ L2) data) :=
  visitAll_seq f nset L1 L2 data (fun d => some (visitAll f nset L2 d)) (fun _ => rfl)

theorem visitAll_head {σ : Type} (f : xmlSecNodeSetWalkCallback σ) (nset : Option Nat)
    (c0 : Int) (node parent : xmlNodePtr) (L : List Visit) (data : σ) :
    (if (if c0 ≠ 0 then f nset node parent data else (0, data)).1 < 0 then
        some ((if c0 ≠ 0 then f nset node parent data else (0, data)).1,
          (if c0 ≠ 0 then f nset node parent data else (0, data)).2)
      else some (visitAll f nset L (if c0 ≠ 0 then f nset node parent data else (0, data)).2)) =
      some (visitAll f nset ((if c0 ≠ 0 then [(node, parent)] else []) ++ L) data) := by
  by_cases h0 : c0 = 0
  · simp [h0]
  · simp only [ne_eq, h0, not_false_eq_true, if_true, List.singleton_append, visitAll]
    by_cases hr : (f nset node parent data).1 < 0
    · simp [hr]
    · simp [hr]

theorem walkRecursive_spec {σ : Type} (h : Heap)
    (search : Option Nat → xmlNodePtr → Option String → xmlNodePtr)
    (f : xmlSecNodeSetWalkCallback σ) (p : Nat) (s : xmlSecNodeSet)
    (hs : h.read p = some s) (c : xmlNodePtr → xmlNodePtr → Int) (N : Nat) :
    ∀ t : xmlTreePtr,
      (∀ (parent : xmlNodePtr) (data : σ) (fuel : Nat),
        (∀ x ∈ docOrderChain search s.doc t parent, ∀ k, N ≤ k →
          xmlSecNodeSetContains h k (some p) x.1 x.2 = some (c x.1 x.2)) →
        N + t.weight + 2 ≤ fuel →
        xmlSecNodeSetWalkChildren h search f fuel (some p) data t parent =
          some (visitAll f (some p)
            ((docOrderChain search s.doc t parent).filter
              (fun x => decide (c x.1 x.2 ≠ 0))) data)) ∧
      (∀ (parent : xmlNodePtr) (data : σ) (fuel : Nat), t ≠ xmlTreePtr.NULL →
        (∀ x ∈ docOrder search s.doc t parent, ∀ k, N ≤ k →
          xmlSecNodeSetContains h k (some p) x.1 x.2 = some (c x.1 x.2)) →
        N + t.weight + 1 ≤ fuel →
        xmlSecNodeSetWalkRecursive h search f fuel (some p) data t parent =
          some (visitAll f (some p)
            ((docOrder search s.doc t parent).filter
              (fun x => decide (c x.1 x.2 ≠ 0))) data)) := by
  intro t
  induction t with
  | NULL =>
    refine ⟨?_, ?_⟩
    · intro parent data fuel _ hf
      obtain ⟨k, rfl⟩ : ∃ k, fuel = k + 1 := ⟨fuel - 1, by omega⟩
      simp [xmlSecNodeSetWalkChildren, docOrderChain, visitAll]
    · intro _ _ _ hne; exact absurd rfl hne
  | node a t q d x n pr ch nx _ ihch ihnx =>
    have hrec : ∀ (parent : xmlNodePtr) (data : σ) (fuel : Nat),
        (∀ y ∈ docOrder search s.doc (xmlTreePtr.node a t q d x n pr ch nx) parent, ∀ k, N ≤ k →
          xmlSecNodeSetContains h k (some p) y.1 y.2 = some (c y.1 y.2)) →
        N + (xmlTreePtr.node a t q d x n pr ch nx).weight + 1 ≤ fuel →
        xmlSecNodeSetWalkRecursive h search f fuel (some p) data
            (xmlTreePtr.node a t q d x n pr ch nx) parent =
          some (visitAll f (some p)
            ((docOrder search s.doc (xmlTreePtr.node a t q d x n pr ch nx) parent).filter
              (fun x => decide (c x.1 x.2 ≠ 0))) data) := by
      intro parent data fuel hc hf
      simp only [xmlTreePtr.weight] at hf
      obtain ⟨k, rfl⟩ : ∃ k, fuel = k + 1 := ⟨fuel - 1, by omega⟩
      rw [docOrder_node] at hc ⊢
      have hself := hc (xmlNodePtr.node a t q d x n, parent) (by simp) k (by omega)
      simp only [xmlSecNodeSetWalkRecursive, xmlTreePtr.self, xmlNodePtr.isNull,
        xmlNodePtr.type, xmlTreePtr.properties, xmlTreePtr.children, Bool.false_eq_true,
        if_false]
      rw [walkVisit_val h f k (some p) _ parent data _ hself]
      -- the blocks after the node itself
      by_cases ht : t = XML_ELEMENT_NODE
      · subst ht
        simp only [if_true, true_or] at hc ⊢
        have hattr := fun d0 => walkAttributes_spec h f k (some p)
          (xmlNodePtr.node a XML_ELEMENT_NODE q d x n) c pr d0
          (fun y hy => hc (y, xmlNodePtr.node a XML_ELEMENT_NODE q d x n) (by
            simp [hy]) k (by omega))
        have hns := fun d0 => walkNamespaces_spec h search f k p s hs
          (xmlNodePtr.node a XML_ELEMENT_NODE q d x n) c
          (xmlNodePtr.node a XML_ELEMENT_NODE q d x n) d0
          (fun y hy => hc (y, xmlNodePtr.node a XML_ELEMENT_NODE q d x n) (by
            simp only [List.mem_cons, List.mem_append, List.mem_map]
            exact Or.inr (Or.inl (Or.inr ⟨y, hy, rfl⟩))) k (by omega))
        have hch := fun d0 => ihch.1 (xmlNodePtr.node a XML_ELEMENT_NODE q d x n) d0 k
          (fun y hy => hc y (by simp [hy])) (by omega)
        simp only [hattr, hns, hch, visitAll_seq_some, visitAll_head]
        congr 2
        by_cases h0 : c (xmlNodePtr.node a XML_ELEMENT_NODE q d x n) parent = 0 <;>
          simp [List.filter_cons, List.filter_append, h0, inScopeNs]
      · simp only [ht, if_false, false_or] at hc ⊢
        by_cases hd : t = XML_DOCUMENT_NODE
        · subst hd
          simp only [if_true] at hc ⊢
          have hch := fun d0 => ihch.1 (xmlNodePtr.node a XML_DOCUMENT_NODE q d x n) d0 k
            (fun y hy => hc y (by simp [hy])) (by omega)
          by_cases h0 : c (xmlNodePtr.node a XML_DOCUMENT_NODE q d x n) parent = 0
          · simp [h0, hch, List.filter_cons]
          · simp only [ne_eq, h0, not_false_eq_true, if_true, hch, List.filter_cons,
              decide_True, visitAll]
            by_cases hr : (f (some p) (xmlNodePtr.node a XML_DOCUMENT_NODE q d x n) parent
              data).1 < 0 <;> simp [hr]
        · simp only [hd, if_false] at hc ⊢
          by_cases h0 : c (xmlNodePtr.node a t q d x n) parent = 0
          · simp [h0, List.filter_cons, visitAll]
          · simp only [ne_eq, h0, not_false_eq_true, if_true, List.filter_cons,
              decide_True, visitAll, List.append_nil, List.filter_nil]
            by_cases hr : (f (some p) (xmlNodePtr.node a t q d x n) parent data).1 < 0 <;>
              simp [hr]
    refine ⟨?_, fun parent data fuel _ => hrec parent data fuel⟩
    intro parent data fuel hc hf
    simp only [xmlTreePtr.weight] at hf
    obtain ⟨k, rfl⟩ : ∃ k, fuel = k + 1 := ⟨fuel - 1, by omega⟩
    rw [docOrderChain_node] at hc ⊢
    simp only [xmlSecNodeSetWalkChildren]
    rw [hrec parent data k (fun y hy => hc y (by simp [hy]))
      (by simp only [xmlTreePtr.weight]; omega)]
    simp only [List.filter_append]
    exact visitAll_seq f (some p) _ _ data _
      (fun d0 => ihnx.1 parent d0 k (fun y hy => hc y (by simp [hy])) (by omega))

theorem contains_total (h : Heap) (t : RingShape) (hch : chained h t = true)
    (hw : wired h t = true) (node parent : xmlNodePtr) :
    Returns (fun fuel => xmlSecNodeSetContains h fuel t.headPtr node parent)
      (containsAt h t node parent) := by
  cases hn : node.isNull with
  | true =>
    refine ⟨1, fun fuel hf => ?_⟩
    obtain ⟨k, rfl⟩ : ∃ k, fuel = k + 1 := ⟨fuel - 1, by omega⟩
    simp [xmlSecNodeSetContains, containsAt, hn]
  | false =>
    simpa [containsAt, hn] using contains_eval h node parent hn t hch hw

theorem eventually_uniform {α : Type} (P : α → Nat → Prop) (l : List α)
    (hr : ∀ x ∈ l, ∃ N, ∀ k, N ≤ k → P x k) :
    ∃ N, ∀ x ∈ l, ∀ k, N ≤ k → P x k := by
  induction l with
  | nil => exact ⟨0, fun x hx => by simp at hx⟩
  | cons a rest ih =>
    obtain ⟨N1, h1⟩ := hr a (by simp)
    obtain ⟨N2, h2⟩ := ih (fun x hx => hr x (by simp [hx]))
    refine ⟨max N1 N2, fun x hx k hk => ?_⟩
    rcases List.mem_cons.mp hx with rfl | hx
    · exact h1 k (le_trans (le_max_left _ _) hk)
    · exact h2 x hx k (le_trans (le_max_right _ _) hk)

theorem returns_uniform {α β : Type} (run : α → Nat → Option β) (v : α → β) (l : List α)
    (hr : ∀ x ∈ l, Returns (run x) (v x)) :
    ∃ N, ∀ x ∈ l, ∀ k, N ≤ k → run x k = some (v x) :=
  eventually_uniform (fun x k => run x k = some (v x)) l hr

/-- On a ring that agrees with its shape, `xmlSecNodeSetWalkRecursive` returns:
it calls the visitor on the accepted visits of the enumeration of the
specification, in that order, until the visitor answers a negative status. -/
theorem walkRecursive_total {σ : Type} (h : Heap)
    (search : Option Nat → xmlNodePtr → Option String → xmlNodePtr)
    (f : xmlSecNodeSetWalkCallback σ) (t : RingShape) (p : Nat) (s : xmlSecNodeSet)
    (hp : t.headPtr = some p) (hs : h.read p = some s)
    (hch : chained h t = true) (hw : wired h t = true)
    (cur : xmlTreePtr) (hcur : cur ≠ xmlTreePtr.NULL) (parent : xmlNodePtr) :
    ∃ N, ∀ fuel, N ≤ fuel → ∀ data : σ,
      xmlSecNodeSetWalkRecursive h search f fuel (some p) data cur parent =
        some (visitAll f (some p)
          ((docOrder search s.doc cur parent).filter (accepts h t)) data) := by
  obtain ⟨N, hN⟩ := returns_uniform
    (fun (x : Visit) fuel => xmlSecNodeSetContains h fuel (some p) x.1 x.2)
    (fun x => containsAt h t x.1 x.2) (docOrder search s.doc cur parent)
    (fun x _ => by simpa [hp] using contains_total h t hch hw x.1 x.2)
  refine ⟨N + cur.weight + 1, fun fuel hf data => ?_⟩
  exact (walkRecursive_spec h search f p s hs (containsAt h t) N cur).2 parent data fuel hcur
    hN hf

theorem walkTree_spec {σ : Type} (h : Heap)
    (search : Option Nat → xmlNodePtr → Option String → xmlNodePtr)
    (mem : Nat → xmlTreePtr) (f : xmlSecNodeSetWalkCallback σ) (fuel : Nat) (nset : Option Nat)
    (L : xmlNodePtr → List Visit) :
    ∀ (tab : List xmlNodePtr) (data : σ),
      (∀ n ∈ tab, ∀ d0, xmlSecNodeSetWalkRecursive h search f fuel nset d0 (cursor mem n)
        (xmlSecGetParent n) = some (visitAll f nset (L n) d0)) →
      walkTree h search mem f fuel nset tab 0 data =
        some (visitAll f nset (tab.flatMap L) data) := by
  intro tab
  induction tab with
  | nil => intro data _; simp [walkTree, visitAll]
  | cons n rest ih =>
    intro data hrec
    simp only [walkTree, ge_iff_le, le_refl, if_true, List.flatMap_cons]
    rw [hrec n (by simp) data, visitAll_append]
    have ih1 := fun d0 => ih d0 (fun m hm => hrec m (by simp [hm]))
    rcases visitAll_nonneg_or f nset (L n) data with hneg | hzero
    · simp only [hneg, if_true]
      cases rest with
      | nil => simp [walkTree]
      | cons m rest2 =>
        simp only [walkTree, ge_iff_le]
        rw [if_neg (by omega)]
    · have hnn : ¬ (visitAll f nset (L n) data).1 < 0 := by omega
      simp only [hnn, if_false]
      have := ih1 (visitAll f nset (L n) data).2
      rw [← this]
      conv_lhs => rw [show visitAll f nset (L n) data =
        (0, (visitAll f nset (L n) data).2) from Prod.ext hzero rfl]

/-! ## The journal of a walk -/

theorem visitAll_record {σ : Type} (f : xmlSecNodeSetWalkCallback σ) (nset : Option Nat)
    (L : List Visit) (d : σ) (log : List (Visit × Int)) :
    visitAll (record f) nset L (d, log) =
      ((visitAll f nset L d).1, ((visitAll f nset L d).2, log ++ calls f nset L d)) := by
  induction L generalizing d log with
  | nil => simp [visitAll, calls]
  | cons x rest ih =>
    simp only [visitAll, calls, record]
    by_cases hr : (f nset x.1 x.2 d).1 < 0
    · simp [hr]
    · simp [hr, ih]

theorem calls_initial {σ : Type} (f : xmlSecNodeSetWalkCallback σ) (nset : Option Nat)
    (L : List Visit) (d : σ) : (calls f nset L d).map Prod.fst <+: L := by
  induction L generalizing d with
  | nil => simp [calls]
  | cons x rest ih =>
    simp only [calls]
    by_cases hr : (f nset x.1 x.2 d).1 < 0
    · simp [hr]
    · simp only [hr, if_false, List.map_cons]
      exact (List.prefix_cons_inj x).mpr (ih _)

theorem calls_all {σ : Type} (f : xmlSecNodeSetWalkCallback σ) (nset : Option Nat)
    (hf : ∀ ns n q d0, 0 ≤ (f ns n q d0).1) (L : List Visit) (d : σ) :
    (calls f nset L d).map Prod.fst = L ∧ (visitAll f nset L d).1 = 0 := by
  induction L generalizing d with
  | nil => simp [calls, visitAll]
  | cons x rest ih =>
    have hr : ¬ (f nset x.1 x.2 d).1 < 0 := not_lt.mpr (hf nset x.1 x.2 d)
    simp only [calls, visitAll, hr, if_false, List.map_cons]
    exact ⟨by rw [(ih _).1], (ih _).2⟩

theorem calls_nonneg {σ : Type} (f : xmlSecNodeSetWalkCallback σ) (nset : Option Nat)
    (hf : ∀ ns n q d0, 0 ≤ (f ns n q d0).1) (L : List Visit) (d : σ) :
    ∀ e ∈ calls f nset L d, 0 ≤ e.2 := by
  induction L generalizing d with
  | nil => simp [calls]
  | cons x rest ih =>
    have hr : ¬ (f nset x.1 x.2 d).1 < 0 := not_lt.mpr (hf nset x.1 x.2 d)
    simp only [calls, hr, if_false, List.mem_cons]
    rintro e (rfl | he)
    · exact hf nset x.1 x.2 d
    · exact ih _ e he

/-- A call that answers a negative status is the last one, and its status is
what the run returns; a run without such a call returns `0`. -/
theorem calls_abort {σ : Type} (f : xmlSecNodeSetWalkCallback σ) (nset : Option Nat)
    (L : List Visit) (d : σ) :
    (∀ i e, (calls f nset L d)[i]? = some e → e.2 < 0 →
      i + 1 = (calls f nset L d).length ∧ (visitAll f nset L d).1 = e.2) ∧
    ((∀ e ∈ calls f nset L d, 0 ≤ e.2) → (visitAll f nset L d).1 = 0) := by
  induction L generalizing d with
  | nil => simp [calls, visitAll]
  | cons x rest ih =>
    simp only [calls, visitAll]
    by_cases hr : (f nset x.1 x.2 d).1 < 0
    · simp only [hr, if_true]
      refine ⟨?_, ?_⟩
      · intro i e hi he
        cases i with
        | zero => simp at hi; subst hi; simp
        | succ j => simp at hi
      · intro hall
        have := hall (x, (f nset x.1 x.2 d).1) (by simp)
        simp only at this
        omega
    · simp only [hr, if_false]
      refine ⟨?_, ?_⟩
      · intro i e hi he
        cases i with
        | zero =>
          simp at hi; subst hi
          exact absurd he hr
        | succ j =>
          simp only [List.getElem?_cons_succ] at hi
          have := (ih (f nset x.1 x.2 d).2).1 j e hi he
          simp only [List.length_cons]
          exact ⟨by omega, this.2⟩
      · intro hall
        exact (ih (f nset x.1 x.2 d).2).2 (fun e he => hall e (by simp [he]))

theorem walkNormal_record {σ : Type} (f : xmlSecNodeSetWalkCallback σ) (nset : Option Nat) :
    ∀ (tab : List xmlNodePtr) (r0 : Int) (d : σ) (log : List (Visit × Int)), 0 ≤ r0 →
      ∃ r d1, walkNormal (record f) nset tab r0 (d, log) =
          (r, (d1, log ++ calls f nset (tab.map (fun n => (n, xmlSecGetParent n))) d)) ∧
        (∀ i e, (calls f nset (tab.map (fun n => (n, xmlSecGetParent n))) d)[i]? = some e →
          e.2 < 0 →
          i + 1 = (calls f nset (tab.map (fun n => (n, xmlSecGetParent n))) d).length ∧
            r = e.2) ∧
        ((∀ e ∈ calls f nset (tab.map (fun n => (n, xmlSecGetParent n))) d, 0 ≤ e.2) →
          0 ≤ r) := by
  intro tab
  induction tab with
  | nil =>
    intro r0 d log h0
    exact ⟨r0, d, by simp [walkNormal, calls], by simp [calls], fun _ => h0⟩
  | cons n rest ih =>
    intro r0 d log h0
    simp only [walkNormal, ge_iff_le, h0, if_true, List.map_cons, calls, record]
    by_cases hr : (f nset n (xmlSecGetParent n) d).1 < 0
    · simp only [hr, if_true]
      refine ⟨(f nset n (xmlSecGetParent n) d).1, (f nset n (xmlSecGetParent n) d).2, ?_, ?_, ?_⟩
      · cases rest with
        | nil => simp [walkNormal]
        | cons m rest2 =>
          simp only [walkNormal, ge_iff_le]
          rw [if_neg (by omega)]
      · intro i e hi he
        cases i with
        | zero => simp at hi; subst hi; simp
        | succ j => simp at hi
      · intro hall
        have := hall ((n, xmlSecGetParent n), (f nset n (xmlSecGetParent n) d).1) (by simp)
        simp only at this
        omega
    · simp only [hr, if_false]
      obtain ⟨r, d1, heq, hab, hnn⟩ := ih (f nset n (xmlSecGetParent n) d).1
        (f nset n (xmlSecGetParent n) d).2
        (log ++ [((n, xmlSecGetParent n), (f nset n (xmlSecGetParent n) d).1)]) (by omega)
      refine ⟨r, d1, by simpa using heq, ?_, ?_⟩
      · intro i e hi he
        cases i with
        | zero =>
          simp at hi; subst hi
          exact absurd he hr
        | succ j =>
          simp only [List.getElem?_cons_succ] at hi
          have := hab j e hi he
          simp only [List.length_cons]
          exact ⟨by omega, this.2⟩
      · intro hall
        exact hnn (fun e he => hall e (by simp [he]))

theorem cursor_ne_null (mem : Nat → xmlTreePtr) (n : xmlNodePtr) (hn : n.isNull = false) :
    cursor mem n ≠ xmlTreePtr.NULL := by
  cases n with
  | NULL => simp [xmlNodePtr.isNull] at hn
  | node a t p d x nn => simp [cursor, xmlTreePtr.mk]

theorem filter_flatMap {α β : Type} (l : List α) (g : α → List β) (q : β → Bool) :
    (l.flatMap g).filter q = l.flatMap (fun a => (g a).filter q) := by
  induction l with
  | nil => rfl
  | cons a rest ih => simp [List.flatMap_cons, List.filter_append, ih]

theorem walkOrder_whole (search : Option Nat → xmlNodePtr → Option String → xmlNodePtr)
    (mem : Nat → xmlTreePtr) (s : xmlSecNodeSet) (hcase : wholeDocument s) (d : Nat)
    (hdoc : s.doc = some d) :
    walkOrder search mem s = docOrder search (some d) (mem d) NULL := by
  unfold walkOrder
  rcases hcase with hn | ⟨h1, h2, h3⟩
  · simp [hn, hdoc]
  · cases hnodes : s.nodes with
    | none => simp [hdoc]
    | some tab => cases hty : s.type <;> simp_all

theorem walkPlan_whole (search : Option Nat → xmlNodePtr → Option String → xmlNodePtr)
    (mem : Nat → xmlTreePtr) (h : Heap) (t : RingShape) (s : xmlSecNodeSet)
    (hcase : wholeDocument s) (d : Nat) (hdoc : s.doc = some d) :
    walkPlan search mem h t s =
      (docOrder search (some d) (mem d) NULL).filter (accepts h t) := by
  have hnn : ¬ (s.nodes ≠ none ∧ s.type = xmlSecNodeSetNormal) := by
    rcases hcase with hn | ⟨h1, _, _⟩
    · simp [hn]
    · simp [h1]
  unfold walkPlan
  rw [if_neg hnn, walkOrder_whole search mem s hcase d hdoc]

/-- What `xmlSecNodeSetWalk` does on a ring that agrees with its shape, told by
the journal of a recording visitor: it returns, the calls are those of the
plan of the walk up to the first negative status, a negative status ends the
walk and is returned, and without one the walk returns `0`, or the status of
the last call for a `Normal` head, or `-1` when it has no document to go
over. -/
theorem walk_journal {σ : Type} (h : Heap)
    (search : Option Nat → xmlNodePtr → Option String → xmlNodePtr)
    (mem : Nat → xmlTreePtr) (f : xmlSecNodeSetWalkCallback σ) (t : RingShape) (p : Nat)
    (s : xmlSecNodeSet) (hp : t.headPtr = some p) (hs : h.read p = some s)
    (hch : chained h t = true) (hw : wired h t = true)
    (hmem : ∀ d, s.doc = some d → mem d ≠ xmlTreePtr.NULL)
    (htab : s.type = xmlSecNodeSetTree ∨ s.type = xmlSecNodeSetTreeWithoutComments →
      ∀ tab, s.nodes = some tab → ∀ n ∈ tab, n.isNull = false) (data : σ) :
    ∃ r d1, Returns (fun fuel => xmlSecNodeSetWalk h search mem (record f) fuel (some p)
        (data, [])) (r, (d1, calls f (some p) (walkPlan search mem h t s) data)) ∧
      (∀ i e, (calls f (some p) (walkPlan search mem h t s) data)[i]? = some e → e.2 < 0 →
        i + 1 = (calls f (some p) (walkPlan search mem h t s) data).length ∧ r = e.2) ∧
      ((∀ e ∈ calls f (some p) (walkPlan search mem h t s) data, 0 ≤ e.2) →
        (wholeDocument s → s.doc ≠ none) → 0 ≤ r) ∧
      ((∀ e ∈ calls f (some p) (walkPlan search mem h t s) data, 0 ≤ e.2) →
        wholeDocument s → s.doc ≠ none → r = 0) ∧
      (wholeDocument s → s.doc = none →
        r = -1 ∧ calls f (some p) (walkPlan search mem h t s) data = []) := by
  by_cases hcase : s.nodes = none ∨ (s.type ≠ xmlSecNodeSetNormal ∧
      s.type ≠ xmlSecNodeSetTree ∧ s.type ≠ xmlSecNodeSetTreeWithoutComments)
  · -- the walk over the whole document
    have hwalk : ∀ fuel, xmlSecNodeSetWalk h search mem (record f) fuel (some p) (data, []) =
        Option.casesOn (motive := fun _ => Option (Int × σ × List (Visit × Int))) s.doc
          (some (-1, (data, [])))
          (fun d => xmlSecNodeSetWalkRecursive h search (record f) fuel (some p) (data, [])
            (mem d) NULL) := by
      intro fuel
      unfold xmlSecNodeSetWalk
      simp only [hs]
      rcases hcase with hn | ⟨h1, h2, h3⟩
      · simp only [hn]; cases s.doc <;> rfl
      · cases hnodes : s.nodes with
        | none => simp only []; cases s.doc <;> rfl
        | some tab => cases hty : s.type <;> simp_all <;> cases s.doc <;> rfl
    have hplan0 : walkPlan search mem h t s = (walkOrder search mem s).filter (accepts h t) := by
      unfold walkPlan
      rcases hcase with hn | ⟨h1, h2, h3⟩
      · simp [hn]
      · simp [h1]
    have horder : walkOrder search mem s =
        Option.casesOn (motive := fun _ => List Visit) s.doc []
          (fun d => docOrder search s.doc (mem d) NULL) := by
      unfold walkOrder
      rcases hcase with hn | ⟨h1, h2, h3⟩
      · simp only [hn]; cases s.doc <;> rfl
      · cases hnodes : s.nodes with
        | none => simp only []; cases s.doc <;> rfl
        | some tab => cases hty : s.type <;> simp_all <;> cases s.doc <;> rfl
    obtain hdoc | ⟨d, hdoc⟩ : s.doc = none ∨ ∃ d, s.doc = some d := by
      cases s.doc <;> simp
    · have hplan : walkPlan search mem h t s = [] := by rw [hplan0, horder, hdoc]; rfl
      refine ⟨-1, data, ⟨0, fun fuel _ => ?_⟩, ?_, ?_, ?_, ?_⟩
      · show xmlSecNodeSetWalk h search mem (record f) fuel (some p) (data, []) = _
        rw [hwalk, hdoc, hplan]; simp [calls]
      · rw [hplan]; simp [calls]
      · intro _ hd; exact absurd hdoc (hd (by exact hcase))
      · intro _ _ hd; exact absurd hdoc hd
      · intro _ _; rw [hplan]; simp [calls]
    · have hplan : walkPlan search mem h t s =
          (docOrder search s.doc (mem d) NULL).filter (accepts h t) := by
        rw [hplan0, horder, hdoc]
      obtain ⟨N, hN⟩ := walkRecursive_total h search (record f) t p s hp hs hch hw (mem d)
        (hmem d hdoc) NULL
      have hab := calls_abort f (some p) (walkPlan search mem h t s) data
      refine ⟨(visitAll f (some p) (walkPlan search mem h t s) data).1,
        (visitAll f (some p) (walkPlan search mem h t s) data).2, ⟨N, fun fuel hf => ?_⟩,
        hab.1, ?_, ?_, ?_⟩
      · show xmlSecNodeSetWalk h search mem (record f) fuel (some p) (data, []) = _
        rw [hwalk, hdoc]
        simp only
        rw [hN fuel hf, visitAll_record, hplan]
        simp
      · intro hall _; rw [hab.2 hall]
      · intro hall _ _; exact hab.2 hall
      · intro _ hd; rw [hdoc] at hd; simp at hd
  · -- the walks that start at the raw collection of the head
    have hnw : ¬ wholeDocument s := hcase
    cases hnodes : s.nodes with
    | none => exact absurd (Or.inl hnodes) hcase
    | some tab =>
      have htype : s.type = xmlSecNodeSetNormal ∨ s.type = xmlSecNodeSetTree ∨
          s.type = xmlSecNodeSetTreeWithoutComments := by
        by_contra hne
        push_neg at hne
        exact hcase (Or.inr hne)
      by_cases hnormal : s.type = xmlSecNodeSetNormal
      · have hplan : walkPlan search mem h t s = tab.map (fun n => (n, xmlSecGetParent n)) := by
          simp [walkPlan, walkOrder, hnodes, hnormal]
        obtain ⟨r, d1, heq, hab, hnn⟩ := walkNormal_record f (some p) tab 0 data [] (le_refl 0)
        rw [hplan]
        refine ⟨r, d1, ⟨0, fun fuel _ => ?_⟩, hab, fun hall _ => hnn hall, ?_, ?_⟩
        · show xmlSecNodeSetWalk h search mem (record f) fuel (some p) (data, []) = _
          unfold xmlSecNodeSetWalk
          simp only [hs, hnodes, hnormal]
          rw [heq]; simp
        · intro _ hwd; exact absurd hwd hnw
        · intro hwd; exact absurd hwd hnw
      · have htree : s.type = xmlSecNodeSetTree ∨ s.type = xmlSecNodeSetTreeWithoutComments := by
          rcases htype with h1 | h2
          · exact absurd h1 hnormal
          · exact h2
        have hplan : walkPlan search mem h t s = tab.flatMap (fun n =>
            (docOrder search s.doc (cursor mem n) (xmlSecGetParent n)).filter (accepts h t)) := by
          unfold walkPlan walkOrder
          rw [if_neg (by simp [hnormal])]
          rcases htree with h1 | h1 <;> simp [hnodes, h1, filter_flatMap]
        have hwalk : ∀ fuel, xmlSecNodeSetWalk h search mem (record f) fuel (some p) (data, []) =
            walkTree h search mem (record f) fuel (some p) tab 0 (data, []) := by
          intro fuel
          unfold xmlSecNodeSetWalk
          rcases htree with h1 | h1 <;> simp [hs, hnodes, h1]
        obtain ⟨N, hN⟩ := eventually_uniform
          (fun (n : xmlNodePtr) fuel =>
            ∀ d0, xmlSecNodeSetWalkRecursive h search (record f) fuel (some p) d0
                (cursor mem n) (xmlSecGetParent n) =
              some (visitAll (record f) (some p)
                ((docOrder search s.doc (cursor mem n) (xmlSecGetParent n)).filter
                  (accepts h t)) d0))
          tab (fun n hn =>
            walkRecursive_total h search (record f) t p s hp hs hch hw
              (cursor mem n) (cursor_ne_null mem n (htab htree tab hnodes n hn)) (xmlSecGetParent n))
        have hab := calls_abort f (some p) (walkPlan search mem h t s) data
        refine ⟨(visitAll f (some p) (walkPlan search mem h t s) data).1,
          (visitAll f (some p) (walkPlan search mem h t s) data).2, ⟨N, fun fuel hf => ?_⟩,
          hab.1, ?_, ?_, ?_⟩
        · show xmlSecNodeSetWalk h search mem (record f) fuel (some p) (data, []) = _
          rw [hwalk, walkTree_spec h search mem (record f) fuel (some p)
            (fun n => (docOrder search s.doc (cursor mem n) (xmlSecGetParent n)).filter
              (accepts h t)) tab (data, []) (fun n hn d0 => hN n hn fuel hf d0),
            visitAll_record, hplan]
          simp
        · intro hall _; rw [hab.2 hall]
        · intro _ hwd; exact absurd hwd hnw
        · intro hwd; exact absurd hwd hnw

/-! ## The claims about the walk -/

/-- C11, the failing input.  Two first-generation transforms, executed one
after the other on the small document, leave the ring of the `Normal` sets
`{a, b}` and `{b}`, both with Intersection.  `xmlSecNodeSetContains` rejects
`a` on this ring, and yet `xmlSecNodeSetWalk` calls the visitor on `a`: for a
`Normal` head with a raw collection it calls the visitor on every entry of that
collection without asking `xmlSecNodeSetContains`. -/
theorem walk_normal_head_unchecked :
    exTwice.ret = 0 ∧ exTwice.nodes = some (some 0) ∧
    ((exTwice.heap.read 0).map (fun c => (c.type, c.nodes, c.op, c.next)) =
      some (xmlSecNodeSetNormal, some [exA, exB], xmlSecNodeSetIntersection, some 1)) ∧
    ((exTwice.heap.read 1).map (fun c => (c.type, c.nodes, c.op, c.next)) =
      some (xmlSecNodeSetNormal, some [exB], xmlSecNodeSetIntersection, some 0)) ∧
    xmlSecNodeSetContains exTwice.heap 9 (some 0) exA exDoc = some 0 ∧
    xmlSecNodeSetWalk exTwice.heap exSearch exMem (record exVisitor) 9 (some 0) ((), []) =
      some (0, ((), [((exA, exDoc), 0), ((exB, exA), 0)])) :=
  ⟨by decide!, by decide!, by decide!, by decide!, by decide!, by decide!⟩

/-- C12, as stated, fails.  On the ring of the `Tree` sets `{c}` (the head, with
Intersection) and `{a}` (with Union) the element `b` with its parent `a` is a
node of the document that `xmlSecNodeSetContains` accepts, and the walk, which
starts at the raw collection of the head, never calls the visitor on it. -/
theorem walk_complete_counterexample :
    (exB, exA) ∈ docOrder exSearch (some 100) (exMem 100) NULL ∧
    xmlSecNodeSetContains exRingUnion 9 (some 0) exB exA = some 1 ∧
    xmlSecNodeSetWalk exRingUnion exSearch exMem (record exVisitor) 9 (some 0) ((), []) =
      some (0, ((), [((exC, exB), 0)])) ∧
    (exB, exA) ∉ ([((exC, exB), 0)] : List (Visit × Int)).map Prod.fst :=
  ⟨by decide!, by decide!, by decide!, by decide!⟩

/-- C12, amended.  Let the ring agree with its shape, let its head carry no raw
collection or be of a variant other than `Normal`, `Tree`,
`TreeWithoutComments`, let it have a document, and let the visitor never
answer a negative status.  Then `xmlSecNodeSetWalk` returns, and the visitor
is called on every visit of the enumeration of the document (the document
node, every descendant child, every attribute with its element, every in-scope
declaration with its element) that `xmlSecNodeSetContains` accepts, and on
nothing else. -/
theorem walk_complete {σ : Type} (h : Heap)
    (search : Option Nat → xmlNodePtr → Option String → xmlNodePtr)
    (mem : Nat → xmlTreePtr) (f : xmlSecNodeSetWalkCallback σ) (t : RingShape) (p : Nat)
    (s : xmlSecNodeSet) (hp : t.headPtr = some p) (hs : h.read p = some s)
    (hch : chained h t = true) (hw : wired h t = true)
    (hhead : wholeDocument s) (d : Nat) (hdoc : s.doc = some d)
    (hmem : mem d ≠ xmlTreePtr.NULL) (hf : ∀ ns n q d0, 0 ≤ (f ns n q d0).1) (data : σ) :
    ∃ r d1 log,
      Returns (fun fuel => xmlSecNodeSetWalk h search mem (record f) fuel (some p) (data, []))
        (r, (d1, log)) ∧
      ∀ x : Visit, x ∈ log.map Prod.fst ↔
        (x ∈ docOrder search (some d) (mem d) NULL ∧
          ∃ v, v ≠ 0 ∧ Returns (fun fuel => xmlSecNodeSetContains h fuel (some p) x.1 x.2) v) := by
  obtain ⟨r, d1, hret, _, _, _, _⟩ := walk_journal h search mem f t p s hp hs hch hw
    (fun d0 hd0 => by rw [hdoc] at hd0; cases hd0; exact hmem)
    (fun hty tab htab => by
      rcases hhead with hn | ⟨_, h2, h3⟩
      · rw [hn] at htab; cases htab
      · rcases hty with hty | hty
        · exact absurd hty h2
        · exact absurd hty h3) data
  refine ⟨r, d1, _, hret, fun x => ?_⟩
  have hplan := walkPlan_whole search mem h t s hhead d hdoc
  rw [(calls_all f (some p) hf _ data).1, hplan, List.mem_filter]
  have htot := contains_total h t hch hw x.1 x.2
  rw [hp] at htot
  constructor
  · rintro ⟨hx, hacc⟩
    exact ⟨hx, _, by simpa [accepts] using hacc, htot⟩
  · rintro ⟨hx, v, hv, hret⟩
    refine ⟨hx, ?_⟩
    have := Returns.unique hret htot
    simp [accepts, ← this, hv]

/-- C13.  Let the ring agree with its shape, let its head carry no raw
collection or be of a variant other than `Normal`, `Tree`,
`TreeWithoutComments`, let the set have a document, and let the visitor never
answer a negative status.  Then `xmlSecNodeSetWalk` returns `0`, and the
sequence of the calls of the visitor is the depth-first pre-order enumeration
of the document (each node, then its attributes, then its in-scope
declarations, both with the element as parent, then its children) filtered by
`xmlSecNodeSetContains`. -/
theorem walk_document_order {σ : Type} (h : Heap)
    (search : Option Nat → xmlNodePtr → Option String → xmlNodePtr)
    (mem : Nat → xmlTreePtr) (f : xmlSecNodeSetWalkCallback σ) (t : RingShape) (p : Nat)
    (s : xmlSecNodeSet) (hp : t.headPtr = some p) (hs : h.read p = some s)
    (hch : chained h t = true) (hw : wired h t = true)
    (hhead : wholeDocument s) (d : Nat) (hdoc : s.doc = some d)
    (hmem : mem d ≠ xmlTreePtr.NULL) (hf : ∀ ns n q d0, 0 ≤ (f ns n q d0).1) (data : σ) :
    ∃ d1 log,
      Returns (fun fuel => xmlSecNodeSetWalk h search mem (record f) fuel (some p) (data, []))
        (0, (d1, log)) ∧
      log.map Prod.fst = (docOrder search (some d) (mem d) NULL).filter (accepts h t) ∧
      ∀ x : Visit, Returns (fun fuel => xmlSecNodeSetContains h fuel (some p) x.1 x.2)
        (containsAt h t x.1 x.2) := by
  obtain ⟨r, d1, hret, _, _, hzero, _⟩ := walk_journal h search mem f t p s hp hs hch hw
    (fun d0 hd0 => by rw [hdoc] at hd0; cases hd0; exact hmem)
    (fun hty tab htab => by
      rcases hhead with hn | ⟨_, h2, h3⟩
      · rw [hn] at htab; cases htab
      · rcases hty with hty | hty
        · exact absurd hty h2
        · exact absurd hty h3) data
  have hr : r = 0 := hzero (calls_nonneg f (some p) hf _ data) hhead (by simp [hdoc])
  subst hr
  refine ⟨d1, _, hret, ?_, fun x => ?_⟩
  · rw [(calls_all f (some p) hf _ data).1, walkPlan_whole search mem h t s hhead d hdoc]
  · have htot := contains_total h t hch hw x.1 x.2
    rwa [hp] at htot

/-- C15, as stated, fails.  A node set without raw collection and without
document: the visitor never answers a negative status (it is not called at
all), and `xmlSecNodeSetWalk` returns `-1`. -/
theorem walk_abort_counterexample :
    (∀ ns n q d0, 0 ≤ (exVisitor ns n q d0).1) ∧
    (xmlSecNodeSetCreate exHeap0 none none xmlSecNodeSetNormal).2 = some 0 ∧
    xmlSecNodeSetWalk (xmlSecNodeSetCreate exHeap0 none none xmlSecNodeSetNormal).1 exSearch exMem
      (record exVisitor) 9 (some 0) ((), []) = some (-1, ((), [])) :=
  ⟨fun _ _ _ _ => le_refl 0, by decide!, by decide!⟩

/-- C15, amended.  Let the ring agree with its shape.  Then `xmlSecNodeSetWalk`
returns; if the visitor answers a negative status `r` on some call, that call
is the last one and the walk returns exactly `r`; if the visitor never answers
a negative status, the walk returns a non-negative value, provided the set has
a document when the walk is to go over the whole document.  Without a
document such a walk returns `-1` and never calls the visitor. -/
theorem walk_abort {σ : Type} (h : Heap)
    (search : Option Nat → xmlNodePtr → Option String → xmlNodePtr)
    (mem : Nat → xmlTreePtr) (f : xmlSecNodeSetWalkCallback σ) (t : RingShape) (p : Nat)
    (s : xmlSecNodeSet) (hp : t.headPtr = some p) (hs : h.read p = some s)
    (hch : chained h t = true) (hw : wired h t = true)
    (hmem : ∀ d, s.doc = some d → mem d ≠ xmlTreePtr.NULL)
    (htab : s.type = xmlSecNodeSetTree ∨ s.type = xmlSecNodeSetTreeWithoutComments →
      ∀ tab, s.nodes = some tab → ∀ n ∈ tab, n.isNull = false) (data : σ) :
    ∃ r d1 log,
      Returns (fun fuel => xmlSecNodeSetWalk h search mem (record f) fuel (some p) (data, []))
        (r, (d1, log)) ∧
      (∀ i e, log[i]? = some e → e.2 < 0 → i + 1 = log.length ∧ r = e.2) ∧
      ((∀ e ∈ log, 0 ≤ e.2) → (wholeDocument s → s.doc ≠ none) → 0 ≤ r) ∧
      (wholeDocument s → s.doc = none → r = -1 ∧ log = []) := by
  obtain ⟨r, d1, hret, hab, hnn, _, hnone⟩ := walk_journal h search mem f t p s hp hs hch hw
    hmem htab data
  exact ⟨r, d1, _, hret, hab, hnn, hnone⟩

/-! ## Namespaces in the walk -/

theorem nsPtrs_ne_null (l : List xmlNs) : ∀ y ∈ nsPtrs l, y.isNull = false := by
  induction l with
  | nil => simp [nsPtrs]
  | cons d rest ih =>
    intro y hy
    simp only [nsPtrs, List.mem_cons] at hy
    rcases hy with rfl | hy
    · rfl
    · exact ih y hy

theorem scopeDecls_ne_null (e : xmlNodePtr) : ∀ y ∈ scopeDecls e, y.isNull = false := by
  intro y hy
  simp only [scopeDecls, List.mem_flatMap] at hy
  obtain ⟨a, _, hya⟩ := hy
  exact nsPtrs_ne_null _ y hya

theorem ptrEq_iff_addr (x y : xmlNodePtr) (hx : x.isNull = false) (hy : y.isNull = false) :
    x.ptrEq y = true ↔ x.addr = y.addr := by
  cases x with
  | NULL => simp [xmlNodePtr.isNull] at hx
  | node a _ _ _ _ _ =>
    cases y with
    | NULL => simp [xmlNodePtr.isNull] at hy
    | node b _ _ _ _ _ => simp [xmlNodePtr.ptrEq, xmlNodePtr.addr]

theorem resolvePrefix_spec (e : xmlNodePtr) (ns : xmlNodePtr) (hns : ns ∈ scopeDecls e) :
    resolvePrefix e ns.pfx ∈ scopeDecls e ∧ (resolvePrefix e ns.pfx).pfx = ns.pfx := by
  unfold resolvePrefix
  cases hfind : (scopeDecls e).find? (fun y => y.pfx == ns.pfx) with
  | none =>
    rw [List.find?_eq_none] at hfind
    exact absurd (by simp) (hfind ns hns)
  | some r =>
    have h1 := List.find?_some hfind
    have h2 := List.mem_of_find?_eq_some hfind
    simp only [Option.getD_some]
    exact ⟨h2, by simpa using h1⟩

/-- With distinct declarations and libxml resolving a prefix to its nearest
declaration, the declarations tested for an element are, for every prefix in
scope, the nearest one and no other. -/
theorem inScopeNs_resolved (search : Option Nat → xmlNodePtr → Option String → xmlNodePtr)
    (doc : Option Nat) (e : xmlNodePtr)
    (hlib : ∀ ns ∈ scopeDecls e, search doc e ns.pfx = resolvePrefix e ns.pfx)
    (hdistinct : ((scopeDecls e).map xmlNodePtr.addr).Nodup) :
    (∀ ns ∈ scopeDecls e, (ns ∈ inScopeNs search doc e ↔ ns = resolvePrefix e ns.pfx)) ∧
    ∀ ns ∈ scopeDecls e,
      (inScopeNs search doc e).filter (fun y => y.pfx == ns.pfx) = [resolvePrefix e ns.pfx] := by
  have hinj := List.inj_on_of_nodup_map hdistinct
  have hnd : (scopeDecls e).Nodup := List.Nodup.of_map _ hdistinct
  have hmem : ∀ ns ∈ scopeDecls e,
      ((search doc e ns.pfx).ptrEq ns = true ↔ ns = resolvePrefix e ns.pfx) := by
    intro ns hns
    obtain ⟨hr, _⟩ := resolvePrefix_spec e ns hns
    rw [hlib ns hns, ptrEq_iff_addr _ _ (scopeDecls_ne_null e _ hr) (scopeDecls_ne_null e _ hns)]
    constructor
    · intro ha; exact (hinj hr hns ha).symm
    · intro ha; rw [← ha]
  refine ⟨fun ns hns => ?_, fun ns hns => ?_⟩
  · simp only [inScopeNs, List.mem_filter, hns, true_and]
    exact hmem ns hns
  · obtain ⟨hr, hpfx⟩ := resolvePrefix_spec e ns hns
    have hfil : (inScopeNs search doc e).filter (fun y => y.pfx == ns.pfx) =
        (scopeDecls e).filter (fun y => y == resolvePrefix e ns.pfx) := by
      simp only [inScopeNs, List.filter_filter]
      apply List.filter_congr
      intro y hy
      by_cases hyp : y.pfx = ns.pfx
      · have := hmem y hy
        rw [hyp] at this
        by_cases hyr : y = resolvePrefix e ns.pfx
        · have h1 : (search doc e ns.pfx).ptrEq y = true := this.mpr hyr
          simp only [hyp, h1, beq_self_eq_true, Bool.and_self]
          exact (beq_iff_eq.mpr hyr).symm
        · have h1 : (search doc e ns.pfx).ptrEq y = false := by
            cases hq : (search doc e ns.pfx).ptrEq y
            · rfl
            · exact absurd (this.mp hq) hyr
          simp only [hyp, h1, beq_self_eq_true, Bool.and_false]
          exact (beq_eq_false_iff_ne.mpr hyr).symm
      · have hyr : y ≠ resolvePrefix e ns.pfx := by
          intro hc; rw [hc] at hyp; exact hyp hpfx
        have h2 : (y.pfx == ns.pfx) = false := beq_eq_false_iff_ne.mpr hyp
        simp only [h2, Bool.false_and]
        exact (beq_eq_false_iff_ne.mpr hyr).symm
    rw [hfil, List.filter_beq, List.count_eq_one_of_mem hnd hr]
    rfl

/-- The loop over the namespaces of an element, on a ring that agrees with its
shape: it returns and calls the visitor, with the element as parent, on the
accepted ones of the declarations that prefix resolution yields. -/
theorem walkNamespaces_total {σ : Type} (h : Heap)
    (search : Option Nat → xmlNodePtr → Option String → xmlNodePtr)
    (f : xmlSecNodeSetWalkCallback σ) (t : RingShape) (p : Nat) (s : xmlSecNodeSet)
    (hp : t.headPtr = some p) (hs : h.read p = some s)
    (hch : chained h t = true) (hw : wired h t = true) (e : xmlNodePtr) (data : σ) :
    Returns (fun fuel => walkNamespaces h search f fuel p e e data)
      (visitAll f (some p)
        (((inScopeNs search s.doc e).filter (fun ns => accepts h t (ns, e))).map
          (fun ns => (ns, e))) data) := by
  obtain ⟨N, hN⟩ := returns_uniform
    (fun (y : xmlNodePtr) fuel => xmlSecNodeSetContains h fuel (some p) y e)
    (fun y => containsAt h t y e) (inScopeNs search s.doc e)
    (fun y _ => by simpa [hp] using contains_total h t hch hw y e)
  refine ⟨N, fun fuel hf => ?_⟩
  show walkNamespaces h search f fuel p e e data = _
  rw [walkNamespaces_spec h search f fuel p s hs e (containsAt h t) e data
    (fun y hy => hN y hy fuel hf)]
  congr 2
  rw [List.filter_map]
  rfl

/-- C16.  Let the ring agree with its shape, let `e` be an element that the walk
reaches, let the declarations on `e` and its ancestors be distinct records, and
let libxml resolve a prefix to its nearest declaration.  Then the loop over
the namespaces that `xmlSecNodeSetWalkRecursive` runs for `e` returns; for
every prefix declared on `e` or an ancestor exactly one declaration is
tested, the one that prefix resolution from `e` yields; the visitor is called,
when it never stops the walk, on the accepted ones of these; a declaration
that is declared again nearer to `e` is never visited with `e`; and every
such visit has `e` as parent. -/
theorem walk_namespace_shadowing {σ : Type} (h : Heap)
    (search : Option Nat → xmlNodePtr → Option String → xmlNodePtr)
    (f : xmlSecNodeSetWalkCallback σ) (t : RingShape) (p : Nat) (s : xmlSecNodeSet)
    (hp : t.headPtr = some p) (hs : h.read p = some s)
    (hch : chained h t = true) (hw : wired h t = true) (e : xmlNodePtr)
    (hlib : ∀ ns ∈ scopeDecls e, search s.doc e ns.pfx = resolvePrefix e ns.pfx)
    (hdistinct : ((scopeDecls e).map xmlNodePtr.addr).Nodup)
    (hf : ∀ ns n q d0, 0 ≤ (f ns n q d0).1) (data : σ) :
    ∃ d1 log,
      Returns (fun fuel => walkNamespaces h search (record f) fuel p e e (data, []))
        (0, (d1, log)) ∧
      (∀ ns ∈ scopeDecls e,
        (inScopeNs search s.doc e).filter (fun y => y.pfx == ns.pfx) =
          [resolvePrefix e ns.pfx]) ∧
      log.map Prod.fst =
        ((inScopeNs search s.doc e).filter (fun ns => accepts h t (ns, e))).map
          (fun ns => (ns, e)) ∧
      (∀ ns ∈ scopeDecls e, ns ≠ resolvePrefix e ns.pfx → ∀ q, (ns, q) ∉ log.map Prod.fst) ∧
      (∀ x ∈ log, x.1.2 = e) := by
  have hret := walkNamespaces_total h search (record f) t p s hp hs hch hw e (data, [])
  rw [visitAll_record] at hret
  obtain ⟨hall, hzero⟩ := calls_all f (some p) hf
    (((inScopeNs search s.doc e).filter (fun ns => accepts h t (ns, e))).map (fun ns => (ns, e)))
    data
  rw [hzero] at hret
  simp only [List.nil_append] at hret
  obtain ⟨hin, hone⟩ := inScopeNs_resolved search s.doc e hlib hdistinct
  refine ⟨_, _, hret, hone, hall, ?_, ?_⟩
  · intro ns hns hne q hmem
    rw [hall] at hmem
    simp only [List.mem_map, List.mem_filter, Prod.mk.injEq] at hmem
    obtain ⟨y, ⟨hy, _⟩, rfl, _⟩ := hmem
    exact hne ((hin y hns).mp hy)
  · intro x hx
    have : x.1 ∈ (calls f (some p)
        (((inScopeNs search s.doc e).filter (fun ns => accepts h t (ns, e))).map
          (fun ns => (ns, e))) data).map Prod.fst := List.mem_map_of_mem _ hx
    rw [hall] at this
    simp only [List.mem_map, List.mem_filter] at this
    obtain ⟨y, _, hy⟩ := this
    rw [← hy]

/-! ## The subtree constructor -/

/-- The containment test on a ring of one member that is not a `List`. -/
theorem contains_single (h : Heap) (r : Nat) (c : xmlSecNodeSet) (hc : h.read r = some c)
    (hnext : c.next = some r) (hty : c.type ≠ xmlSecNodeSetList)
    (hop : c.op = xmlSecNodeSetIntersection) (node parent : xmlNodePtr)
    (hnode : node.isNull = false) :
    Returns (fun fuel => xmlSecNodeSetContains h fuel (some r) node parent)
      (if oneContainsFlat c.type c.nodes node parent = 0 then 0 else 1) := by
  have hch : chained h (RingShape.cons r RingShape.nil RingShape.nil) = true := by
    simp [chained, RingShape.headPtr, RingShape.members, nextChain, hc, hnext]
  have hw : wired h (RingShape.cons r RingShape.nil RingShape.nil) = true := by
    simp [wired, hc, hty]
  have := contains_eval h node parent hnode _ hch hw
  simp only [RingShape.headPtr, containsValue, memberSteps, hc, hty, if_false, hop,
    foldStatus] at this
  convert this using 2
  by_cases h0 : oneContainsFlat c.type c.nodes node parent = 0 <;> simp [h0]

theorem in_single (X n parent : xmlNodePtr) (hX : X.type = XML_ELEMENT_NODE) :
    in_nodes_set (some [X]) n parent ≠ 0 ↔
      (n.type ≠ XML_NAMESPACE_DECL ∧ X.ptrEq n = true) := by
  cases X with
  | NULL =>
    cases n <;> simp [in_nodes_set, xmlXPathNodeSetContains, xmlNodePtr.type,
      xmlNodePtr.ptrEq]
  | node b tb pb db xb nb =>
    simp only [xmlNodePtr.type] at hX
    subst hX
    cases n with
    | NULL => simp [in_nodes_set, xmlXPathNodeSetContains, xmlNodePtr.type, xmlNodePtr.ptrEq]
    | node a ta pa da xa na =>
      by_cases hn : ta = XML_NAMESPACE_DECL
      · simp [in_nodes_set, xmlXPathNodeSetContains, xmlNodePtr.type, hn]
      · simp [in_nodes_set, xmlXPathNodeSetContains, xmlNodePtr.type, hn]

/-- Along a chain of children whose parent is contained in a `Tree` set and is
an element, everything that the enumeration lists is contained. -/
theorem treeWalk_below (search : Option Nat → xmlNodePtr → Option String → xmlNodePtr)
    (doc : Option Nat) (S : xmlNodeSet) :
    ∀ (t : xmlTreePtr) (par : xmlNodePtr), par.isNull = false →
      par.type = XML_ELEMENT_NODE → treeWalk (some S) 1 0 par par.parent = 1 →
      linked t par = true →
      ∀ v ∈ docOrderChain search doc t par, treeWalk (some S) 1 0 v.1 v.2 = 1 := by
  intro t
  induction t with
  | NULL => intro par _ _ _ _ v hv; simp [docOrderChain] at hv
  | node a ty p d x n pr ch nx _ ihch ihnx =>
    intro par hpar hel hin hl v hv
    simp only [linked, Bool.and_eq_true, decide_eq_true_eq] at hl
    obtain ⟨⟨⟨hp, hnd⟩, hlch⟩, hlnx⟩ := hl
    subst hp
    -- a visit with an element parent that is contained
    have hstep : ∀ (y q : xmlNodePtr), q.isNull = false → q.type = XML_ELEMENT_NODE →
        treeWalk (some S) 1 0 q q.parent = 1 → treeWalk (some S) 1 0 y q = 1 := by
      intro y q hq hqel hqin
      cases q with
      | NULL => simp [xmlNodePtr.isNull] at hq
      | node qa qt qp qd qx qn =>
        simp only [xmlNodePtr.type] at hqel
        subst hqel
        simp only [treeWalk, xmlNodePtr.parent] at hqin ⊢
        split_ifs
        · rfl
        · exact hqin
    have hself : treeWalk (some S) 1 0 (xmlNodePtr.node a ty p d x n) p = 1 :=
      hstep _ p hpar hel hin
    simp only [docOrderChain, List.mem_append, List.mem_cons, List.mem_map] at hv
    rcases hv with (rfl | hv | hv) | hv
    · exact hself
    · by_cases hty : ty = XML_ELEMENT_NODE
      · subst hty
        simp only [if_true, List.mem_append, List.mem_map] at hv
        rcases hv with ⟨y, _, rfl⟩ | ⟨y, _, rfl⟩ <;>
          exact hstep y (xmlNodePtr.node a XML_ELEMENT_NODE p d x n) rfl rfl hself
      · simp [hty] at hv
    · by_cases hty : ty = XML_ELEMENT_NODE
      · subst hty
        simp only [true_or, if_true] at hv
        exact ihch (xmlNodePtr.node a XML_ELEMENT_NODE p d x n) rfl rfl hself hlch v hv
      · simp [hty, hnd] at hv
    · exact ihnx p hpar hel hin hlnx v hv

theorem chainSelves_ne_null : ∀ (t : xmlTreePtr), ∀ y ∈ chainSelves t, y.isNull = false := by
  intro t
  induction t with
  | NULL => intro y hy; simp [chainSelves] at hy
  | node a ty p d x n pr ch nx _ _ ihnx =>
    intro y hy
    simp only [chainSelves, List.mem_cons] at hy
    rcases hy with rfl | hy
    · rfl
    · exact ihnx y hy

theorem docOrderChain_ne_null (search : Option Nat → xmlNodePtr → Option String → xmlNodePtr)
    (doc : Option Nat) :
    ∀ (t : xmlTreePtr) (par : xmlNodePtr), ∀ v ∈ docOrderChain search doc t par,
      v.1.isNull = false := by
  intro t
  induction t with
  | NULL => intro par v hv; simp [docOrderChain] at hv
  | node a ty p d x n pr ch nx _ ihch ihnx =>
    intro par v hv
    simp only [docOrderChain, List.mem_append, List.mem_cons] at hv
    rcases hv with (rfl | hv | hv) | hv
    · rfl
    · split_ifs at hv
      · simp only [List.mem_append, List.mem_map] at hv
        rcases hv with ⟨y, hy, rfl⟩ | ⟨y, hy, rfl⟩
        · exact chainSelves_ne_null pr y hy
        · exact scopeDecls_ne_null _ y (List.mem_filter.mp hy).1
      · simp at hv
    · split_ifs at hv
      · exact ihch _ v hv
      · simp at hv
    · exact ihnx par v hv

theorem docOrder_ne_null (search : Option Nat → xmlNodePtr → Option String → xmlNodePtr)
    (doc : Option Nat) (t : xmlTreePtr) (par : xmlNodePtr) :
    ∀ v ∈ docOrder search doc t par, v.1.isNull = false := by
  cases t with
  | NULL => intro v hv; simp [docOrder] at hv
  | node a ty p d x n pr ch nx =>
    intro v hv
    exact docOrderChain_ne_null search doc _ par v hv

/-- Below an element that is the one raw member of a `Tree` set, everything
that the enumeration lists is contained. -/
theorem treeWalk_subtree (search : Option Nat → xmlNodePtr → Option String → xmlNodePtr)
    (doc : Option Nat) (cur : xmlTreePtr) (parentX : xmlNodePtr)
    (hel : cur.self.type = XML_ELEMENT_NODE) (hl : linked cur.children cur.self = true) :
    ∀ v ∈ docOrder search doc cur parentX, treeWalk (some [cur.self]) 1 0 v.1 v.2 = 1 := by
  cases cur with
  | NULL => intro v hv; simp [docOrder] at hv
  | node a ty p d x n pr ch nx =>
    simp only [xmlTreePtr.self, xmlNodePtr.type] at hel
    subst hel
    simp only [xmlTreePtr.self, xmlTreePtr.children] at hl ⊢
    have hin : ∀ q, in_nodes_set (some [xmlNodePtr.node a XML_ELEMENT_NODE p d x n])
        (xmlNodePtr.node a XML_ELEMENT_NODE p d x n) q ≠ 0 := by
      intro q
      rw [in_single (xmlNodePtr.node a XML_ELEMENT_NODE p d x n)
        (xmlNodePtr.node a XML_ELEMENT_NODE p d x n) q rfl]
      simp [xmlNodePtr.type, xmlNodePtr.ptrEq]
    have hX : ∀ q, treeWalk (some [xmlNodePtr.node a XML_ELEMENT_NODE p d x n]) 1 0
        (xmlNodePtr.node a XML_ELEMENT_NODE p d x n) q = 1 := by
      intro q
      cases q with
      | NULL => simp [treeWalk, hin]
      | node _ _ _ _ _ _ => simp [treeWalk, hin]
    have hattr : ∀ y, treeWalk (some [xmlNodePtr.node a XML_ELEMENT_NODE p d x n]) 1 0 y
        (xmlNodePtr.node a XML_ELEMENT_NODE p d x n) = 1 := by
      intro y
      simp only [treeWalk]
      split_ifs
      · rfl
      · exact hX p
    intro v hv
    rw [docOrder_node] at hv
    simp only [if_true, true_or, List.mem_cons, List.mem_append, List.mem_map] at hv
    rcases hv with rfl | (⟨y, _, rfl⟩ | ⟨y, _, rfl⟩) | hv
    · exact hX _
    · exact hattr y
    · exact hattr y
    · exact treeWalk_below search doc [xmlNodePtr.node a XML_ELEMENT_NODE p d x n] ch
        (xmlNodePtr.node a XML_ELEMENT_NODE p d x n) rfl rfl (hX p) hl v hv

/-- C17, as stated, fails.  For the document node as `X` the constructor gives
the `Tree` set over the document node; the root element `a` lies in the
subtree rooted at the document node, and `xmlSecNodeSetContains` rejects it:
the parent of `a` is not an element. -/
theorem getChildren_counterexample :
    (xmlSecNodeSetGetChildren exHeap0 true (some 100) exDoc 1 0).2 = some 0 ∧
    (((xmlSecNodeSetGetChildren exHeap0 true (some 100) exDoc 1 0).1.read 0).map
      (fun c => (c.type, c.nodes)) = some (xmlSecNodeSetTree, some [exDoc])) ∧
    (exA, exDoc) ∈ docOrder exSearch (some 100) exTreeDoc NULL ∧
    xmlSecNodeSetContains (xmlSecNodeSetGetChildren exHeap0 true (some 100) exDoc 1 0).1 9
      (some 0) exA exDoc = some 0 :=
  ⟨by decide!, by decide!, by decide!, by decide!⟩

/-- C17, amended.  For every node `X` and with memory available,
`xmlSecNodeSetGetChildren(doc, X, withComments, invert)` builds a ring of one
member with the raw collection `{X}` and the variant `Tree`,
`TreeWithoutComments`, `TreeInvert` or `TreeWithoutCommentsInvert` that the two
flags tell.  When `X` is an element and `invert` is `0`: with `withComments`
set, a node, given with its structural parents, is contained if and only if it
is `X` or `X` is one of its structural parents and every structural parent up
to `X` is an element; this holds for every node that the enumeration lists
below `X` (descendants, their attributes and declarations).  Without
`withComments` the same holds but for the comment nodes, none of which is
contained. -/
theorem getChildren_subtree (h : Heap) (d : Nat) (X : xmlNodePtr) (withComments invert : Int)
    (havail : 0 < h.avail) (hX : X.isNull = false) :
    ∃ h1 r c, xmlSecNodeSetGetChildren h true (some d) X withComments invert = (h1, some r) ∧
      h1.read r = some c ∧ c.next = some r ∧ c.prev = some r ∧ c.doc = some d ∧
      c.nodes = some [X] ∧
      c.type = (if withComments ≠ 0 then
          (if invert ≠ 0 then xmlSecNodeSetTreeInvert else xmlSecNodeSetTree)
        else (if invert ≠ 0 then xmlSecNodeSetTreeWithoutCommentsInvert
          else xmlSecNodeSetTreeWithoutComments)) ∧
      (X.type = XML_ELEMENT_NODE → invert = 0 →
        (∀ n parent : xmlNodePtr, n.isNull = false →
          ∃ v, Returns (fun fuel => xmlSecNodeSetContains h1 fuel (some r) n parent) v ∧
            (v ≠ 0 ↔ ((withComments ≠ 0 ∨ n.type ≠ XML_COMMENT_NODE) ∧
              ((n.type ≠ XML_NAMESPACE_DECL ∧ X.ptrEq n = true) ∨
                ancestorIncluded [X] parent)))) ∧
        (∀ (search : Option Nat → xmlNodePtr → Option String → xmlNodePtr) (cur : xmlTreePtr)
          (parentX : xmlNodePtr), cur.self = X → linked cur.children X = true →
          ∀ x ∈ docOrder search (some d) cur parentX,
            (withComments ≠ 0 ∨ x.1.type ≠ XML_COMMENT_NODE) →
            ∃ v, v ≠ 0 ∧
              Returns (fun fuel => xmlSecNodeSetContains h1 fuel (some r) x.1 x.2) v)) := by
  set ty : xmlSecNodeSetType := (if withComments ≠ 0 then
      (if invert ≠ 0 then xmlSecNodeSetTreeInvert else xmlSecNodeSetTree)
    else (if invert ≠ 0 then xmlSecNodeSetTreeWithoutCommentsInvert
      else xmlSecNodeSetTreeWithoutComments)) with hty
  obtain ⟨h1, hc, hread, _, _, _, _⟩ := create_spec h (some d) (some [X]) ty havail
  have hget : xmlSecNodeSetGetChildren h true (some d) X withComments invert =
      (h1, some h.cells.length) := by
    rw [← hc]
    simp only [xmlSecNodeSetGetChildren, hX, xmlXPathNodeSetCreate, hty]
    by_cases hw : withComments = 0 <;> by_cases hi : invert = 0 <;> simp [hw, hi]
  refine ⟨h1, h.cells.length, _, hget, hread, rfl, rfl, rfl, rfl, rfl, ?_⟩
  intro hel hinv
  have htyl : ty ≠ xmlSecNodeSetList := by
    rw [hty]; split_ifs <;> simp
  -- the value of the test
  have hval : ∀ n parent : xmlNodePtr, n.isNull = false →
      Returns (fun fuel => xmlSecNodeSetContains h1 fuel (some h.cells.length) n parent)
        (if (withComments ≠ 0 ∨ n.type ≠ XML_COMMENT_NODE) ∧
            treeWalk (some [X]) 1 0 n parent ≠ 0 then 1 else 0) := by
    intro n parent hn
    have hthis : Returns
        (fun fuel => xmlSecNodeSetContains h1 fuel (some h.cells.length) n parent)
        (if oneContainsFlat ty (some [X]) n parent = 0 then 0 else 1) :=
      contains_single h1 h.cells.length _ hread rfl htyl rfl n parent hn
    have key : (if oneContainsFlat ty (some [X]) n parent = 0 then (0 : Int) else 1) =
        (if (withComments ≠ 0 ∨ n.type ≠ XML_COMMENT_NODE) ∧
            treeWalk (some [X]) 1 0 n parent ≠ 0 then 1 else 0) := by
      have hb := treeWalk_bool (some [X]) parent n
      by_cases hw : withComments = 0
      · have hty2 : ty = xmlSecNodeSetTreeWithoutComments := by simp [hty, hw, hinv]
        rw [hty2]
        by_cases hcm : n.type = XML_COMMENT_NODE
        · simp [hw, hcm, oneContainsFlat]
        · rcases hb with hb | hb <;> simp [hw, hcm, oneContainsFlat, hb]
      · have hty2 : ty = xmlSecNodeSetTree := by simp [hty, hw, hinv]
        rw [hty2]
        rcases hb with hb | hb <;> simp [hw, oneContainsFlat, hb]
    rw [← key]
    exact hthis
  refine ⟨fun n parent hn => ⟨_, hval n parent hn, ?_⟩, ?_⟩
  · have := treeWalk_hit_iff [X] parent n
    rw [in_single X n parent hel] at this
    rw [← this]
    by_cases hc1 : (withComments ≠ 0 ∨ n.type ≠ XML_COMMENT_NODE) ∧
        treeWalk (some [X]) 1 0 n parent ≠ 0
    · simp only [hc1, and_self, if_true]; simp [hc1.1, hc1.2]
    · simp only [hc1, if_false]
      simp
  · intro search cur parentX hcur hl x hx hcm
    subst hcur
    have htw := treeWalk_subtree search (some d) cur parentX hel hl x hx
    refine ⟨_, ?_, hval x.1 x.2 (docOrder_ne_null search (some d) cur parentX x hx)⟩
    simp [hcm, htw]

/-! ## Tags outside the enumerations -/

/-- C18, the failing input.  In `exUnknown` the ring entered at `1` is the
`Invert` set over `{a}` followed by a member whose combinator tag is outside
the enumeration.  On it `xmlSecNodeSetContains` returns `-1` for the element
`a`, which its first member rejects; `xmlSecNodeSetWalk` takes the `-1` for
"contained" and calls the visitor on `a` and on every other node; and the ring
entered at `6`, whose one member is a `List` around that ring, contains `a`.
The member at `7`, whose variant tag is outside the enumeration, tests as not
contained. -/
theorem unknown_combinator_counts_as_contained :
    ((exUnknown.read 1).map (fun c => (c.type, c.nodes, c.op, c.next)) =
      some (xmlSecNodeSetInvert, some [exA], xmlSecNodeSetIntersection, some 0)) ∧
    ((exUnknown.read 0).map (fun c => (c.op, c.next)) = some (unknownOp 7, some 1)) ∧
    ((exUnknown.read 6).map (fun c => (c.type, c.children, c.op, c.next)) =
      some (xmlSecNodeSetList, some 1, xmlSecNodeSetIntersection, some 6)) ∧
    xmlSecNodeSetOneContains exUnknown 9 (some 1) exA exDoc = some 0 ∧
    xmlSecNodeSetContains exUnknown 9 (some 1) exA exDoc = some (-1) ∧
    xmlSecNodeSetWalk exUnknown exSearch exMem (record exVisitor) 20 (some 1) ((), []) =
      some (0, ((), [((exDoc, NULL), 0), ((exA, exDoc), 0), ((exB, exA), 0), ((exC, exB), 0),
        ((exComment, exA), 0)])) ∧
    xmlSecNodeSetContains exUnknown 9 (some 6) exA exDoc = some 1 ∧
    ((exUnknown.read 7).map (fun c => c.type) = some (unknownType 9)) ∧
    xmlSecNodeSetOneContains exUnknown 9 (some 7) exA exDoc = some 0 :=
  ⟨by decide!, by decide!, by decide!, by decide!, by decide!, by decide!, by decide!,
    by decide!, by decide!⟩

/-! ## The chain evaluator, round by round -/

/-- A round of the loop of `xmlSecXPathDataExecute`, told with what libxml
returns for the descriptor. -/
theorem executeLoop_cons (lib : LibXml) (fuel : Nat) (doc : Option Nat) (hereNode : xmlNodePtr)
    (h : Heap) (d : xmlSecXPathData) (next : List xmlSecXPathData) (res : Option Nat) :
    xmlSecXPathDataExecuteLoop lib fuel doc hereNode h (d :: next) res =
      match opOfFilter d.xpath2Type with
      | none => executeFail fuel h res
      | some op =>
        match evalDescriptor lib doc hereNode d with
        | none => none
        | some none => executeFail fuel h res
        | some (some obj) =>
          match xmlSecNodeSetCreate h doc obj.nodesetval (typeOfDialect d.xpathType) with
          | (h1, none) => executeFail fuel h1 res
          | (h1, some tmp1) =>
            match xmlSecNodeSetAdd h1 res (some tmp1) op with
            | none => none
            | some (h2, none) =>
              match xmlSecNodeSetDestroy fuel h2 (some tmp1) with
              | none => none
              | some h3 => executeFail fuel h3 res
            | some (h2, some tmp2) =>
              xmlSecXPathDataExecuteLoop lib fuel doc hereNode h2 next (some tmp2) := by
  cases hT : d.xpathType <;> cases hF : d.xpath2Type <;> cases hN : d.nsList <;>
    simp only [xmlSecXPathDataExecuteLoop, evalDescriptor, executeFail, opOfFilter,
      typeOfDialect, hT, hF, hN]
  all_goals try rfl
  all_goals try (split <;> (try simp only [*, ne_eq, not_true_eq_false, if_false]) <;> try rfl)
  all_goals try (split <;> (try simp only [*, ne_eq, not_true_eq_false, if_false]) <;> try rfl)
  all_goals try (split <;> (try simp only [*, ne_eq, not_true_eq_false, if_false]) <;> try rfl)
  all_goals try (split <;> (try simp only [*, ne_eq, not_true_eq_false, if_false]) <;> try rfl)

/-- One round of the chain evaluator on the heap: with memory available, a
record is created at the first unused address `w` and added to the ring `cur`
built so far, which becomes the ring `cur ++ [w]`; the other records keep
their combinator, variant, raw collection and `children`. -/
theorem round_step (h : Heap) (cur : List Nat) (res : Option Nat) (doc : Option Nat)
    (nodes : Option xmlNodeSet) (ty : xmlSecNodeSetType) (op : xmlSecNodeSetOp)
    (hcur : (cur = [] ∧ res = none) ∨ (IsRing h cur ∧ res = cur[0]?))
    (havail : 0 < h.avail) :
    ∃ ha hb a, xmlSecNodeSetCreate h doc nodes ty = (ha, some h.cells.length) ∧
      xmlSecNodeSetAdd ha res (some h.cells.length) op = some (hb, some a) ∧
      (cur ++ [h.cells.length])[0]? = some a ∧ IsRing hb (cur ++ [h.cells.length]) ∧
      (∀ q, q ∉ cur ++ [h.cells.length] → hb.read q = h.read q) ∧
      (∀ q, q ≠ h.cells.length →
        (hb.read q).map (fun c => (c.op, c.type, c.nodes, c.children)) =
          (h.read q).map (fun c => (c.op, c.type, c.nodes, c.children))) ∧
      (hb.read h.cells.length).map (fun c => (c.op, c.type, c.nodes, c.children)) =
        some (op, ty, nodes, none) ∧
      hb.cells.length = h.cells.length + 1 ∧ hb.avail + 1 = h.avail ∧
      (∀ q ∈ cur, q < h.cells.length) := by
  obtain ⟨ha1, hcreate1, hreadw, hother, hlena, hava, -⟩ := create_spec h doc nodes ty havail
  generalize hw : h.cells.length = w at *
  have hwring : IsRing ha1 [w] := isRing_singleton_iff.mpr ⟨_, hreadw, rfl, rfl⟩
  have hcurlt : ∀ q ∈ cur, q < w := by
    intro q hq
    rcases hcur with ⟨rfl, _⟩ | ⟨hr, _⟩
    · simp at hq
    · obtain ⟨i, hi, rfl⟩ := List.getElem_of_mem hq
      obtain ⟨c, hc, -, -⟩ := hr.cell (List.getElem?_eq_getElem hi)
      have := Heap.read_lt hc
      omega
  rcases hcur with ⟨rfl, rfl⟩ | ⟨hr, hres⟩
  · have hwlt : w < ha1.cells.length := by omega
    refine ⟨ha1, _, w, hcreate1, add_absent ha1 w op _ hreadw rfl, by simp, ?_, ?_, ?_, ?_,
      by simp [hlena], by simpa using hava, hcurlt⟩
    · exact isRing_singleton_iff.mpr ⟨_, Heap.read_write_same _ hwlt, rfl, rfl⟩
    · intro q hq
      rw [Heap.read_write_other _ (by simpa using hq), hother q (by simpa using hq)]
    · intro q hq
      rw [Heap.read_write_other _ hq, hother q hq]
    · rw [Heap.read_write_same _ hwlt]; rfl
  · have hpos := hr.length_pos
    obtain ⟨a, ha⟩ : ∃ a, cur[0]? = some a := ⟨cur[0], List.getElem?_eq_getElem hpos⟩
    have hra : IsRing ha1 cur :=
      isRing_congr (fun q hq => hother q (by have := hcurlt q hq; omega)) hr
    have hwcur : w ∉ cur := fun hh => by have := hcurlt w hh; omega
    obtain ⟨hb1, last, hlast, hadd1, hrb, hreadb, hlenb, havb, -⟩ :=
      add_ring ha1 cur a w op hra ha hwring hwcur
    have hmap : ∀ {β : Type} (f : xmlSecNodeSet → β) (q : Nat),
        (∀ c, f (addUpdate w a last op q c) = f c) →
        (hb1.read q).map f = (ha1.read q).map f := by
      intro β f q hf
      rw [hreadb]
      cases ha1.read q with
      | none => rfl
      | some c => simp [hf]
    refine ⟨ha1, hb1, a, hcreate1, by rw [hres, ha]; exact hadd1,
      by rw [List.getElem?_append_left hpos]; exact ha, hrb, ?_, ?_, ?_, by omega, by omega,
      hcurlt⟩
    · intro q hq
      simp only [List.mem_append, List.mem_singleton, not_or] at hq
      rw [hreadb, hother q hq.2]
      cases hcq : h.read q with
      | none => rfl
      | some cq =>
        have hqa : q ≠ a := fun hh => hq.1 (hh ▸ List.getElem?_mem ha)
        have hql : q ≠ last := fun hh => hq.1 (hh ▸ List.getElem?_mem hlast)
        simp [addUpdate_other op cq hq.2 hqa hql]
    · intro q hq
      rw [hmap _ q (fun c => by simp [addUpdate, hq]), hother q hq]
    · rw [hreadb, hreadw]; simp [addUpdate]; rfl

/-- The rounds of the loop of `xmlSecXPathDataExecute` when libxml returns an
object for every descriptor, every filter tag is of the enumeration, and
memory is available: the loop returns the ring `cur ++ new`, with one new
record per descriptor, in their order. -/
theorem executeLoop_forward (lib : LibXml) (fuel : Nat) (doc : Option Nat)
    (hereNode : xmlNodePtr) :
    ∀ (data : List xmlSecXPathData) (h : Heap) (cur : List Nat) (res : Option Nat),
      ((cur = [] ∧ res = none) ∨ (IsRing h cur ∧ res = cur[0]?)) →
      data.length ≤ h.avail →
      (∀ x ∈ data, ∃ op obj, opOfFilter x.xpath2Type = some op ∧
        evalDescriptor lib doc hereNode x = some (some obj)) →
      ∃ h1 new, xmlSecXPathDataExecuteLoop lib fuel doc hereNode h data res =
          some (h1, (cur ++ new)[0]?) ∧
        ((cur = [] ∧ new = []) ∨ IsRing h1 (cur ++ new)) ∧ new.length = data.length ∧
        (∀ q ∈ new, h.cells.length ≤ q) ∧
        (∀ q, q < h.cells.length → q ∉ cur → h1.read q = h.read q) ∧
        (∀ q, q < h.cells.length →
          (h1.read q).map (fun c => (c.op, c.type, c.nodes, c.children)) =
            (h.read q).map (fun c => (c.op, c.type, c.nodes, c.children))) ∧
        List.Forall₂ (fun q x => ∃ c obj, h1.read q = some c ∧
          evalDescriptor lib doc hereNode x = some (some obj) ∧
          c.nodes = obj.nodesetval ∧ c.type = typeOfDialect x.xpathType ∧
          some c.op = opOfFilter x.xpath2Type ∧ c.children = none) new data := by
  intro data
  induction data with
  | nil =>
    intro h cur res hcur _ _
    refine ⟨h, [], ?_, ?_, rfl, by simp, fun _ _ _ => rfl, fun _ _ => rfl, List.Forall₂.nil⟩
    · simp only [xmlSecXPathDataExecuteLoop, List.append_nil]
      rcases hcur with ⟨rfl, rfl⟩ | ⟨_, hres⟩
      · rfl
      · rw [hres]
    · rcases hcur with ⟨rfl, _⟩ | ⟨hr, _⟩
      · exact Or.inl ⟨rfl, rfl⟩
      · exact Or.inr (by simpa using hr)
  | cons d next ih =>
    intro h cur res hcur hav hall
    obtain ⟨op, obj, hop, hev⟩ := hall d (by simp)
    simp only [List.length_cons] at hav
    obtain ⟨ha, hb, a, hcreate, hadd, hhead, hrb, hframeb, hviewb, hwb, hlenb, havb, hcurlt⟩ :=
      round_step h cur res doc obj.nodesetval (typeOfDialect d.xpathType) op hcur (by omega)
    obtain ⟨h1, new, hloop, hring, hlen, hge, hframe, hview, hfa⟩ :=
      ih hb (cur ++ [h.cells.length]) (some a) (Or.inr ⟨hrb, hhead.symm⟩) (by omega)
        (fun x hx => hall x (by simp [hx]))
    have hring1 : IsRing h1 (cur ++ [h.cells.length] ++ new) := by
      rcases hring with ⟨hc, _⟩ | hr
      · simp at hc
      · exact hr
    refine ⟨h1, h.cells.length :: new, ?_, Or.inr (by simpa [List.append_assoc] using hring1),
      by simp [hlen], ?_, ?_, ?_, ?_⟩
    · rw [executeLoop_cons]
      simp only [hop, hev, hcreate, hadd]
      rw [hloop]
      simp [List.append_assoc]
    · intro q hq
      simp only [List.mem_cons] at hq
      rcases hq with rfl | hq
      · exact le_refl _
      · have := hge q hq; omega
    · intro q hq hqc
      rw [hframe q (by omega) (by simp [hqc]; omega), hframeb q (by simp [hqc]; omega)]
    · intro q hq
      rw [hview q (by omega), hviewb q (by omega)]
    · refine List.Forall₂.cons ?_ hfa
      have := hview h.cells.length (by omega)
      rw [hwb] at this
      cases hc : h1.read h.cells.length with
      | none => simp [hc] at this
      | some c =>
        simp only [hc, Option.map_some', Option.some.injEq, Prod.mk.injEq] at this
        exact ⟨c, obj, rfl, hev, this.2.2.1, this.2.1, by rw [this.1, hop], this.2.2.2⟩

/-- C19.  Let the chain `d1 .. dk` have at least one descriptor, the first with
an expression, let the document be given, let every filter tag be of the
enumeration, let libxml return an object for every descriptor, and let memory
be available for `k` records.  Then `xmlSecXPathDataExecute` returns a ring of
exactly `k` members in descriptor order; member `i` holds the raw collection
that the evaluation of `d_i` returned, has the variant `Normal` for the
first-generation dialect and `Tree` for the second-generation and the pointer
dialect, and carries the combinator that the filter tag of `d_i` tells
(Intersection for the tag Intersect, which the descriptors of the
first-generation and pointer dialects carry). -/
theorem execute_chain_result (lib : LibXml) (fuel : Nat) (h : Heap)
    (data : List xmlSecXPathData) (doc : Nat) (hereNode : xmlNodePtr) (d1 : xmlSecXPathData)
    (hfirst : data[0]? = some d1) (hexpr : d1.expr ≠ none)
    (hall : ∀ x ∈ data, ∃ op obj, opOfFilter x.xpath2Type = some op ∧
      evalDescriptor lib (some doc) hereNode x = some (some obj))
    (havail : data.length ≤ h.avail) :
    ∃ h1 res ms, xmlSecXPathDataExecute lib fuel h data (some doc) hereNode =
        some (h1, some res) ∧
      IsRing h1 ms ∧ ms[0]? = some res ∧ ms.length = data.length ∧
      List.Forall₂ (fun q x => ∃ c obj, h1.read q = some c ∧
        evalDescriptor lib (some doc) hereNode x = some (some obj) ∧
        c.nodes = obj.nodesetval ∧
        c.type = (match x.xpathType with
          | xmlSecXPathType.xmlSecXPathTypeXPath => xmlSecNodeSetNormal
          | xmlSecXPathType.xmlSecXPathTypeXPath2 => xmlSecNodeSetTree
          | xmlSecXPathType.xmlSecXPathTypeXPointer => xmlSecNodeSetTree) ∧
        (x.xpath2Type = xmlSecXPath2TransformType.xmlSecXPathTransformIntersect →
          c.op = xmlSecNodeSetIntersection) ∧
        (x.xpath2Type = xmlSecXPath2TransformType.xmlSecXPathTransformSubtract →
          c.op = xmlSecNodeSetSubtraction) ∧
        (x.xpath2Type = xmlSecXPath2TransformType.xmlSecXPathTransformUnion →
          c.op = xmlSecNodeSetUnion)) ms data := by
  obtain ⟨h1, new, hloop, hring, hlen, -, -, -, hfa⟩ :=
    executeLoop_forward lib fuel (some doc) hereNode data h [] none (Or.inl ⟨rfl, rfl⟩) havail
      hall
  cases data with
  | nil => simp at hfirst
  | cons d next =>
    simp only [List.getElem?_cons_zero, Option.some.injEq] at hfirst
    subst hfirst
    have hr : IsRing h1 new := by
      rcases hring with ⟨_, hn⟩ | hr
      · rw [hn] at hlen; simp at hlen
      · simpa using hr
    obtain ⟨res, hres⟩ : ∃ res, new[0]? = some res := by
      cases new with
      | nil => simp at hlen
      | cons r0 _ => exact ⟨r0, by simp⟩
    refine ⟨h1, res, new, ?_, hr, hres, hlen, ?_⟩
    · simp only [xmlSecXPathDataExecute, hexpr, if_false, reduceCtorEq]
      rw [hloop]
      simp [hres]
    · refine hfa.imp ?_
      rintro q x ⟨c, obj, hc, hev, hn, hty, hop, _⟩
      refine ⟨c, obj, hc, hev, hn, ?_, ?_, ?_, ?_⟩
      · rw [hty]; cases x.xpathType <;> rfl
      · intro hx; rw [hx] at hop; simpa [opOfFilter] using hop
      · intro hx; rw [hx] at hop; simpa [opOfFilter] using hop
      · intro hx; rw [hx] at hop; simpa [opOfFilter] using hop

/-! ## Destroying a ring without nested rings -/

theorem nextChain_linkedNext (h : Heap) (head : Nat) :
    ∀ ms : List Nat, nextChain h head ms = true →
      linkedNext h ms = true ∧
      ∀ last, ms.getLast? = some last → (h.read last).map (fun c => c.next) = some (some head) := by
  intro ms
  induction ms with
  | nil => intro _; simp [linkedNext]
  | cons a rest ih =>
    intro hc
    cases rest with
    | nil =>
      simp only [nextChain, decide_eq_true_eq] at hc
      refine ⟨rfl, ?_⟩
      intro last hla
      simp only [List.getLast?_singleton, Option.some.injEq] at hla
      rw [← hla]; exact hc
    | cons b rest2 =>
      simp only [nextChain, Bool.and_eq_true, decide_eq_true_eq] at hc
      obtain ⟨⟨hab, _⟩, hrest⟩ := hc
      obtain ⟨hl, hlast⟩ := ih hrest
      refine ⟨by simp [linkedNext, hab, hl], ?_⟩
      intro last hla
      exact hlast last (by simpa [List.getLast?_cons_cons] using hla)

theorem linkedNext_congr {h h1 : Heap} :
    ∀ ms : List Nat,
      (∀ q ∈ ms.dropLast, (h1.read q).map (fun c => c.next) = (h.read q).map (fun c => c.next)) →
      linkedNext h1 ms = linkedNext h ms := by
  intro ms
  induction ms with
  | nil => intro _; rfl
  | cons a rest ih =>
    intro hq
    cases rest with
    | nil => rfl
    | cons b rest2 =>
      simp only [linkedNext]
      rw [hq a (by simp [List.dropLast]), ih (fun q hm => hq q (by
        simp only [List.dropLast_cons₂, List.mem_cons]
        exact Or.inr hm))]

theorem getLast_not_mem_dropLast {ms : List Nat} (hnd : ms.Nodup) {last : Nat}
    (hl : ms.getLast? = some last) : last ∉ ms.dropLast := by
  have hne : ms ≠ [] := by
    intro hh; rw [hh] at hl; simp at hl
  have hsplit := List.dropLast_append_getLast hne
  have hlast : ms.getLast hne = last := by
    rw [List.getLast?_eq_getLast _ hne] at hl
    exact Option.some.inj hl
  rw [hlast] at hsplit
  rw [← hsplit] at hnd
  intro hm
  have := List.nodup_append.mp hnd
  exact (List.disjoint_left.mp this.2.2) hm (by simp)

namespace Heap

theorem read_xmlXPathFreeNodeSet (h : Heap) (nodes : xmlNodeSet) (q : Nat) :
    (h.xmlXPathFreeNodeSet nodes).read q = h.read q := rfl

theorem read_xmlFree (h : Heap) (p q : Nat) :
    (h.xmlFree p).read q = if q = p then none else h.read q := by
  unfold xmlFree read
  by_cases hq : q = p
  · subst hq
    by_cases hlt : q < h.cells.length
    · simp [hlt]
    · rw [List.getElem?_eq_none (by simp only [List.length_set]; omega)]
      simp
  · simp [hq, List.getElem?_set_ne (Ne.symm hq)]

end Heap

/-- One round of the loop of `xmlSecNodeSetDestroy` on a ring of at least two
members without nested rings: the entry point `m0` is taken out of the ring
and released, and the loop goes on at the next member `m1`. -/
theorem destroy_unlink_step (h : Heap) (m0 m1 last : Nat) (c0 c1 cl : xmlSecNodeSet)
    (hm0 : h.read m0 = some c0) (hm1 : h.read m1 = some c1)
    (hl : h.read last = some cl) (hne : m1 ≠ m0) (hlne : last ≠ m0)
    (hnext : c0.next = some m1) (hprev : c0.prev = some last) (hch : c0.children = none) :
    ∃ h5, (∀ fuel, xmlSecNodeSetDestroyLoop (fuel + 1) h (some m0) =
        xmlSecNodeSetDestroyLoop fuel h5 (some m1)) ∧
      (∀ q, h5.read q = if q = m0 then none else
        (h.read q).map (fun c => { c with
          prev := if q = m1 then some last else c.prev
          next := if q = last then some m1 else c.next })) ∧
      h5.cells.length = h.cells.length ∧ h5.avail = h.avail := by
  have hlt0 := Heap.read_lt hm0
  have hlt1 := Heap.read_lt hm1
  have hltl := Heap.read_lt hl
  -- the two writes that take `m0` out of the ring
  obtain ⟨h1, hh1⟩ : ∃ h1, h1 = h.write m1 { c1 with prev := c0.prev } := ⟨_, rfl⟩
  have hr1 : ∀ q, h1.read q = if q = m1 then some { c1 with prev := c0.prev } else h.read q := by
    intro q; rw [hh1]; exact Heap.read_write _ hlt1
  obtain ⟨cl1, hcl1⟩ : ∃ cl1, h1.read last = some cl1 := by
    rw [hr1]; split_ifs
    · exact ⟨_, rfl⟩
    · exact ⟨cl, hl⟩
  obtain ⟨h2, hh2⟩ : ∃ h2, h2 = h1.write last { cl1 with next := c0.next } := ⟨_, rfl⟩
  have hr2 : ∀ q, h2.read q = if q = last then some { cl1 with next := c0.next }
      else h1.read q := by
    intro q; rw [hh2]; exact Heap.read_write _ (by rw [hh1]; simpa using hltl)
  have h1m0 : h1.read m0 = some c0 := by rw [hr1, if_neg (Ne.symm hne), hm0]
  have h2m0 : h2.read m0 = some c0 := by rw [hr2, if_neg (Ne.symm hlne), h1m0]
  obtain ⟨h3, hh3⟩ : ∃ h3 : Heap, h3 = (match c0.nodes with
    | some nodes => h2.xmlXPathFreeNodeSet nodes
    | none => h2) := ⟨_, rfl⟩
  have hr3 : ∀ q, h3.read q = h2.read q := by
    intro q
    rw [hh3]
    cases c0.nodes <;> rfl
  have hlen3 : h3.cells.length = h.cells.length ∧ h3.avail = h.avail := by
    rw [hh3]
    cases c0.nodes <;> simp [Heap.xmlXPathFreeNodeSet, hh2, hh1]
  refine ⟨h3.xmlFree m0, ?_, ?_, ?_, ?_⟩
  · intro fuel
    have hnn : ¬ (some m1 = some m0) := by simpa using hne
    simp only [xmlSecNodeSetDestroyLoop, hm0, hnext, ne_eq, hnn, not_false_eq_true, if_true,
      Option.some_bind, hm1]
    rw [← hh1]
    simp only [h1m0, hprev, Option.some_bind, hcl1]
    rw [← hh2]
    simp only [h2m0, Option.map_some', hch]
    cases hN : c0.nodes <;> simp only [hN] at hh3 ⊢ <;> rw [← hh3] <;>
      simp only [hr3, h2m0, hnext]
  · intro q
    rw [Heap.read_xmlFree, hr3, hr2, hr1]
    by_cases hq0 : q = m0
    · simp [hq0]
    · simp only [hq0, if_false]
      have hcl1v : cl1 = if last = m1 then { c1 with prev := c0.prev } else cl := by
        have := hcl1
        rw [hr1] at this
        split_ifs at this ⊢ with hlm
        · exact (Option.some.inj this).symm
        · rw [hl] at this; exact (Option.some.inj this).symm
      by_cases hql : q = last
      · subst hql
        by_cases hq1 : q = m1
        · subst hq1
          simp [hcl1v, hm1, hnext, hprev]
        · simp [hcl1v, hq1, hl, hnext]
      · by_cases hq1 : q = m1
        · subst hq1
          simp [hql, hm1, hprev]
        · simp only [hql, hq1, if_false]
          cases h.read q <;> simp
  · simp [Heap.xmlFree, hlen3.1]
  · simp [Heap.xmlFree, hlen3.2]

/-- The loop of `xmlSecNodeSetDestroy` on a ring without nested rings, entered
at its member `m0`: with fuel for every member it returns; the members are
released and the other records are as before. -/
theorem destroyLoop_flat : ∀ (ms : List Nat) (h : Heap) (m0 : Nat),
    (m0 :: ms).Nodup →
    (∀ q ∈ m0 :: ms, ∃ c, h.read q = some c ∧ c.children = none) →
    linkedNext h (m0 :: ms) = true →
    (∀ last, (m0 :: ms).getLast? = some last →
      (h.read last).map (fun c => c.next) = some (some m0)) →
    (h.read m0).map (fun c => c.prev) = some (m0 :: ms).getLast? →
    ∃ h1, (∀ fuel, ms.length + 2 ≤ fuel → xmlSecNodeSetDestroyLoop fuel h (some m0) = some h1) ∧
      (∀ q, q ∉ m0 :: ms → h1.read q = h.read q) ∧ (∀ q ∈ m0 :: ms, h1.read q = none) ∧
      h1.cells.length = h.cells.length ∧ h1.avail = h.avail := by
  intro ms
  induction ms with
  | nil =>
    intro h m0 _ hread _ hlast _
    obtain ⟨c0, hc0, hch⟩ := hread m0 (by simp)
    have hnext : c0.next = some m0 := by
      have := hlast m0 (by simp)
      simpa [hc0] using this
    obtain ⟨h3, hh3⟩ : ∃ h3 : Heap, h3 = (match c0.nodes with
      | some nodes => h.xmlXPathFreeNodeSet nodes
      | none => h) := ⟨_, rfl⟩
    have hr3 : ∀ q, h3.read q = h.read q := by
      intro q; rw [hh3]; cases c0.nodes <;> rfl
    have hlen3 : h3.cells.length = h.cells.length ∧ h3.avail = h.avail := by
      rw [hh3]; cases c0.nodes <;> simp [Heap.xmlXPathFreeNodeSet]
    refine ⟨h3.xmlFree m0, ?_, ?_, ?_, by simp [Heap.xmlFree, hlen3.1],
      by simp [Heap.xmlFree, hlen3.2]⟩
    · intro fuel hfuel
      obtain ⟨f, rfl⟩ : ∃ f, fuel = f + 2 := ⟨fuel - 2, by simp at hfuel; omega⟩
      simp only [xmlSecNodeSetDestroyLoop, hc0, hnext, ne_eq, not_true_eq_false, if_false, hch]
      cases hN : c0.nodes <;> simp only [hN] at hh3 ⊢ <;> rw [← hh3] <;> simp only [hr3, hc0]
    · intro q hq
      rw [Heap.read_xmlFree, hr3, if_neg (by simpa using hq)]
    · intro q hq
      rw [Heap.read_xmlFree, if_pos (by simpa using hq)]
  | cons m1 rest ih =>
    intro h m0 hnd hread hlink hlast hprev
    obtain ⟨c0, hc0, hch⟩ := hread m0 (by simp)
    obtain ⟨c1, hc1, -⟩ := hread m1 (by simp)
    obtain ⟨last, hla⟩ : ∃ last, (m1 :: rest).getLast? = some last :=
      ⟨(m1 :: rest).getLast (by simp), List.getLast?_eq_getLast _ _⟩
    have hla0 : (m0 :: m1 :: rest).getLast? = some last := by
      rw [List.getLast?_cons_cons]; exact hla
    have hlmem : last ∈ m1 :: rest := List.mem_of_getLast?_eq_some hla
    obtain ⟨cl, hcl, -⟩ := hread last (List.mem_cons_of_mem _ hlmem)
    have hnd1 : (m1 :: rest).Nodup := (List.nodup_cons.mp hnd).2
    have hm0 : m0 ∉ m1 :: rest := (List.nodup_cons.mp hnd).1
    have hne : m1 ≠ m0 := fun hh => hm0 (hh ▸ List.mem_cons_self _ _)
    have hlne : last ≠ m0 := fun hh => hm0 (hh ▸ hlmem)
    have hnext : c0.next = some m1 := by
      simp only [linkedNext, Bool.and_eq_true, decide_eq_true_eq] at hlink
      simpa [hc0] using hlink.1
    have hprev0 : c0.prev = some last := by
      rw [hla0] at hprev
      simpa [hc0] using hprev
    obtain ⟨h5, hstep, hr5, hlen5, hav5⟩ :=
      destroy_unlink_step h m0 m1 last c0 c1 cl hc0 hc1 hcl hne hlne hnext hprev0 hch
    have hq5 : ∀ q ∈ m1 :: rest, ∀ c, h.read q = some c →
        h5.read q = some { c with
          prev := if q = m1 then some last else c.prev
          next := if q = last then some m1 else c.next } := by
      intro q hq c hc
      have hq0 : q ≠ m0 := fun hh => hm0 (hh ▸ hq)
      rw [hr5, if_neg hq0, hc]; rfl
    obtain ⟨h1, hloop, hframe, hfreed, hlen1, hav1⟩ := ih h5 m1 hnd1
      (by
        intro q hq
        obtain ⟨c, hc, hcc⟩ := hread q (List.mem_cons_of_mem _ hq)
        exact ⟨_, hq5 q hq c hc, hcc⟩)
      (by
        rw [linkedNext_congr (h := h) (m1 :: rest)]
        · simp only [linkedNext, Bool.and_eq_true, decide_eq_true_eq] at hlink
          exact hlink.2
        · intro q hq
          have hqm : q ∈ m1 :: rest := List.mem_of_mem_dropLast hq
          have hql : q ≠ last := fun hh => getLast_not_mem_dropLast hnd1 hla (hh ▸ hq)
          obtain ⟨c, hc, -⟩ := hread q (List.mem_cons_of_mem _ hqm)
          rw [hq5 q hqm c hc, hc]
          simp [hql])
      (by
        intro l hl
        rw [hla] at hl
        obtain rfl := Option.some.inj hl
        rw [hq5 _ hlmem cl hcl]
        simp)
      (by
        rw [hq5 m1 (by simp) c1 hc1, hla]
        simp)
    refine ⟨h1, ?_, ?_, ?_, by rw [hlen1, hlen5], by rw [hav1, hav5]⟩
    · intro fuel hfuel
      obtain ⟨f, rfl⟩ : ∃ f, fuel = f + 1 := ⟨fuel - 1, by simp at hfuel; omega⟩
      rw [hstep]
      exact hloop f (by simp at hfuel ⊢; omega)
    · intro q hq
      simp only [List.mem_cons, not_or] at hq
      rw [hframe q (by simpa using hq.2), hr5, if_neg hq.1]
      have hql : q ≠ last := fun hh => hq.2.2 (by
        have := hlmem
        simp only [List.mem_cons] at this
        rcases this with h1 | h1
        · exact absurd (hh.trans h1) hq.2.1
        · exact hh ▸ h1)
      cases h.read q <;> simp [hq.2.1, hql]
    · intro q hq
      simp only [List.mem_cons] at hq
      rcases hq with rfl | hq
      · rw [hframe q hm0, hr5, if_pos rfl]
      · exact hfreed q (by simpa using hq)

/-- The function `xmlSecNodeSetDestroy` on a ring without nested rings: with
fuel for every member it returns; the members are released and the other
records are as before. -/
theorem destroy_ring (h : Heap) (cur : List Nat) (r : Nat) (hr : IsRing h cur)
    (hhead : cur[0]? = some r)
    (hflat : ∀ q ∈ cur, ∀ c, h.read q = some c → c.children = none) :
    ∃ h1, (∀ fuel, cur.length + 2 ≤ fuel → xmlSecNodeSetDestroy fuel h (some r) = some h1) ∧
      (∀ q, q ∉ cur → h1.read q = h.read q) ∧ (∀ q ∈ cur, h1.read q = none) ∧
      h1.cells.length = h.cells.length ∧ h1.avail = h.avail := by
  cases cur with
  | nil => simp at hhead
  | cons m0 ms =>
    simp only [List.getElem?_cons_zero, Option.some.injEq] at hhead
    subst hhead
    have h0 : (m0 :: ms)[0]? = some m0 := by simp
    obtain ⟨hlink, hlast⟩ := nextChain_linkedNext h m0 (m0 :: ms) (isRing_nextChain hr h0)
    have hread : ∀ q ∈ m0 :: ms, ∃ c, h.read q = some c ∧ c.children = none := by
      intro q hq
      obtain ⟨i, hi, rfl⟩ := List.getElem_of_mem hq
      obtain ⟨c, hc, -, -⟩ := hr.cell (List.getElem?_eq_getElem hi)
      exact ⟨c, hc, hflat _ hq c hc⟩
    have hprev : (h.read m0).map (fun c => c.prev) = some (m0 :: ms).getLast? := by
      have := (hr.at h0).2
      rw [this, List.getLast?_eq_getElem?]
      simp [predIdx]
    obtain ⟨h1, hloop, hframe, hfreed, hlen, hav⟩ :=
      destroyLoop_flat ms h m0 hr.2.1 hread hlink hlast hprev
    refine ⟨h1, ?_, hframe, hfreed, hlen, hav⟩
    intro fuel hfuel
    obtain ⟨f, rfl⟩ : ∃ f, fuel = f + 1 := ⟨fuel - 1, by simp at hfuel; omega⟩
    simp only [xmlSecNodeSetDestroy]
    exact hloop f (by simp at hfuel ⊢; omega)

/-- The failure path of `xmlSecXPathDataExecute` on the ring built so far. -/
theorem executeFail_ring (h : Heap) (cur : List Nat) (res : Option Nat)
    (hcur : (cur = [] ∧ res = none) ∨ (IsRing h cur ∧ res = cur[0]? ∧
      ∀ q ∈ cur, ∀ c, h.read q = some c → c.children = none)) :
    ∃ h1, (∀ fuel, cur.length + 2 ≤ fuel → executeFail fuel h res = some (h1, none)) ∧
      (∀ q, q ∉ cur → h1.read q = h.read q) ∧ (∀ q ∈ cur, h1.read q = none) ∧
      h1.cells.length = h.cells.length := by
  rcases hcur with ⟨rfl, rfl⟩ | ⟨hr, hres, hflat⟩
  · exact ⟨h, fun _ _ => rfl, fun _ _ => rfl, by simp, rfl⟩
  · obtain ⟨r, hhead⟩ : ∃ r, cur[0]? = some r := by
      cases cur with
      | nil => exact absurd rfl hr.1
      | cons r0 _ => exact ⟨r0, by simp⟩
    obtain ⟨h1, hd, hframe, hfreed, hlen, -⟩ := destroy_ring h cur r hr hhead hflat
    refine ⟨h1, ?_, hframe, hfreed, hlen⟩
    intro fuel hfuel
    rw [hres, hhead]
    simp only [executeFail, hd fuel hfuel, Option.map_some']

theorem create_fail (h : Heap) (doc : Option Nat) (nodes : Option xmlNodeSet)
    (type : xmlSecNodeSetType) (havail : h.avail = 0) :
    xmlSecNodeSetCreate h doc nodes type = (h, none) := by
  simp [xmlSecNodeSetCreate, Heap.xmlMalloc, havail]

/-- The rounds of the loop of `xmlSecXPathDataExecute` when a descriptor of the
chain fails: whatever ring the rounds before it built is destroyed, `NULL` is
returned, and the records that were there before the call are as before. -/
theorem executeLoop_fails (lib : LibXml) (doc : Option Nat) (hereNode : xmlNodePtr)
    (d : xmlSecXPathData) (post : List xmlSecXPathData)
    (hd : evalDescriptor lib doc hereNode d = some none) :
    ∀ (pre : List xmlSecXPathData) (h : Heap) (cur : List Nat) (res : Option Nat),
      ((cur = [] ∧ res = none) ∨ (IsRing h cur ∧ res = cur[0]? ∧
        ∀ q ∈ cur, ∀ c, h.read q = some c → c.children = none)) →
      (∀ x ∈ pre, evalDescriptor lib doc hereNode x ≠ none) →
      ∃ h1, (∀ fuel, cur.length + pre.length + 2 ≤ fuel →
          xmlSecXPathDataExecuteLoop lib fuel doc hereNode h (pre ++ d :: post) res =
            some (h1, none)) ∧
        (∀ q, q < h.cells.length → q ∉ cur → h1.read q = h.read q) ∧
        (∀ q ∈ cur, h1.read q = none) := by
  intro pre
  induction pre with
  | nil =>
    intro h cur res hcur _
    obtain ⟨h1, hf, hframe, hfreed, -⟩ := executeFail_ring h cur res hcur
    refine ⟨h1, ?_, fun q _ hq => hframe q hq, hfreed⟩
    intro fuel hfuel
    rw [List.nil_append, executeLoop_cons, hd]
    cases opOfFilter d.xpath2Type <;> exact hf fuel (by simp at hfuel; omega)
  | cons x pre ih =>
    intro h cur res hcur hpre
    obtain ⟨hF, hfail, hframeF, hfreedF, -⟩ := executeFail_ring h cur res hcur
    have hfailure : ∃ h1, (∀ fuel, cur.length + (x :: pre).length + 2 ≤ fuel →
          executeFail fuel h res = some (h1, none)) ∧
        (∀ q, q < h.cells.length → q ∉ cur → h1.read q = h.read q) ∧
        (∀ q ∈ cur, h1.read q = none) :=
      ⟨hF, fun fuel hfuel => hfail fuel (by simp at hfuel; omega),
        fun q _ hq => hframeF q hq, hfreedF⟩
    cases hop : opOfFilter x.xpath2Type with
    | none =>
      obtain ⟨h1, hf, hrest⟩ := hfailure
      refine ⟨h1, fun fuel hfuel => ?_, hrest⟩
      rw [List.cons_append, executeLoop_cons, hop]
      exact hf fuel hfuel
    | some op =>
      cases hev : evalDescriptor lib doc hereNode x with
      | none => exact absurd hev (hpre x (by simp))
      | some v =>
        cases v with
        | none =>
          obtain ⟨h1, hf, hrest⟩ := hfailure
          refine ⟨h1, fun fuel hfuel => ?_, hrest⟩
          rw [List.cons_append, executeLoop_cons, hop, hev]
          exact hf fuel hfuel
        | some obj =>
          by_cases hav : h.avail = 0
          · obtain ⟨h1, hf, hrest⟩ := hfailure
            refine ⟨h1, fun fuel hfuel => ?_, hrest⟩
            rw [List.cons_append, executeLoop_cons, hop, hev]
            simp only [create_fail h doc obj.nodesetval _ hav]
            exact hf fuel hfuel
          · have hcur0 : (cur = [] ∧ res = none) ∨ (IsRing h cur ∧ res = cur[0]?) := by
              rcases hcur with hc | ⟨hr, hres, -⟩
              · exact Or.inl hc
              · exact Or.inr ⟨hr, hres⟩
            obtain ⟨ha, hb, a, hcreate, hadd, hhead, hrb, hframeb, hviewb, hwb, hlenb, -,
              hcurlt⟩ := round_step h cur res doc obj.nodesetval (typeOfDialect x.xpathType) op
                hcur0 (by omega)
            have hflatb : ∀ q ∈ cur ++ [h.cells.length], ∀ c, hb.read q = some c →
                c.children = none := by
              intro q hq c hc
              simp only [List.mem_append, List.mem_singleton] at hq
              rcases hq with hq | rfl
              · have hne : q ≠ h.cells.length := by have := hcurlt q hq; omega
                have hv := hviewb q hne
                rw [hc] at hv
                rcases hcur with ⟨rfl, -⟩ | ⟨-, -, hflat⟩
                · simp at hq
                · cases hc0 : h.read q with
                  | none => simp [hc0] at hv
                  | some c0 =>
                    have := hflat q hq c0 hc0
                    simp only [hc0, Option.map_some', Option.some.injEq, Prod.mk.injEq] at hv
                    rw [hv.2.2.2, this]
              · rw [hc] at hwb
                simp only [Option.map_some', Option.some.injEq, Prod.mk.injEq] at hwb
                exact hwb.2.2.2
            obtain ⟨h1, hloop, hframe, hfreed⟩ :=
              ih hb (cur ++ [h.cells.length]) (some a) (Or.inr ⟨hrb, hhead.symm, hflatb⟩)
                (fun y hy => hpre y (by simp [hy]))
            refine ⟨h1, ?_, ?_, ?_⟩
            · intro fuel hfuel
              rw [List.cons_append, executeLoop_cons, hop, hev]
              simp only [hcreate, hadd]
              exact hloop fuel (by simp at hfuel ⊢; omega)
            · intro q hq hqc
              rw [hframe q (by omega) (by simp [hqc]; omega), hframeb q (by simp [hqc]; omega)]
            · intro q hq
              exact hfreed q (by simp [hq])

/-- C20.  Let a descriptor `d` of the chain of a transform fail: the creation of
its context, the registration of one of its namespaces or the evaluation of
its expression (the descriptors before it may have been folded; none of them
reads outside its list of namespaces).  Then `xmlSecXPathDataExecute` returns
`NULL`, each of the three execute functions returns `-1` and leaves
the variable `*nodes` of the caller as it was, and every record that was in the
heap before the call is as before. -/
theorem execute_all_or_nothing (lib : LibXml) (h : Heap) (transform : xmlSecXmlTransform)
    (ctxDoc : Option Nat) (doc : Nat) (ns : Option Nat)
    (pre post : List xmlSecXPathData) (d : xmlSecXPathData)
    (hdata : transform.xmlData = pre ++ d :: post)
    (hpre : ∀ x ∈ pre,
      evalDescriptor lib (some doc) (hereNodeOf transform ctxDoc doc) x ≠ none)
    (hd : evalDescriptor lib (some doc) (hereNodeOf transform ctxDoc doc) d = some none) :
    (∃ h1, (∀ q, q < h.cells.length → h1.read q = h.read q) ∧
      Returns (fun fuel => xmlSecXPathDataExecute lib fuel h transform.xmlData (some doc)
        (hereNodeOf transform ctxDoc doc)) (h1, none)) ∧
    (∃ h1, (∀ q, q < h.cells.length → h1.read q = h.read q) ∧
      Returns (fun fuel => xmlSecTransformXPathExecute lib fuel h (some transform) ctxDoc
        (some (some doc)) (some ns)) ⟨-1, h1, some ns⟩) ∧
    (∃ h1, (∀ q, q < h.cells.length → h1.read q = h.read q) ∧
      Returns (fun fuel => xmlSecTransformXPath2Execute lib fuel h (some transform) ctxDoc
        (some (some doc)) (some ns)) ⟨-1, h1, some ns⟩) ∧
    (∃ h1, (∀ q, q < h.cells.length → h1.read q = h.read q) ∧
      Returns (fun fuel => xmlSecTransformXPointerExecute lib fuel h (some transform) ctxDoc
        (some (some doc)) (some ns)) ⟨-1, h1, some ns⟩) := by
  obtain ⟨hereNode, hhere⟩ : ∃ hereNode, hereNode = hereNodeOf transform ctxDoc doc := ⟨_, rfl⟩
  rw [← hhere] at hpre hd ⊢
  have hhere : hereNode = if some doc = ctxDoc then transform.here else NULL := hhere
  obtain ⟨hL, hloop, hframeL, -⟩ :=
    executeLoop_fails lib (some doc) hereNode d post hd pre h [] none (Or.inl ⟨rfl, rfl⟩) hpre
  have hexec : ∃ h1, (∀ q, q < h.cells.length → h1.read q = h.read q) ∧
      ∀ fuel, pre.length + 2 ≤ fuel →
        xmlSecXPathDataExecute lib fuel h transform.xmlData (some doc) hereNode =
          some (h1, none) := by
    cases hx : transform.xmlData with
    | nil => rw [hx] at hdata; simp at hdata
    | cons d1 next =>
      by_cases he : d1.expr = none
      · exact ⟨h, fun _ _ => rfl, fun fuel _ => by simp [xmlSecXPathDataExecute, he]⟩
      · refine ⟨hL, fun q hq => hframeL q hq (by simp), fun fuel hfuel => ?_⟩
        simp only [xmlSecXPathDataExecute, he, if_false, reduceCtorEq]
        rw [← hx, hdata]
        exact hloop fuel (by simpa using hfuel)
  obtain ⟨hE, hframeE, hE1⟩ := hexec
  refine ⟨⟨hE, hframeE, pre.length + 2, hE1⟩, ?_, ?_, ?_⟩
  · by_cases hid : transform.id = xmlSecTransformId.xmlSecTransformXPath
    · cases hx : transform.xmlData with
      | nil => rw [hx] at hdata; simp at hdata
      | cons d1 next =>
        by_cases he : d1.expr = none
        · exact ⟨h, fun _ _ => rfl, 0, fun fuel _ => by
            simp [xmlSecTransformXPathExecute, hid, hx, he]⟩
        · cases next with
          | cons _ _ =>
            exact ⟨h, fun _ _ => rfl, 0, fun fuel _ => by
              simp [xmlSecTransformXPathExecute, hid, hx, he]⟩
          | nil =>
            refine ⟨hE, hframeE, pre.length + 2, fun fuel hfuel => ?_⟩
            have := hE1 fuel hfuel
            rw [hx, hhere] at this
            simp only [xmlSecTransformXPathExecute, hid, hx, he, ne_eq, not_true_eq_false,
              if_false, this]
    · exact ⟨h, fun _ _ => rfl, 0, fun fuel _ => by
        simp [xmlSecTransformXPathExecute, hid]⟩
  · by_cases hid : transform.id = xmlSecTransformId.xmlSecTransformXPath2
    · cases hx : transform.xmlData with
      | nil => rw [hx] at hdata; simp at hdata
      | cons d1 next =>
        refine ⟨hE, hframeE, pre.length + 2, fun fuel hfuel => ?_⟩
        have := hE1 fuel hfuel
        rw [hx, hhere] at this
        simp only [xmlSecTransformXPath2Execute, hid, hx, ne_eq, not_true_eq_false,
          if_false, this]
    · exact ⟨h, fun _ _ => rfl, 0, fun fuel _ => by
        simp [xmlSecTransformXPath2Execute, hid]⟩
  · by_cases hid : transform.id = xmlSecTransformId.xmlSecTransformXPointer
    · cases hx : transform.xmlData with
      | nil => rw [hx] at hdata; simp at hdata
      | cons d1 next =>
        by_cases he : d1.expr = none
        · exact ⟨h, fun _ _ => rfl, 0, fun fuel _ => by
            simp [xmlSecTransformXPointerExecute, hid, hx, he]⟩
        · cases next with
          | cons _ _ =>
            exact ⟨h, fun _ _ => rfl, 0, fun fuel _ => by
              simp [xmlSecTransformXPointerExecute, hid, hx, he]⟩
          | nil =>
            refine ⟨hE, hframeE, pre.length + 2, fun fuel hfuel => ?_⟩
            have := hE1 fuel hfuel
            rw [hx, hhere] at this
            simp only [xmlSecTransformXPointerExecute, hid, hx, he, ne_eq, not_true_eq_false,
              if_false, this]
    · exact ⟨h, fun _ _ => rfl, 0, fun fuel _ => by
        simp [xmlSecTransformXPointerExecute, hid]⟩

/-! ### Concrete instances of the walk, the subtree constructor and the chain -/

/-- C12, instance: the `Invert` set over `{b}` of the small document, walked
over the whole document. -/
theorem walk_complete_witness :
    ((exShape 1).headPtr = some 1 ∧
      (exHeap [exB]).read 1 = some (exCell 1 xmlSecNodeSetInvert [exB]) ∧
      chained (exHeap [exB]) (exShape 1) = true ∧ wired (exHeap [exB]) (exShape 1) = true ∧
      wholeDocument (exCell 1 xmlSecNodeSetInvert [exB]) ∧ exMem 100 ≠ xmlTreePtr.NULL) ∧
    (∃ r d1 log,
      Returns (fun fuel => xmlSecNodeSetWalk (exHeap [exB]) exSearch exMem (record exVisitor)
        fuel (some 1) ((), [])) (r, (d1, log)) ∧
      ∀ x : Visit, x ∈ log.map Prod.fst ↔
        (x ∈ docOrder exSearch (some 100) (exMem 100) NULL ∧
          ∃ v, v ≠ 0 ∧
            Returns (fun fuel => xmlSecNodeSetContains (exHeap [exB]) fuel (some 1) x.1 x.2)
              v)) ∧
    xmlSecNodeSetWalk (exHeap [exB]) exSearch exMem (record exVisitor) 20 (some 1) ((), []) =
      some (0, ((), [((exDoc, NULL), 0), ((exA, exDoc), 0), ((exC, exB), 0),
        ((exComment, exA), 0)])) :=
  ⟨⟨rfl, rfl, by decide!, by decide!, by decide!, by decide!⟩,
    walk_complete (exHeap [exB]) exSearch exMem exVisitor (exShape 1) 1
      (exCell 1 xmlSecNodeSetInvert [exB]) rfl rfl (by decide!) (by decide!) (by decide!) 100 rfl
      (by decide!) (fun _ _ _ _ => le_refl 0) (),
    by decide!⟩

/-- C13, instance: the `TreeInvert` set over `{b}` of the small document; the
walk calls the visitor on the document node, on `a` and on the comment, in
this order. -/
theorem walk_document_order_witness :
    ((exShape 4).headPtr = some 4 ∧
      (exHeap [exB]).read 4 = some (exCell 4 xmlSecNodeSetTreeInvert [exB]) ∧
      chained (exHeap [exB]) (exShape 4) = true ∧ wired (exHeap [exB]) (exShape 4) = true ∧
      wholeDocument (exCell 4 xmlSecNodeSetTreeInvert [exB]) ∧
      exMem 100 ≠ xmlTreePtr.NULL) ∧
    (∃ d1 log,
      Returns (fun fuel => xmlSecNodeSetWalk (exHeap [exB]) exSearch exMem (record exVisitor)
        fuel (some 4) ((), [])) (0, (d1, log)) ∧
      log.map Prod.fst =
        (docOrder exSearch (some 100) (exMem 100) NULL).filter
          (accepts (exHeap [exB]) (exShape 4)) ∧
      ∀ x : Visit,
        Returns (fun fuel => xmlSecNodeSetContains (exHeap [exB]) fuel (some 4) x.1 x.2)
          (containsAt (exHeap [exB]) (exShape 4) x.1 x.2)) ∧
    (docOrder exSearch (some 100) (exMem 100) NULL).filter
        (accepts (exHeap [exB]) (exShape 4)) =
      [(exDoc, NULL), (exA, exDoc), (exComment, exA)] :=
  ⟨⟨rfl, rfl, by decide!, by decide!, by decide!, by decide!⟩,
    walk_document_order (exHeap [exB]) exSearch exMem exVisitor (exShape 4) 4
      (exCell 4 xmlSecNodeSetTreeInvert [exB]) rfl rfl (by decide!) (by decide!) (by decide!)
      100 rfl (by decide!) (fun _ _ _ _ => le_refl 0) (),
    by decide!⟩

/-- C15, instance: the `Tree` set over `{a}` of the small document and a visitor
that answers `-5` on `b`: the walk stops there and returns `-5`. -/
theorem walk_abort_witness :
    ((exShape 2).headPtr = some 2 ∧
      (exHeap [exA]).read 2 = some (exCell 2 xmlSecNodeSetTree [exA]) ∧
      chained (exHeap [exA]) (exShape 2) = true ∧ wired (exHeap [exA]) (exShape 2) = true) ∧
    (∃ r d1 log,
      Returns (fun fuel => xmlSecNodeSetWalk (exHeap [exA]) exSearch exMem
        (record (fun _ n _ d => (if n.ptrEq exB then -5 else 0, d))) fuel (some 2)
          ((), [])) (r, (d1, log)) ∧
      (∀ i e, log[i]? = some e → e.2 < 0 → i + 1 = log.length ∧ r = e.2) ∧
      ((∀ e ∈ log, 0 ≤ e.2) →
        (wholeDocument (exCell 2 xmlSecNodeSetTree [exA]) →
          (exCell 2 xmlSecNodeSetTree [exA]).doc ≠ none) → 0 ≤ r) ∧
      (wholeDocument (exCell 2 xmlSecNodeSetTree [exA]) →
        (exCell 2 xmlSecNodeSetTree [exA]).doc = none → r = -1 ∧ log = [])) ∧
    xmlSecNodeSetWalk (exHeap [exA]) exSearch exMem
        (record (fun _ n _ d => (if n.ptrEq exB then -5 else 0, d))) 20 (some 2) ((), []) =
      some (-5, ((), [((exA, exDoc), 0), ((exB, exA), -5)])) :=
  ⟨⟨rfl, rfl, by decide!, by decide!⟩,
    walk_abort (exHeap [exA]) exSearch exMem (fun _ n _ d => (if n.ptrEq exB then -5 else 0, d))
      (exShape 2) 2 (exCell 2 xmlSecNodeSetTree [exA]) rfl rfl (by decide!) (by decide!)
      (fun d hd => by cases hd; decide!)
      (fun _ tab htab n hn => by cases htab; simp at hn; subst hn; rfl) (),
    by decide!⟩

/-- C16, instance: the element `i` of `<r xmlns:x="urn:1" xmlns:y="urn:y"><i
xmlns:x="urn:2"/></r>`, walked with a set that contains every node: the
declaration of `x` on `i` and that of `y` on `r` are visited with `i`, the
declaration of `x` on `r` is not. -/
theorem walk_namespace_shadowing_witness :
    ((exShape 1).headPtr = some 1 ∧
      (exHeap []).read 1 = some (exCell 1 xmlSecNodeSetInvert []) ∧
      chained (exHeap []) (exShape 1) = true ∧ wired (exHeap []) (exShape 1) = true ∧
      ((scopeDecls exI).map xmlNodePtr.addr).Nodup) ∧
    (∃ d1 log,
      Returns (fun fuel => walkNamespaces (exHeap []) exResolve (record exVisitor) fuel 1 exI exI
        ((), [])) (0, (d1, log)) ∧
      (∀ ns ∈ scopeDecls exI,
        (inScopeNs exResolve (exCell 1 xmlSecNodeSetInvert []).doc exI).filter
            (fun y => y.pfx == ns.pfx) =
          [resolvePrefix exI ns.pfx]) ∧
      log.map Prod.fst =
        ((inScopeNs exResolve (exCell 1 xmlSecNodeSetInvert []).doc exI).filter
          (fun ns => accepts (exHeap []) (exShape 1) (ns, exI))).map (fun ns => (ns, exI)) ∧
      (∀ ns ∈ scopeDecls exI, ns ≠ resolvePrefix exI ns.pfx →
        ∀ q, (ns, q) ∉ log.map Prod.fst) ∧
      (∀ x ∈ log, x.1.2 = exI)) ∧
    (scopeDecls exI).map xmlNodePtr.addr = [313, 311, 312] ∧
    ((walkNamespaces (exHeap []) exResolve (record exVisitor) 9 1 exI exI ((), [])).map
      (fun r => r.2.2.map (fun e => (e.1.1.addr, e.1.2.addr)))) = some [(313, 302), (312, 302)] :=
  ⟨⟨rfl, rfl, by decide!, by decide!, by decide!⟩,
    walk_namespace_shadowing (exHeap []) exResolve exVisitor (exShape 1) 1
      (exCell 1 xmlSecNodeSetInvert []) rfl rfl (by decide!) (by decide!) exI
      (fun _ _ => rfl) (by decide!) (fun _ _ _ _ => le_refl 0) (),
    by decide!, by decide!⟩

/-- C17, instance: the subtree constructor on the element `b` of the small
document, with comments and without inversion. -/
theorem getChildren_subtree_witness :
    (0 < exHeap0.avail ∧ exB.isNull = false) ∧
    (∃ h1 r c, xmlSecNodeSetGetChildren exHeap0 true (some 100) exB 1 0 = (h1, some r) ∧
      h1.read r = some c ∧ c.next = some r ∧ c.prev = some r ∧ c.doc = some 100 ∧
      c.nodes = some [exB] ∧
      c.type = (if (1 : Int) ≠ 0 then
          (if (0 : Int) ≠ 0 then xmlSecNodeSetTreeInvert else xmlSecNodeSetTree)
        else (if (0 : Int) ≠ 0 then xmlSecNodeSetTreeWithoutCommentsInvert
          else xmlSecNodeSetTreeWithoutComments)) ∧
      (exB.type = XML_ELEMENT_NODE → (0 : Int) = 0 →
        (∀ n parent : xmlNodePtr, n.isNull = false →
          ∃ v, Returns (fun fuel => xmlSecNodeSetContains h1 fuel (some r) n parent) v ∧
            (v ≠ 0 ↔ (((1 : Int) ≠ 0 ∨ n.type ≠ XML_COMMENT_NODE) ∧
              ((n.type ≠ XML_NAMESPACE_DECL ∧ exB.ptrEq n = true) ∨
                ancestorIncluded [exB] parent)))) ∧
        (∀ (search : Option Nat → xmlNodePtr → Option String → xmlNodePtr) (cur : xmlTreePtr)
          (parentX : xmlNodePtr), cur.self = exB → linked cur.children exB = true →
          ∀ x ∈ docOrder search (some 100) cur parentX,
            ((1 : Int) ≠ 0 ∨ x.1.type ≠ XML_COMMENT_NODE) →
            ∃ v, v ≠ 0 ∧
              Returns (fun fuel => xmlSecNodeSetContains h1 fuel (some r) x.1 x.2) v))) ∧
    xmlSecNodeSetContains (xmlSecNodeSetGetChildren exHeap0 true (some 100) exB 1 0).1 9 (some 0)
      exC exB = some 1 ∧
    xmlSecNodeSetContains (xmlSecNodeSetGetChildren exHeap0 true (some 100) exB 1 0).1 9 (some 0)
      exA exDoc = some 0 :=
  ⟨⟨by decide, rfl⟩, getChildren_subtree exHeap0 100 exB 1 0 (by decide) rfl,
    by decide!, by decide!⟩

/-- C19, instance: the second-generation chain `[Intersect][Union]` on the
small document gives a ring of two `Tree` sets, the first with Intersection
and the second with Union. -/
theorem execute_chain_result_witness :
    (exTransform2.xmlData[0]? =
        some (exFilter "//b" xmlSecXPath2TransformType.xmlSecXPathTransformIntersect) ∧
      exTransform2.xmlData.length ≤ exHeap0.avail) ∧
    (∃ h1 res ms, xmlSecXPathDataExecute exLib 0 exHeap0 exTransform2.xmlData (some 100) NULL =
        some (h1, some res) ∧
      IsRing h1 ms ∧ ms[0]? = some res ∧ ms.length = exTransform2.xmlData.length ∧
      List.Forall₂ (fun q x => ∃ c obj, h1.read q = some c ∧
        evalDescriptor exLib (some 100) NULL x = some (some obj) ∧
        c.nodes = obj.nodesetval ∧
        c.type = (match x.xpathType with
          | xmlSecXPathType.xmlSecXPathTypeXPath => xmlSecNodeSetNormal
          | xmlSecXPathType.xmlSecXPathTypeXPath2 => xmlSecNodeSetTree
          | xmlSecXPathType.xmlSecXPathTypeXPointer => xmlSecNodeSetTree) ∧
        (x.xpath2Type = xmlSecXPath2TransformType.xmlSecXPathTransformIntersect →
          c.op = xmlSecNodeSetIntersection) ∧
        (x.xpath2Type = xmlSecXPath2TransformType.xmlSecXPathTransformSubtract →
          c.op = xmlSecNodeSetSubtraction) ∧
        (x.xpath2Type = xmlSecXPath2TransformType.xmlSecXPathTransformUnion →
          c.op = xmlSecNodeSetUnion)) ms exTransform2.xmlData) ∧
    ((xmlSecXPathDataExecute exLib 0 exHeap0 exTransform2.xmlData (some 100) NULL).map
      (fun r => r.2)) = some (some 0) ∧
    ((xmlSecXPathDataExecute exLib 0 exHeap0 exTransform2.xmlData (some 100) NULL).bind
      (fun r => (r.1.read 0).map (fun c => (c.type, c.nodes, c.op, c.next)))) =
      some (xmlSecNodeSetTree, some [exB], xmlSecNodeSetIntersection, some 1) ∧
    ((xmlSecXPathDataExecute exLib 0 exHeap0 exTransform2.xmlData (some 100) NULL).bind
      (fun r => (r.1.read 1).map (fun c => (c.type, c.nodes, c.op, c.next)))) =
      some (xmlSecNodeSetTree, some [exB], xmlSecNodeSetUnion, some 0) :=
  ⟨⟨rfl, by decide⟩,
    execute_chain_result exLib 0 exHeap0 exTransform2.xmlData 100 NULL
      (exFilter "//b" xmlSecXPath2TransformType.xmlSecXPathTransformIntersect) rfl
      (by simp [exFilter])
      (fun x hx => by
        simp only [exTransform2, List.mem_cons, List.mem_singleton, List.not_mem_nil,
          or_false] at hx
        rcases hx with rfl | rfl <;> exact ⟨_, _, rfl, rfl⟩)
      (by decide),
    by decide!, by decide!, by decide!⟩

/-- C20, instance: the evaluator fails on the second descriptor of the chain,
after the first was folded; the execute function returns `-1`, the working
set at address `2` is the one of the caller, and its record is as before. -/
theorem execute_all_or_nothing_witness :
    (exTransformFail.xmlData =
        [exFilter "a|b" xmlSecXPath2TransformType.xmlSecXPathTransformIntersect] ++
          exFilter "bad" xmlSecXPath2TransformType.xmlSecXPathTransformUnion :: [] ∧
      evalDescriptor exLibFail (some 100) (hereNodeOf exTransformFail (some 100) 100)
        (exFilter "bad" xmlSecXPath2TransformType.xmlSecXPathTransformUnion) = some none) ∧
    ((∃ h1, (∀ q, q < (exHeap [exA]).cells.length → h1.read q = (exHeap [exA]).read q) ∧
      Returns (fun fuel => xmlSecXPathDataExecute exLibFail fuel (exHeap [exA])
        exTransformFail.xmlData (some 100) (hereNodeOf exTransformFail (some 100) 100))
          (h1, none)) ∧
    (∃ h1, (∀ q, q < (exHeap [exA]).cells.length → h1.read q = (exHeap [exA]).read q) ∧
      Returns (fun fuel => xmlSecTransformXPathExecute exLibFail fuel (exHeap [exA])
        (some exTransformFail) (some 100) (some (some 100)) (some (some 2)))
          ⟨-1, h1, some (some 2)⟩) ∧
    (∃ h1, (∀ q, q < (exHeap [exA]).cells.length → h1.read q = (exHeap [exA]).read q) ∧
      Returns (fun fuel => xmlSecTransformXPath2Execute exLibFail fuel (exHeap [exA])
        (some exTransformFail) (some 100) (some (some 100)) (some (some 2)))
          ⟨-1, h1, some (some 2)⟩) ∧
    (∃ h1, (∀ q, q < (exHeap [exA]).cells.length → h1.read q = (exHeap [exA]).read q) ∧
      Returns (fun fuel => xmlSecTransformXPointerExecute exLibFail fuel (exHeap [exA])
        (some exTransformFail) (some 100) (some (some 100)) (some (some 2)))
          ⟨-1, h1, some (some 2)⟩)) ∧
    ((xmlSecTransformXPath2Execute exLibFail 3 (exHeap [exA]) (some exTransformFail) (some 100)
      (some (some 100)) (some (some 2))).map (fun ex => (ex.ret, ex.nodes))) =
      some (-1, some (some 2)) ∧
    ((xmlSecTransformXPath2Execute exLibFail 3 (exHeap [exA]) (some exTransformFail) (some 100)
      (some (some 100)) (some (some 2))).bind
        (fun ex => (ex.heap.read 2).map (fun c => (c.type, c.nodes, c.op, c.next)))) =
      some (xmlSecNodeSetTree, some [exA], xmlSecNodeSetIntersection, some 2) :=
  ⟨⟨rfl, rfl⟩,
    execute_all_or_nothing exLibFail (exHeap [exA]) exTransformFail (some 100) 100 (some 2)
      [exFilter "a|b" xmlSecXPath2TransformType.xmlSecXPathTransformIntersect] []
      (exFilter "bad" xmlSecXPath2TransformType.xmlSecXPathTransformUnion) rfl
      (fun x hx => by
        rw [List.mem_singleton.mp hx]
        have e : evalDescriptor exLibFail (some 100) (hereNodeOf exTransformFail (some 100) 100)
            (exFilter "a|b" xmlSecXPath2TransformType.xmlSecXPathTransformIntersect) =
            some (some { nodesetval := some [exA, exB] }) := rfl
        rw [e]
        exact fun hh => Option.noConfusion hh)
      rfl,
    by decide!, by decide!⟩

/-! ## The registry of input handlers -/

theorem clearSlots_length : ∀ (n : Nat) (table : List xmlSecInputCallback),
    (clearSlots n table).length = table.length := by
  intro n
  induction n with
  | zero => intro _; rfl
  | succ n ih => intro table; simp [clearSlots, ih]

theorem clearSlots_getElem : ∀ (n : Nat) (table : List xmlSecInputCallback) (i : Nat),
    n ≤ table.length →
    (clearSlots n table)[i]? = if i < n then some emptyCallback else table[i]? := by
  intro n
  induction n with
  | zero => intro table i _; simp [clearSlots]
  | succ n ih =>
    intro table i hn
    simp only [clearSlots]
    rw [ih _ _ (by simp only [List.length_set]; omega)]
    by_cases h1 : i < n
    · simp [h1, Nat.lt_succ_of_lt h1]
    · by_cases h2 : i = n
      · subst h2
        simp [List.getElem?_set_self (show i < table.length by omega)]
      · have h3 : ¬ i < n + 1 := by omega
        simp [h1, h3, List.getElem?_set_ne (Ne.symm h2)]

/-- What `xmlSecRegisterInputCallbacks` does below the limit. -/
theorem register_below (s : InputCallbacks) (hs : RegistryInv s)
    (matchFunc openFunc readFunc closeFunc : Option Nat)
    (hlt : s.xmlSecInputCallbackNr < (MAX_INPUT_CALLBACK : Int)) :
    xmlSecRegisterInputCallbacks s matchFunc openFunc readFunc closeFunc =
      some (s.xmlSecInputCallbackNr,
        { s with
          xmlSecInputCallbackTable :=
            s.xmlSecInputCallbackTable.set s.xmlSecInputCallbackNr.toNat
              { matchcallback := matchFunc, opencallback := openFunc, readcallback := readFunc,
                closecallback := closeFunc }
          xmlSecInputCallbackNr := s.xmlSecInputCallbackNr + 1 }) := by
  obtain ⟨hlen, h0, h15, _⟩ := hs
  have h1 : ¬ s.xmlSecInputCallbackNr ≥ (MAX_INPUT_CALLBACK : Int) := by omega
  have h2 : 0 ≤ s.xmlSecInputCallbackNr ∧
      s.xmlSecInputCallbackNr.toNat < s.xmlSecInputCallbackTable.length := by
    refine ⟨h0, ?_⟩
    rw [hlen]
    omega
  simp only [xmlSecRegisterInputCallbacks, h1, if_false, h2, and_self, if_true]

theorem register_inv (s s1 : InputCallbacks) (ret : Int) (hs : RegistryInv s)
    (matchFunc openFunc readFunc closeFunc : Option Nat)
    (h : xmlSecRegisterInputCallbacks s matchFunc openFunc readFunc closeFunc = some (ret, s1)) :
    RegistryInv s1 ∧
      s1.xmlSecInputCallbackInitialized = s.xmlSecInputCallbackInitialized := by
  by_cases hlt : s.xmlSecInputCallbackNr < (MAX_INPUT_CALLBACK : Int)
  · rw [register_below s hs _ _ _ _ hlt] at h
    simp only [Option.some.injEq, Prod.mk.injEq] at h
    obtain ⟨-, rfl⟩ := h
    obtain ⟨hlen, h0, h15, hempty⟩ := hs
    refine ⟨⟨by simpa using hlen, by simp only; omega, by simp only; omega, ?_⟩, rfl⟩
    intro i hi hi15
    simp only at hi ⊢
    rw [List.getElem?_set_ne (by omega)]
    exact hempty i (by omega) hi15
  · have h1 : s.xmlSecInputCallbackNr ≥ (MAX_INPUT_CALLBACK : Int) := by omega
    simp only [xmlSecRegisterInputCallbacks, h1, if_true, Option.some.injEq,
      Prod.mk.injEq] at h
    obtain ⟨-, rfl⟩ := h
    exact ⟨hs, rfl⟩

theorem cleanup_inv (s s1 : InputCallbacks) (hs : RegistryInv s)
    (h : xmlSecCleanupInputCallbacks s = some s1) :
    RegistryInv s1 ∧
      s1.xmlSecInputCallbackInitialized = s.xmlSecInputCallbackInitialized := by
  obtain ⟨hlen, h0, h15, hempty⟩ := hs
  by_cases hinit : s.xmlSecInputCallbackInitialized = 0
  · simp only [xmlSecCleanupInputCallbacks, hinit, if_true, Option.some.injEq] at h
    subst h
    exact ⟨⟨hlen, h0, h15, hempty⟩, rfl⟩
  · have hle : s.xmlSecInputCallbackNr.toNat ≤ s.xmlSecInputCallbackTable.length := by
      rw [hlen]; omega
    simp only [xmlSecCleanupInputCallbacks, hinit, if_false, hle, if_true,
      Option.some.injEq] at h
    subst h
    refine ⟨⟨by simpa [clearSlots_length] using hlen, le_refl _, by simp [MAX_INPUT_CALLBACK],
      ?_⟩, rfl⟩
    intro i _ hi15
    simp only
    rw [clearSlots_getElem _ _ _ hle]
    split_ifs with hi
    · rfl
    · exact hempty i (by omega) hi15

theorem register_optional_inv (b : Bool) (t t2 : InputCallbacks) (cb : xmlSecInputCallback)
    (ht : RegistryInv t)
    (h : (if b = true then
        (xmlSecRegisterInputCallbacks t cb.matchcallback cb.opencallback cb.readcallback
          cb.closecallback).map Prod.snd
      else some t) = some t2) : RegistryInv t2 := by
  split_ifs at h
  · cases h2 : xmlSecRegisterInputCallbacks t cb.matchcallback cb.opencallback cb.readcallback
        cb.closecallback with
    | none => simp [h2] at h
    | some x2 =>
      obtain ⟨r2, u2⟩ := x2
      simp only [h2, Option.map_some', Option.some.injEq] at h
      subst h
      exact (register_inv t u2 r2 ht _ _ _ _ h2).1
  · cases h; exact ht

theorem registerDefault_inv (cfg : DefaultInput) (s s1 : InputCallbacks) (hs : RegistryInv s)
    (h : xmlSecRegisterDefaultInputCallbacks cfg s = some s1) : RegistryInv s1 := by
  unfold xmlSecRegisterDefaultInputCallbacks at h
  by_cases hinit : s.xmlSecInputCallbackInitialized ≠ 0
  · rw [if_pos hinit] at h
    cases h; exact hs
  · rw [if_neg hinit] at h
    cases h1 : xmlSecRegisterInputCallbacks s cfg.file.matchcallback cfg.file.opencallback
        cfg.file.readcallback cfg.file.closecallback with
    | none => simp [h1] at h
    | some x1 =>
      obtain ⟨r1, t1⟩ := x1
      have i1 := (register_inv s t1 r1 hs _ _ _ _ h1).1
      simp only [h1] at h
      cases h2 : (if cfg.LIBXML_HTTP_ENABLED = true then
            (xmlSecRegisterInputCallbacks t1 cfg.http.matchcallback cfg.http.opencallback
              cfg.http.readcallback cfg.http.closecallback).map Prod.snd
          else some t1) with
      | none => simp [h2] at h
      | some t2 =>
        have j2 := register_optional_inv _ t1 t2 cfg.http i1 h2
        simp only [h2] at h
        cases h3 : (if cfg.LIBXML_FTP_ENABLED = true then
              (xmlSecRegisterInputCallbacks t2 cfg.ftp.matchcallback cfg.ftp.opencallback
                cfg.ftp.readcallback cfg.ftp.closecallback).map Prod.snd
            else some t2) with
        | none => simp [h3] at h
        | some t3 =>
          have j3 := register_optional_inv _ t2 t3 cfg.ftp j2 h3
          simp only [h3, Option.some.injEq] at h
          subst h
          exact j3

theorem start_inv : RegistryInv InputCallbacks.start := by
  refine ⟨by simp [InputCallbacks.start], le_refl _, by simp [InputCallbacks.start,
    MAX_INPUT_CALLBACK], ?_⟩
  intro i _ hi
  simp [InputCallbacks.start, List.getElem?_replicate, hi]

/-- The invariant holds in every state the program can be in. -/
theorem reachable_inv (cfg : DefaultInput) (s : InputCallbacks) (hs : Reachable cfg s) :
    RegistryInv s := by
  induction hs with
  | start => exact start_inv
  | register m o r c _ h ih => exact (register_inv _ _ _ ih m o r c h).1
  | registerDefault _ h ih => exact registerDefault_inv cfg _ _ ih h
  | cleanup _ h ih => exact (cleanup_inv _ _ ih h).1

/-- In a state the program can be in with the default handlers registered,
`xmlSecCleanupInputCallbacks` leaves the counter `0` and every slot empty. -/
theorem cleanup_clears (cfg : DefaultInput) (s : InputCallbacks) (hs : Reachable cfg s)
    (hinit : s.xmlSecInputCallbackInitialized ≠ 0) :
    ∃ s1, xmlSecCleanupInputCallbacks s = some s1 ∧ s1.xmlSecInputCallbackNr = 0 ∧
      ∀ cb ∈ s1.xmlSecInputCallbackTable, cb = emptyCallback := by
  obtain ⟨hlen, h0, h15, hempty⟩ := reachable_inv cfg s hs
  have hle : s.xmlSecInputCallbackNr.toNat ≤ s.xmlSecInputCallbackTable.length := by
    rw [hlen]; omega
  refine ⟨{ s with
    xmlSecInputCallbackTable := clearSlots s.xmlSecInputCallbackNr.toNat
      s.xmlSecInputCallbackTable
    xmlSecInputCallbackNr := 0 },
    by simp only [xmlSecCleanupInputCallbacks, hinit, if_false, hle, if_true], rfl, ?_⟩
  intro cb hcb
  simp only at hcb
  obtain ⟨i, hi, rfl⟩ := List.getElem_of_mem hcb
  have hget := clearSlots_getElem s.xmlSecInputCallbackNr.toNat s.xmlSecInputCallbackTable i hle
  rw [List.getElem?_eq_getElem hi] at hget
  rw [clearSlots_length, hlen] at hi
  split_ifs at hget with hlt
  · exact Option.some.inj hget
  · rw [hempty i (by omega) hi] at hget
    exact Option.some.inj hget

/-- The loop of `xmlSecInputUriTransformOpen` over the handlers below `n`, on a
transform without stream: either it binds the highest handler that opens the
URI, or no handler opens it and the transform is as before. -/
theorem openLoop_spec (fns : InputFuncs) (s : InputCallbacks) (uri : String) :
    ∀ (n : Nat) (t : xmlSecBinTransform), t.data = none →
      n ≤ s.xmlSecInputCallbackTable.length →
      (∀ (i : Nat) (cb : xmlSecInputCallback), i < n →
        s.xmlSecInputCallbackTable[i]? = some cb → cb.matchcallback ≠ none →
        cb.opencallback ≠ none) →
      (∃ i, i < n ∧ opensAt fns s uri i ∧ (∀ j, i < j → j < n → ¬ opensAt fns s uri j) ∧
        streamOf fns s uri i ≠ none ∧
        openLoop fns s.xmlSecInputCallbackTable uri n t =
          some { t with data := streamOf fns s uri i, binData := some i }) ∨
      ((∀ j, j < n → ¬ opensAt fns s uri j) ∧
        openLoop fns s.xmlSecInputCallbackTable uri n t = some t) := by
  intro n
  induction n with
  | zero =>
    intro t _ _ _
    exact Or.inr ⟨fun j hj => absurd hj (Nat.not_lt_zero j), rfl⟩
  | succ n ih =>
    intro t ht hn hcall
    obtain ⟨cb, hcb⟩ : ∃ cb, s.xmlSecInputCallbackTable[n]? = some cb :=
      ⟨_, List.getElem?_eq_getElem (by omega)⟩
    have hrec := ih t ht (by omega) (fun i cb0 hi => hcall i cb0 (by omega))
    -- the loop goes on below `n` when the handler in slot `n` does not open the URI
    have hskip : ¬ opensAt fns s uri n →
        openLoop fns s.xmlSecInputCallbackTable uri n t =
          openLoop fns s.xmlSecInputCallbackTable uri (n + 1) t →
        (∃ i, i < n + 1 ∧ opensAt fns s uri i ∧
          (∀ j, i < j → j < n + 1 → ¬ opensAt fns s uri j) ∧ streamOf fns s uri i ≠ none ∧
          openLoop fns s.xmlSecInputCallbackTable uri (n + 1) t =
            some { t with data := streamOf fns s uri i, binData := some i }) ∨
        ((∀ j, j < n + 1 → ¬ opensAt fns s uri j) ∧
          openLoop fns s.xmlSecInputCallbackTable uri (n + 1) t = some t) := by
      intro hno heq
      rcases hrec with ⟨i, hi, hop, hmax, hst, hrun⟩ | ⟨hnone, hrun⟩
      · refine Or.inl ⟨i, by omega, hop, ?_, hst, by rw [← heq, hrun]⟩
        intro j hij hj
        by_cases hjn : j = n
        · rw [hjn]; exact hno
        · exact hmax j hij (by omega)
      · refine Or.inr ⟨?_, by rw [← heq, hrun]⟩
        intro j hj
        by_cases hjn : j = n
        · rw [hjn]; exact hno
        · exact hnone j (by omega)
    cases hm : cb.matchcallback with
    | none =>
      refine hskip ?_ (by simp only [openLoop, hcb, hm])
      rintro ⟨cb0, m, o, h1, h2, -⟩
      rw [hcb] at h1; cases h1
      rw [hm] at h2; cases h2
    | some m =>
      by_cases hacc : fns.matchFn m uri ≠ 0
      · obtain ⟨o, ho⟩ : ∃ o, cb.opencallback = some o := by
          have := hcall n cb (by omega) hcb (by rw [hm]; simp)
          cases hoc : cb.opencallback with
          | none => exact absurd hoc this
          | some o => exact ⟨o, rfl⟩
        cases hd : fns.openFn o uri with
        | none =>
          have ht1 : ({ t with data := none } : xmlSecBinTransform) = t := by
            cases t; simp only at ht; subst ht; rfl
          refine hskip ?_ (by simp only [openLoop, hcb, hm, hacc, ho, hd, ht1, ne_eq,
            not_false_eq_true, if_true, not_true_eq_false, if_false])
          rintro ⟨cb0, m0, o0, h1, -, h3, -, h5⟩
          rw [hcb] at h1; cases h1
          rw [ho] at h3; cases h3
          exact h5 hd
        | some d =>
          have hst : streamOf fns s uri n = some d := by
            simp only [streamOf, hcb, ho, hd]
          refine Or.inl ⟨n, by omega, ⟨cb, m, o, hcb, hm, ho, hacc, by rw [hd]; simp⟩, ?_,
            by rw [hst]; simp, ?_⟩
          · intro j hij hj; omega
          · simp only [openLoop, hcb, hm, hacc, ho, hd, hst, ne_eq, not_false_eq_true, if_true,
              reduceCtorEq]
      · refine hskip ?_ (by simp only [openLoop, hcb, hm, hacc, if_false])
        rintro ⟨cb0, m0, o0, h1, h2, -, h4, -⟩
        rw [hcb] at h1; cases h1
        rw [hm] at h2; cases h2
        exact hacc h4

/-! ## Reading a descriptor -/

/-- The wrapper of the first-generation dialect: `sprintf` with the pattern
`xpathPattern` puts the expression between `(//. | //@* | //namespace::*)[` and
`]`. -/
theorem sprintf_xpathPattern (e : String) :
    sprintf xpathPattern e = "(//. | //@* | //namespace::*)[" ++ e ++ "]" := by
  apply String.ext
  simp only [sprintf, String.data_append]
  rfl

theorem countNs_eq (node : xmlNodePtr) : countNs node = (capturedBindings node).length := by
  induction node with
  | NULL => rfl
  | node a t p d x n ihp _ =>
    simp only [countNs, capturedBindings, parentChain, List.flatMap_cons, List.length_append,
      List.length_map, xmlNodePtr.nsDef]
    rw [ihp]
    rfl

theorem flattenBindings_length (l : List (Option String × Option String)) :
    (flattenBindings l).length = 2 * l.length := by
  induction l with
  | nil => rfl
  | cons b rest ih =>
    simp only [flattenBindings, List.flatMap_cons, List.length_append, List.length_cons,
      List.length_nil] at ih ⊢
    omega

theorem flattenBindings_append (l1 l2 : List (Option String × Option String)) :
    flattenBindings (l1 ++ l2) = flattenBindings l1 ++ flattenBindings l2 := by
  simp [flattenBindings, List.flatMap_append]

/-- The inner loop of `xmlSecXPathDataReadNsList` with room in the array and
memory for every string: it writes prefix and URI of each declaration. -/
theorem readNsDefs_spec (size : Nat) :
    ∀ (d : List xmlNs) (avail : Nat) (written : List (Option String)),
      written.length + 2 * d.length ≤ size → 2 * d.length ≤ avail →
      ∃ a1, readNsDefs size d avail written =
          (a1, written ++ flattenBindings (d.map (fun ns => (ns.pfx, ns.href)))) ∧
        avail ≤ a1 + 2 * d.length := by
  intro d
  induction d with
  | nil =>
    intro avail written _ _
    exact ⟨avail, by simp [readNsDefs, flattenBindings], by simp⟩
  | cons ns rest ih =>
    intro avail written hsize hav
    simp only [List.length_cons] at hsize hav
    have hlt : written.length < size := by omega
    obtain ⟨a, rfl⟩ : ∃ a, avail = a + 2 := ⟨avail - 2, by omega⟩
    have key : ∀ ah, a ≤ ah →
        ∃ a1, readNsDefs size rest ah (written ++ [ns.pfx, ns.href]) =
            (a1, written ++
              flattenBindings ((ns.pfx, ns.href) :: rest.map (fun ns => (ns.pfx, ns.href)))) ∧
          a + 2 ≤ a1 + 2 * (rest.length + 1) := by
      intro ah hah
      obtain ⟨a1, hrun, hle⟩ := ih ah (written ++ [ns.pfx, ns.href])
        (by simp only [List.length_append, List.length_cons, List.length_nil]; omega)
        (by omega)
      refine ⟨a1, ?_, by omega⟩
      rw [hrun]
      simp [flattenBindings]
    simp only [readNsDefs, hlt, if_true, List.map_cons, List.length_cons]
    cases hp : ns.pfx <;> cases hh : ns.href <;> simp only [xmlStrdup, hp, hh] at key ⊢
    · exact key (a + 2) (by omega)
    · exact key (a + 1) (by omega)
    · exact key (a + 1) (by omega)
    · exact key a (by omega)

/-- The outer loop of `xmlSecXPathDataReadNsList` with room in the array and
memory for every string: it writes the bindings in scope, those of the node
first. -/
theorem readNsChain_spec (size : Nat) :
    ∀ (node : xmlNodePtr) (avail : Nat) (written : List (Option String)),
      written.length + 2 * countNs node ≤ size → 2 * countNs node ≤ avail →
      ∃ a1, readNsChain size node avail written =
          (a1, written ++ flattenBindings (capturedBindings node)) ∧
        avail ≤ a1 + 2 * countNs node := by
  intro node
  induction node with
  | NULL =>
    intro avail written _ _
    exact ⟨avail, by simp [readNsChain, capturedBindings, parentChain, flattenBindings],
      by simp⟩
  | node a t p d x n ihp _ =>
    intro avail written hsize hav
    simp only [countNs] at hsize hav
    obtain ⟨a1, hrun1, hle1⟩ := readNsDefs_spec size d avail written (by omega) (by omega)
    obtain ⟨a2, hrun2, hle2⟩ := ihp a1
      (written ++ flattenBindings (d.map (fun ns => (ns.pfx, ns.href))))
      (by rw [List.length_append, flattenBindings_length, List.length_map]; omega) (by omega)
    refine ⟨a2, ?_, by simp only [countNs]; omega⟩
    simp only [readNsChain, hrun1, hrun2, capturedBindings, parentChain, List.flatMap_cons,
      xmlNodePtr.nsDef, List.append_assoc]
    rw [← flattenBindings_append]

/-- The function `xmlSecXPathDataReadNsList` with memory for the array and for
every string: the descriptor gets the bindings in scope at the node, those of
the node first, as pairs of prefix and URI. -/
theorem readNsList_spec (avail : Nat) (data : xmlSecXPathData) (node : xmlNodePtr)
    (hns : data.nsList = none) (hnode : node.isNull = false)
    (hmem : 1 + 2 * countNs node ≤ avail) :
    ∃ a1, xmlSecXPathDataReadNsList avail data node =
        (a1, 0, { data with
          nsList := some (flattenBindings (capturedBindings node))
          nsListSize := 2 * (capturedBindings node).length }) ∧
      avail ≤ a1 + (1 + 2 * countNs node) := by
  obtain ⟨a, rfl⟩ : ∃ a, avail = a + 1 := ⟨avail - 1, by omega⟩
  obtain ⟨a1, hrun, hle⟩ := readNsChain_spec (2 * countNs node) node a [] (by simp) (by omega)
  refine ⟨a1, ?_, by omega⟩
  have hns1 : ¬ data.nsList ≠ none := by simp [hns]
  simp only [xmlSecXPathDataReadNsList, hns1, if_false, hnode, Bool.false_eq_true, hrun,
    List.nil_append, flattenBindings_length, ← countNs_eq, Nat.sub_self, List.replicate_zero,
    List.append_nil]

/-- The function `xmlSecXPathDataReadNode` on a new descriptor of the
first-generation or the pointer dialect, with content and memory: it returns
`0`; the expression is stored in the wrapper, or as it is; the filter tag is
not written. -/
theorem readNode_single (env : ReadEnv) (avail : Nat) (data : xmlSecXPathData)
    (node : xmlNodePtr) (e : String) (hexpr : data.expr = none) (hns : data.nsList = none)
    (hnode : node.isNull = false) (hcontent : env.xmlNodeGetContent node = some e)
    (hmem : 2 + 2 * countNs node ≤ avail) :
    (data.xpathType = xmlSecXPathType.xmlSecXPathTypeXPath →
      ∃ a, xmlSecXPathDataReadNode env avail data node =
        (a, 0, { data with
          expr := some (sprintf xpathPattern e)
          nsList := some (flattenBindings (capturedBindings node))
          nsListSize := 2 * (capturedBindings node).length })) ∧
    (data.xpathType = xmlSecXPathType.xmlSecXPathTypeXPointer →
      ∃ a, xmlSecXPathDataReadNode env avail data node =
        (a, 0, { data with
          expr := some e
          nsList := some (flattenBindings (capturedBindings node))
          nsListSize := 2 * (capturedBindings node).length })) := by
  obtain ⟨ex, nl, sz, ty, tg⟩ := data
  simp only at hexpr hns
  subst hexpr hns
  obtain ⟨a0, rfl⟩ : ∃ a0, avail = a0 + 1 := ⟨avail - 1, by omega⟩
  constructor
  · intro hT
    simp only at hT
    subst hT
    obtain ⟨a1, hrun, -⟩ := readNsList_spec a0
      { expr := some (sprintf xpathPattern e), nsList := none, nsListSize := sz,
        xpathType := xmlSecXPathType.xmlSecXPathTypeXPath, xpath2Type := tg } node rfl hnode
      (by omega)
    refine ⟨a1, ?_⟩
    simp only [xmlSecXPathDataReadNode, ne_eq, not_true_eq_false, if_false, hnode,
      Bool.false_eq_true, hcontent, hrun]
    simp
  · intro hT
    simp only at hT
    subst hT
    obtain ⟨a1, hrun, -⟩ := readNsList_spec (a0 + 1)
      { expr := some e, nsList := none, nsListSize := sz,
        xpathType := xmlSecXPathType.xmlSecXPathTypeXPointer, xpath2Type := tg } node rfl hnode
      (by omega)
    refine ⟨a1, ?_⟩
    simp only [xmlSecXPathDataReadNode, ne_eq, not_true_eq_false, if_false, hnode,
      Bool.false_eq_true, hcontent, hrun]
    simp

/-- The function `xmlSecXPathDataReadNode` on a new descriptor of the
second-generation dialect, with content and memory: the expression is stored as
it is, and the attribute `Filter` decides the return value and the filter
tag. -/
theorem readNode_xpath2 (env : ReadEnv) (avail : Nat) (data : xmlSecXPathData)
    (node : xmlNodePtr) (e : String) (hexpr : data.expr = none) (hns : data.nsList = none)
    (hnode : node.isNull = false) (hcontent : env.xmlNodeGetContent node = some e)
    (hmem : 2 + 2 * countNs node ≤ avail)
    (hT : data.xpathType = xmlSecXPathType.xmlSecXPathTypeXPath2) :
    ∃ a base, base = { data with
        expr := some e
        nsList := some (flattenBindings (capturedBindings node))
        nsListSize := 2 * (capturedBindings node).length } ∧
      (env.xmlGetProp node "Filter" = some "intersect" →
        xmlSecXPathDataReadNode env avail data node = (a, 0, { base with
          xpath2Type := xmlSecXPath2TransformType.xmlSecXPathTransformIntersect })) ∧
      (env.xmlGetProp node "Filter" = some "subtract" →
        xmlSecXPathDataReadNode env avail data node = (a, 0, { base with
          xpath2Type := xmlSecXPath2TransformType.xmlSecXPathTransformSubtract })) ∧
      (env.xmlGetProp node "Filter" = some "union" →
        xmlSecXPathDataReadNode env avail data node = (a, 0, { base with
          xpath2Type := xmlSecXPath2TransformType.xmlSecXPathTransformUnion })) ∧
      (env.xmlGetProp node "Filter" ≠ some "intersect" →
        env.xmlGetProp node "Filter" ≠ some "subtract" →
        env.xmlGetProp node "Filter" ≠ some "union" →
        xmlSecXPathDataReadNode env avail data node = (a, -1, base)) := by
  obtain ⟨ex, nl, sz, ty, tg⟩ := data
  simp only at hexpr hns hT
  subst hexpr hns hT
  obtain ⟨a1, hrun, -⟩ := readNsList_spec avail
    { expr := some e, nsList := none, nsListSize := sz,
      xpathType := xmlSecXPathType.xmlSecXPathTypeXPath2, xpath2Type := tg } node rfl hnode
    (by omega)
  refine ⟨a1, _, rfl, ?_, ?_, ?_, ?_⟩
  · intro hp
    simp only [xmlSecXPathDataReadNode, ne_eq, not_true_eq_false, if_false, hnode,
      Bool.false_eq_true, hcontent, hrun, hp]
    simp
  · intro hp
    simp only [xmlSecXPathDataReadNode, ne_eq, not_true_eq_false, if_false, hnode,
      Bool.false_eq_true, hcontent, hrun, hp]
    simp
  · intro hp
    simp only [xmlSecXPathDataReadNode, ne_eq, not_true_eq_false, if_false, hnode,
      Bool.false_eq_true, hcontent, hrun, hp]
    simp
  · intro h1 h2 h3
    simp only [xmlSecXPathDataReadNode, ne_eq, not_true_eq_false, if_false, hnode,
      Bool.false_eq_true, hcontent, hrun]
    cases hp : env.xmlGetProp node "Filter" with
    | none => simp
    | some v =>
      rw [hp] at h1 h2 h3
      have e1 : ¬ v = "intersect" := fun hh => h1 (by rw [hh])
      have e2 : ¬ v = "subtract" := fun hh => h2 (by rw [hh])
      have e3 : ¬ v = "union" := fun hh => h3 (by rw [hh])
      simp [e1, e2, e3]

theorem readNsList_xpathType (avail : Nat) (data : xmlSecXPathData) (node : xmlNodePtr) :
    (xmlSecXPathDataReadNsList avail data node).2.2.xpathType = data.xpathType := by
  unfold xmlSecXPathDataReadNsList
  split_ifs
  · rfl
  · rfl
  · cases avail <;> rfl

/-- For a descriptor of the first-generation or the pointer dialect
`xmlSecXPathDataReadNode` does not look at the attributes: with any other
`xmlGetProp` it gives the same. -/
theorem readNode_ignores_filter (env : ReadEnv) (g : xmlNodePtr → String → Option String)
    (avail : Nat) (data : xmlSecXPathData) (node : xmlNodePtr)
    (hT : data.xpathType ≠ xmlSecXPathType.xmlSecXPathTypeXPath2) :
    xmlSecXPathDataReadNode { env with xmlGetProp := g } avail data node =
      xmlSecXPathDataReadNode env avail data node := by
  obtain ⟨ex, nl, sz, ty, tg⟩ := data
  cases ty with
  | xmlSecXPathTypeXPath2 => exact absurd rfl hT
  | xmlSecXPathTypeXPath =>
    simp only [xmlSecXPathDataReadNode]
    cases avail <;> simp only [readNsList_xpathType]
  | xmlSecXPathTypeXPointer =>
    simp only [xmlSecXPathDataReadNode, readNsList_xpathType]

/-! ## Creating a descriptor and reading a single filter -/

namespace DataHeap

theorem read_cell_lt {h : DataHeap} {p : Nat} {c : xmlSecXPathDataCell} (hc : h.read p = some c) :
    p < h.cells.length := by
  unfold read at hc
  by_contra hlt
  rw [List.getElem?_eq_none (by omega)] at hc
  simp at hc

theorem cells_xmlFree_of_lt (h : DataHeap) (p q : Nat) (hq : q ≠ p) :
    (h.xmlFree p).cells[q]? = h.cells[q]? := by
  simp only [xmlFree]
  exact List.getElem?_set_ne (Ne.symm hq)

end DataHeap

/-- The function `xmlSecXPathDataDestroy` on a record without successor: with
fuel for two rounds the record is released. -/
theorem dataDestroy_single (h : DataHeap) (p : Nat) (c : xmlSecXPathDataCell)
    (hc : h.read p = some c) (hn : c.next = none) (fuel : Nat) :
    xmlSecXPathDataDestroy fuel h (some p) = if 2 ≤ fuel then some (h.xmlFree p) else none := by
  cases fuel with
  | zero => rfl
  | succ f =>
    cases f with
    | zero => simp [xmlSecXPathDataDestroy, hc, hn]
    | succ f => simp [xmlSecXPathDataDestroy, hc, hn]

/-- What `xmlSecXPathDataCreate` leaves when it is not given a predecessor: the
records that were there are as before; a pointer it returns is the first
unused address, where the new record lies, without successor. -/
theorem dataCreate_frame (env : ReadEnv) (fuel : Nat) (h : DataHeap) (node : xmlNodePtr)
    (xpathType : xmlSecXPathType) (h1 : DataHeap) (r : Option Nat)
    (hres : xmlSecXPathDataCreate env fuel h node none xpathType = some (h1, r)) :
    (∀ q, q < h.cells.length → h1.cells[q]? = h.cells[q]?) ∧
      (∀ p, r = some p → p = h.cells.length ∧
        ∃ d, h1.cells = h.cells ++ [some { data := d, next := none }]) := by
  unfold xmlSecXPathDataCreate at hres
  cases hav : h.avail with
  | zero =>
    simp only [hav, Option.some.injEq, Prod.mk.injEq] at hres
    obtain ⟨rfl, rfl⟩ := hres
    exact ⟨fun _ _ => rfl, fun p hp => by cases hp⟩
  | succ a =>
    simp only [hav] at hres
    generalize newDescriptor env a node xpathType = rd at hres
    split_ifs at hres with hneg
    · -- reading failed: the new record is released
      rw [dataDestroy_single _ _ { data := rd.2.2, next := none } (by
        simp only [DataHeap.read, List.getElem?_append_right (le_refl _), Nat.sub_self,
          List.getElem?_cons_zero]) rfl] at hres
      split_ifs at hres
      · simp only [Option.map_some', Option.some.injEq, Prod.mk.injEq] at hres
        obtain ⟨rfl, rfl⟩ := hres
        refine ⟨?_, fun p hp => by cases hp⟩
        intro q hq
        rw [DataHeap.cells_xmlFree_of_lt _ _ _ (by omega)]
        exact List.getElem?_append_left hq
      · simp at hres
    · simp only [Option.some.injEq, Prod.mk.injEq] at hres
      obtain ⟨rfl, rfl⟩ := hres
      refine ⟨fun q hq => List.getElem?_append_left hq, ?_⟩
      intro p hp
      cases hp
      exact ⟨rfl, _, rfl⟩

/-- With fuel for two rounds `xmlSecXPathDataCreate` returns when it is not
given a predecessor. -/
theorem dataCreate_returns (env : ReadEnv) (fuel : Nat) (h : DataHeap) (node : xmlNodePtr)
    (xpathType : xmlSecXPathType) (hfuel : 2 ≤ fuel) :
    ∃ res, xmlSecXPathDataCreate env fuel h node none xpathType = some res := by
  unfold xmlSecXPathDataCreate
  cases hav : h.avail with
  | zero => exact ⟨_, rfl⟩
  | succ a =>
    simp only
    generalize newDescriptor env a node xpathType = rd
    split_ifs with hneg
    · rw [dataDestroy_single _ _ { data := rd.2.2, next := none } (by
        simp only [DataHeap.read, List.getElem?_append_right (le_refl _), Nat.sub_self,
          List.getElem?_cons_zero]) rfl, if_pos hfuel]
      exact ⟨_, rfl⟩
    · exact ⟨_, rfl⟩

/-- What the common body of `xmlSecTransformXPathReadNode` and
`xmlSecTransformXPointerReadNode` leaves: it returns `0` or `-1`; `0` only if
the first element child is the expected element and no element follows it;
and when it returns `-1` the transform and the records of the descriptors that
were there are as before. -/
theorem readSingle_result (env : ReadEnv) (id : xmlSecTransformId) (name ns : String)
    (xpathType : xmlSecXPathType) (fuel : Nat) (h : DataHeap) (t : xmlSecXmlTransformCell)
    (transformNode : xmlTreePtr) (res : ReadResult)
    (hres : readSingleFilter env id name ns xpathType fuel h (some t) transformNode =
      some res) :
    (res.ret = 0 ∨ res.ret = -1) ∧
    (res.ret = 0 →
      (xmlSecGetNextElementNode transformNode.children).self.isNull = false ∧
      env.xmlSecCheckNodeName (xmlSecGetNextElementNode transformNode.children).self name ns =
        true ∧
      (xmlSecGetNextElementNode
        (xmlSecGetNextElementNode transformNode.children).next).self.isNull = true) ∧
    (res.ret = -1 → res.transform = some t ∧
      ∀ q, q < h.cells.length → res.heap.cells[q]? = h.cells[q]?) := by
  have hfail : ∀ h1 : DataHeap, (∀ q, q < h.cells.length → h1.cells[q]? = h.cells[q]?) →
      res = ⟨-1, h1, some t⟩ →
      (res.ret = 0 ∨ res.ret = -1) ∧
      (res.ret = 0 →
        (xmlSecGetNextElementNode transformNode.children).self.isNull = false ∧
        env.xmlSecCheckNodeName (xmlSecGetNextElementNode transformNode.children).self name
          ns = true ∧
        (xmlSecGetNextElementNode
          (xmlSecGetNextElementNode transformNode.children).next).self.isNull = true) ∧
      (res.ret = -1 → res.transform = some t ∧
        ∀ q, q < h.cells.length → res.heap.cells[q]? = h.cells[q]?) := by
    intro h1 hframe hr
    subst hr
    exact ⟨Or.inr rfl, fun h0 => by simp at h0, fun _ => ⟨rfl, hframe⟩⟩
  unfold readSingleFilter at hres
  simp only at hres
  split_ifs at hres with hnull hid hcur hnext
  · exact hfail h (fun _ _ => rfl) (Option.some.inj hres).symm
  · exact hfail h (fun _ _ => rfl) (Option.some.inj hres).symm
  · exact hfail h (fun _ _ => rfl) (Option.some.inj hres).symm
  · -- an element follows the first one
    cases hcreate : xmlSecXPathDataCreate env fuel h
        (xmlSecGetNextElementNode transformNode.children).self none xpathType with
    | none => simp [hcreate] at hres
    | some x =>
      obtain ⟨h1, r⟩ := x
      obtain ⟨hframe, hnew⟩ := dataCreate_frame env fuel h _ xpathType h1 r hcreate
      cases r with
      | none =>
        simp only [hcreate, Option.some.injEq] at hres
        exact hfail h1 hframe hres.symm
      | some data =>
        obtain ⟨rfl, d, hcells⟩ := hnew data rfl
        simp only [hcreate] at hres
        rw [dataDestroy_single h1 h.cells.length { data := d, next := none } (by
          simp only [DataHeap.read, hcells, List.getElem?_append_right (le_refl _),
            Nat.sub_self, List.getElem?_cons_zero]) rfl] at hres
        split_ifs at hres
        · simp only [Option.map_some', Option.some.injEq] at hres
          refine hfail (h1.xmlFree h.cells.length) ?_ hres.symm
          intro q hq
          rw [DataHeap.cells_xmlFree_of_lt _ _ _ (by omega)]
          exact hframe q hq
        · simp at hres
  · -- no element follows the first one
    have hc1 : (xmlSecGetNextElementNode transformNode.children).self.isNull = false ∧
        env.xmlSecCheckNodeName (xmlSecGetNextElementNode transformNode.children).self name
          ns = true := by
      simp only [not_or, Bool.not_eq_true, Bool.not_eq_false] at hcur
      exact hcur
    have hn1 : (xmlSecGetNextElementNode
        (xmlSecGetNextElementNode transformNode.children).next).self.isNull = true := by
      simpa using hnext
    cases hcreate : xmlSecXPathDataCreate env fuel h
        (xmlSecGetNextElementNode transformNode.children).self none xpathType with
    | none => simp [hcreate] at hres
    | some x =>
      obtain ⟨h1, r⟩ := x
      obtain ⟨hframe, -⟩ := dataCreate_frame env fuel h _ xpathType h1 r hcreate
      cases r with
      | none =>
        simp only [hcreate, Option.some.injEq] at hres
        exact hfail h1 hframe hres.symm
      | some data =>
        simp only [hcreate] at hres
        obtain ⟨h2, -, rfl⟩ := Option.map_eq_some'.mp hres
        exact ⟨Or.inl rfl, fun _ => ⟨hc1.1, hc1.2, hn1⟩, fun h0 => by simp at h0⟩

/-- The common body of `xmlSecTransformXPathReadNode` and
`xmlSecTransformXPointerReadNode` returns `-1`, with fuel for two rounds, when
the first element child is missing or is not the expected element, or when an
element follows it. -/
theorem readSingle_fails (env : ReadEnv) (id : xmlSecTransformId) (name ns : String)
    (xpathType : xmlSecXPathType) (fuel : Nat) (h : DataHeap) (t : xmlSecXmlTransformCell)
    (transformNode : xmlTreePtr) (hfuel : 2 ≤ fuel)
    (hbad : (xmlSecGetNextElementNode transformNode.children).self.isNull = true ∨
      env.xmlSecCheckNodeName (xmlSecGetNextElementNode transformNode.children).self name ns =
        false ∨
      (xmlSecGetNextElementNode
        (xmlSecGetNextElementNode transformNode.children).next).self.isNull = false) :
    ∃ res, readSingleFilter env id name ns xpathType fuel h (some t) transformNode =
      some res ∧ res.ret = -1 := by
  unfold readSingleFilter
  simp only
  split_ifs with hnull hid hcur hnext
  · exact ⟨_, rfl, rfl⟩
  · exact ⟨_, rfl, rfl⟩
  · exact ⟨_, rfl, rfl⟩
  · obtain ⟨⟨h1, r⟩, hcreate⟩ := dataCreate_returns env fuel h
      (xmlSecGetNextElementNode transformNode.children).self xpathType hfuel
    obtain ⟨-, hnew⟩ := dataCreate_frame env fuel h _ xpathType h1 r hcreate
    cases r with
    | none =>
      simp only [hcreate]
      exact ⟨_, rfl, rfl⟩
    | some data =>
      obtain ⟨rfl, d, hcells⟩ := hnew data rfl
      simp only [hcreate]
      rw [dataDestroy_single h1 h.cells.length { data := d, next := none } (by
        simp only [DataHeap.read, hcells, List.getElem?_append_right (le_refl _),
          Nat.sub_self, List.getElem?_cons_zero]) rfl, if_pos hfuel]
      exact ⟨_, rfl, rfl⟩
  · exfalso
    simp only [not_or, Bool.not_eq_true, Bool.not_eq_false] at hcur
    rcases hbad with hb | hb | hb
    · rw [hcur.1] at hb; cases hb
    · rw [hcur.2] at hb; cases hb
    · exact hnext hb

/-! ## The registration of the namespaces of a descriptor -/

theorem flattenBindings_getElem (pre : List (Option String × Option String))
    (b : Option String × Option String) (rest : List (Option String)) :
    (flattenBindings (pre ++ [b]) ++ rest)[2 * pre.length]? = some b.1 ∧
      (flattenBindings (pre ++ [b]) ++ rest)[2 * pre.length + 1]? = some b.2 := by
  have hlen := flattenBindings_length pre
  rw [flattenBindings_append, List.append_assoc]
  constructor
  · rw [List.getElem?_append_right (by omega), hlen, Nat.sub_self]
    rfl
  · rw [List.getElem?_append_right (by omega), hlen]
    have : 2 * pre.length + 1 - 2 * pre.length = 1 := by omega
    rw [this]
    simp [flattenBindings]

/-- The loop of `xmlSecXPathDataExecute` that registers the namespaces, on an
array that holds the bindings `pre` followed by anything, entered at the last
slot of `pre`: it makes the calls for the bindings of `pre` from the last one
to the first. -/
theorem registerNamespaces_pairs (lib : LibXml) :
    ∀ (k : Nat) (pre : List (Option String × Option String)) (rest : List (Option String))
      (steps : Nat) (ctx : xmlXPathContext), pre.length = k → k ≤ steps →
      registerNamespaces lib (flattenBindings pre ++ rest) steps ((2 * pre.length : Nat) - 1 : Int)
          ctx =
        some (registerSeq lib pre.reverse ctx) := by
  intro k
  induction k with
  | zero =>
    intro pre rest steps ctx hk _
    have hpre : pre = [] := List.length_eq_zero.mp hk
    subst hpre
    cases steps <;> simp [registerNamespaces, registerSeq]
  | succ k ih =>
    intro pre rest steps ctx hk hsteps
    obtain ⟨init, b, rfl⟩ : ∃ init b, pre = init ++ [b] := by
      rcases List.eq_nil_or_concat pre with hnil | ⟨init, b, hb⟩
      · rw [hnil] at hk; simp at hk
      · exact ⟨init, b, by simpa using hb⟩
    have hinit : init.length = k := by simpa using hk
    obtain ⟨s, rfl⟩ : ∃ s, steps = s + 1 := ⟨steps - 1, by omega⟩
    obtain ⟨h1, h2⟩ := flattenBindings_getElem init b rest
    have hi : ((2 * (init ++ [b]).length : Nat) - 1 : Int) = ((2 * init.length + 1 : Nat) : Int) := by
      simp only [List.length_append, List.length_cons, List.length_nil]
      omega
    have hpos : ((2 * init.length + 1 : Nat) : Int) > 0 := by omega
    have hi1 : (((2 * init.length + 1 : Nat) : Int) - 1).toNat = 2 * init.length := by omega
    have hi2 : ((2 * init.length + 1 : Nat) : Int) - 2 = ((2 * init.length : Nat) - 1 : Int) := by
      omega
    have hrec := ih init ([b.1, b.2] ++ rest) s
    have hlist : flattenBindings init ++ ([b.1, b.2] ++ rest) =
        flattenBindings (init ++ [b]) ++ rest := by
      rw [flattenBindings_append, List.append_assoc]
      rfl
    rw [hlist] at hrec
    rw [hi]
    obtain ⟨pfx, href⟩ := b
    simp only at h1 h2
    simp only [registerNamespaces, hpos, if_true, Int.toNat_ofNat, h2, hi1, h1, hi2,
      List.reverse_append, List.reverse_cons, List.reverse_nil, List.nil_append,
      List.singleton_append]
    cases pfx with
    | none =>
      simp only [registerSeq]
      exact hrec ctx hinit (by omega)
    | some p =>
      simp only [registerSeq]
      split_ifs with hr
      · rfl
      · exact hrec _ hinit (by omega)

/-- When libxml accepts every binding with a prefix, the calls for a list of
bindings succeed, and each of these bindings is registered once: the context
holds them, latest first, before what it held. -/
theorem registerSeq_accepted (lib : LibXml) :
    ∀ (l : List (Option String × Option String)) (ctx : xmlXPathContext),
      (∀ c p href, (some p, href) ∈ l → lib.registerNsStatus c p href = 0) →
      (registerSeq lib l ctx).1 = 0 ∧
        (registerSeq lib l ctx).2 = { ctx with nsReg := (withPrefix l).reverse ++ ctx.nsReg } := by
  intro l
  induction l with
  | nil => intro ctx _; exact ⟨rfl, by simp [registerSeq, withPrefix]⟩
  | cons b rest ih =>
    intro ctx hacc
    obtain ⟨pfx, href⟩ := b
    cases pfx with
    | none =>
      simp only [registerSeq]
      obtain ⟨h1, h2⟩ := ih ctx (fun c p hr hm => hacc c p hr (List.mem_cons_of_mem _ hm))
      refine ⟨h1, ?_⟩
      rw [h2]
      simp [withPrefix]
    | some p =>
      have h0 : lib.registerNsStatus ctx p href = 0 := hacc ctx p href (List.mem_cons_self _ _)
      simp only [registerSeq, xmlXPathRegisterNs, h0, ne_eq, not_true_eq_false, if_false,
        if_true]
      obtain ⟨h1, h2⟩ := ih { ctx with nsReg := (p, href) :: ctx.nsReg }
        (fun c q hr hm => hacc c q hr (List.mem_cons_of_mem _ hm))
      refine ⟨h1, ?_⟩
      rw [h2]
      simp [withPrefix]

/-- The calls for a list of bindings end with `0` or with `-1`, and with `-1`
when the list holds a binding with a prefix that libxml refuses in every
context. -/
theorem registerSeq_refused (lib : LibXml) :
    ∀ (l : List (Option String × Option String)) (ctx : xmlXPathContext),
      ((registerSeq lib l ctx).1 = 0 ∨ (registerSeq lib l ctx).1 = -1) ∧
      (∀ p href, (some p, href) ∈ l → (∀ c, lib.registerNsStatus c p href ≠ 0) →
        (registerSeq lib l ctx).1 = -1) := by
  intro l
  induction l with
  | nil => intro ctx; exact ⟨Or.inl rfl, fun p href hm => by simp at hm⟩
  | cons b rest ih =>
    intro ctx
    obtain ⟨pfx, href⟩ := b
    cases pfx with
    | none =>
      simp only [registerSeq]
      refine ⟨(ih ctx).1, ?_⟩
      intro p hr hm hrej
      simp only [List.mem_cons, Prod.mk.injEq, reduceCtorEq, false_and, false_or] at hm
      exact (ih ctx).2 p hr hm hrej
    | some q =>
      simp only [registerSeq]
      split_ifs with hr
      · exact ⟨Or.inr rfl, fun _ _ _ _ => rfl⟩
      · refine ⟨(ih _).1, ?_⟩
        intro p hr1 hm hrej
        simp only [List.mem_cons, Prod.mk.injEq, Option.some.injEq] at hm
        rcases hm with ⟨rfl, rfl⟩ | hm
        · exact absurd (by simpa [xmlXPathRegisterNs] using hr) (hrej ctx)
        · exact (ih _).2 p hr1 hm hrej

/-- What `xmlSecXPathDataExecute` obtains from libxml for a descriptor is the
evaluation of its expression in the context `evalContext`. -/
theorem evalDescriptor_context (lib : LibXml) (doc : Option Nat) (hereNode : xmlNodePtr)
    (data : xmlSecXPathData) (ctx : xmlXPathContext)
    (hctx : evalContext lib doc hereNode data = some ctx) :
    evalDescriptor lib doc hereNode data = some (evalIn lib data ctx) := by
  obtain ⟨ex, nl, sz, ty, tg⟩ := data
  cases ty <;> cases nl <;> simp only [evalContext, evalDescriptor, evalIn] at hctx ⊢ <;>
    (split at hctx <;> (try simp only [reduceCtorEq] at hctx) <;>
      (try split at hctx) <;> (try simp only [reduceCtorEq] at hctx) <;>
      (try split at hctx) <;> (try simp only [reduceCtorEq] at hctx) <;>
      simp_all)

/-- The context of an evaluation is the context `baseContext` with the
namespaces of the descriptor registered in it. -/
theorem evalContext_split (lib : LibXml) (doc : Option Nat) (hereNode : xmlNodePtr)
    (data : xmlSecXPathData) :
    evalContext lib doc hereNode data =
      (baseContext lib doc hereNode data.xpathType).bind (fun ctx1 =>
        match data.nsList with
        | none => some ctx1
        | some l =>
          (registerNamespaces lib l data.nsListSize ((data.nsListSize : Int) - 1) ctx1).bind
            (fun r => if r.1 ≠ 0 then none else some r.2)) := by
  obtain ⟨ex, nl, sz, ty, tg⟩ := data
  cases ty <;> cases nl <;> simp only [evalContext, baseContext] <;>
    (split <;> simp_all) <;> (split <;> simp_all)

/-- What `xmlSecXPathDataExecute` obtains from libxml for a descriptor, told
with the context `baseContext`. -/
theorem evalDescriptor_split (lib : LibXml) (doc : Option Nat) (hereNode : xmlNodePtr)
    (data : xmlSecXPathData) :
    evalDescriptor lib doc hereNode data =
      match baseContext lib doc hereNode data.xpathType with
      | none => some none
      | some ctx1 =>
        match data.nsList with
        | none => some (evalIn lib data ctx1)
        | some l =>
          (registerNamespaces lib l data.nsListSize ((data.nsListSize : Int) - 1) ctx1).map
            (fun r => if r.1 ≠ 0 then none else evalIn lib data r.2) := by
  obtain ⟨ex, nl, sz, ty, tg⟩ := data
  cases ty <;> cases nl <;> simp only [evalDescriptor, baseContext, evalIn] <;>
    (split <;> simp_all) <;> (split <;> simp_all) <;> (split <;> simp_all)

/-! ## The claims about the registry of input handlers -/

/-- C25.  In every state the program can be in the number of registered
handlers lies between `0` and `15`.  With fewer than `15` handlers
`xmlSecRegisterInputCallbacks` stores the handler in the slot whose index is
the count, leaves the other slots as they are, returns that index and raises
the count by one; with `15` handlers it returns `-1` and leaves the table and
the count as they are; and two successful registrations made one after the
other return consecutive numbers. -/
theorem register_limit (cfg : DefaultInput) (s : InputCallbacks) (hs : Reachable cfg s)
    (matchFunc openFunc readFunc closeFunc : Option Nat) :
    (0 ≤ s.xmlSecInputCallbackNr ∧ s.xmlSecInputCallbackNr ≤ 15) ∧
    (s.xmlSecInputCallbackNr < 15 →
      ∃ s1, xmlSecRegisterInputCallbacks s matchFunc openFunc readFunc closeFunc =
          some (s.xmlSecInputCallbackNr, s1) ∧
        s1.xmlSecInputCallbackNr = s.xmlSecInputCallbackNr + 1 ∧
        s1.xmlSecInputCallbackTable[s.xmlSecInputCallbackNr.toNat]? =
          some ⟨matchFunc, openFunc, readFunc, closeFunc⟩ ∧
        (∀ i : Nat, i ≠ s.xmlSecInputCallbackNr.toNat →
          s1.xmlSecInputCallbackTable[i]? = s.xmlSecInputCallbackTable[i]?) ∧
        s1.xmlSecInputCallbackInitialized = s.xmlSecInputCallbackInitialized) ∧
    (s.xmlSecInputCallbackNr = 15 →
      xmlSecRegisterInputCallbacks s matchFunc openFunc readFunc closeFunc = some (-1, s)) ∧
    (∀ (r1 r2 : Int) (s1 s2 : InputCallbacks) (m2 o2 rd2 c2 : Option Nat),
      xmlSecRegisterInputCallbacks s matchFunc openFunc readFunc closeFunc = some (r1, s1) →
      0 ≤ r1 → xmlSecRegisterInputCallbacks s1 m2 o2 rd2 c2 = some (r2, s2) → 0 ≤ r2 →
      r2 = r1 + 1) := by
  have hinv := reachable_inv cfg s hs
  obtain ⟨hlen, h0, h15, -⟩ := hinv
  have hmax : (MAX_INPUT_CALLBACK : Int) = 15 := rfl
  refine ⟨⟨h0, by omega⟩, ?_, ?_, ?_⟩
  · intro hlt
    have hb := register_below s (reachable_inv cfg s hs) matchFunc openFunc readFunc closeFunc
      (by omega)
    refine ⟨_, hb, rfl, ?_, ?_, rfl⟩
    · simp only
      rw [List.getElem?_set_self (by rw [hlen]; simp only [MAX_INPUT_CALLBACK]; omega)]
    · intro i hi
      simp only
      rw [List.getElem?_set_ne (Ne.symm hi)]
  · intro heq
    have h1 : s.xmlSecInputCallbackNr ≥ (MAX_INPUT_CALLBACK : Int) := by omega
    simp only [xmlSecRegisterInputCallbacks, h1, if_true]
  · intro r1 r2 s1 s2 m2 o2 rd2 c2 hreg1 hr1 hreg2 hr2
    have hinv1 := (register_inv s s1 r1 (reachable_inv cfg s hs) _ _ _ _ hreg1).1
    by_cases hlt : s.xmlSecInputCallbackNr < (MAX_INPUT_CALLBACK : Int)
    · rw [register_below s (reachable_inv cfg s hs) _ _ _ _ hlt] at hreg1
      simp only [Option.some.injEq, Prod.mk.injEq] at hreg1
      obtain ⟨rfl, rfl⟩ := hreg1
      by_cases hlt1 : s.xmlSecInputCallbackNr + 1 < (MAX_INPUT_CALLBACK : Int)
      · rw [register_below _ hinv1 _ _ _ _ hlt1] at hreg2
        simp only [Option.some.injEq, Prod.mk.injEq] at hreg2
        exact hreg2.1.symm
      · have h1 : s.xmlSecInputCallbackNr + 1 ≥ (MAX_INPUT_CALLBACK : Int) := by omega
        simp only [xmlSecRegisterInputCallbacks, h1, if_true, Option.some.injEq,
          Prod.mk.injEq] at hreg2
        omega
    · have h1 : s.xmlSecInputCallbackNr ≥ (MAX_INPUT_CALLBACK : Int) := by omega
      simp only [xmlSecRegisterInputCallbacks, h1, if_true, Option.some.injEq,
        Prod.mk.injEq] at hreg1
      omega

/-- C26, the failing input.  A program registers one handler of its own and
never the default handlers, so that `xmlSecInputCallbackInitialized` is still
`0`; this is a state the program can be in.  `xmlSecCleanupInputCallbacks`
then returns at its first test: the count is still `1` and slot `0` still
holds the handler. -/
theorem cleanup_skips_user_handlers :
    Reachable exDefault exUserOnly ∧
    (xmlSecRegisterInputCallbacks InputCallbacks.start (some 20) (some 21) (some 22)
      (some 23)).map Prod.fst = some 0 ∧
    exUserOnly.xmlSecInputCallbackInitialized = 0 ∧
    xmlSecCleanupInputCallbacks exUserOnly = some exUserOnly ∧
    exUserOnly.xmlSecInputCallbackNr = 1 ∧
    exUserOnly.xmlSecInputCallbackTable[0]? =
      some ⟨some 20, some 21, some 22, some 23⟩ :=
  ⟨Reachable.register (some 20) (some 21) (some 22) (some 23) Reachable.start
      (show xmlSecRegisterInputCallbacks InputCallbacks.start (some 20) (some 21) (some 22)
        (some 23) = some (0, exUserOnly) by decide!),
    by decide!, by decide!, by decide!, by decide!, by decide!⟩

/-- C27, as stated, fails.  A transform that already holds a stream (`data` is
stream `3`) is opened with the URI `x` when no handler is registered: no
handler matches or opens either form of the URI, and
`xmlSecInputUriTransformOpen` returns `0`. -/
theorem open_dispatch_counterexample :
    NoneOpens exFuncs InputCallbacks.start "x" ∧
    exFuncs.xmlURIUnescapeString "x" = some "x" ∧
    xmlSecInputUriTransformOpen exFuncs InputCallbacks.start
        (some { exInput with data := some 3 }) (some "x") =
      some (0, some { exInput with data := some 3 }) :=
  ⟨fun j hj => absurd hj (by simp [InputCallbacks.start]), by decide!, by decide!⟩

/-- C27, amended.  Let the transform be an `xmlSecInputUri` transform that holds
no stream, and let the registered handlers be callable.  Then
`xmlSecInputUriTransformOpen` returns; if libxml unescapes the URI and some
registered handler opens the unescaped URI, the call returns `0` and the
transform is bound to the one with the highest registration index among
these, with the stream it returned; only otherwise the same search is made
with the raw URI; and the call returns `-1`, with the transform as it was, when
no handler opens either form. -/
theorem open_dispatch (fns : InputFuncs) (s : InputCallbacks) (t : xmlSecBinTransform)
    (uri : String) (hid : t.id = xmlSecBinTransformId.xmlSecInputUri) (hdata : t.data = none)
    (hs : Callable s) :
    ∃ ret t1, xmlSecInputUriTransformOpen fns s (some t) (some uri) = some (ret, some t1) ∧
      (∀ u i, fns.xmlURIUnescapeString uri = some u → Selected fns s u i →
        ret = 0 ∧ t1.binData = some i ∧ t1.data = streamOf fns s u i ∧ t1.data ≠ none) ∧
      ((fns.xmlURIUnescapeString uri = none ∨
          ∃ u, fns.xmlURIUnescapeString uri = some u ∧ NoneOpens fns s u) →
        (∀ i, Selected fns s uri i →
          ret = 0 ∧ t1.binData = some i ∧ t1.data = streamOf fns s uri i ∧ t1.data ≠ none) ∧
        (NoneOpens fns s uri → ret = -1 ∧ t1 = t)) := by
  obtain ⟨h0, hle, hcall⟩ := hs
  have hcall1 : ∀ (i : Nat) (cb : xmlSecInputCallback), i < s.xmlSecInputCallbackNr.toNat →
      s.xmlSecInputCallbackTable[i]? = some cb → cb.matchcallback ≠ none →
      cb.opencallback ≠ none := fun i cb hi => hcall i cb (by omega)
  have hid1 : ¬ t.id ≠ xmlSecBinTransformId.xmlSecInputUri := by simp [hid]
  -- a handler that is selected is the one the loop finds
  have huniq : ∀ (u : String) (i i1 : Nat), Selected fns s u i →
      i1 < s.xmlSecInputCallbackNr.toNat → opensAt fns s u i1 →
      (∀ j, i1 < j → j < s.xmlSecInputCallbackNr.toNat → ¬ opensAt fns s u j) → i = i1 := by
    intro u i i1 ⟨hi, hop, hmax⟩ hi1 hop1 hmax1
    rcases Nat.lt_trichotomy i i1 with hlt | heq | hgt
    · exact absurd hop1 (hmax i1 hlt (by omega))
    · exact heq
    · exact absurd hop (hmax1 i hgt (by omega))
  have hnone : ∀ (u : String) (i : Nat), Selected fns s u i →
      (∀ j, j < s.xmlSecInputCallbackNr.toNat → ¬ opensAt fns s u j) → False := by
    intro u i ⟨hi, hop, _⟩ hno
    exact hno i (by omega) hop
  -- the search with the raw URI, from the transform as it was
  have hraw : ∃ ret t1,
      (match (if t.data = none then
            openLoop fns s.xmlSecInputCallbackTable uri s.xmlSecInputCallbackNr.toNat t
          else some t) with
        | none => none
        | some t2 => if t2.data = none then some ((-1 : Int), some t2) else some (0, some t2)) =
        some (ret, some t1) ∧
      (∀ i, Selected fns s uri i →
        ret = 0 ∧ t1.binData = some i ∧ t1.data = streamOf fns s uri i ∧ t1.data ≠ none) ∧
      (NoneOpens fns s uri → ret = -1 ∧ t1 = t) := by
    rw [if_pos hdata]
    rcases openLoop_spec fns s uri _ t hdata hle hcall1 with
      ⟨i1, hi1, hop1, hmax1, hst1, hrun⟩ | ⟨hno, hrun⟩
    · refine ⟨0, { t with data := streamOf fns s uri i1, binData := some i1 },
        by rw [hrun]; simp only [hst1, if_false], ?_, ?_⟩
      · intro i hsel
        obtain rfl := huniq uri i i1 hsel hi1 hop1 hmax1
        exact ⟨rfl, rfl, rfl, hst1⟩
      · intro hnoneOpens
        exact absurd hop1 (hnoneOpens i1 (by omega))
    · refine ⟨-1, t, by rw [hrun]; simp only [hdata, if_true], ?_, fun _ => ⟨rfl, rfl⟩⟩
      intro i hsel
      exact (hnone uri i hsel hno).elim
  simp only [xmlSecInputUriTransformOpen, hid1, if_false]
  cases hu : fns.xmlURIUnescapeString uri with
  | none =>
    obtain ⟨ret, t1, hrun, hsel, hfail⟩ := hraw
    refine ⟨ret, t1, hrun, ?_, fun _ => ⟨hsel, hfail⟩⟩
    intro u i hu1
    cases hu1
  | some u =>
    rcases openLoop_spec fns s u _ t hdata hle hcall1 with
      ⟨i1, hi1, hop1, hmax1, hst1, hrun⟩ | ⟨hno, hrun⟩
    · refine ⟨0, { t with data := streamOf fns s u i1, binData := some i1 },
        by simp only [hrun, hst1, if_false], ?_, ?_⟩
      · intro u1 i hu1 hsel
        cases hu1
        obtain rfl := huniq u i i1 hsel hi1 hop1 hmax1
        exact ⟨rfl, rfl, rfl, hst1⟩
      · rintro (hcontra | ⟨u1, hu1, hnoneOpens⟩)
        · cases hcontra
        · cases hu1
          exact absurd hop1 (hnoneOpens i1 (by omega))
    · obtain ⟨ret, t1, hrun2, hsel, hfail⟩ := hraw
      refine ⟨ret, t1, by simp only [hrun]; exact hrun2, ?_, fun _ => ⟨hsel, hfail⟩⟩
      intro u1 i hu1 hsel1
      cases hu1
      exact (hnone u i hsel1 hno).elim

/-! ## The claims about reading a configuration and about the context -/

/-- C21.  Let a new descriptor be read from an element with content, with
memory for its strings.  For the second-generation dialect
`xmlSecXPathDataReadNode` returns `0` with the filter tag Intersect, Subtract
or Union exactly when the attribute `Filter` is the string `intersect`,
`subtract` or `union`, and it returns `-1` exactly when the attribute is
missing or has another value.  For the first-generation and the pointer
dialect it returns `0`, leaves the filter tag as it was, and gives the same
with any other attributes. -/
theorem filter_attribute_parsing (env : ReadEnv) (avail : Nat) (data : xmlSecXPathData)
    (node : xmlNodePtr) (e : String) (hexpr : data.expr = none) (hns : data.nsList = none)
    (hnode : node.isNull = false) (hcontent : env.xmlNodeGetContent node = some e)
    (hmem : 2 + 2 * countNs node ≤ avail) :
    (data.xpathType = xmlSecXPathType.xmlSecXPathTypeXPath2 →
      (((xmlSecXPathDataReadNode env avail data node).2.1 = 0 ∧
          (xmlSecXPathDataReadNode env avail data node).2.2.xpath2Type =
            xmlSecXPath2TransformType.xmlSecXPathTransformIntersect) ↔
        env.xmlGetProp node "Filter" = some "intersect") ∧
      (((xmlSecXPathDataReadNode env avail data node).2.1 = 0 ∧
          (xmlSecXPathDataReadNode env avail data node).2.2.xpath2Type =
            xmlSecXPath2TransformType.xmlSecXPathTransformSubtract) ↔
        env.xmlGetProp node "Filter" = some "subtract") ∧
      (((xmlSecXPathDataReadNode env avail data node).2.1 = 0 ∧
          (xmlSecXPathDataReadNode env avail data node).2.2.xpath2Type =
            xmlSecXPath2TransformType.xmlSecXPathTransformUnion) ↔
        env.xmlGetProp node "Filter" = some "union") ∧
      ((xmlSecXPathDataReadNode env avail data node).2.1 = -1 ↔
        (env.xmlGetProp node "Filter" ≠ some "intersect" ∧
          env.xmlGetProp node "Filter" ≠ some "subtract" ∧
          env.xmlGetProp node "Filter" ≠ some "union"))) ∧
    (data.xpathType ≠ xmlSecXPathType.xmlSecXPathTypeXPath2 →
      (xmlSecXPathDataReadNode env avail data node).2.1 = 0 ∧
      (xmlSecXPathDataReadNode env avail data node).2.2.xpath2Type = data.xpath2Type ∧
      ∀ g : xmlNodePtr → String → Option String,
        xmlSecXPathDataReadNode { env with xmlGetProp := g } avail data node =
          xmlSecXPathDataReadNode env avail data node) := by
  constructor
  · intro hT
    obtain ⟨a, base, -, hI, hS, hU, hO⟩ :=
      readNode_xpath2 env avail data node e hexpr hns hnode hcontent hmem hT
    have d1 : ("intersect" : String) ≠ "subtract" := by decide
    have d2 : ("intersect" : String) ≠ "union" := by decide
    have d3 : ("subtract" : String) ≠ "union" := by decide
    by_cases h1 : env.xmlGetProp node "Filter" = some "intersect"
    · rw [hI h1, h1]
      simp [d1, d2]
    · by_cases h2 : env.xmlGetProp node "Filter" = some "subtract"
      · rw [hS h2, h2]
        simp [d1.symm, d3]
      · by_cases h3 : env.xmlGetProp node "Filter" = some "union"
        · rw [hU h3, h3]
          simp [d2.symm, d3.symm]
        · rw [hO h1 h2 h3]
          simp [h1, h2, h3]
  · intro hT
    refine ⟨?_, ?_, fun g => readNode_ignores_filter env g avail data node hT⟩
    · cases hty : data.xpathType with
      | xmlSecXPathTypeXPath2 => exact absurd hty hT
      | xmlSecXPathTypeXPath =>
        obtain ⟨a, ha⟩ := (readNode_single env avail data node e hexpr hns hnode hcontent
          hmem).1 hty
        rw [ha]
      | xmlSecXPathTypeXPointer =>
        obtain ⟨a, ha⟩ := (readNode_single env avail data node e hexpr hns hnode hcontent
          hmem).2 hty
        rw [ha]
    · cases hty : data.xpathType with
      | xmlSecXPathTypeXPath2 => exact absurd hty hT
      | xmlSecXPathTypeXPath =>
        obtain ⟨a, ha⟩ := (readNode_single env avail data node e hexpr hns hnode hcontent
          hmem).1 hty
        rw [ha]
      | xmlSecXPathTypeXPointer =>
        obtain ⟨a, ha⟩ := (readNode_single env avail data node e hexpr hns hnode hcontent
          hmem).2 hty
        rw [ha]

/-- C28.  Let a new descriptor be read from an element whose content is `e`,
with memory for its strings.  For the first-generation dialect
`xmlSecXPathDataReadNode` returns `0` and the expression it stores is
`(//. | //@* | //namespace::*)[` followed by `e` followed by `]`; for the
second-generation and the pointer dialect the expression it stores is `e`
itself. -/
theorem expression_wrapper (env : ReadEnv) (avail : Nat) (data : xmlSecXPathData)
    (node : xmlNodePtr) (e : String) (hexpr : data.expr = none) (hns : data.nsList = none)
    (hnode : node.isNull = false) (hcontent : env.xmlNodeGetContent node = some e)
    (hmem : 2 + 2 * countNs node ≤ avail) :
    (data.xpathType = xmlSecXPathType.xmlSecXPathTypeXPath →
      (xmlSecXPathDataReadNode env avail data node).2.1 = 0 ∧
      (xmlSecXPathDataReadNode env avail data node).2.2.expr =
        some ("(//. | //@* | //namespace::*)[" ++ e ++ "]")) ∧
    (data.xpathType = xmlSecXPathType.xmlSecXPathTypeXPointer →
      (xmlSecXPathDataReadNode env avail data node).2.1 = 0 ∧
      (xmlSecXPathDataReadNode env avail data node).2.2.expr = some e) ∧
    (data.xpathType = xmlSecXPathType.xmlSecXPathTypeXPath2 →
      (xmlSecXPathDataReadNode env avail data node).2.2.expr = some e ∧
      ((env.xmlGetProp node "Filter" = some "intersect" ∨
          env.xmlGetProp node "Filter" = some "subtract" ∨
          env.xmlGetProp node "Filter" = some "union") →
        (xmlSecXPathDataReadNode env avail data node).2.1 = 0)) := by
  refine ⟨?_, ?_, ?_⟩
  · intro hT
    obtain ⟨a, ha⟩ := (readNode_single env avail data node e hexpr hns hnode hcontent hmem).1 hT
    rw [ha, sprintf_xpathPattern]
    exact ⟨rfl, rfl⟩
  · intro hT
    obtain ⟨a, ha⟩ := (readNode_single env avail data node e hexpr hns hnode hcontent hmem).2 hT
    rw [ha]
    exact ⟨rfl, rfl⟩
  · intro hT
    obtain ⟨a, base, hbase, hI, hS, hU, hO⟩ :=
      readNode_xpath2 env avail data node e hexpr hns hnode hcontent hmem hT
    subst hbase
    by_cases h1 : env.xmlGetProp node "Filter" = some "intersect"
    · rw [hI h1]; exact ⟨rfl, fun _ => rfl⟩
    · by_cases h2 : env.xmlGetProp node "Filter" = some "subtract"
      · rw [hS h2]; exact ⟨rfl, fun _ => rfl⟩
      · by_cases h3 : env.xmlGetProp node "Filter" = some "union"
        · rw [hU h3]; exact ⟨rfl, fun _ => rfl⟩
        · rw [hO h1 h2 h3]
          exact ⟨rfl, fun hh => by rcases hh with hh | hh | hh <;> contradiction⟩

/-- C22.  `xmlSecTransformXPathReadNode` returns `0` only if the first element
child of the transform node is the element `XPath` of the signature namespace
and no element child follows it; with fuel for two rounds it returns `-1` when
the first element child is missing or is another element, or when an element
child follows; and whenever it returns `-1` the transform, with the pointer to
its descriptor, and the descriptors that were there are as before.  The same
holds of `xmlSecTransformXPointerReadNode` with the element `XPointer` of the
pointer namespace. -/
theorem single_filter_read (env : ReadEnv) (fuel : Nat) (h : DataHeap)
    (t : xmlSecXmlTransformCell) (transformNode : xmlTreePtr) :
    (∀ res, xmlSecTransformXPathReadNode env fuel h (some t) transformNode = some res →
      (res.ret = 0 ∨ res.ret = -1) ∧
      (res.ret = 0 →
        (xmlSecGetNextElementNode transformNode.children).self.isNull = false ∧
        env.xmlSecCheckNodeName (xmlSecGetNextElementNode transformNode.children).self "XPath"
          env.xmlSecDSigNs = true ∧
        (xmlSecGetNextElementNode
          (xmlSecGetNextElementNode transformNode.children).next).self.isNull = true) ∧
      (res.ret = -1 → res.transform = some t ∧
        ∀ q, q < h.cells.length → res.heap.cells[q]? = h.cells[q]?)) ∧
    (2 ≤ fuel →
      ((xmlSecGetNextElementNode transformNode.children).self.isNull = true ∨
        env.xmlSecCheckNodeName (xmlSecGetNextElementNode transformNode.children).self "XPath"
          env.xmlSecDSigNs = false ∨
        (xmlSecGetNextElementNode
          (xmlSecGetNextElementNode transformNode.children).next).self.isNull = false) →
      ∃ res, xmlSecTransformXPathReadNode env fuel h (some t) transformNode = some res ∧
        res.ret = -1) ∧
    (∀ res, xmlSecTransformXPointerReadNode env fuel h (some t) transformNode = some res →
      (res.ret = 0 ∨ res.ret = -1) ∧
      (res.ret = 0 →
        (xmlSecGetNextElementNode transformNode.children).self.isNull = false ∧
        env.xmlSecCheckNodeName (xmlSecGetNextElementNode transformNode.children).self
          "XPointer" env.xmlSecXPointerNs = true ∧
        (xmlSecGetNextElementNode
          (xmlSecGetNextElementNode transformNode.children).next).self.isNull = true) ∧
      (res.ret = -1 → res.transform = some t ∧
        ∀ q, q < h.cells.length → res.heap.cells[q]? = h.cells[q]?)) ∧
    (2 ≤ fuel →
      ((xmlSecGetNextElementNode transformNode.children).self.isNull = true ∨
        env.xmlSecCheckNodeName (xmlSecGetNextElementNode transformNode.children).self
          "XPointer" env.xmlSecXPointerNs = false ∨
        (xmlSecGetNextElementNode
          (xmlSecGetNextElementNode transformNode.children).next).self.isNull = false) →
      ∃ res, xmlSecTransformXPointerReadNode env fuel h (some t) transformNode = some res ∧
        res.ret = -1) :=
  ⟨fun res hres => readSingle_result env _ _ _ _ fuel h t transformNode res hres,
    fun hfuel hbad => readSingle_fails env _ _ _ _ fuel h t transformNode hfuel hbad,
    fun res hres => readSingle_result env _ _ _ _ fuel h t transformNode res hres,
    fun hfuel hbad => readSingle_fails env _ _ _ _ fuel h t transformNode hfuel hbad⟩

/-- C23, the failing input.  A second-generation transform without descriptors
reads a configuration with two filter elements, the first with the attribute
`Filter="intersect"` and the second with `Filter="Intersect"`, which is none of
the three values.  `xmlSecTransformXPath2ReadNode` returns `-1`, and the
transform still points to the descriptor of the first filter, a chain of one
record.  With another element after the first filter the function returns `-1`
as well, and the transform points to the record of the first filter, which has
been released. -/
theorem xpath2_read_keeps_partial_chain :
    ((xmlSecTransformXPath2ReadNode exEnv 5 exData0
        (some (exNew xmlSecTransformId.xmlSecTransformXPath2))
        (exConfig [(401, XML_ELEMENT_NODE), (405, XML_ELEMENT_NODE)])).map
      (fun r => (r.ret, r.transform.map (fun t => t.xmlData)))) = some (-1, some (some 0)) ∧
    ((xmlSecTransformXPath2ReadNode exEnv 5 exData0
        (some (exNew xmlSecTransformId.xmlSecTransformXPath2))
        (exConfig [(401, XML_ELEMENT_NODE), (405, XML_ELEMENT_NODE)])).bind
      (fun r => chainAt r.heap 5 (some 0))) =
      some [{ expr := some "//b",
              nsList := some [some "ds", some "http://www.w3.org/2000/09/xmldsig#"],
              nsListSize := 2, xpathType := xmlSecXPathType.xmlSecXPathTypeXPath2,
              xpath2Type := xmlSecXPath2TransformType.xmlSecXPathTransformIntersect }] ∧
    exEnv.xmlGetProp (exChild 405 XML_ELEMENT_NODE []) "Filter" = some "Intersect" ∧
    ((xmlSecTransformXPath2ReadNode exEnv 5 exData0
        (some (exNew xmlSecTransformId.xmlSecTransformXPath2))
        (exConfig [(401, XML_ELEMENT_NODE), (404, XML_ELEMENT_NODE)])).map
      (fun r => (r.ret, r.transform.map (fun t => t.xmlData), r.heap.read 0))) =
      some (-1, some (some 0), none) ∧
    exEnv.xmlSecCheckNodeName (exChild 404 XML_ELEMENT_NODE []) "XPath" exEnv.xmlSecXPath2Ns =
      false :=
  ⟨by decide!, by decide!, by decide!, by decide!, by decide!⟩

/-- C29, as stated, fails.  The descriptor read at the element `i` of
`<r xmlns:x="urn:1" xmlns:y="urn:y"><i xmlns:x="urn:2"/></r>` holds the binding
of `i` first and those of its parent `r` after it; when it is evaluated the
bindings of `r` are registered first and the binding of `i` last. -/
theorem registration_order_counterexample :
    exScoped.nsList =
      some [some "x", some "urn:2", some "x", some "urn:1", some "y", some "urn:y"] ∧
    capturedBindings exI =
      [(some "x", some "urn:2"), (some "x", some "urn:1"), (some "y", some "urn:y")] ∧
    ((evalContext exLib (some 100) NULL exScoped).map registrationOrder) =
      some [("y", some "urn:y"), ("x", some "urn:1"), ("x", some "urn:2")] :=
  ⟨by decide!, by decide!, by decide!⟩

/-- C29, amended.  Let a descriptor be read at a node, with memory for its
strings, and let libxml build a context and accept the bindings.  When the
descriptor is evaluated, the bindings in scope at the node that have a prefix
are registered in the reverse of the order in which they were read: those of
the most distant ancestor first, then those of nearer ancestors, and those
declared on the node itself last, so that the nearest declaration of a prefix
is the one registered last. -/
theorem namespace_registration_order (lib : LibXml) (doc : Option Nat)
    (hereNode : xmlNodePtr) (avail : Nat) (data : xmlSecXPathData) (node : xmlNodePtr)
    (ctx1 : xmlXPathContext) (hns : data.nsList = none) (hnode : node.isNull = false)
    (hmem : 1 + 2 * countNs node ≤ avail)
    (hctx : baseContext lib doc hereNode data.xpathType = some ctx1)
    (hacc : ∀ c p href, (some p, href) ∈ capturedBindings node →
      lib.registerNsStatus c p href = 0) :
    ∃ ctx, evalContext lib doc hereNode (xmlSecXPathDataReadNsList avail data node).2.2 =
        some ctx ∧
      registrationOrder ctx =
        registrationOrder ctx1 ++ (withPrefix (capturedBindings node.parent)).reverse ++
          (withPrefix (node.nsDef.map (fun ns => (ns.pfx, ns.href)))).reverse := by
  obtain ⟨a1, hread, -⟩ := readNsList_spec avail data node hns hnode hmem
  have hreg := registerNamespaces_pairs lib (capturedBindings node).length
    (capturedBindings node) [] (2 * (capturedBindings node).length) ctx1 rfl (by omega)
  obtain ⟨h0, hctx2⟩ := registerSeq_accepted lib (capturedBindings node).reverse ctx1
    (fun c p href hm => hacc c p href (List.mem_reverse.mp hm))
  rw [List.append_nil] at hreg
  refine ⟨(registerSeq lib (capturedBindings node).reverse ctx1).2, ?_, ?_⟩
  · rw [evalContext_split, hread]
    simp only [hctx, Option.some_bind]
    have hidx : (((2 * (capturedBindings node).length : Nat) : Int) - 1) =
        ((2 * (capturedBindings node).length : Nat) - 1 : Int) := rfl
    rw [hidx, hreg]
    simp only [Option.some_bind, h0, ne_eq, not_true_eq_false, if_false]
  · rw [hctx2]
    obtain ⟨a, t, p, d, x, n⟩ := node
    · cases hnode
    · simp only [registrationOrder, withPrefix, capturedBindings, parentChain,
        List.flatMap_cons, xmlNodePtr.nsDef, xmlNodePtr.parent, List.reverse_append,
        List.reverse_reverse, List.filterMap_append, List.filterMap_reverse,
        List.append_assoc]

/-- C30.  Let the array of a descriptor hold the bindings `pairs`, and let libxml
build a context.  A binding without prefix is never passed to the registration:
when libxml accepts every binding that has a prefix, each of these is
registered once and the others not at all, so that a descriptor whose bindings
all lack a prefix is evaluated whatever libxml accepts.  When libxml refuses a
binding that has a prefix, the expression is not evaluated, the descriptor
counts as failed, and the round of `xmlSecXPathDataExecute` for it is the
failure path. -/
theorem default_namespace_inert (lib : LibXml) (doc : Option Nat) (hereNode : xmlNodePtr)
    (data : xmlSecXPathData) (pairs : List (Option String × Option String))
    (ctx1 : xmlXPathContext) (hlist : data.nsList = some (flattenBindings pairs))
    (hsize : data.nsListSize = 2 * pairs.length)
    (hctx : baseContext lib doc hereNode data.xpathType = some ctx1) :
    ((∀ c p href, (some p, href) ∈ pairs → lib.registerNsStatus c p href = 0) →
      evalContext lib doc hereNode data =
        some { ctx1 with nsReg := withPrefix pairs ++ ctx1.nsReg }) ∧
    ((∀ b ∈ pairs, b.1 = none) → evalContext lib doc hereNode data = some ctx1) ∧
    (∀ p href, (some p, href) ∈ pairs → (∀ c, lib.registerNsStatus c p href ≠ 0) →
      evalContext lib doc hereNode data = none ∧
      evalDescriptor lib doc hereNode data = some none ∧
      ∀ (fuel : Nat) (h : Heap) (next : List xmlSecXPathData) (res : Option Nat),
        xmlSecXPathDataExecuteLoop lib fuel doc hereNode h (data :: next) res =
          executeFail fuel h res) := by
  have hreg := registerNamespaces_pairs lib pairs.length pairs [] (2 * pairs.length) ctx1 rfl
    (by omega)
  rw [List.append_nil] at hreg
  have hidx : (((2 * pairs.length : Nat) : Int) - 1) = ((2 * pairs.length : Nat) - 1 : Int) :=
    rfl
  have hacc : (∀ c p href, (some p, href) ∈ pairs → lib.registerNsStatus c p href = 0) →
      evalContext lib doc hereNode data =
        some { ctx1 with nsReg := withPrefix pairs ++ ctx1.nsReg } := by
    intro hall
    obtain ⟨h0, hctx2⟩ := registerSeq_accepted lib pairs.reverse ctx1
      (fun c p href hm => hall c p href (List.mem_reverse.mp hm))
    rw [evalContext_split]
    simp only [hctx, Option.some_bind, hlist, hsize]
    rw [hidx, hreg]
    simp only [Option.some_bind, h0, ne_eq, not_true_eq_false, if_false, hctx2, withPrefix,
      List.filterMap_reverse, List.reverse_reverse]
  refine ⟨hacc, ?_, ?_⟩
  · intro hnone
    have hwp : withPrefix pairs = [] := by
      simp only [withPrefix, List.filterMap_eq_nil_iff]
      intro b hb
      rw [hnone b hb]
      rfl
    rw [hacc (fun c p href hm => by have := hnone _ hm; cases this), hwp]
    rfl
  · intro p href hm hrej
    have hfail := (registerSeq_refused lib pairs.reverse ctx1).2 p href
      (List.mem_reverse.mpr hm) hrej
    have hev : evalDescriptor lib doc hereNode data = some none := by
      rw [evalDescriptor_split]
      simp only [hctx, hlist, hsize]
      rw [hidx, hreg]
      simp only [Option.map_some', hfail]
      rfl
    refine ⟨?_, hev, ?_⟩
    · rw [evalContext_split]
      simp only [hctx, Option.some_bind, hlist, hsize]
      rw [hidx, hreg]
      simp only [Option.some_bind, hfail]
      rfl
    · intro fuel h next res
      rw [executeLoop_cons, hev]
      cases opOfFilter data.xpath2Type <;> rfl

/-! ### Concrete instances of the registry, of reading and of registration -/

theorem exRegistry_callable : Callable exRegistry := by
  have hnr : exRegistry.xmlSecInputCallbackNr = 3 := by decide!
  refine ⟨by decide!, by decide!, ?_⟩
  intro i cb hi hcb _
  rw [hnr] at hi
  have hi3 : i = 0 ∨ i = 1 ∨ i = 2 := by omega
  have h0 : exRegistry.xmlSecInputCallbackTable[0]? = some ⟨some 20, some 21, some 22, some 23⟩ := by
    decide!
  have h1 : exRegistry.xmlSecInputCallbackTable[1]? = some ⟨some 10, some 11, some 12, some 13⟩ := by
    decide!
  have h2 : exRegistry.xmlSecInputCallbackTable[2]? = some ⟨some 20, some 21, some 22, some 23⟩ := by
    decide!
  rcases hi3 with rfl | rfl | rfl
  · rw [h0] at hcb; cases hcb; simp
  · rw [h1] at hcb; cases hcb; simp
  · rw [h2] at hcb; cases hcb; simp

/-- C25, instance: the first registration of a program returns `0` and fills
slot `0`; a second one returns `1`. -/
theorem register_limit_witness :
    Reachable exDefault InputCallbacks.start ∧
    ((0 ≤ InputCallbacks.start.xmlSecInputCallbackNr ∧
        InputCallbacks.start.xmlSecInputCallbackNr ≤ 15) ∧
      (InputCallbacks.start.xmlSecInputCallbackNr < 15 →
        ∃ s1, xmlSecRegisterInputCallbacks InputCallbacks.start (some 20) (some 21) (some 22)
            (some 23) = some (InputCallbacks.start.xmlSecInputCallbackNr, s1) ∧
          s1.xmlSecInputCallbackNr = InputCallbacks.start.xmlSecInputCallbackNr + 1 ∧
          s1.xmlSecInputCallbackTable[InputCallbacks.start.xmlSecInputCallbackNr.toNat]? =
            some ⟨some 20, some 21, some 22, some 23⟩ ∧
          (∀ i : Nat, i ≠ InputCallbacks.start.xmlSecInputCallbackNr.toNat →
            s1.xmlSecInputCallbackTable[i]? =
              InputCallbacks.start.xmlSecInputCallbackTable[i]?) ∧
          s1.xmlSecInputCallbackInitialized =
            InputCallbacks.start.xmlSecInputCallbackInitialized) ∧
      (InputCallbacks.start.xmlSecInputCallbackNr = 15 →
        xmlSecRegisterInputCallbacks InputCallbacks.start (some 20) (some 21) (some 22)
          (some 23) = some (-1, InputCallbacks.start)) ∧
      (∀ (r1 r2 : Int) (s1 s2 : InputCallbacks) (m2 o2 rd2 c2 : Option Nat),
        xmlSecRegisterInputCallbacks InputCallbacks.start (some 20) (some 21) (some 22)
          (some 23) = some (r1, s1) →
        0 ≤ r1 → xmlSecRegisterInputCallbacks s1 m2 o2 rd2 c2 = some (r2, s2) → 0 ≤ r2 →
        r2 = r1 + 1)) ∧
    (xmlSecRegisterInputCallbacks exUserOnly (some 10) (some 11) (some 12) (some 13)).map
      Prod.fst = some 1 :=
  ⟨Reachable.start,
    register_limit exDefault InputCallbacks.start Reachable.start (some 20) (some 21) (some 22)
      (some 23),
    by decide!⟩

/-- C27, instance: the handlers `(20, 21)`, `(10, 11)` and `(20, 21)` are
registered, and a new transform is opened with the URI `h%ttp`.  The handler in
slot `2` matches and opens the unescaped URI `http`, and the transform is bound
to it. -/
theorem open_dispatch_witness :
    (exInput.id = xmlSecBinTransformId.xmlSecInputUri ∧ exInput.data = none ∧
      Callable exRegistry) ∧
    (∃ ret t1, xmlSecInputUriTransformOpen exFuncs exRegistry (some exInput) (some "h%ttp") =
        some (ret, some t1) ∧
      (∀ u i, exFuncs.xmlURIUnescapeString "h%ttp" = some u → Selected exFuncs exRegistry u i →
        ret = 0 ∧ t1.binData = some i ∧ t1.data = streamOf exFuncs exRegistry u i ∧
          t1.data ≠ none) ∧
      ((exFuncs.xmlURIUnescapeString "h%ttp" = none ∨
          ∃ u, exFuncs.xmlURIUnescapeString "h%ttp" = some u ∧ NoneOpens exFuncs exRegistry u) →
        (∀ i, Selected exFuncs exRegistry "h%ttp" i →
          ret = 0 ∧ t1.binData = some i ∧ t1.data = streamOf exFuncs exRegistry "h%ttp" i ∧
            t1.data ≠ none) ∧
        (NoneOpens exFuncs exRegistry "h%ttp" → ret = -1 ∧ t1 = exInput))) ∧
    xmlSecInputUriTransformOpen exFuncs exRegistry (some exInput) (some "h%ttp") =
      some (0, some { exInput with data := some 7, binData := some 2 }) ∧
    xmlSecInputUriTransformOpen exFuncs exRegistry (some exInput) (some "x") =
      some (-1, some exInput) :=
  ⟨⟨rfl, rfl, exRegistry_callable⟩,
    open_dispatch exFuncs exRegistry exInput "h%ttp" rfl rfl exRegistry_callable,
    by decide!, by decide!⟩

/-- C21, instance: the filter element at `401`, with `Filter="intersect"`, is
read with the tag Intersect; the element at `405`, with `Filter="Intersect"`,
is not read. -/
theorem filter_attribute_parsing_witness :
    ((exFresh xmlSecXPathType.xmlSecXPathTypeXPath2).expr = none ∧
      (exFresh xmlSecXPathType.xmlSecXPathTypeXPath2).nsList = none ∧
      (exChild 401 XML_ELEMENT_NODE []).isNull = false ∧
      exEnv.xmlNodeGetContent (exChild 401 XML_ELEMENT_NODE []) = some "//b" ∧
      2 + 2 * countNs (exChild 401 XML_ELEMENT_NODE []) ≤ 16) ∧
    (((xmlSecXPathDataReadNode exEnv 16 (exFresh xmlSecXPathType.xmlSecXPathTypeXPath2)
          (exChild 401 XML_ELEMENT_NODE [])).2.1 = 0 ∧
        (xmlSecXPathDataReadNode exEnv 16 (exFresh xmlSecXPathType.xmlSecXPathTypeXPath2)
          (exChild 401 XML_ELEMENT_NODE [])).2.2.xpath2Type =
            xmlSecXPath2TransformType.xmlSecXPathTransformIntersect) ↔
      exEnv.xmlGetProp (exChild 401 XML_ELEMENT_NODE []) "Filter" = some "intersect") ∧
    (xmlSecXPathDataReadNode exEnv 16 (exFresh xmlSecXPathType.xmlSecXPathTypeXPath2)
      (exChild 401 XML_ELEMENT_NODE [])).2.1 = 0 ∧
    (xmlSecXPathDataReadNode exEnv 16 (exFresh xmlSecXPathType.xmlSecXPathTypeXPath2)
      (exChild 405 XML_ELEMENT_NODE [])).2.1 = -1 ∧
    (xmlSecXPathDataReadNode exEnv 16 (exFresh xmlSecXPathType.xmlSecXPathTypeXPath2)
      (exChild 406 XML_ELEMENT_NODE [])).2.1 = -1 :=
  ⟨⟨rfl, rfl, rfl, rfl, by decide⟩,
    ((filter_attribute_parsing exEnv 16 (exFresh xmlSecXPathType.xmlSecXPathTypeXPath2)
      (exChild 401 XML_ELEMENT_NODE []) "//b" rfl rfl rfl rfl (by decide)).1 rfl).1,
    by decide!, by decide!, by decide!⟩

/-- C28, instance: the expression `//b` of the element `XPath` at `411` is
stored as `(//. | //@* | //namespace::*)[//b]`. -/
theorem expression_wrapper_witness :
    ((exFresh xmlSecXPathType.xmlSecXPathTypeXPath).expr = none ∧
      (exFresh xmlSecXPathType.xmlSecXPathTypeXPath).nsList = none ∧
      (exChild 411 XML_ELEMENT_NODE []).isNull = false ∧
      exEnv.xmlNodeGetContent (exChild 411 XML_ELEMENT_NODE []) = some "//b" ∧
      2 + 2 * countNs (exChild 411 XML_ELEMENT_NODE []) ≤ 16) ∧
    ((xmlSecXPathDataReadNode exEnv 16 (exFresh xmlSecXPathType.xmlSecXPathTypeXPath)
        (exChild 411 XML_ELEMENT_NODE [])).2.1 = 0 ∧
      (xmlSecXPathDataReadNode exEnv 16 (exFresh xmlSecXPathType.xmlSecXPathTypeXPath)
        (exChild 411 XML_ELEMENT_NODE [])).2.2.expr =
          some ("(//. | //@* | //namespace::*)[" ++ "//b" ++ "]")) ∧
    (xmlSecXPathDataReadNode exEnv 16 (exFresh xmlSecXPathType.xmlSecXPathTypeXPath)
      (exChild 411 XML_ELEMENT_NODE [])).2.2.expr =
        some "(//. | //@* | //namespace::*)[//b]" ∧
    (xmlSecXPathDataReadNode exEnv 16 (exFresh xmlSecXPathType.xmlSecXPathTypeXPointer)
      (exChild 421 XML_ELEMENT_NODE [])).2.2.expr = some "//b" :=
  ⟨⟨rfl, rfl, rfl, rfl, by decide⟩,
    (expression_wrapper exEnv 16 (exFresh xmlSecXPathType.xmlSecXPathTypeXPath)
      (exChild 411 XML_ELEMENT_NODE []) "//b" rfl rfl rfl rfl (by decide)).1 rfl,
    by decide!, by decide!⟩

/-- C29, instance: the descriptor read at the element `i` of `<r xmlns:x="urn:1"
xmlns:y="urn:y"><i xmlns:x="urn:2"/></r>`; the bindings `y` and `x` of `r` are
registered first, the binding `x` of `i` last. -/
theorem namespace_registration_order_witness :
    (exUnscoped.nsList = none ∧ exI.isNull = false ∧ 1 + 2 * countNs exI ≤ 16 ∧
      baseContext exLib (some 100) NULL exUnscoped.xpathType = some exContext) ∧
    (∃ ctx, evalContext exLib (some 100) NULL
        (xmlSecXPathDataReadNsList 16 exUnscoped exI).2.2 = some ctx ∧
      registrationOrder ctx =
        registrationOrder exContext ++ (withPrefix (capturedBindings exI.parent)).reverse ++
          (withPrefix (exI.nsDef.map (fun ns => (ns.pfx, ns.href)))).reverse) ∧
    (withPrefix (capturedBindings exI.parent)).reverse =
      [("y", some "urn:y"), ("x", some "urn:1")] ∧
    (withPrefix (exI.nsDef.map (fun ns => (ns.pfx, ns.href)))).reverse = [("x", some "urn:2")] :=
  ⟨⟨rfl, rfl, by decide, rfl⟩,
    namespace_registration_order exLib (some 100) NULL 16 exUnscoped exI exContext rfl rfl
      (by decide) rfl (fun _ _ _ _ => rfl),
    by decide!, by decide!⟩

/-- C30, instance: a descriptor that holds a default namespace and the prefix
`x`; only the binding of `x` is registered.  With an evaluator that refuses the
prefix `y`, the descriptor read at the element `i`, which has `y` in scope,
fails. -/
theorem default_namespace_inert_witness :
    (exDefaultNs.nsList =
        some (flattenBindings [(none, some "urn:d"), (some "x", some "urn:2")]) ∧
      exDefaultNs.nsListSize =
        2 * ([(none, some "urn:d"), (some "x", some "urn:2")] :
          List (Option String × Option String)).length ∧
      baseContext exLib (some 100) NULL exDefaultNs.xpathType = some exContext) ∧
    ((∀ c p href, (some p, href) ∈
          ([(none, some "urn:d"), (some "x", some "urn:2")] :
            List (Option String × Option String)) →
        exLib.registerNsStatus c p href = 0) →
      evalContext exLib (some 100) NULL exDefaultNs =
        some { exContext with
          nsReg := withPrefix [(none, some "urn:d"), (some "x", some "urn:2")] ++
            exContext.nsReg }) ∧
    ((evalContext exLib (some 100) NULL exDefaultNs).map (fun c => c.nsReg)) =
      some [("x", some "urn:2")] ∧
    (evalDescriptor exLibNoY (some 100) NULL exScoped).map Option.isSome = some false ∧
    evalContext exLibNoY (some 100) NULL exScoped = none :=
  ⟨⟨rfl, rfl, rfl⟩,
    (default_namespace_inert exLib (some 100) NULL exDefaultNs
      [(none, some "urn:d"), (some "x", some "urn:2")] exContext rfl rfl rfl).1,
    by decide!, by decide!, by decide!⟩

/-- C22, instance: a first-generation transform whose configuration holds two
elements `XPath` is not read, and neither is a pointer transform whose
configuration holds an element `XPath`; with the one element `XPath`, or the one
element `XPointer`, the transform is read. -/
theorem single_filter_read_witness :
    (∃ res, xmlSecTransformXPathReadNode exEnv 5 exData0
        (some (exNew xmlSecTransformId.xmlSecTransformXPath))
        (exConfig [(411, XML_ELEMENT_NODE), (412, XML_ELEMENT_NODE)]) = some res ∧
      res.ret = -1) ∧
    (∃ res, xmlSecTransformXPointerReadNode exEnv 5 exData0
        (some (exNew xmlSecTransformId.xmlSecTransformXPointer))
        (exConfig [(411, XML_ELEMENT_NODE)]) = some res ∧
      res.ret = -1) ∧
    (xmlSecTransformXPathReadNode exEnv 5 exData0
        (some (exNew xmlSecTransformId.xmlSecTransformXPath))
        (exConfig [(411, XML_ELEMENT_NODE)])).map (fun r => r.ret) = some 0 ∧
    (xmlSecTransformXPointerReadNode exEnv 5 exData0
        (some (exNew xmlSecTransformId.xmlSecTransformXPointer))
        (exConfig [(421, XML_ELEMENT_NODE)])).map (fun r => r.ret) = some 0 :=
  ⟨(single_filter_read exEnv 5 exData0 (exNew xmlSecTransformId.xmlSecTransformXPath)
      (exConfig [(411, XML_ELEMENT_NODE), (412, XML_ELEMENT_NODE)])).2.1 (by decide)
      (Or.inr (Or.inr (by decide!))),
    (single_filter_read exEnv 5 exData0 (exNew xmlSecTransformId.xmlSecTransformXPointer)
      (exConfig [(411, XML_ELEMENT_NODE)])).2.2.2 (by decide) (Or.inr (Or.inl (by decide!))),
    by decide!, by decide!⟩

/-! ## The default handlers and the initialisation flag -/

theorem register_initialized (s s1 : InputCallbacks) (ret : Int)
    (matchFunc openFunc readFunc closeFunc : Option Nat)
    (h : xmlSecRegisterInputCallbacks s matchFunc openFunc readFunc closeFunc = some (ret, s1)) :
    s1.xmlSecInputCallbackInitialized = s.xmlSecInputCallbackInitialized := by
  unfold xmlSecRegisterInputCallbacks at h
  split_ifs at h
  · simp only [Option.some.injEq, Prod.mk.injEq] at h
    rw [← h.2]
  · simp only [Option.some.injEq, Prod.mk.injEq] at h
    rw [← h.2]

theorem cleanup_initialized (s s1 : InputCallbacks)
    (h : xmlSecCleanupInputCallbacks s = some s1) :
    s1.xmlSecInputCallbackInitialized = s.xmlSecInputCallbackInitialized := by
  unfold xmlSecCleanupInputCallbacks at h
  split_ifs at h
  · simp only [Option.some.injEq] at h
    rw [← h]
  · simp only [Option.some.injEq] at h
    rw [← h]

/-- After `xmlSecRegisterDefaultInputCallbacks` the flag is set. -/
theorem registerDefault_initialized (cfg : DefaultInput) (s s1 : InputCallbacks)
    (h : xmlSecRegisterDefaultInputCallbacks cfg s = some s1) :
    s1.xmlSecInputCallbackInitialized ≠ 0 := by
  unfold xmlSecRegisterDefaultInputCallbacks at h
  by_cases hinit : s.xmlSecInputCallbackInitialized ≠ 0
  · rw [if_pos hinit] at h
    cases h
    exact hinit
  · rw [if_neg hinit] at h
    cases h1 : xmlSecRegisterInputCallbacks s cfg.file.matchcallback cfg.file.opencallback
        cfg.file.readcallback cfg.file.closecallback with
    | none => simp [h1] at h
    | some r1 =>
      obtain ⟨ret1, t1⟩ := r1
      simp only [h1] at h
      split at h
      · simp at h
      · split at h
        · simp at h
        · simp only [Option.some.injEq] at h
          rw [← h]
          simp

/-- With the flag set, `xmlSecRegisterDefaultInputCallbacks` leaves the static
variables as they are. -/
theorem registerDefault_skip (cfg : DefaultInput) (s : InputCallbacks)
    (hinit : s.xmlSecInputCallbackInitialized ≠ 0) :
    xmlSecRegisterDefaultInputCallbacks cfg s = some s := by
  unfold xmlSecRegisterDefaultInputCallbacks
  rw [if_pos hinit]

/-- In a state the program can be in, `xmlSecRegisterDefaultInputCallbacks`
returns. -/
theorem registerDefault_returns (cfg : DefaultInput) (s : InputCallbacks)
    (hs : RegistryInv s) : ∃ s1, xmlSecRegisterDefaultInputCallbacks cfg s = some s1 := by
  have hreg : ∀ (t : InputCallbacks) (cb : xmlSecInputCallback), RegistryInv t →
      ∃ r t1, xmlSecRegisterInputCallbacks t cb.matchcallback cb.opencallback cb.readcallback
        cb.closecallback = some (r, t1) ∧ RegistryInv t1 := by
    intro t cb ht
    by_cases hlt : t.xmlSecInputCallbackNr < (MAX_INPUT_CALLBACK : Int)
    · have h1 := register_below t ht cb.matchcallback cb.opencallback cb.readcallback
        cb.closecallback hlt
      exact ⟨_, _, h1, (register_inv _ _ _ ht _ _ _ _ h1).1⟩
    · have hge : t.xmlSecInputCallbackNr ≥ (MAX_INPUT_CALLBACK : Int) := by omega
      exact ⟨-1, t, by simp only [xmlSecRegisterInputCallbacks, hge, if_true], ht⟩
  by_cases hinit : s.xmlSecInputCallbackInitialized ≠ 0
  · exact ⟨s, registerDefault_skip cfg s hinit⟩
  · obtain ⟨r1, t1, h1, ht1⟩ := hreg s cfg.file hs
    obtain ⟨r2, t2, h2, ht2⟩ := hreg t1 cfg.http ht1
    unfold xmlSecRegisterDefaultInputCallbacks
    rw [if_neg hinit]
    simp only [h1]
    cases hH : cfg.LIBXML_HTTP_ENABLED
    · obtain ⟨r3, t3, h3, -⟩ := hreg t1 cfg.ftp ht1
      cases hF : cfg.LIBXML_FTP_ENABLED <;> simp [h3]
    · obtain ⟨r3, t3, h3, -⟩ := hreg t2 cfg.ftp ht2
      cases hF : cfg.LIBXML_FTP_ENABLED <;> simp [h2, h3]

/-- The flag, once set, stays set whatever the program calls. -/
theorem reachableFrom_initialized (cfg : DefaultInput) (s0 s : InputCallbacks)
    (h0 : s0.xmlSecInputCallbackInitialized ≠ 0) (hs : ReachableFrom cfg s0 s) :
    s.xmlSecInputCallbackInitialized ≠ 0 := by
  induction hs with
  | here => exact h0
  | register m o r c _ h ih => rw [register_initialized _ _ _ m o r c h]; exact ih
  | registerDefault _ h _ => exact registerDefault_initialized cfg _ _ h
  | ioInit _ h _ => exact registerDefault_initialized cfg _ _ h
  | cleanup _ h ih => rw [cleanup_initialized _ _ h]; exact ih
  | ioShutdown _ h ih => rw [cleanup_initialized _ _ h]; exact ih

theorem reachableFrom_reachable (cfg : DefaultInput) (s0 s : InputCallbacks)
    (h0 : Reachable cfg s0) (hs : ReachableFrom cfg s0 s) : Reachable cfg s := by
  induction hs with
  | here => exact h0
  | register m o r c _ h ih => exact Reachable.register m o r c ih h
  | registerDefault _ h ih => exact Reachable.registerDefault ih h
  | ioInit _ h ih => exact Reachable.registerDefault ih h
  | cleanup _ h ih => exact Reachable.cleanup ih h
  | ioShutdown _ h ih => exact Reachable.cleanup ih h

/-! ## Destroying a chain of descriptors -/

theorem DataHeap.read_cell_xmlFree (h : DataHeap) (p q : Nat) :
    (h.xmlFree p).read q = if q = p then none else h.read q := by
  unfold DataHeap.xmlFree DataHeap.read
  by_cases hq : q = p
  · subst hq
    by_cases hlt : q < h.cells.length
    · simp [hlt]
    · rw [List.getElem?_eq_none (by simp only [List.length_set]; omega)]
      simp
  · simp [hq, List.getElem?_set_ne (Ne.symm hq)]

theorem chainCells_nil (h : DataHeap) (n : Nat) (p : Option Nat)
    (hc : chainCells h n p = some []) : p = none := by
  cases p with
  | none => rfl
  | some q =>
    cases n with
    | zero => simp [chainCells] at hc
    | succ n =>
      simp only [chainCells] at hc
      cases hr : h.read q with
      | none => simp [hr] at hc
      | some c => simp [hr] at hc

theorem chainCells_cons (h : DataHeap) (n : Nat) (p : Option Nat) (q : Nat) (rest : List Nat)
    (hc : chainCells h n p = some (q :: rest)) :
    p = some q ∧ ∃ m c, n = m + 1 ∧ h.read q = some c ∧ chainCells h m c.next = some rest := by
  cases p with
  | none => simp [chainCells] at hc
  | some q1 =>
    cases n with
    | zero => simp [chainCells] at hc
    | succ n =>
      simp only [chainCells] at hc
      cases hr : h.read q1 with
      | none => simp [hr] at hc
      | some c =>
        simp only [hr, Option.map_eq_some'] at hc
        obtain ⟨r, hr1, hr2⟩ := hc
        simp only [List.cons.injEq] at hr2
        obtain ⟨rfl, rfl⟩ := hr2
        exact ⟨rfl, n, c, rfl, hr, hr1⟩

theorem chainCells_mono (h : DataHeap) :
    ∀ (l : List Nat) (n : Nat) (p : Option Nat), chainCells h n p = some l →
      ∀ m, n ≤ m → chainCells h m p = some l := by
  intro l
  induction l with
  | nil =>
    intro n p hc m _
    rw [chainCells_nil h n p hc]
    cases m <;> rfl
  | cons q rest ih =>
    intro n p hc m hm
    obtain ⟨rfl, n1, c, rfl, hr, hrest⟩ := chainCells_cons h n p q rest hc
    obtain ⟨m1, rfl⟩ : ∃ m1, m = m1 + 1 := ⟨m - 1, by omega⟩
    simp only [chainCells, hr, ih n1 c.next hrest m1 (by omega), Option.map_some']

theorem chainCells_mem (h : DataHeap) :
    ∀ (l : List Nat) (n : Nat) (p : Option Nat), chainCells h n p = some l →
      ∀ q ∈ l, ∃ s, s.length ≤ l.length ∧ chainCells h n (some q) = some s := by
  intro l
  induction l with
  | nil => intro n p _ q hq; simp at hq
  | cons q0 rest ih =>
    intro n p hc q hq
    obtain ⟨rfl, n1, c, rfl, hr, hrest⟩ := chainCells_cons h n p q0 rest hc
    rcases List.mem_cons.mp hq with rfl | hq
    · exact ⟨_, le_refl _, hc⟩
    · obtain ⟨s, hs, hcs⟩ := ih n1 c.next hrest q hq
      exact ⟨s, by simp only [List.length_cons]; omega,
        chainCells_mono h s n1 (some q) hcs (n1 + 1) (by omega)⟩

theorem chainCells_nodup (h : DataHeap) :
    ∀ (l : List Nat) (n : Nat) (p : Option Nat), chainCells h n p = some l → l.Nodup := by
  intro l
  induction l with
  | nil => intro _ _ _; exact List.nodup_nil
  | cons q rest ih =>
    intro n p hc
    obtain ⟨rfl, n1, c, rfl, hr, hrest⟩ := chainCells_cons h n p q rest hc
    refine List.nodup_cons.mpr ⟨?_, ih n1 c.next hrest⟩
    intro hq
    obtain ⟨s, hs, hcs⟩ := chainCells_mem h rest n1 c.next hrest q hq
    have := chainCells_mono h s n1 (some q) hcs (n1 + 1) (by omega)
    rw [hc] at this
    simp only [Option.some.injEq] at this
    rw [← this] at hs
    simp at hs

theorem chainCells_free (h : DataHeap) (p0 : Nat) :
    ∀ (l : List Nat) (n : Nat) (p : Option Nat), p0 ∉ l → chainCells h n p = some l →
      chainCells (h.xmlFree p0) n p = some l := by
  intro l
  induction l with
  | nil =>
    intro n p _ hc
    rw [chainCells_nil h n p hc]
    cases n <;> rfl
  | cons q rest ih =>
    intro n p hp0 hc
    obtain ⟨rfl, n1, c, rfl, hr, hrest⟩ := chainCells_cons h n p q rest hc
    have hne : q ≠ p0 := fun hq => hp0 (by simp [hq])
    have hr1 : (h.xmlFree p0).read q = some c := by
      rw [DataHeap.read_cell_xmlFree, if_neg hne, hr]
    simp only [chainCells, hr1,
      ih n1 c.next (fun hm => hp0 (List.mem_cons_of_mem _ hm)) hrest, Option.map_some']

/-- The function `xmlSecXPathDataDestroy` on a chain of descriptors: with fuel
for every record and one round more it returns; the records of the chain are
released and the others are as before. -/
theorem dataDestroy_chain (n : Nat) :
    ∀ (l : List Nat) (h : DataHeap) (p : Option Nat), chainCells h n p = some l →
      ∀ fuel, l.length + 1 ≤ fuel →
        ∃ h1, xmlSecXPathDataDestroy fuel h p = some h1 ∧ (∀ q ∈ l, h1.read q = none) ∧
          (∀ q, q ∉ l → h1.read q = h.read q) ∧ h1.avail = h.avail ∧
          h1.cells.length = h.cells.length := by
  intro l
  induction l with
  | nil =>
    intro h p hc fuel hfuel
    rw [chainCells_nil h n p hc]
    obtain ⟨f, rfl⟩ : ∃ f, fuel = f + 1 := ⟨fuel - 1, by simp at hfuel; omega⟩
    exact ⟨h, rfl, by simp, fun _ _ => rfl, rfl, rfl⟩
  | cons q rest ih =>
    intro h p hc fuel hfuel
    have hnd := chainCells_nodup h _ n p hc
    obtain ⟨rfl, n1, c, rfl, hr, hrest⟩ := chainCells_cons h n p q rest hc
    obtain ⟨f, rfl⟩ : ∃ f, fuel = f + 1 := ⟨fuel - 1, by simp at hfuel; omega⟩
    have hq : q ∉ rest := (List.nodup_cons.mp hnd).1
    have hrest1 := chainCells_free h q rest n1 c.next hq hrest
    obtain ⟨h1, hrun, hfreed, hframe, hav, hlen⟩ :=
      ih (h.xmlFree q) c.next (chainCells_mono _ rest n1 c.next hrest1 (n1 + 1) (by omega)) f
        (by simp only [List.length_cons] at hfuel; omega)
    refine ⟨h1, by simp only [xmlSecXPathDataDestroy, hr, hrun], ?_, ?_, ?_, ?_⟩
    · intro x hx
      rcases List.mem_cons.mp hx with rfl | hx
      · rw [hframe x hq, DataHeap.read_cell_xmlFree]; simp
      · exact hfreed x hx
    · intro x hx
      have hx1 : x ∉ rest := fun hm => hx (List.mem_cons_of_mem _ hm)
      have hx2 : x ≠ q := fun he => hx (by simp [he])
      rw [hframe x hx1, DataHeap.read_cell_xmlFree, if_neg hx2]
    · rw [hav]; rfl
    · rw [hlen]; simp [DataHeap.xmlFree]

/-- The loop of `xmlSecTransformXPath2ReadNode` on a chain of siblings without
an element: the answer is `0`, nothing is created, and the `here` node is set. -/
theorem xpath2ReadLoop_empty (env : ReadEnv) (fuel : Nat) (transformNode : xmlNodePtr) :
    ∀ (ch : xmlTreePtr), (xmlSecGetNextElementNode ch).self.isNull = true →
      ∀ (h : DataHeap) (t : xmlSecXmlTransformCell) (data : Option Nat),
        xpath2ReadLoop env fuel transformNode ch h t data =
          some ⟨0, h, some { t with here := transformNode }⟩ := by
  intro ch
  induction ch with
  | NULL => intro _ h t data; rfl
  | node a ty p d x n pr c next _ _ ihn =>
    intro hnull h t data
    by_cases hty : ty = XML_ELEMENT_NODE
    · simp [xmlSecGetNextElementNode, hty, xmlTreePtr.self, xmlNodePtr.isNull] at hnull
    · simp only [xmlSecGetNextElementNode, hty, if_false] at hnull
      simp only [xpath2ReadLoop, ne_eq, hty, not_false_eq_true, if_true]
      exact ihn hnull h t data

/-! ## Destroying a ring with nested records -/

theorem rawOf_events_reverse (h : Heap) (q : Nat) :
    ((rawOf h q).map HeapEvent.xmlXPathFreeNodeSet).reverse =
      (rawOf h q).map HeapEvent.xmlXPathFreeNodeSet := by
  unfold rawOf
  cases (h.read q).bind (fun c => c.nodes) <;> rfl

/-- The function `xmlSecNodeSetDestroy` on a nested record that is a ring of its
own without nested record: with fuel for three rounds its raw collection and
the record are released. -/
theorem destroy_singleton (h : Heap) (m : Nat) (hs : singletonChild h m) :
    ∃ h1, (∀ fuel, 3 ≤ fuel → xmlSecNodeSetDestroy fuel h (some m) = some h1) ∧
      (∀ q, h1.read q = if q = m then none else h.read q) ∧
      h1.log = HeapEvent.xmlFree m :: ((rawOf h m).map HeapEvent.xmlXPathFreeNodeSet ++ h.log) ∧
      h1.cells.length = h.cells.length ∧ h1.avail = h.avail := by
  obtain ⟨mc, hm, hnext, hch⟩ := hs
  cases hN : mc.nodes with
  | none =>
    refine ⟨h.xmlFree m, ?_, fun q => Heap.read_xmlFree h m q, ?_, by simp [Heap.xmlFree], rfl⟩
    · intro fuel hfuel
      obtain ⟨f, rfl⟩ : ∃ f, fuel = f + 3 := ⟨fuel - 3, by omega⟩
      simp [xmlSecNodeSetDestroy, xmlSecNodeSetDestroyLoop, hm, hnext, hch, hN]
    · simp [rawOf, hm, hN, Heap.xmlFree]
  | some nodes =>
    refine ⟨(h.xmlXPathFreeNodeSet nodes).xmlFree m, ?_, ?_, ?_, by simp [Heap.xmlFree,
      Heap.xmlXPathFreeNodeSet], rfl⟩
    · intro fuel hfuel
      obtain ⟨f, rfl⟩ : ∃ f, fuel = f + 3 := ⟨fuel - 3, by omega⟩
      simp [xmlSecNodeSetDestroy, xmlSecNodeSetDestroyLoop, hm, hnext, hch, hN,
        Heap.read_xmlXPathFreeNodeSet]
    · intro q
      rw [Heap.read_xmlFree, Heap.read_xmlXPathFreeNodeSet]
    · simp [rawOf, hm, hN, Heap.xmlFree, Heap.xmlXPathFreeNodeSet]

/-- The last round of the loop of `xmlSecNodeSetDestroy`: the ring has the one
member `m0`, which may have a nested record. -/
theorem destroy_final (h : Heap) (m0 : Nat) (c0 : xmlSecNodeSet) (hm0 : h.read m0 = some c0)
    (hnext : c0.next = some m0)
    (hch : ∀ m, c0.children = some m → m ≠ m0 ∧ singletonChild h m) :
    ∃ h1, (∀ fuel, 4 ≤ fuel → xmlSecNodeSetDestroyLoop fuel h (some m0) = some h1) ∧
      (∀ q, h1.read q = if q = m0 ∨ c0.children = some q then none else h.read q) ∧
      h1.log = (releasesOf h m0).reverse ++ h.log ∧
      h1.cells.length = h.cells.length ∧ h1.avail = h.avail := by
  obtain ⟨h3, hh3⟩ : ∃ h3 : Heap, h3 = (match c0.nodes with
    | some nodes => h.xmlXPathFreeNodeSet nodes
    | none => h) := ⟨_, rfl⟩
  have hr3 : ∀ q, h3.read q = h.read q := by
    intro q; rw [hh3]; cases c0.nodes <;> rfl
  have hlen3 : h3.cells.length = h.cells.length ∧ h3.avail = h.avail := by
    rw [hh3]; cases c0.nodes <;> simp [Heap.xmlXPathFreeNodeSet]
  have hlog3 : h3.log = ((rawOf h m0).map HeapEvent.xmlXPathFreeNodeSet).reverse ++ h.log := by
    rw [hh3]; cases hN : c0.nodes <;> simp [rawOf, hm0, hN, Heap.xmlXPathFreeNodeSet]
  have hraw3 : ∀ q, rawOf h3 q = rawOf h q := by
    intro q; simp only [rawOf, hr3]
  cases hC : c0.children with
  | none =>
    refine ⟨h3.xmlFree m0, ?_, ?_, ?_, by simp [Heap.xmlFree, hlen3.1],
      by simp [Heap.xmlFree, hlen3.2]⟩
    · intro fuel hfuel
      obtain ⟨f, rfl⟩ : ∃ f, fuel = f + 2 := ⟨fuel - 2, by omega⟩
      simp only [xmlSecNodeSetDestroyLoop, hm0, hnext, ne_eq, not_true_eq_false, if_false, hC]
      cases hN : c0.nodes <;> simp only [hN] at hh3 ⊢ <;> rw [← hh3] <;>
        simp only [hr3, hm0]
    · intro q
      rw [Heap.read_xmlFree, hr3]
      simp
    · simp [releasesOf, childOf, hm0, hC, hlog3, Heap.xmlFree]
  | some m =>
    obtain ⟨hmne, hsing⟩ := hch m hC
    have hs3 : singletonChild h3 m := by
      obtain ⟨mc, h1, h2, h3c⟩ := hsing
      exact ⟨mc, by rw [hr3, h1], h2, h3c⟩
    obtain ⟨h4, hd, hr4, hlog4, hlen4, hav4⟩ := destroy_singleton h3 m hs3
    have h4m0 : h4.read m0 = some c0 := by
      rw [hr4, if_neg (Ne.symm hmne), hr3, hm0]
    refine ⟨h4.xmlFree m0, ?_, ?_, ?_, by simp [Heap.xmlFree, hlen4, hlen3.1],
      by simp [Heap.xmlFree, hav4, hlen3.2]⟩
    · intro fuel hfuel
      obtain ⟨f, rfl⟩ : ∃ f, fuel = f + 2 := ⟨fuel - 2, by omega⟩
      have hd1 := hd (f + 1) (by omega)
      simp only [xmlSecNodeSetDestroyLoop, hm0, hnext, ne_eq, not_true_eq_false, if_false, hC]
      cases hN : c0.nodes <;> simp only [hN] at hh3 ⊢ <;> rw [← hh3] <;>
        simp only [hd1, h4m0]
    · intro q
      rw [Heap.read_xmlFree, hr4, hr3]
      by_cases hq0 : q = m0
      · simp [hq0]
      · by_cases hqm : q = m
        · simp [hqm]
        · have : ¬ (m = q) := fun e => hqm e.symm
          simp [hq0, hqm, this]
    · simp [releasesOf, childOf, hm0, hC, hlog4, hlog3, hraw3, Heap.xmlFree,
        rawOf_events_reverse]

/-- One round of the loop of `xmlSecNodeSetDestroy` on a ring of at least two
members: the entry point `m0` is taken out of the ring, its raw collection and
its nested record are released, then the record itself, and the loop goes on at
the next member `m1`. -/
theorem destroy_round (h : Heap) (m0 m1 last : Nat) (c0 c1 cl : xmlSecNodeSet)
    (hm0 : h.read m0 = some c0) (hm1 : h.read m1 = some c1)
    (hl : h.read last = some cl) (hne : m1 ≠ m0) (hlne : last ≠ m0)
    (hnext : c0.next = some m1) (hprev : c0.prev = some last)
    (hch : ∀ m, c0.children = some m → m ≠ m0 ∧ m ≠ m1 ∧ m ≠ last ∧ singletonChild h m) :
    ∃ h5, (∀ fuel, 3 ≤ fuel → xmlSecNodeSetDestroyLoop (fuel + 1) h (some m0) =
        xmlSecNodeSetDestroyLoop fuel h5 (some m1)) ∧
      (∀ q, h5.read q = if q = m0 ∨ c0.children = some q then none else
        (h.read q).map (fun c => { c with
          prev := if q = m1 then some last else c.prev
          next := if q = last then some m1 else c.next })) ∧
      h5.log = (releasesOf h m0).reverse ++ h.log ∧
      h5.cells.length = h.cells.length ∧ h5.avail = h.avail := by
  have hlt0 := Heap.read_lt hm0
  have hlt1 := Heap.read_lt hm1
  have hltl := Heap.read_lt hl
  -- the two writes that take `m0` out of the ring
  obtain ⟨h1, hh1⟩ : ∃ h1, h1 = h.write m1 { c1 with prev := c0.prev } := ⟨_, rfl⟩
  have hr1 : ∀ q, h1.read q = if q = m1 then some { c1 with prev := c0.prev } else h.read q := by
    intro q; rw [hh1]; exact Heap.read_write _ hlt1
  obtain ⟨cl1, hcl1⟩ : ∃ cl1, h1.read last = some cl1 := by
    rw [hr1]; split_ifs
    · exact ⟨_, rfl⟩
    · exact ⟨cl, hl⟩
  obtain ⟨h2, hh2⟩ : ∃ h2, h2 = h1.write last { cl1 with next := c0.next } := ⟨_, rfl⟩
  have hr2 : ∀ q, h2.read q = if q = last then some { cl1 with next := c0.next }
      else h1.read q := by
    intro q; rw [hh2]; exact Heap.read_write _ (by rw [hh1]; simpa using hltl)
  have h1m0 : h1.read m0 = some c0 := by rw [hr1, if_neg (Ne.symm hne), hm0]
  have h2m0 : h2.read m0 = some c0 := by rw [hr2, if_neg (Ne.symm hlne), h1m0]
  have hlog2 : h2.log = h.log := by rw [hh2, hh1]; rfl
  obtain ⟨h3, hh3⟩ : ∃ h3 : Heap, h3 = (match c0.nodes with
    | some nodes => h2.xmlXPathFreeNodeSet nodes
    | none => h2) := ⟨_, rfl⟩
  have hr3 : ∀ q, h3.read q = h2.read q := by
    intro q
    rw [hh3]
    cases c0.nodes <;> rfl
  have hlen3 : h3.cells.length = h.cells.length ∧ h3.avail = h.avail := by
    rw [hh3]
    cases c0.nodes <;> simp [Heap.xmlXPathFreeNodeSet, hh2, hh1]
  have hlog3 : h3.log = ((rawOf h m0).map HeapEvent.xmlXPathFreeNodeSet).reverse ++ h.log := by
    rw [hh3]; cases hN : c0.nodes <;> simp [rawOf, hm0, hN, Heap.xmlXPathFreeNodeSet, hlog2]
  -- what the cells read after the two writes
  have hrel : ∀ q, q ≠ m0 → h3.read q = (h.read q).map (fun c => { c with
      prev := if q = m1 then some last else c.prev
      next := if q = last then some m1 else c.next }) := by
    intro q hq0
    rw [hr3, hr2, hr1]
    have hcl1v : cl1 = if last = m1 then { c1 with prev := c0.prev } else cl := by
      have := hcl1
      rw [hr1] at this
      split_ifs at this ⊢ with hlm
      · exact (Option.some.inj this).symm
      · rw [hl] at this; exact (Option.some.inj this).symm
    by_cases hql : q = last
    · subst hql
      by_cases hq1 : q = m1
      · subst hq1
        simp [hcl1v, hm1, hnext, hprev]
      · simp [hcl1v, hq1, hl, hnext]
    · by_cases hq1 : q = m1
      · subst hq1
        simp [hql, hm1, hprev]
      · simp only [hql, hq1, if_false]
        cases h.read q <;> simp
  have hnn : ¬ (some m1 = some m0) := by simpa using hne
  cases hC : c0.children with
  | none =>
    refine ⟨h3.xmlFree m0, ?_, ?_, ?_, by simp [Heap.xmlFree, hlen3.1],
      by simp [Heap.xmlFree, hlen3.2]⟩
    · intro fuel _
      simp only [xmlSecNodeSetDestroyLoop, hm0, hnext, ne_eq, hnn, not_false_eq_true, if_true,
        Option.some_bind, hm1]
      rw [← hh1]
      simp only [h1m0, hprev, Option.some_bind, hcl1]
      rw [← hh2]
      simp only [h2m0, Option.map_some', hC]
      cases hN : c0.nodes <;> simp only [hN] at hh3 ⊢ <;> rw [← hh3] <;>
        simp only [hr3, h2m0, hnext]
    · intro q
      rw [Heap.read_xmlFree]
      by_cases hq0 : q = m0
      · simp [hq0]
      · simp only [hq0, if_false, false_or, reduceCtorEq]
        exact hrel q hq0
    · simp [releasesOf, childOf, hm0, hC, hlog3, Heap.xmlFree]
  | some m =>
    obtain ⟨hmne, hmne1, hmnel, hsing⟩ := hch m hC
    have hs3 : singletonChild h3 m := by
      obtain ⟨mc, hx1, hx2, hx3⟩ := hsing
      refine ⟨mc, ?_, hx2, hx3⟩
      rw [hrel m hmne, hx1]
      simp [hmne1, hmnel]
    have hraw3 : rawOf h3 m = rawOf h m := by
      simp only [rawOf, hrel m hmne]
      cases h.read m <;> rfl
    obtain ⟨h4, hd, hr4, hlog4, hlen4, hav4⟩ := destroy_singleton h3 m hs3
    have h4m0 : h4.read m0 = some c0 := by
      rw [hr4, if_neg (Ne.symm hmne), hr3, h2m0]
    refine ⟨h4.xmlFree m0, ?_, ?_, ?_, by simp [Heap.xmlFree, hlen4, hlen3.1],
      by simp [Heap.xmlFree, hav4, hlen3.2]⟩
    · intro fuel hfuel
      have hd1 := hd fuel hfuel
      simp only [xmlSecNodeSetDestroyLoop, hm0, hnext, ne_eq, hnn, not_false_eq_true, if_true,
        Option.some_bind, hm1]
      rw [← hh1]
      simp only [h1m0, hprev, Option.some_bind, hcl1]
      rw [← hh2]
      simp only [h2m0, Option.map_some', hC]
      cases hN : c0.nodes <;> simp only [hN] at hh3 ⊢ <;> rw [← hh3] <;>
        simp only [hd1, h4m0, hnext]
    · intro q
      rw [Heap.read_xmlFree, hr4]
      by_cases hq0 : q = m0
      · simp [hq0]
      · by_cases hqm : q = m
        · simp [hqm]
        · have : ¬ (m = q) := fun e => hqm e.symm
          simp only [hq0, hqm, if_false, Option.some.injEq, this, or_self]
          exact hrel q hq0
    · simp [releasesOf, childOf, hm0, hC, hlog4, hlog3, hraw3, Heap.xmlFree,
        rawOf_events_reverse]

/-- A ring from which the round of `xmlSecNodeSetDestroy` has taken the entry
point: the members that remain form a ring among themselves. -/
theorem isRing_unlink (h h5 : Heap) (m0 m1 : Nat) (rest : List Nat) (last : Nat)
    (hr : IsRing h (m0 :: m1 :: rest)) (hlast : (m1 :: rest).getLast? = some last)
    (hread : ∀ q ∈ m1 :: rest, h5.read q = (h.read q).map (fun c => { c with
        prev := if q = m1 then some last else c.prev
        next := if q = last then some m1 else c.next })) :
    IsRing h5 (m1 :: rest) := by
  have hnd : (m1 :: rest).Nodup := (List.nodup_cons.mp hr.2.1).2
  have hlastAt : (m1 :: rest)[rest.length]? = some last := by
    rw [List.getLast?_eq_getElem?] at hlast
    simpa using hlast
  refine IsRing.intro (by simp) hnd ?_
  intro i e he
  have hi : i < rest.length + 1 := by
    have := (List.getElem?_eq_some.mp he).1
    simpa using this
  have heL : (m0 :: m1 :: rest)[i + 1]? = some e := by simpa using he
  obtain ⟨c, hc, hcn, hcp⟩ := hr.cell heL
  have hmem : e ∈ m1 :: rest := List.getElem?_mem he
  have hlastIff : e = last ↔ i = rest.length := by
    constructor
    · intro hel
      subst hel
      exact List.getElem?_inj (by simpa using hi) hnd (he.trans hlastAt.symm)
    · intro hil
      subst hil
      rw [he] at hlastAt
      exact Option.some.inj hlastAt
  have hfirstIff : e = m1 ↔ i = 0 := by
    constructor
    · intro hel
      subst hel
      exact List.getElem?_inj (by simpa using hi) hnd (he.trans (by simp))
    · intro hil
      subst hil
      simpa using he.symm
  rw [hread e hmem, hc]
  simp only [Option.map_some', List.length_cons, Option.some.injEq]
  constructor
  · by_cases hil : i = rest.length
    · rw [if_pos (hlastIff.mpr hil)]
      subst hil
      simp [succIdx]
    · rw [if_neg (fun x => hil (hlastIff.mp x)), hcn]
      have h1 : succIdx (rest.length + 1 + 1) (i + 1) = i + 1 + 1 := by
        unfold succIdx; rw [if_pos (by omega)]
      have h2 : succIdx (rest.length + 1) i = i + 1 := by
        unfold succIdx; rw [if_pos (by omega)]
      simp only [List.length_cons, h1, h2, List.getElem?_cons_succ]
  · by_cases hi0 : i = 0
    · rw [if_pos (hfirstIff.mpr hi0)]
      subst hi0
      have h2 : predIdx (rest.length + 1) 0 = rest.length := by
        unfold predIdx; simp
      rw [h2, hlastAt]
    · rw [if_neg (fun x => hi0 (hfirstIff.mp x)), hcp]
      have h1 : predIdx (rest.length + 1 + 1) (i + 1) = i := by
        unfold predIdx; simp
      have h2 : predIdx (rest.length + 1) i = i - 1 := by
        unfold predIdx; rw [if_neg hi0]
      obtain ⟨k, rfl⟩ : ∃ k, i = k + 1 := ⟨i - 1, by omega⟩
      simp only [List.length_cons, h1, h2, List.getElem?_cons_succ, Nat.add_sub_cancel]

theorem relink_children (r : Option xmlSecNodeSet) (f g : xmlSecNodeSet → Option Nat) :
    (r.map (fun c => { c with prev := f c, next := g c })).bind (fun c => c.children) =
      r.bind (fun c => c.children) ∧
    (r.map (fun c => { c with prev := f c, next := g c })).bind (fun c => c.nodes) =
      r.bind (fun c => c.nodes) := by
  cases r <;> simp

/-- One round of the loop of `xmlSecNodeSetDestroy` on a ring with nested
records: the entry point and its nested record are released, and the members
that remain form such a ring again, each with the raw collection and the
nested record it had. -/
theorem nested_round (h : Heap) (m0 m1 : Nat) (rest : List Nat)
    (hn : NestedRing h (m0 :: m1 :: rest)) :
    ∃ h5, (∀ fuel, 3 ≤ fuel → xmlSecNodeSetDestroyLoop (fuel + 1) h (some m0) =
        xmlSecNodeSetDestroyLoop fuel h5 (some m1)) ∧
      NestedRing h5 (m1 :: rest) ∧
      (∀ q ∈ m1 :: rest, childOf h5 q = childOf h q ∧ releasesOf h5 q = releasesOf h q) ∧
      h5.log = (releasesOf h m0).reverse ++ h.log ∧
      (∀ q ∈ (childOf h m0).toList ++ [m0], h5.read q = none) ∧
      (∀ q, q ∉ (childOf h m0).toList ++ m0 :: m1 :: rest → h5.read q = h.read q) ∧
      (∀ q, h.read q = none → h5.read q = none) ∧
      h5.cells.length = h.cells.length ∧ h5.avail = h.avail := by
  obtain ⟨hr, hchild, hinj⟩ := hn
  have hnd := hr.2.1
  obtain ⟨last, hlast⟩ : ∃ last, (m1 :: rest).getLast? = some last := by
    cases hx : (m1 :: rest).getLast? with
    | none => simp at hx
    | some l => exact ⟨l, rfl⟩
  have hlastAt : (m1 :: rest)[rest.length]? = some last := by
    rw [List.getLast?_eq_getElem?] at hlast
    simpa using hlast
  have hlastmem : last ∈ m1 :: rest := List.getElem?_mem hlastAt
  have hm0out : m0 ∉ m1 :: rest := (List.nodup_cons.mp hnd).1
  have hlne : last ≠ m0 := fun e => hm0out (e ▸ hlastmem)
  have hne : m1 ≠ m0 := fun e => hm0out (by simp [e])
  obtain ⟨c0, hm0, hnext, hprev⟩ := hr.cell (i := 0) (e := m0) rfl
  have hnext1 : c0.next = some m1 := by simpa [succIdx] using hnext
  have hprev1 : c0.prev = some last := by
    rw [hprev]
    have : predIdx (m0 :: m1 :: rest).length 0 = rest.length + 1 := by simp [predIdx]
    rw [this]
    simpa using hlastAt
  obtain ⟨c1, hm1, -, -⟩ := hr.cell (i := 1) (e := m1) (by simp)
  obtain ⟨cl, hl, -, -⟩ := hr.cell (i := rest.length + 1) (e := last) (by simpa using hlastAt)
  have hc0child : childOf h m0 = c0.children := by simp [childOf, hm0]
  have hch : ∀ m, c0.children = some m → m ≠ m0 ∧ m ≠ m1 ∧ m ≠ last ∧ singletonChild h m := by
    intro m hm
    obtain ⟨hout, hs⟩ := hchild m0 (by simp) m (by rw [hc0child, hm])
    refine ⟨fun e => hout (by simp [e]), fun e => hout (by simp [e]), ?_, hs⟩
    intro e
    exact hout (e ▸ List.mem_cons_of_mem _ hlastmem)
  obtain ⟨h5, hloop, hread, hlog, hlen, hav⟩ :=
    destroy_round h m0 m1 last c0 c1 cl hm0 hm1 hl hne hlne hnext1 hprev1 hch
  -- the members that remain are relinked, the records outside are as before
  have hin : ∀ q ∈ m1 :: rest, h5.read q = (h.read q).map (fun c => { c with
      prev := if q = m1 then some last else c.prev
      next := if q = last then some m1 else c.next }) := by
    intro q hq
    rw [hread q]
    have h1 : q ≠ m0 := fun e => hm0out (e ▸ hq)
    have h2 : c0.children ≠ some q := by
      intro e
      exact (hchild m0 (by simp) q (by rw [hc0child, e])).1 (List.mem_cons_of_mem _ hq)
    simp [h1, h2]
  have hout : ∀ q, q ∉ m0 :: m1 :: rest → c0.children ≠ some q → h5.read q = h.read q := by
    intro q hq hqc
    rw [hread q]
    have h1 : q ≠ m0 := fun e => hq (by simp [e])
    have h2 : q ≠ m1 := fun e => hq (by simp [e])
    have h3 : q ≠ last := fun e => hq (e ▸ List.mem_cons_of_mem _ hlastmem)
    simp only [h1, hqc, or_self, if_false, h2, h3]
    cases h.read q <;> rfl
  have hchildEq : ∀ q ∈ m1 :: rest, childOf h5 q = childOf h q := by
    intro q hq
    simp only [childOf, hin q hq]
    exact (relink_children _ _ _).1
  have hrawIn : ∀ q ∈ m1 :: rest, rawOf h5 q = rawOf h q := by
    intro q hq
    simp only [rawOf, hin q hq, (relink_children _ _ _).2]
  have hkid : ∀ q ∈ m1 :: rest, ∀ m, childOf h q = some m →
      m ∉ m0 :: m1 :: rest ∧ h5.read m = h.read m ∧ singletonChild h m := by
    intro q hq m hm
    obtain ⟨ho, hs⟩ := hchild q (List.mem_cons_of_mem _ hq) m hm
    refine ⟨ho, hout m ho ?_, hs⟩
    intro e
    have := hinj q (List.mem_cons_of_mem _ hq) m0 (by simp) m hm (by rw [hc0child, e])
    exact hm0out (this ▸ hq)
  refine ⟨h5, hloop, ⟨isRing_unlink h h5 m0 m1 rest last hr hlast hin, ?_, ?_⟩, ?_, hlog, ?_, ?_,
    ?_, hlen, hav⟩
  · intro q hq m hm
    rw [hchildEq q hq] at hm
    obtain ⟨ho, hrd, mc, hs1, hs2, hs3⟩ := hkid q hq m hm
    exact ⟨fun e => ho (List.mem_cons_of_mem _ e), mc, by rw [hrd, hs1], hs2, hs3⟩
  · intro q hq q1 hq1 m hm hm1
    rw [hchildEq q hq] at hm
    rw [hchildEq q1 hq1] at hm1
    exact hinj q (List.mem_cons_of_mem _ hq) q1 (List.mem_cons_of_mem _ hq1) m hm hm1
  · intro q hq
    refine ⟨hchildEq q hq, ?_⟩
    simp only [releasesOf, hchildEq q hq, hrawIn q hq]
    cases hk : childOf h q with
    | none => rfl
    | some m =>
      obtain ⟨-, hrd, -⟩ := hkid q hq m hk
      simp only [rawOf, hrd]
  · intro q hq
    rw [hread q]
    simp only [List.mem_append, Option.mem_toList, Option.mem_def, List.mem_singleton,
      hc0child] at hq
    rcases hq with hq | hq
    · simp [hq]
    · simp [hq]
  · intro q hq
    simp only [List.mem_append, Option.mem_toList, Option.mem_def, hc0child, not_or] at hq
    exact hout q hq.2 hq.1
  · intro q hq
    rw [hread q, hq]
    simp

theorem flatMap_ext_mem {α β : Type} (l : List α) (f g : α → List β)
    (hfg : ∀ x ∈ l, f x = g x) : l.flatMap f = l.flatMap g := by
  induction l with
  | nil => rfl
  | cons a rest ih =>
    simp only [List.flatMap_cons]
    rw [hfg a (by simp), ih (fun x hx => hfg x (List.mem_cons_of_mem _ hx))]

theorem mem_recordsOf (h : Heap) (ms : List Nat) (q : Nat) (hq : q ∈ ms) : q ∈ recordsOf h ms := by
  simp only [recordsOf, List.mem_flatMap]
  exact ⟨q, hq, by simp⟩

theorem recordsOf_cons (h : Heap) (m0 : Nat) (ms : List Nat) :
    recordsOf h (m0 :: ms) = ((childOf h m0).toList ++ [m0]) ++ recordsOf h ms := by
  simp [recordsOf]

/-- The loop of `xmlSecNodeSetDestroy` on a ring with nested records, entered at
its member `m0`: with fuel for every member and four rounds more it returns;
the members and their nested records are released, in the order of the ring,
and the other records are as before. -/
theorem destroyLoop_nested : ∀ (ms : List Nat) (h : Heap) (m0 : Nat),
    NestedRing h (m0 :: ms) →
    ∃ h1, (∀ fuel, ms.length + 4 ≤ fuel → xmlSecNodeSetDestroyLoop fuel h (some m0) = some h1) ∧
      (∀ q ∈ recordsOf h (m0 :: ms), h1.read q = none) ∧
      (∀ q, q ∉ recordsOf h (m0 :: ms) → h1.read q = h.read q) ∧
      h1.log = ((m0 :: ms).flatMap (releasesOf h)).reverse ++ h.log ∧
      (∀ q, h.read q = none → h1.read q = none) ∧
      h1.cells.length = h.cells.length ∧ h1.avail = h.avail := by
  intro ms
  induction ms with
  | nil =>
    intro h m0 hn
    obtain ⟨hr, hchild, -⟩ := hn
    obtain ⟨c0, hm0, hnext, -⟩ := isRing_singleton_iff.mp hr
    have hc0child : childOf h m0 = c0.children := by simp [childOf, hm0]
    have hch : ∀ m, c0.children = some m → m ≠ m0 ∧ singletonChild h m := by
      intro m hm
      obtain ⟨ho, hs⟩ := hchild m0 (by simp) m (by rw [hc0child, hm])
      exact ⟨fun e => ho (by simp [e]), hs⟩
    obtain ⟨h1, hloop, hread, hlog, hlen, hav⟩ := destroy_final h m0 c0 hm0 hnext hch
    refine ⟨h1, fun fuel hf => hloop fuel (by simpa using hf), ?_, ?_, ?_, ?_, hlen, hav⟩
    · intro q hq
      simp only [recordsOf, List.flatMap_cons, List.flatMap_nil, List.append_nil,
        List.mem_append, Option.mem_toList, Option.mem_def, List.mem_singleton,
        hc0child] at hq
      rw [hread q]
      rcases hq with hq | hq
      · simp [hq]
      · simp [hq]
    · intro q hq
      simp only [recordsOf, List.flatMap_cons, List.flatMap_nil, List.append_nil,
        List.mem_append, Option.mem_toList, Option.mem_def, List.mem_singleton,
        hc0child, not_or] at hq
      rw [hread q]
      simp [hq.1, hq.2]
    · simpa using hlog
    · intro q hq
      rw [hread q, hq]
      simp
  | cons m1 rest ih =>
    intro h m0 hn
    obtain ⟨h5, hloop, hn5, hsame, hlog5, hfreed5, hframe5, hnone5, hlen5, hav5⟩ :=
      nested_round h m0 m1 rest hn
    obtain ⟨h1, hrun, hfreed, hframe, hlog, hnone, hlen, hav⟩ := ih h5 m1 hn5
    have hrec : recordsOf h5 (m1 :: rest) = recordsOf h (m1 :: rest) := by
      unfold recordsOf
      exact flatMap_ext_mem _ _ _ (fun q hq => by rw [(hsame q hq).1])
    have hrel : (m1 :: rest).flatMap (releasesOf h5) = (m1 :: rest).flatMap (releasesOf h) :=
      flatMap_ext_mem _ _ _ (fun q hq => (hsame q hq).2)
    refine ⟨h1, ?_, ?_, ?_, ?_, fun q hq => hnone q (hnone5 q hq), by rw [hlen, hlen5],
      by rw [hav, hav5]⟩
    · intro fuel hfuel
      obtain ⟨f, rfl⟩ : ∃ f, fuel = f + 1 := ⟨fuel - 1, by simp at hfuel; omega⟩
      simp only [List.length_cons] at hfuel
      rw [hloop f (by omega)]
      exact hrun f (by omega)
    · intro q hq
      rw [recordsOf_cons, List.mem_append] at hq
      rcases hq with hq | hq
      · exact hnone q (hfreed5 q hq)
      · exact hfreed q (by rw [hrec]; exact hq)
    · intro q hq
      rw [recordsOf_cons, List.mem_append, not_or] at hq
      rw [hframe q (by rw [hrec]; exact hq.2)]
      apply hframe5
      intro hmem
      rw [List.mem_append] at hmem
      rcases hmem with hmem | hmem
      · exact hq.1 (List.mem_append_left _ hmem)
      · rcases List.mem_cons.mp hmem with rfl | hmem
        · exact hq.1 (by simp)
        · exact hq.2 (mem_recordsOf h _ q hmem)
    · rw [hlog, hlog5, hrel]
      simp only [List.flatMap_cons, List.reverse_append, List.append_assoc]

/-- The rounds of the loop of `xmlSecNodeSetDestroy` on a ring with nested
records: when the loop comes to the member `j`, the members before it are
released and the members from `j` on form a ring among themselves. -/
theorem destroy_rounds : ∀ (j : Nat) (ms : List Nat) (h : Heap) (m0 : Nat),
    NestedRing h (m0 :: ms) → j ≤ ms.length →
    ∃ hj, (∀ fuel, 3 ≤ fuel → xmlSecNodeSetDestroyLoop (fuel + j) h (some m0) =
        xmlSecNodeSetDestroyLoop fuel hj (m0 :: ms)[j]?) ∧
      NestedRing hj ((m0 :: ms).drop j) ∧
      (∀ q ∈ (m0 :: ms).take j, hj.read q = none) ∧
      (∀ q, h.read q = none → hj.read q = none) := by
  intro j
  induction j with
  | zero =>
    intro ms h m0 hn _
    exact ⟨h, fun fuel _ => by simp, by simpa using hn, by simp, fun _ hq => hq⟩
  | succ j ih =>
    intro ms h m0 hn hj
    cases ms with
    | nil => simp at hj
    | cons m1 rest =>
      obtain ⟨h5, hloop, hn5, -, -, hfreed5, -, hnone5, -, -⟩ := nested_round h m0 m1 rest hn
      obtain ⟨hj1, hrun, hnj, hfreed, hnone⟩ :=
        ih rest h5 m1 hn5 (by simp at hj; omega)
      refine ⟨hj1, ?_, by simpa using hnj, ?_, fun q hq => hnone q (hnone5 q hq)⟩
      · intro fuel hfuel
        rw [show fuel + (j + 1) = (fuel + j) + 1 by omega, hloop (fuel + j) (by omega),
          hrun fuel hfuel]
        simp
      · intro q hq
        simp only [List.take_succ_cons, List.mem_cons] at hq
        rcases hq with rfl | hq
        · exact hnone q (hfreed5 q (by simp))
        · exact hfreed q hq

/-! ### What the events tell -/

theorem freedRecords_append (l1 l2 : List HeapEvent) :
    freedRecords (l1 ++ l2) = freedRecords l1 ++ freedRecords l2 := by
  induction l1 with
  | nil => rfl
  | cons e rest ih => cases e <;> simp [freedRecords, ih]

theorem freedCollections_append (l1 l2 : List HeapEvent) :
    freedCollections (l1 ++ l2) = freedCollections l1 ++ freedCollections l2 := by
  induction l1 with
  | nil => rfl
  | cons e rest ih => cases e <;> simp [freedCollections, ih]

theorem freedRecords_raw (l : List xmlNodeSet) :
    freedRecords (l.map HeapEvent.xmlXPathFreeNodeSet) = [] := by
  induction l with
  | nil => rfl
  | cons e rest ih => simp [freedRecords, ih]

theorem freedCollections_raw (l : List xmlNodeSet) :
    freedCollections (l.map HeapEvent.xmlXPathFreeNodeSet) = l := by
  induction l with
  | nil => rfl
  | cons e rest ih => simp [freedCollections, ih]

theorem freedRecords_releasesOf (h : Heap) (q : Nat) :
    freedRecords (releasesOf h q) = (childOf h q).toList ++ [q] := by
  unfold releasesOf
  cases childOf h q <;>
    simp [freedRecords_append, freedRecords_raw, freedRecords]

theorem freedCollections_releasesOf (h : Heap) (q : Nat) :
    freedCollections (releasesOf h q) =
      rawOf h q ++ (childOf h q).toList.flatMap (rawOf h) := by
  unfold releasesOf
  cases childOf h q <;>
    simp [freedCollections_append, freedCollections_raw, freedCollections]

theorem freedRecords_flatMap (h : Heap) (ms : List Nat) :
    freedRecords (ms.flatMap (releasesOf h)) = recordsOf h ms := by
  induction ms with
  | nil => rfl
  | cons q rest ih =>
    rw [List.flatMap_cons, freedRecords_append, ih, freedRecords_releasesOf, recordsOf_cons]

theorem freedCollections_flatMap (h : Heap) (ms : List Nat) :
    freedCollections (ms.flatMap (releasesOf h)) =
      ms.flatMap (fun q => rawOf h q ++ (childOf h q).toList.flatMap (rawOf h)) := by
  induction ms with
  | nil => rfl
  | cons q rest ih =>
    rw [List.flatMap_cons, freedCollections_append, ih, freedCollections_releasesOf,
      List.flatMap_cons]

/-- The records of a ring one of whose members has a nested record: each member
once, and the nested record once, before its member. -/
theorem wrapped_records (w m : Nat) :
    ∀ l : List Nat, l.Nodup → m ∉ l →
      (l.flatMap (fun q => if q = w then [m, w] else [q])).Nodup ∧
      (∀ x, x ∈ l.flatMap (fun q => if q = w then [m, w] else [q]) ↔
        (x ∈ l ∨ (x = m ∧ w ∈ l))) ∧
      (l.flatMap (fun q => if q = w then [m, w] else [q])).length =
        l.length + (if w ∈ l then 1 else 0) := by
  intro l
  induction l with
  | nil => intro _ _; simp
  | cons q rest ih =>
    intro hnd hm
    obtain ⟨hq, hnd1⟩ := List.nodup_cons.mp hnd
    have hmq : m ≠ q := fun e => hm (by simp [e])
    have hm1 : m ∉ rest := fun e => hm (List.mem_cons_of_mem _ e)
    obtain ⟨ih1, ih2, ih3⟩ := ih hnd1 hm1
    by_cases hqw : q = w
    · subst hqw
      refine ⟨?_, ?_, ?_⟩
      · simp only [List.flatMap_cons, if_true]
        refine List.Nodup.append (by simp [hmq]) ih1 ?_
        intro x hx1 hx2
        rw [ih2] at hx2
        simp only [List.mem_cons, List.mem_singleton, List.not_mem_nil, or_false] at hx1
        rcases hx1 with rfl | rfl
        · rcases hx2 with hx2 | ⟨-, hx2⟩
          · exact hm1 hx2
          · exact hq hx2
        · rcases hx2 with hx2 | ⟨hx2, -⟩
          · exact hq hx2
          · exact hmq hx2.symm
      · intro x
        simp only [List.flatMap_cons, if_true, List.mem_append, ih2, List.mem_cons,
          List.mem_singleton, List.not_mem_nil, or_false, true_or, and_true]
        tauto
      · simp only [List.flatMap_cons, if_true, List.length_append, ih3, List.length_cons,
          List.length_nil, List.mem_cons, true_or, hq, if_false]
        omega
    · refine ⟨?_, ?_, ?_⟩
      · simp only [List.flatMap_cons, hqw, if_false]
        refine List.Nodup.append (by simp) ih1 ?_
        intro x hx1 hx2
        rw [ih2] at hx2
        simp only [List.mem_singleton] at hx1
        subst hx1
        rcases hx2 with hx2 | ⟨hx2, -⟩
        · exact hq hx2
        · exact hmq hx2.symm
      · intro x
        have hwq : ¬ (w = q) := fun e => hqw e.symm
        simp only [List.flatMap_cons, hqw, if_false, List.mem_append, ih2, List.mem_cons,
          List.mem_singleton, hwq, false_or]
        tauto
      · have hwq : ¬ (w = q) := fun e => hqw e.symm
        simp only [List.flatMap_cons, hqw, if_false, List.length_append, ih3, List.length_cons,
          List.length_nil, List.mem_cons, hwq, false_or]
        omega

/-! ## The claim about destroying a ring -/

/-- C32.  Let `cur` be a ring entered at its first member `r`, let its member
`w` have the nested record `m`, a ring of its own without nested record that is
no member of `cur`, and let no other member have a nested record.  With fuel
for every member and four rounds more `xmlSecNodeSetDestroy` returns.  The
members and `m` are released and the other records are as before.  The records
handed to `xmlFree` are the members in ring order, with `m` before `w`: each
once, one more than there are members.  The raw collections handed to
`xmlXPathFreeNodeSet` are those of the members in ring order, with that of `m`
after that of `w`: one for each record that has one.  And when the loop comes
to the member `j`, the members before it are released and the members from `j`
on form a ring among themselves: each member is taken out of the ring before
it is released. -/
theorem destroy_visits_each_once (h : Heap) (cur : List Nat) (r w m : Nat)
    (hr : IsRing h cur) (hhead : cur[0]? = some r) (hw : w ∈ cur)
    (hchild : childOf h w = some m) (hm : IsRing h [m]) (hmflat : childOf h m = none)
    (hmout : m ∉ cur) (hflat : ∀ q ∈ cur, q ≠ w → childOf h q = none) :
    ∃ h1,
      (∀ fuel, cur.length + 4 ≤ fuel → xmlSecNodeSetDestroy fuel h (some r) = some h1) ∧
      (∀ q ∈ m :: cur, h1.read q = none) ∧
      (∀ q, q ∉ m :: cur → h1.read q = h.read q) ∧
      (∃ events, h1.log = events.reverse ++ h.log ∧
        freedRecords events = cur.flatMap (fun q => if q = w then [m, w] else [q]) ∧
        (freedRecords events).Nodup ∧ (freedRecords events).length = cur.length + 1 ∧
        (∀ q, q ∈ freedRecords events ↔ q ∈ m :: cur) ∧
        freedCollections events =
          cur.flatMap (fun q => rawOf h q ++ if q = w then rawOf h m else [])) ∧
      (∀ j, j < cur.length → ∃ hj,
        (∀ fuel, 3 ≤ fuel → xmlSecNodeSetDestroy (fuel + j + 1) h (some r) =
          xmlSecNodeSetDestroyLoop fuel hj cur[j]?) ∧
        IsRing hj (cur.drop j) ∧ ∀ q ∈ cur.take j, hj.read q = none) := by
  obtain ⟨mc, hmread, hmnext, -⟩ := isRing_singleton_iff.mp hm
  have hsing : singletonChild h m := by
    refine ⟨mc, hmread, hmnext, ?_⟩
    simpa [childOf, hmread] using hmflat
  have hkid : ∀ q ∈ cur, childOf h q = if q = w then some m else none := by
    intro q hq
    by_cases hqw : q = w
    · rw [if_pos hqw, hqw, hchild]
    · rw [if_neg hqw, hflat q hq hqw]
  have hn : NestedRing h cur := by
    refine ⟨hr, ?_, ?_⟩
    · intro q hq m1 hm1
      rw [hkid q hq] at hm1
      split_ifs at hm1
      · simp only [Option.some.injEq] at hm1
        subst hm1
        exact ⟨hmout, hsing⟩
    · intro q hq q1 hq1 m1 hm1 hm2
      rw [hkid q hq] at hm1
      rw [hkid q1 hq1] at hm2
      split_ifs at hm1 hm2 with h1 h2
      rw [h1, h2]
  cases cur with
  | nil => simp at hhead
  | cons m0 ms =>
    simp only [List.getElem?_cons_zero, Option.some.injEq] at hhead
    subst hhead
    obtain ⟨h1, hrun, hfreed, hframe, hlog, -, -, -⟩ := destroyLoop_nested ms h m0 hn
    have hrecs : recordsOf h (m0 :: ms) =
        (m0 :: ms).flatMap (fun q => if q = w then [m, w] else [q]) := by
      unfold recordsOf
      apply flatMap_ext_mem
      intro q hq
      rw [hkid q hq]
      split_ifs with hqw
      · simp [hqw]
      · simp
    obtain ⟨hnd, hmem, hlen⟩ := wrapped_records w m (m0 :: ms) hr.2.1 hmout
    have hmemIff : ∀ q, q ∈ recordsOf h (m0 :: ms) ↔ q ∈ m :: m0 :: ms := by
      intro q
      rw [hrecs, hmem q]
      simp only [hw, and_true]
      rw [List.mem_cons (a := q) (b := m)]
      tauto
    refine ⟨h1, ?_, ?_, ?_, ⟨(m0 :: ms).flatMap (releasesOf h), hlog, ?_, ?_, ?_, ?_, ?_⟩, ?_⟩
    · intro fuel hfuel
      obtain ⟨f, rfl⟩ : ∃ f, fuel = f + 1 := ⟨fuel - 1, by simp at hfuel; omega⟩
      simp only [xmlSecNodeSetDestroy]
      exact hrun f (by simp only [List.length_cons] at hfuel; omega)
    · intro q hq
      exact hfreed q ((hmemIff q).mpr hq)
    · intro q hq
      exact hframe q (fun e => hq ((hmemIff q).mp e))
    · rw [freedRecords_flatMap, hrecs]
    · rw [freedRecords_flatMap, hrecs]
      exact hnd
    · rw [freedRecords_flatMap, hrecs, hlen, if_pos hw]
    · intro q
      rw [freedRecords_flatMap]
      exact hmemIff q
    · rw [freedCollections_flatMap]
      apply flatMap_ext_mem
      intro q hq
      rw [hkid q hq]
      split_ifs with hqw
      · simp
      · simp
    · intro j hj
      obtain ⟨hj1, hreach, hnj, hfr, -⟩ :=
        destroy_rounds j ms h m0 hn (by simp only [List.length_cons] at hj; omega)
      refine ⟨hj1, ?_, hnj.1, hfr⟩
      intro fuel hfuel
      simp only [xmlSecNodeSetDestroy]
      exact hreach fuel hfuel

/-! ## The claims about sets without raw collection and about the walk -/

/-- The record that `xmlSecNodeSetCreate` makes. -/
theorem create_record (h h1 : Heap) (doc : Option Nat) (nodes : Option xmlNodeSet)
    (type : xmlSecNodeSetType) (q : Nat)
    (hc : xmlSecNodeSetCreate h doc nodes type = (h1, some q)) :
    h1.read q = some { xmlSecNodeSet.zero with
      doc := doc, nodes := nodes, type := type, next := some q, prev := some q } := by
  unfold xmlSecNodeSetCreate Heap.xmlMalloc at hc
  cases ha : h.avail with
  | zero => simp [ha] at hc
  | succ n =>
    simp only [ha, Prod.mk.injEq, Option.some.injEq] at hc
    obtain ⟨rfl, rfl⟩ := hc
    exact Heap.read_write_same _ (by simp)

/-- The answer of `xmlSecNodeSetOneContains` for a record without raw
collection. -/
theorem oneContains_absent (h : Heap) (p : Nat) (s : xmlSecNodeSet) (node parent : xmlNodePtr)
    (fuel : Nat) (hread : h.read p = some s) (hnodes : s.nodes = none)
    (hnode : node.isNull = false) :
    ((s.type = xmlSecNodeSetNormal ∨ s.type = xmlSecNodeSetTree) →
      xmlSecNodeSetOneContains h (fuel + 1) (some p) node parent = some 1) ∧
    (s.type = xmlSecNodeSetTreeWithoutComments →
      xmlSecNodeSetOneContains h (fuel + 1) (some p) node parent =
        some (if node.type = XML_COMMENT_NODE then 0 else 1)) ∧
    ((s.type = xmlSecNodeSetInvert ∨ s.type = xmlSecNodeSetTreeInvert ∨
        s.type = xmlSecNodeSetTreeWithoutCommentsInvert) →
      xmlSecNodeSetOneContains h (fuel + 1) (some p) node parent = some 0) := by
  refine ⟨?_, ?_, ?_⟩
  · rintro (ht | ht) <;>
      simp [xmlSecNodeSetOneContains, hread, hnode, ht, hnodes, in_nodes_set]
  · intro ht
    by_cases hc : node.type = XML_COMMENT_NODE <;>
      simp [xmlSecNodeSetOneContains, hread, hnode, ht, hnodes, in_nodes_set, hc]
  · rintro (ht | ht | ht)
    · simp [xmlSecNodeSetOneContains, hread, hnode, ht, hnodes, in_nodes_set, cNot]
    · simp [xmlSecNodeSetOneContains, hread, hnode, ht, hnodes, in_nodes_set]
    · by_cases hc : node.type = XML_COMMENT_NODE <;>
        simp [xmlSecNodeSetOneContains, hread, hnode, ht, hnodes, in_nodes_set, hc]

/-- The containment test on a ring of one member with the combinator
`Intersection`, which is what `xmlSecNodeSetCreate` leaves: the answer for the
member, as `0` or `1`. -/
theorem contains_created (h : Heap) (p : Nat) (s : xmlSecNodeSet) (node parent : xmlNodePtr)
    (fuel : Nat) (r : Int) (hread : h.read p = some s) (hnext : s.next = some p)
    (hop : s.op = xmlSecNodeSetIntersection) (hnode : node.isNull = false)
    (hone : xmlSecNodeSetOneContains h (fuel + 1) (some p) node parent = some r) :
    xmlSecNodeSetContains h (fuel + 3) (some p) node parent = some (if r = 0 then 0 else 1) := by
  simp only [xmlSecNodeSetContains, hnode, Bool.false_eq_true, if_false,
    xmlSecNodeSetContainsLoop, hread, hop, hnext, hone]
  simp

/-- C33.  Let a record have no raw collection.  For every node
`xmlSecNodeSetOneContains` answers `1` when the variant is `Normal` or `Tree`;
for `TreeWithoutComments` it answers `1` but for a comment, where it answers
`0`; for `Invert`, `TreeInvert` and `TreeWithoutCommentsInvert` it answers `0`.
A node set that `xmlSecNodeSetCreate` makes without raw collection, as
`xmlSecXPathDataExecute` does for an object without `nodesetval`, is such a
record, and `xmlSecNodeSetContains` on it answers the same. -/
theorem absent_collection_universal (h : Heap) (p : Nat) (s : xmlSecNodeSet)
    (node parent : xmlNodePtr) (fuel : Nat) (hread : h.read p = some s)
    (hnodes : s.nodes = none) (hnode : node.isNull = false) :
    (((s.type = xmlSecNodeSetNormal ∨ s.type = xmlSecNodeSetTree) →
        xmlSecNodeSetOneContains h (fuel + 1) (some p) node parent = some 1) ∧
      (s.type = xmlSecNodeSetTreeWithoutComments →
        xmlSecNodeSetOneContains h (fuel + 1) (some p) node parent =
          some (if node.type = XML_COMMENT_NODE then 0 else 1)) ∧
      ((s.type = xmlSecNodeSetInvert ∨ s.type = xmlSecNodeSetTreeInvert ∨
          s.type = xmlSecNodeSetTreeWithoutCommentsInvert) →
        xmlSecNodeSetOneContains h (fuel + 1) (some p) node parent = some 0)) ∧
    (∀ (h0 h1 : Heap) (doc : Option Nat) (type : xmlSecNodeSetType) (q : Nat),
      xmlSecNodeSetCreate h0 doc none type = (h1, some q) →
      (∃ c, h1.read q = some c ∧ c.nodes = none ∧ c.type = type) ∧
      ((type = xmlSecNodeSetNormal ∨ type = xmlSecNodeSetTree) →
        xmlSecNodeSetContains h1 (fuel + 3) (some q) node parent = some 1) ∧
      (type = xmlSecNodeSetTreeWithoutComments →
        xmlSecNodeSetContains h1 (fuel + 3) (some q) node parent =
          some (if node.type = XML_COMMENT_NODE then 0 else 1)) ∧
      ((type = xmlSecNodeSetInvert ∨ type = xmlSecNodeSetTreeInvert ∨
          type = xmlSecNodeSetTreeWithoutCommentsInvert) →
        xmlSecNodeSetContains h1 (fuel + 3) (some q) node parent = some 0)) := by
  refine ⟨oneContains_absent h p s node parent fuel hread hnodes hnode, ?_⟩
  intro h0 h1 doc type q hc
  have hrec := create_record h0 h1 doc none type q hc
  obtain ⟨hA, hB, hC⟩ := oneContains_absent h1 q _ node parent fuel hrec rfl hnode
  refine ⟨⟨_, hrec, rfl, rfl⟩, ?_, ?_, ?_⟩
  · intro ht
    have := contains_created h1 q _ node parent fuel 1 hrec rfl rfl hnode (hA ht)
    simpa using this
  · intro ht
    have := contains_created h1 q _ node parent fuel _ hrec rfl rfl hnode (hB ht)
    rw [this]
    by_cases hc : node.type = XML_COMMENT_NODE <;> simp [hc]
  · intro ht
    have := contains_created h1 q _ node parent fuel 0 hrec rfl rfl hnode (hC ht)
    simpa using this

/-- C34.  On an absent node set `xmlSecNodeSetContains` answers `1` for every
node, and yet `xmlSecNodeSetWalk` on an absent node set returns `-1` and leaves
the user data as they were, whatever the visitor; so it does with an absent
visitor; and so it does on a set without document whose head has no raw
collection or is not of the variant `Normal`, `Tree` or `TreeWithoutComments`.
For a visitor that keeps a journal of its calls the journal is as it was: the
visitor has not been called. -/
theorem walk_rejects_absent {σ : Type} (h : Heap)
    (xmlSearchNs : Option Nat → xmlNodePtr → Option String → xmlNodePtr)
    (mem : Nat → xmlTreePtr) (fuel : Nat) (data : σ) :
    (∀ node parent : xmlNodePtr, node.isNull = false →
      xmlSecNodeSetContains h (fuel + 1) none node parent = some 1) ∧
    (∀ walkFunc : Option (xmlSecNodeSetWalkCallback σ),
      xmlSecNodeSetWalkPtr h xmlSearchNs mem walkFunc fuel none data = some (-1, data)) ∧
    (∀ nset : Option Nat,
      xmlSecNodeSetWalkPtr h xmlSearchNs mem (none : Option (xmlSecNodeSetWalkCallback σ)) fuel
        nset data = some (-1, data)) ∧
    (∀ (walkFunc : xmlSecNodeSetWalkCallback σ) (p : Nat) (s : xmlSecNodeSet),
      h.read p = some s → s.doc = none →
      (s.nodes = none ∨ (s.type ≠ xmlSecNodeSetNormal ∧ s.type ≠ xmlSecNodeSetTree ∧
        s.type ≠ xmlSecNodeSetTreeWithoutComments)) →
      xmlSecNodeSetWalkPtr h xmlSearchNs mem (some walkFunc) fuel (some p) data =
        some (-1, data) ∧
      ∀ journal : List (Visit × Int),
        xmlSecNodeSetWalkPtr h xmlSearchNs mem (some (record walkFunc)) fuel (some p)
          (data, journal) = some (-1, (data, journal))) ∧
    (∀ (walkFunc : xmlSecNodeSetWalkCallback σ) (journal : List (Visit × Int)),
      xmlSecNodeSetWalkPtr h xmlSearchNs mem (some (record walkFunc)) fuel none
        (data, journal) = some (-1, (data, journal))) := by
  have key : ∀ (τ : Type) (f : xmlSecNodeSetWalkCallback τ) (d : τ) (p : Nat)
      (s : xmlSecNodeSet), h.read p = some s → s.doc = none →
      (s.nodes = none ∨ (s.type ≠ xmlSecNodeSetNormal ∧ s.type ≠ xmlSecNodeSetTree ∧
        s.type ≠ xmlSecNodeSetTreeWithoutComments)) →
      xmlSecNodeSetWalkPtr h xmlSearchNs mem (some f) fuel (some p) d = some (-1, d) := by
    intro τ f d p s hread hdoc hcase
    simp only [xmlSecNodeSetWalkPtr, xmlSecNodeSetWalk, hread, hdoc]
    rcases hcase with hn | ⟨h1, h2, h3⟩
    · simp [hn]
    · cases hN : s.nodes with
      | none => rfl
      | some tab =>
        cases hT : s.type <;> simp_all
  refine ⟨?_, ?_, ?_, ?_, ?_⟩
  · intro node parent hnode
    simp [xmlSecNodeSetContains, hnode]
  · intro walkFunc
    rfl
  · intro nset
    cases nset <;> rfl
  · intro walkFunc p s hread hdoc hcase
    exact ⟨key σ walkFunc data p s hread hdoc hcase,
      fun journal => key _ (record walkFunc) (data, journal) p s hread hdoc hcase⟩
  · intro walkFunc journal
    rfl

/-! ## The claims about the namespaces captured and about the empty chain -/

theorem flattenBindings_pair (l : List (Option String × Option String)) (i : Nat)
    (b : Option String × Option String) (hb : l[i]? = some b) :
    (flattenBindings l)[2 * i]? = some b.1 ∧ (flattenBindings l)[2 * i + 1]? = some b.2 := by
  obtain ⟨hi, rfl⟩ := List.getElem?_eq_some.mp hb
  have hsplit : l = (l.take i ++ [l[i]]) ++ l.drop (i + 1) := by
    rw [List.append_assoc, List.singleton_append, List.getElem_cons_drop, List.take_append_drop]
  have hlen : (l.take i).length = i := by simp; omega
  have := flattenBindings_getElem (l.take i) l[i] (flattenBindings (l.drop (i + 1)))
  rw [← flattenBindings_append, ← hsplit, hlen] at this
  exact this

theorem capturedBindings_node (a : Nat) (t : xmlElementType) (p : xmlNodePtr) (d : List xmlNs)
    (x : Option String) (n : xmlNodePtr) :
    capturedBindings (xmlNodePtr.node a t p d x n) =
      d.map (fun ns => (ns.pfx, ns.href)) ++ capturedBindings p := by
  simp [capturedBindings, parentChain, xmlNodePtr.nsDef]

/-- C31.  Let `xmlSecXPathDataReadNsList` be called for a descriptor without
array and a node, with memory for the array and for every string.  It returns
`0`; the size it stores is twice the number of declarations on the node and on
all its ancestors, and the array has that many entries; the entries `2 i` and
`2 i + 1` are the prefix and the URI of the declaration `i`, where the
declarations are counted from those of the node itself, in the order of their
chain, on to those of its parent, and so on outwards; and the entry of the
prefix is null for a declaration without prefix. -/
theorem namespace_capture (avail : Nat) (data : xmlSecXPathData) (node : xmlNodePtr)
    (hns : data.nsList = none) (hnode : node.isNull = false)
    (hmem : 1 + 2 * countNs node ≤ avail) :
    ∃ l, (xmlSecXPathDataReadNsList avail data node).2.1 = 0 ∧
      (xmlSecXPathDataReadNsList avail data node).2.2.nsList = some l ∧
      (xmlSecXPathDataReadNsList avail data node).2.2.nsListSize = 2 * countNs node ∧
      l.length = 2 * countNs node ∧
      countNs node = ((parentChain node).map (fun a => a.nsDef.length)).sum ∧
      capturedBindings node =
        node.nsDef.map (fun ns => (ns.pfx, ns.href)) ++ capturedBindings node.parent ∧
      (∀ i b, (capturedBindings node)[i]? = some b →
        l[2 * i]? = some b.1 ∧ l[2 * i + 1]? = some b.2) ∧
      (∀ i ns, node.nsDef[i]? = some ns →
        l[2 * i]? = some ns.pfx ∧ l[2 * i + 1]? = some ns.href ∧
        (ns.pfx = none → l[2 * i]? = some none)) := by
  obtain ⟨a1, hrun, -⟩ := readNsList_spec avail data node hns hnode hmem
  have hpairs := flattenBindings_pair (capturedBindings node)
  have hsum : ∀ n : xmlNodePtr, countNs n = ((parentChain n).map (fun a => a.nsDef.length)).sum := by
    intro n
    induction n with
    | NULL => rfl
    | node a t p d x n ihp _ =>
      simp only [countNs, parentChain, List.map_cons, List.sum_cons, xmlNodePtr.nsDef, ihp]
  have hcap : capturedBindings node =
      node.nsDef.map (fun ns => (ns.pfx, ns.href)) ++ capturedBindings node.parent := by
    cases node with
    | NULL => simp [xmlNodePtr.isNull] at hnode
    | node a t p d x n => exact capturedBindings_node a t p d x n
  refine ⟨flattenBindings (capturedBindings node), by rw [hrun], by rw [hrun],
    by rw [hrun, countNs_eq], by rw [flattenBindings_length, countNs_eq], hsum node, hcap,
    hpairs, ?_⟩
  intro i ns hi
  have hb : (capturedBindings node)[i]? = some (ns.pfx, ns.href) := by
    rw [hcap]
    have hlt := (List.getElem?_eq_some.mp hi).1
    rw [List.getElem?_append_left (by simpa using hlt)]
    simp [hi]
  obtain ⟨h1, h2⟩ := hpairs i _ hb
  exact ⟨h1, h2, fun hp => by rw [h1, hp]⟩

/-- C35, as stated, fails.  A second-generation transform reads a configuration
whose only element child is not a filter element: the configuration has no
filter element, and `xmlSecTransformXPath2ReadNode` returns `-1`. -/
theorem empty_chain_counterexample :
    exEnv.xmlSecCheckNodeName (exChild 404 XML_ELEMENT_NODE []) "XPath" exEnv.xmlSecXPath2Ns =
      false ∧
    (xmlSecGetNextElementNode
      (xmlSecGetNextElementNode
        (exConfig [(404, XML_ELEMENT_NODE)]).children).next).self.isNull = true ∧
    ((xmlSecTransformXPath2ReadNode exEnv 5 exData0
        (some (exNew xmlSecTransformId.xmlSecTransformXPath2))
        (exConfig [(404, XML_ELEMENT_NODE)])).map (fun r => r.ret)) = some (-1) :=
  ⟨by decide!, by decide!, by decide!⟩

/-- C35, amended.  Let a second-generation transform, whose chain of descriptors
is well formed, read a configuration without element child, with fuel for the
records of that chain.  `xmlSecTransformXPath2ReadNode` returns `0`; the
transform points to no chain, the records of the chain it had are released and
the other records are as before; read as the execute function reads it, the
transform has no descriptor.  `xmlSecTransformXPath2Execute` on such a
transform returns `-1` and leaves the memory and the working set of the caller
as they are. -/
theorem empty_chain_read_then_execute (env : ReadEnv) (n fuel : Nat) (h : DataHeap)
    (t : xmlSecXmlTransformCell) (transformNode : xmlTreePtr) (old : List Nat)
    (hid : t.id = xmlSecTransformId.xmlSecTransformXPath2)
    (hnode : transformNode.self.isNull = false)
    (hnone : (xmlSecGetNextElementNode transformNode.children).self.isNull = true)
    (hold : chainCells h n t.xmlData = some old) (hfuel : old.length + 1 ≤ fuel) :
    ∃ h1, xmlSecTransformXPath2ReadNode env fuel h (some t) transformNode =
        some ⟨0, h1, some { t with xmlData := none, here := transformNode.self }⟩ ∧
      (∀ q ∈ old, h1.read q = none) ∧ (∀ q, q ∉ old → h1.read q = h.read q) ∧
      (∀ k, loadTransform h1 k { t with xmlData := none, here := transformNode.self } =
        some { id := xmlSecTransformId.xmlSecTransformXPath2, xmlData := [],
               here := transformNode.self }) ∧
      ∀ (lib : LibXml) (f : Nat) (H : Heap) (ctxDoc : Option Nat) (doc : Option (Option Nat))
        (nodes : Option (Option Nat)),
        xmlSecTransformXPath2Execute lib f H
            (some { id := xmlSecTransformId.xmlSecTransformXPath2, xmlData := [],
                    here := transformNode.self }) ctxDoc doc nodes =
          some ⟨-1, H, nodes⟩ := by
  obtain ⟨h1, hrun, hfreed, hframe, -, -⟩ := dataDestroy_chain n old h t.xmlData hold fuel hfuel
  have hid1 : ¬ t.id ≠ xmlSecTransformId.xmlSecTransformXPath2 := by simp [hid]
  refine ⟨h1, ?_, hfreed, hframe, ?_, ?_⟩
  · simp only [xmlSecTransformXPath2ReadNode, hnode, Bool.false_eq_true, if_false, hid1]
    cases hx : t.xmlData with
    | none =>
      rw [hx] at hrun
      obtain ⟨f, rfl⟩ : ∃ f, fuel = f + 1 := ⟨fuel - 1, by omega⟩
      simp only [xmlSecXPathDataDestroy, Option.some.injEq] at hrun
      subst hrun
      simp only
      rw [xpath2ReadLoop_empty env _ _ _ hnone]
      obtain ⟨i, x, hr⟩ := t
      simp only at hx
      subst hx
      rfl
    | some p =>
      rw [hx] at hrun
      simp only [hrun, Option.map_some']
      rw [xpath2ReadLoop_empty env _ _ _ hnone]
  · intro k
    simp only [loadTransform, hid]
    cases k <;> rfl
  · intro lib f H ctxDoc doc nodes
    cases doc with
    | none => rfl
    | some d =>
      cases d with
      | none => cases nodes <;> rfl
      | some d =>
        cases nodes with
        | none => rfl
        | some ns => simp [xmlSecTransformXPath2Execute]

/-! ## The claim about the initialisation -/

/-- C36.  In a state the program can be in, `xmlSecRegisterDefaultInputCallbacks`
returns, and a second call leaves the static variables as the first has left
them.  In every state the program gets to after that, a call of
`xmlSecCleanupInputCallbacks` (or of `xmlSecIOShutdown`) returns with the count
`0`, every slot empty and the flag still set; after it a further call of
`xmlSecRegisterDefaultInputCallbacks` or of `xmlSecIOInit` changes nothing, so
that the count is still `0`; and the same two functions change nothing in any
state the program gets to later. -/
theorem default_handlers_once (cfg : DefaultInput) (s0 : InputCallbacks)
    (h0 : Reachable cfg s0) :
    ∃ s1, xmlSecRegisterDefaultInputCallbacks cfg s0 = some s1 ∧
      xmlSecRegisterDefaultInputCallbacks cfg s1 = some s1 ∧
      ∀ s2, ReachableFrom cfg s1 s2 →
        ∃ s3, xmlSecCleanupInputCallbacks s2 = some s3 ∧ xmlSecIOShutdown s2 = some s3 ∧
          s3.xmlSecInputCallbackNr = 0 ∧
          (∀ cb ∈ s3.xmlSecInputCallbackTable, cb = emptyCallback) ∧
          s3.xmlSecInputCallbackInitialized ≠ 0 ∧
          xmlSecRegisterDefaultInputCallbacks cfg s3 = some s3 ∧
          xmlSecIOInit cfg s3 = some s3 ∧
          ∀ s4, ReachableFrom cfg s3 s4 →
            xmlSecRegisterDefaultInputCallbacks cfg s4 = some s4 ∧
            xmlSecIOInit cfg s4 = some s4 := by
  obtain ⟨s1, h1⟩ := registerDefault_returns cfg s0 (reachable_inv cfg s0 h0)
  have hi1 := registerDefault_initialized cfg s0 s1 h1
  refine ⟨s1, h1, registerDefault_skip cfg s1 hi1, ?_⟩
  intro s2 hs2
  have hi2 := reachableFrom_initialized cfg s1 s2 hi1 hs2
  have hr2 : Reachable cfg s2 :=
    reachableFrom_reachable cfg s1 s2 (Reachable.registerDefault h0 h1) hs2
  obtain ⟨s3, h3, hnr, hempty⟩ := cleanup_clears cfg s2 hr2 hi2
  have hi3 : s3.xmlSecInputCallbackInitialized ≠ 0 := by
    rw [cleanup_initialized _ _ h3]; exact hi2
  refine ⟨s3, h3, h3, hnr, hempty, hi3, registerDefault_skip cfg s3 hi3,
    registerDefault_skip cfg s3 hi3, ?_⟩
  intro s4 hs4
  have hi4 := reachableFrom_initialized cfg s3 s4 hi3 hs4
  exact ⟨registerDefault_skip cfg s4 hi4, registerDefault_skip cfg s4 hi4⟩

/-! ### Concrete instances of the last claims -/

/-- C31, instance: the descriptor read at the element `i` of `<r xmlns:x="urn:1"
xmlns:y="urn:y"><i xmlns:x="urn:2"/></r>` holds six entries, the binding of `i`
first. -/
theorem namespace_capture_witness :
    (exUnscoped.nsList = none ∧ exI.isNull = false ∧ 1 + 2 * countNs exI ≤ 16) ∧
    (∃ l, (xmlSecXPathDataReadNsList 16 exUnscoped exI).2.1 = 0 ∧
      (xmlSecXPathDataReadNsList 16 exUnscoped exI).2.2.nsList = some l ∧
      (xmlSecXPathDataReadNsList 16 exUnscoped exI).2.2.nsListSize = 2 * countNs exI ∧
      l.length = 2 * countNs exI ∧
      countNs exI = ((parentChain exI).map (fun a => a.nsDef.length)).sum ∧
      capturedBindings exI =
        exI.nsDef.map (fun ns => (ns.pfx, ns.href)) ++ capturedBindings exI.parent ∧
      (∀ i b, (capturedBindings exI)[i]? = some b →
        l[2 * i]? = some b.1 ∧ l[2 * i + 1]? = some b.2) ∧
      (∀ i ns, exI.nsDef[i]? = some ns →
        l[2 * i]? = some ns.pfx ∧ l[2 * i + 1]? = some ns.href ∧
        (ns.pfx = none → l[2 * i]? = some none))) ∧
    (xmlSecXPathDataReadNsList 16 exUnscoped exI).2.2.nsList =
      some [some "x", some "urn:2", some "x", some "urn:1", some "y", some "urn:y"] ∧
    (xmlSecXPathDataReadNsList 16 exUnscoped exI).2.2.nsListSize = 6 :=
  ⟨⟨rfl, rfl, by decide⟩,
    namespace_capture 16 exUnscoped exI rfl rfl (by decide), by decide!, by decide!⟩

/-- C32, instance: the ring of three members of `exNested`, whose member at `1`
is a wrapper with the nested record at `3`.  Four records are released, the
nested record before its wrapper, and the two raw collections. -/
theorem destroy_visits_each_once_witness :
    (IsRing exNested [0, 1, 2] ∧ ([0, 1, 2] : List Nat)[0]? = some 0 ∧
      1 ∈ ([0, 1, 2] : List Nat) ∧ childOf exNested 1 = some 3 ∧ IsRing exNested [3] ∧
      childOf exNested 3 = none ∧ 3 ∉ ([0, 1, 2] : List Nat) ∧
      ∀ q ∈ ([0, 1, 2] : List Nat), q ≠ 1 → childOf exNested q = none) ∧
    (∃ h1,
      (∀ fuel, ([0, 1, 2] : List Nat).length + 4 ≤ fuel →
        xmlSecNodeSetDestroy fuel exNested (some 0) = some h1) ∧
      (∀ q ∈ 3 :: [0, 1, 2], h1.read q = none) ∧
      (∀ q, q ∉ 3 :: [0, 1, 2] → h1.read q = exNested.read q) ∧
      (∃ events, h1.log = events.reverse ++ exNested.log ∧
        freedRecords events =
          ([0, 1, 2] : List Nat).flatMap (fun q => if q = 1 then [3, 1] else [q]) ∧
        (freedRecords events).Nodup ∧
        (freedRecords events).length = ([0, 1, 2] : List Nat).length + 1 ∧
        (∀ q, q ∈ freedRecords events ↔ q ∈ 3 :: [0, 1, 2]) ∧
        freedCollections events =
          ([0, 1, 2] : List Nat).flatMap
            (fun q => rawOf exNested q ++ if q = 1 then rawOf exNested 3 else [])) ∧
      (∀ j, j < ([0, 1, 2] : List Nat).length → ∃ hj,
        (∀ fuel, 3 ≤ fuel → xmlSecNodeSetDestroy (fuel + j + 1) exNested (some 0) =
          xmlSecNodeSetDestroyLoop fuel hj ([0, 1, 2] : List Nat)[j]?) ∧
        IsRing hj (([0, 1, 2] : List Nat).drop j) ∧
        ∀ q ∈ ([0, 1, 2] : List Nat).take j, hj.read q = none)) ∧
    ((xmlSecNodeSetDestroy 7 exNested (some 0)).map (fun h1 => h1.log)) =
      some [HeapEvent.xmlFree 2, HeapEvent.xmlFree 1, HeapEvent.xmlFree 3,
        HeapEvent.xmlXPathFreeNodeSet [exB], HeapEvent.xmlFree 0,
        HeapEvent.xmlXPathFreeNodeSet [exA]] ∧
    ((xmlSecNodeSetDestroy 7 exNested (some 0)).map
      (fun h1 => [h1.read 0, h1.read 1, h1.read 2, h1.read 3].map Option.isSome)) =
      some [false, false, false, false] :=
  ⟨⟨by decide!, rfl, by decide, by decide!, by decide!, by decide!, by decide,
      by decide!⟩,
    destroy_visits_each_once exNested [0, 1, 2] 0 1 3 (by decide!) rfl (by decide) (by decide!)
      (by decide!) (by decide!) (by decide) (by decide!),
    by decide!, by decide!⟩

/-- C33, instance: a record of the variant `Tree` without raw collection contains
the element `c`; and the set that the first-generation transform leaves when
the expression evaluates to a value that is no node set contains the element
`c` and the comment. -/
theorem absent_collection_universal_witness :
    ((exBare xmlSecNodeSetTree).read 0 = some (exBareCell xmlSecNodeSetTree) ∧
      (exBareCell xmlSecNodeSetTree).nodes = none ∧ exC.isNull = false) ∧
    xmlSecNodeSetOneContains (exBare xmlSecNodeSetTree) (0 + 1) (some 0) exC exB = some 1 ∧
    xmlSecNodeSetOneContains (exBare xmlSecNodeSetTreeInvert) 1 (some 0) exC exB = some 0 ∧
    xmlSecNodeSetOneContains (exBare xmlSecNodeSetTreeWithoutComments) 1 (some 0) exComment
      exA = some 0 ∧
    ((xmlSecTransformXPathExecute exLibScalar 4 exHeap0 (some (exXPath "1+1")) (some 100)
        (some (some 100)) (some none)).bind
      (fun ex => (ex.nodes.bind id).bind
        (fun p => (ex.heap.read p).map (fun c => (ex.ret, c.nodes, c.type))))) =
      some (0, none, xmlSecNodeSetNormal) ∧
    ((xmlSecTransformXPathExecute exLibScalar 4 exHeap0 (some (exXPath "1+1")) (some 100)
        (some (some 100)) (some none)).bind
      (fun ex => xmlSecNodeSetContains ex.heap 4 (ex.nodes.bind id) exC exB)) = some 1 ∧
    ((xmlSecTransformXPathExecute exLibScalar 4 exHeap0 (some (exXPath "1+1")) (some 100)
        (some (some 100)) (some none)).bind
      (fun ex => xmlSecNodeSetContains ex.heap 4 (ex.nodes.bind id) exComment exA)) = some 1 :=
  ⟨⟨rfl, rfl, rfl⟩,
    ((absent_collection_universal (exBare xmlSecNodeSetTree) 0 (exBareCell xmlSecNodeSetTree)
      exC exB 0 rfl rfl rfl).1.1) (Or.inr rfl),
    by decide!, by decide!, by decide!, by decide!, by decide!⟩

/-- C34, instance: the walk on a record without document and without raw
collection returns `-1`, and the journal of the visitor is empty. -/
theorem walk_rejects_absent_witness :
    xmlSecNodeSetWalkPtr (exBare xmlSecNodeSetTree) exSearch exMem
        (some (record exVisitor)) 9 (some 0) ((), []) = some (-1, ((), [])) ∧
    xmlSecNodeSetWalkPtr (exBare xmlSecNodeSetTree) exSearch exMem
        (some (record exVisitor)) 9 none ((), []) = some (-1, ((), [])) ∧
    xmlSecNodeSetContains (exBare xmlSecNodeSetTree) 9 none exC exB = some 1 :=
  ⟨((walk_rejects_absent (exBare xmlSecNodeSetTree) exSearch exMem 9 ()).2.2.2.1 exVisitor 0
      (exBareCell xmlSecNodeSetTree) rfl rfl (Or.inl rfl)).2 [],
    (walk_rejects_absent (exBare xmlSecNodeSetTree) exSearch exMem 9 ()).2.2.2.2 exVisitor [],
    (walk_rejects_absent (exBare xmlSecNodeSetTree) exSearch exMem 8 ()).1 exC exB rfl⟩

/-- C35, instance: the transform `exStored`, with a chain of two descriptors,
reads a configuration whose only child is a comment.  The function returns
`0`, the two records are released, and the transform has no chain. -/
theorem empty_chain_read_then_execute_witness :
    (exStored.id = xmlSecTransformId.xmlSecTransformXPath2 ∧
      (exConfig [(430, XML_COMMENT_NODE)]).self.isNull = false ∧
      (xmlSecGetNextElementNode (exConfig [(430, XML_COMMENT_NODE)]).children).self.isNull =
        true ∧
      chainCells exData2 5 exStored.xmlData = some [0, 1] ∧
      ([0, 1] : List Nat).length + 1 ≤ 5) ∧
    (∃ h1, xmlSecTransformXPath2ReadNode exEnv 5 exData2 (some exStored)
          (exConfig [(430, XML_COMMENT_NODE)]) =
        some ⟨0, h1, some { exStored with
          xmlData := none, here := (exConfig [(430, XML_COMMENT_NODE)]).self }⟩ ∧
      (∀ q ∈ ([0, 1] : List Nat), h1.read q = none) ∧
      (∀ q, q ∉ ([0, 1] : List Nat) → h1.read q = exData2.read q) ∧
      (∀ k, loadTransform h1 k { exStored with
          xmlData := none, here := (exConfig [(430, XML_COMMENT_NODE)]).self } =
        some { id := xmlSecTransformId.xmlSecTransformXPath2, xmlData := [],
               here := (exConfig [(430, XML_COMMENT_NODE)]).self }) ∧
      ∀ (lib : LibXml) (f : Nat) (H : Heap) (ctxDoc : Option Nat) (doc : Option (Option Nat))
        (nodes : Option (Option Nat)),
        xmlSecTransformXPath2Execute lib f H
            (some { id := xmlSecTransformId.xmlSecTransformXPath2, xmlData := [],
                    here := (exConfig [(430, XML_COMMENT_NODE)]).self }) ctxDoc doc nodes =
          some ⟨-1, H, nodes⟩) ∧
    ((xmlSecTransformXPath2ReadNode exEnv 5 exData2 (some exStored)
        (exConfig [(430, XML_COMMENT_NODE)])).map
      (fun r => (r.ret, r.transform.map (fun t => t.xmlData), r.heap.cells))) =
      some (0, some none, [none, none]) ∧
    ((xmlSecTransformXPath2Execute exLib 9 exHeap0
        (some { id := xmlSecTransformId.xmlSecTransformXPath2, xmlData := [],
                here := exTransformNode })
        (some 100) (some (some 100)) (some (some 7))).map (fun ex => (ex.ret, ex.nodes))) =
      some (-1, some (some 7)) :=
  ⟨⟨rfl, rfl, by decide!, by decide!, by decide⟩,
    empty_chain_read_then_execute exEnv 5 5 exData2 exStored
      (exConfig [(430, XML_COMMENT_NODE)]) [0, 1] rfl rfl (by decide!) (by decide!) (by decide),
    by decide!, by decide!⟩

/-- C36, instance: from the start of the program the default handlers are
registered, which are two; after a cleanup the count is `0`, and a further
registration of the default handlers leaves it `0`. -/
theorem default_handlers_once_witness :
    Reachable exDefault InputCallbacks.start ∧
    (∃ s1, xmlSecRegisterDefaultInputCallbacks exDefault InputCallbacks.start = some s1 ∧
      xmlSecRegisterDefaultInputCallbacks exDefault s1 = some s1 ∧
      ∀ s2, ReachableFrom exDefault s1 s2 →
        ∃ s3, xmlSecCleanupInputCallbacks s2 = some s3 ∧ xmlSecIOShutdown s2 = some s3 ∧
          s3.xmlSecInputCallbackNr = 0 ∧
          (∀ cb ∈ s3.xmlSecInputCallbackTable, cb = emptyCallback) ∧
          s3.xmlSecInputCallbackInitialized ≠ 0 ∧
          xmlSecRegisterDefaultInputCallbacks exDefault s3 = some s3 ∧
          xmlSecIOInit exDefault s3 = some s3 ∧
          ∀ s4, ReachableFrom exDefault s3 s4 →
            xmlSecRegisterDefaultInputCallbacks exDefault s4 = some s4 ∧
            xmlSecIOInit exDefault s4 = some s4) ∧
    ((xmlSecRegisterDefaultInputCallbacks exDefault InputCallbacks.start).map
      (fun s => (s.xmlSecInputCallbackNr, s.xmlSecInputCallbackInitialized))) = some (2, 1) ∧
    (((xmlSecRegisterDefaultInputCallbacks exDefault InputCallbacks.start).bind
        xmlSecCleanupInputCallbacks).bind (xmlSecIOInit exDefault)).map
      (fun s => (s.xmlSecInputCallbackNr, s.xmlSecInputCallbackInitialized)) = some (0, 1) :=
  ⟨Reachable.start, default_handlers_once exDefault InputCallbacks.start Reachable.start,
    by decide!, by decide!⟩

/-! ## The claim about the function `here` in another document -/

/-- C24, the failing input.  A pointer transform with the expression
`xpointer(here())`, declared in the document at the address `100`, is executed
on the document at `200`, with an evaluator that stands for libxml2.  No `here`
node is handed over (`hereNodeOf` is null), and yet the context of the
evaluation has a `here` node, the root element of the document at `200`, and
the function `here`: `xmlSecXPathDataExecute` has passed that root element as
the argument `here` of `xmlXPtrNewContext`.  The evaluation does not fail: the
execute function returns `0` and hands on a `Tree` set without raw collection,
which contains the element `c`.
For a first-generation descriptor with the expression `here()` in the same
place the context has neither the node nor the function, and the execute
function returns `-1`. -/
theorem here_in_other_document :
    hereNodeOf exPointer (some 100) 200 = NULL ∧
    ((evalContext exLibXPtr (some 200) (hereNodeOf exPointer (some 100) 200)
        exPointerData).map
      (fun c => (c.here, decide ("here" ∈ c.funcs)))) = some (exRoot2, true) ∧
    ((xmlSecTransformXPointerExecute exLibXPtr 0 exHeap0 (some exPointer) (some 100)
        (some (some 200)) (some none)).map (fun ex => (ex.ret, ex.nodes))) =
      some (0, some (some 0)) ∧
    ((xmlSecTransformXPointerExecute exLibXPtr 0 exHeap0 (some exPointer) (some 100)
        (some (some 200)) (some none)).bind
      (fun ex => (ex.heap.read 0).map (fun c => (c.nodes, c.type, c.doc)))) =
      some (none, xmlSecNodeSetTree, some 200) ∧
    ((xmlSecTransformXPointerExecute exLibXPtr 0 exHeap0 (some exPointer) (some 100)
        (some (some 200)) (some none)).bind
      (fun ex => xmlSecNodeSetContains ex.heap 4 (ex.nodes.bind id) exC exB)) = some 1 ∧
    ((evalContext exLibXPtr (some 200) (hereNodeOf exPointer (some 100) 200)
        (exHereData xmlSecXPathType.xmlSecXPathTypeXPath)).map
      (fun c => (c.here, decide ("here" ∈ c.funcs)))) = some (NULL, false) ∧
    ((xmlSecTransformXPathExecute exLibXPtr 0 exHeap0
        (some { exPointer with
          id := xmlSecTransformId.xmlSecTransformXPath
          xmlData := [exHereData xmlSecXPathType.xmlSecXPathTypeXPath] })
        (some 100) (some (some 200)) (some none)).map (fun ex => ex.ret)) = some (-1) :=
  ⟨by decide!, by decide!, by decide!, by decide!, by decide!, by decide!, by decide!⟩

/-! ## The claim about the buffer of the wrapped expression -/

theorem visitKey_ns (y e : xmlNodePtr) (h : y.type = XML_NAMESPACE_DECL) :
    visitKey (y, e) = (e.addr, some y.pfx) := by
  simp [visitKey, h]

theorem visitKey_tree (y e : xmlNodePtr) (h : y.type ≠ XML_NAMESPACE_DECL) :
    visitKey (y, e) = (y.addr, none) := by
  simp [visitKey, h]

theorem nsPtrs_mem_type (l : List xmlNs) (y : xmlNodePtr) (h : y ∈ nsPtrs l) :
    y.type = XML_NAMESPACE_DECL ∧ y.isNull = false := by
  induction l with
  | nil => simp [nsPtrs] at h
  | cons d rest ih =>
    simp only [nsPtrs, List.mem_cons] at h
    rcases h with rfl | h
    · exact ⟨rfl, rfl⟩
    · exact ih h

theorem scopeDecls_mem_type (e y : xmlNodePtr) (h : y ∈ scopeDecls e) :
    y.type = XML_NAMESPACE_DECL ∧ y.isNull = false := by
  simp only [scopeDecls, List.mem_flatMap] at h
  obtain ⟨a, _, ha⟩ := h
  exact nsPtrs_mem_type _ y ha

theorem ptrEq_addr (x y : xmlNodePtr) (h : x.ptrEq y = true) (hy : y.isNull = false) :
    x.addr = y.addr := by
  cases x <;> cases y <;> simp_all [xmlNodePtr.ptrEq, xmlNodePtr.addr, xmlNodePtr.isNull]

/-- Of declarations at distinct addresses, those that resolving their prefix
yields have distinct prefixes. -/
theorem resolved_pfx_nodup (r : Option String → xmlNodePtr) :
    ∀ l : List xmlNodePtr, (l.map xmlNodePtr.addr).Nodup → (∀ y ∈ l, y.isNull = false) →
      ((l.filter (fun ns => (r ns.pfx).ptrEq ns)).map xmlNodePtr.pfx).Nodup := by
  intro l
  induction l with
  | nil => intro _ _; simp
  | cons y rest ih =>
    intro hnd hnn
    simp only [List.map_cons, List.nodup_cons] at hnd
    have ihr := ih hnd.2 (fun z hz => hnn z (List.mem_cons_of_mem _ hz))
    by_cases hy : (r y.pfx).ptrEq y = true
    · rw [List.filter_cons, if_pos hy, List.map_cons, List.nodup_cons]
      refine ⟨?_, ihr⟩
      intro hmem
      obtain ⟨z, hz, hzp⟩ := List.mem_map.mp hmem
      obtain ⟨hzr, hzacc⟩ := List.mem_filter.mp hz
      have h1 := ptrEq_addr _ _ hy (hnn y (List.mem_cons_self _ _))
      have h2 := ptrEq_addr _ _ hzacc (hnn z (List.mem_cons_of_mem _ hzr))
      rw [hzp] at h2
      exact hnd.1 (List.mem_map.mpr ⟨z, hzr, by rw [← h2, h1]⟩)
    · rw [List.filter_cons, if_neg hy]
      exact ihr

theorem chainSelves_sublist (t : xmlTreePtr) : (chainSelves t).Sublist (chainRecords t) := by
  induction t with
  | NULL => exact List.Sublist.refl _
  | node a t p d x n pr ch next _ _ ih =>
    simp only [chainSelves, chainRecords]
    exact List.Sublist.cons₂ _ (List.sublist_append_of_sublist_right ih)

theorem DistinctRecords.sublist {l1 l2 : List xmlNodePtr} (hs : l1.Sublist l2)
    (h : DistinctRecords l2) : DistinctRecords l1 :=
  ⟨(hs.map _).nodup h.1, fun r hr => h.2.1 r (hs.subset hr), fun r hr => h.2.2 r (hs.subset hr)⟩

/-- The identities of the visits at a record: how those of the record, of
its attributes, of its namespace nodes, of what lies below it and of what
follows it fit together. -/
theorem keys_combine (a : Nat) (KA KN KC KX : List (Nat × Option (Option String)))
    (Apr Ach Anext : List Nat)
    (hA : KA.Nodup) (hA2 : ∀ k ∈ KA, k.2 = none ∧ k.1 ∈ Apr)
    (hN : KN.Nodup) (hN2 : ∀ k ∈ KN, k.1 = a ∧ k.2 ≠ none)
    (hC : KC.Nodup) (hC2 : ∀ k ∈ KC, k.1 ∈ Ach)
    (hX : KX.Nodup) (hX2 : ∀ k ∈ KX, k.1 ∈ Anext)
    (hnd : (a :: (Apr ++ Ach ++ Anext)).Nodup) :
    (((a, none) :: ((KA ++ KN) ++ KC)) ++ KX).Nodup ∧
      ∀ k ∈ ((a, none) :: ((KA ++ KN) ++ KC)) ++ KX, k.1 ∈ a :: (Apr ++ Ach ++ Anext) := by
  simp only [List.nodup_cons, List.nodup_append, List.mem_append, not_or,
    List.disjoint_left] at hnd
  obtain ⟨⟨⟨haP, haC⟩, haX⟩, ⟨hP, hCn, hPC⟩, hXn, hPCX⟩ := hnd
  constructor
  · rw [List.cons_append, List.nodup_cons]
    constructor
    · simp only [List.mem_append, not_or]
      refine ⟨⟨⟨?_, ?_⟩, ?_⟩, ?_⟩
      · intro h
        exact haP (hA2 _ h).2
      · intro h
        exact (hN2 _ h).2 rfl
      · intro h
        exact haC (hC2 _ h)
      · intro h
        exact haX (hX2 _ h)
    · rw [List.nodup_append]
      refine ⟨?_, hX, ?_⟩
      · rw [List.nodup_append]
        refine ⟨?_, hC, ?_⟩
        · rw [List.nodup_append]
          refine ⟨hA, hN, ?_⟩
          rw [List.disjoint_left]
          intro k hk1 hk2
          exact (hN2 k hk2).2 (hA2 k hk1).1
        · rw [List.disjoint_left]
          intro k hk1 hk2
          rcases List.mem_append.mp hk1 with h | h
          · exact hPC (hA2 k h).2 (hC2 k hk2)
          · have := (hN2 k h).1
            exact haC (this ▸ hC2 k hk2)
      · rw [List.disjoint_left]
        intro k hk1 hk2
        have hx := hX2 k hk2
        rcases List.mem_append.mp hk1 with h | h
        · rcases List.mem_append.mp h with h | h
          · exact hPCX (Or.inl (hA2 k h).2) hx
          · have := (hN2 k h).1
            exact haX (this ▸ hx)
        · exact hPCX (Or.inr (hC2 k h)) hx
  · intro k hk
    simp only [List.cons_append, List.mem_cons, List.mem_append] at hk ⊢
    rcases hk with rfl | ((((h | h) | h)) | h)
    · exact Or.inl rfl
    · exact Or.inr (Or.inl (Or.inl (hA2 k h).2))
    · exact Or.inl (hN2 k h).1
    · exact Or.inr (Or.inl (Or.inr (hC2 k h)))
    · exact Or.inr (Or.inr (hX2 k h))

theorem docOrderChain_keys (search : Option Nat → xmlNodePtr → Option String → xmlNodePtr)
    (doc : Option Nat) :
    ∀ (tree : xmlTreePtr) (parent : xmlNodePtr), DistinctRecords (chainRecords tree) →
      ((docOrderChain search doc tree parent).map visitKey).Nodup ∧
        ∀ k ∈ (docOrderChain search doc tree parent).map visitKey,
          k.1 ∈ (chainRecords tree).map xmlNodePtr.addr := by
  intro tree
  induction tree with
  | NULL =>
    intro parent _
    simp [docOrderChain]
  | node a t p d x n pr ch next ihpr ihch ihnext =>
    intro parent hD
    have hsubP : (chainRecords pr).Sublist (chainRecords (xmlTreePtr.node a t p d x n pr ch next)) := by
      simp only [chainRecords]
      exact List.sublist_cons_of_sublist _
        (List.sublist_append_of_sublist_left (List.sublist_append_left _ _))
    have hsubC : (chainRecords ch).Sublist (chainRecords (xmlTreePtr.node a t p d x n pr ch next)) := by
      simp only [chainRecords]
      exact List.sublist_cons_of_sublist _
        (List.sublist_append_of_sublist_left (List.sublist_append_right _ _))
    have hsubX : (chainRecords next).Sublist
        (chainRecords (xmlTreePtr.node a t p d x n pr ch next)) := by
      simp only [chainRecords]
      exact List.sublist_cons_of_sublist _ (List.sublist_append_right _ _)
    have hDP := DistinctRecords.sublist hsubP hD
    have hself : xmlNodePtr.node a t p d x n ∈
        chainRecords (xmlTreePtr.node a t p d x n pr ch next) := by
      simp [chainRecords]
    have ht : t ≠ XML_NAMESPACE_DECL := hD.2.1 _ hself
    have hnd : (a :: ((chainRecords pr).map xmlNodePtr.addr ++
        (chainRecords ch).map xmlNodePtr.addr ++ (chainRecords next).map xmlNodePtr.addr)).Nodup := by
      have := hD.1
      simpa [chainRecords, xmlNodePtr.addr] using this
    obtain ⟨hC, hC2⟩ := ihch (xmlNodePtr.node a t p d x n) (DistinctRecords.sublist hsubC hD)
    obtain ⟨hX, hX2⟩ := ihnext parent (DistinctRecords.sublist hsubX hD)
    -- the attributes
    have hAeq : ((chainSelves pr).map (fun y => (y, xmlNodePtr.node a t p d x n))).map visitKey =
        ((chainSelves pr).map xmlNodePtr.addr).map (fun b => (b, none)) := by
      rw [List.map_map, List.map_map]
      apply List.map_congr_left
      intro y hy
      exact visitKey_tree y _ (hDP.2.1 y ((chainSelves_sublist pr).subset hy))
    have hA : (((chainSelves pr).map (fun y => (y, xmlNodePtr.node a t p d x n))).map
        visitKey).Nodup := by
      rw [hAeq]
      apply List.Nodup.map
      · intro b c hbc
        exact (Prod.mk.inj hbc).1
      · exact (((chainSelves_sublist pr).map _).nodup hDP.1)
    have hA2 : ∀ k ∈ ((chainSelves pr).map (fun y => (y, xmlNodePtr.node a t p d x n))).map
        visitKey, k.2 = none ∧ k.1 ∈ (chainRecords pr).map xmlNodePtr.addr := by
      rw [hAeq]
      intro k hk
      obtain ⟨b, hb, rfl⟩ := List.mem_map.mp hk
      exact ⟨rfl, ((chainSelves_sublist pr).map _).subset hb⟩
    -- the namespace nodes
    have hNeq : ((inScopeNs search doc (xmlNodePtr.node a t p d x n)).map
        (fun y => (y, xmlNodePtr.node a t p d x n))).map visitKey =
        ((inScopeNs search doc (xmlNodePtr.node a t p d x n)).map xmlNodePtr.pfx).map
          (fun q => (a, some q)) := by
      rw [List.map_map, List.map_map]
      apply List.map_congr_left
      intro y hy
      have hy1 : y ∈ scopeDecls (xmlNodePtr.node a t p d x n) := (List.mem_filter.mp hy).1
      exact visitKey_ns y _ (scopeDecls_mem_type _ y hy1).1
    have hN2 : ∀ k ∈ ((inScopeNs search doc (xmlNodePtr.node a t p d x n)).map
        (fun y => (y, xmlNodePtr.node a t p d x n))).map visitKey, k.1 = a ∧ k.2 ≠ none := by
      rw [hNeq]
      intro k hk
      obtain ⟨q, _, rfl⟩ := List.mem_map.mp hk
      exact ⟨rfl, by simp⟩
    have hN : t = XML_ELEMENT_NODE →
        (((inScopeNs search doc (xmlNodePtr.node a t p d x n)).map
          (fun y => (y, xmlNodePtr.node a t p d x n))).map visitKey).Nodup := by
      intro hte
      rw [hNeq]
      apply List.Nodup.map
      · intro b c hbc
        exact Option.some.inj (Prod.mk.inj hbc).2
      · exact resolved_pfx_nodup (fun q => search doc (xmlNodePtr.node a t p d x n) q) _
          (hD.2.2 _ hself hte) (fun y hy => (scopeDecls_mem_type _ y hy).2)
    have hk : visitKey (xmlNodePtr.node a t p d x n, parent) = (a, none) :=
      visitKey_tree (xmlNodePtr.node a t p d x n) parent ht
    rw [docOrderChain]
    by_cases hte : t = XML_ELEMENT_NODE
    · have hor : t = XML_ELEMENT_NODE ∨ t = XML_DOCUMENT_NODE := Or.inl hte
      rw [if_pos hte, if_pos hor]
      have := keys_combine a _ _ _ _ _ _ _ hA hA2 (hN hte) hN2 hC hC2 hX hX2 hnd
      simp only [List.map_append, List.map_cons, List.map_nil, hk, chainRecords]
      exact this
    · rw [if_neg hte]
      by_cases htd : t = XML_DOCUMENT_NODE
      · have hor : t = XML_ELEMENT_NODE ∨ t = XML_DOCUMENT_NODE := Or.inr htd
        rw [if_pos hor]
        have := keys_combine a [] [] _ _ ((chainRecords pr).map xmlNodePtr.addr) _ _
          List.nodup_nil (by simp) List.nodup_nil (by simp) hC hC2 hX hX2 hnd
        simp only [List.map_append, List.map_cons, List.map_nil, hk, chainRecords]
        exact this
      · have hor : ¬ (t = XML_ELEMENT_NODE ∨ t = XML_DOCUMENT_NODE) := by
          intro h
          rcases h with h | h
          · exact hte h
          · exact htd h
        rw [if_neg hor]
        have := keys_combine a [] [] [] _ ((chainRecords pr).map xmlNodePtr.addr)
          ((chainRecords ch).map xmlNodePtr.addr) _
          List.nodup_nil (by simp) List.nodup_nil (by simp) List.nodup_nil (by simp) hX hX2 hnd
        simp only [List.map_append, List.map_cons, List.map_nil, hk, chainRecords]
        exact this

theorem docOrder_keys (search : Option Nat → xmlNodePtr → Option String → xmlNodePtr)
    (doc : Option Nat) (cur : xmlTreePtr) (parent : xmlNodePtr)
    (hD : DistinctRecords (recordsBelow cur)) :
    ((docOrder search doc cur parent).map visitKey).Nodup ∧
      ∀ k ∈ (docOrder search doc cur parent).map visitKey,
        k.1 ∈ (recordsBelow cur).map xmlNodePtr.addr := by
  cases cur with
  | NULL => simp [docOrder]
  | node a t p d x n pr ch next =>
    have hrec : chainRecords (xmlTreePtr.node a t p d x n pr ch xmlTreePtr.NULL) =
        recordsBelow (xmlTreePtr.node a t p d x n pr ch next) := by
      simp [chainRecords, recordsBelow]
    have h := docOrderChain_keys search doc (xmlTreePtr.node a t p d x n pr ch xmlTreePtr.NULL)
      parent (by rw [hrec]; exact hD)
    rw [hrec] at h
    exact h

/-- The walk from several starting nodes: where the records at and below them
are distinct, no node is met twice. -/
theorem starts_keys (search : Option Nat → xmlNodePtr → Option String → xmlNodePtr)
    (doc : Option Nat) (mem : Nat → xmlTreePtr) (par : xmlNodePtr → xmlNodePtr) :
    ∀ starts : List xmlNodePtr,
      DistinctRecords (starts.flatMap (fun n => recordsBelow (cursor mem n))) →
      ((starts.flatMap (fun n => docOrder search doc (cursor mem n) (par n))).map
          visitKey).Nodup ∧
        ∀ k ∈ (starts.flatMap (fun n => docOrder search doc (cursor mem n) (par n))).map
            visitKey,
          k.1 ∈ (starts.flatMap (fun n => recordsBelow (cursor mem n))).map xmlNodePtr.addr := by
  intro starts
  induction starts with
  | nil => intro _; simp
  | cons n rest ih =>
    intro hD
    rw [List.flatMap_cons] at hD
    obtain ⟨h1, h12⟩ := docOrder_keys search doc (cursor mem n) (par n)
      (DistinctRecords.sublist (List.sublist_append_left _ _) hD)
    obtain ⟨h2, h22⟩ := ih (DistinctRecords.sublist (List.sublist_append_right _ _) hD)
    have hnd := hD.1
    rw [List.map_append, List.nodup_append] at hnd
    rw [List.flatMap_cons, List.flatMap_cons, List.map_append, List.map_append]
    constructor
    · rw [List.nodup_append]
      refine ⟨h1, h2, ?_⟩
      rw [List.disjoint_left]
      intro k hk1 hk2
      exact (List.disjoint_left.mp hnd.2.2) (h12 k hk1) (h22 k hk2)
    · intro k hk
      rcases List.mem_append.mp hk with h | h
      · exact List.mem_append.mpr (Or.inl (h12 k h))
      · exact List.mem_append.mpr (Or.inr (h22 k h))

theorem docOrder_namespace (search : Option Nat → xmlNodePtr → Option String → xmlNodePtr)
    (doc : Option Nat) (mem : Nat → xmlTreePtr) (n parent : xmlNodePtr)
    (hn : isNamespaceNode n = true) :
    docOrder search doc (cursor mem n) parent = [(n, parent)] := by
  cases n with
  | NULL => simp [isNamespaceNode, xmlNodePtr.type] at hn
  | node a t p d x nn =>
    have ht : t = XML_NAMESPACE_DECL := by simpa [isNamespaceNode, xmlNodePtr.type] using hn
    subst ht
    simp [cursor, xmlTreePtr.mk, docOrder, docOrderChain]

theorem flatMap_eq_map_of_singleton {α β : Type} (f : α → List β) (g : α → β) :
    ∀ l : List α, (∀ n ∈ l, f n = [g n]) → l.flatMap f = l.map g := by
  intro l
  induction l with
  | nil => intro _; rfl
  | cons n rest ih =>
    intro h
    rw [List.flatMap_cons, List.map_cons, h n (List.mem_cons_self _ _),
      ih (fun m hm => h m (List.mem_cons_of_mem _ hm))]
    rfl

/-- Where the head and the document are such that no node is reached twice, the
visits of the walk are visits of distinct nodes. -/
theorem walkOrder_nodup (search : Option Nat → xmlNodePtr → Option String → xmlNodePtr)
    (mem : Nat → xmlTreePtr) (s : xmlSecNodeSet) (hd : ReachedOnce mem s) :
    ((walkOrder search mem s).map visitKey).Nodup := by
  have hwhole : (match s.doc with
      | none => True
      | some d => DistinctRecords (recordsBelow (mem d))) →
      ((match s.doc with
        | none => ([] : List Visit)
        | some d => docOrder search s.doc (mem d) NULL).map visitKey).Nodup := by
    intro h
    cases hdoc : s.doc with
    | none => simp
    | some d =>
      rw [hdoc] at h
      exact (docOrder_keys search (some d) (mem d) NULL h).1
  have htree : ∀ tab : xmlNodeSet,
      (DistinctRecords
          ((tab.filter (fun n => !isNamespaceNode n)).flatMap
            (fun n => recordsBelow (cursor mem n))) ∧
        ((tab.filter isNamespaceNode).map (fun n => visitKey (n, xmlSecGetParent n))).Nodup ∧
        ∀ n ∈ tab.filter isNamespaceNode, (xmlSecGetParent n).addr ∉
          ((tab.filter (fun n => !isNamespaceNode n)).flatMap
            (fun n => recordsBelow (cursor mem n))).map xmlNodePtr.addr) →
      ((tab.flatMap (fun n => docOrder search s.doc (cursor mem n) (xmlSecGetParent n))).map
        visitKey).Nodup := by
    intro tab ⟨hD, hNs, hOwn⟩
    have hperm := ((List.filter_append_perm isNamespaceNode tab).flatMap_right
      (fun n => docOrder search s.doc (cursor mem n) (xmlSecGetParent n))).map visitKey
    rw [← hperm.nodup_iff, List.flatMap_append, List.map_append, List.nodup_append]
    obtain ⟨h2, h22⟩ := starts_keys search s.doc mem xmlSecGetParent _ hD
    have hnsEq : (tab.filter isNamespaceNode).flatMap
        (fun n => docOrder search s.doc (cursor mem n) (xmlSecGetParent n)) =
        (tab.filter isNamespaceNode).map (fun n => (n, xmlSecGetParent n)) := by
      apply flatMap_eq_map_of_singleton
      intro n hn
      exact docOrder_namespace search s.doc mem n _ (List.mem_filter.mp hn).2
    rw [hnsEq, List.map_map]
    refine ⟨hNs, h2, ?_⟩
    rw [List.disjoint_left]
    intro k hk1 hk2
    obtain ⟨n, hn, rfl⟩ := List.mem_map.mp hk1
    have hty : n.type = XML_NAMESPACE_DECL := by
      simpa [isNamespaceNode] using (List.mem_filter.mp hn).2
    have := h22 _ hk2
    rw [Function.comp_apply, visitKey_ns n _ hty] at this
    exact hOwn n hn this
  unfold ReachedOnce at hd
  unfold walkOrder
  cases hN : s.nodes with
  | none =>
    simp only [hN] at hd ⊢
    exact hwhole hd
  | some tab =>
    simp only [hN] at hd ⊢
    cases hT : s.type with
    | xmlSecNodeSetNormal =>
      simp only [hT] at hd ⊢
      rw [List.map_map]
      exact hd
    | xmlSecNodeSetTree =>
      simp only [hT] at hd ⊢
      exact htree tab hd
    | xmlSecNodeSetTreeWithoutComments =>
      simp only [hT] at hd ⊢
      exact htree tab hd
    | xmlSecNodeSetInvert =>
      simp only [hT] at hd ⊢
      exact hwhole hd
    | xmlSecNodeSetTreeInvert =>
      simp only [hT] at hd ⊢
      exact hwhole hd
    | xmlSecNodeSetTreeWithoutCommentsInvert =>
      simp only [hT] at hd ⊢
      exact hwhole hd
    | xmlSecNodeSetList =>
      simp only [hT] at hd ⊢
      exact hwhole hd
    | unknownType tag =>
      simp only [hT] at hd ⊢
      exact hwhole hd

/-! ## The claim that no node is visited twice -/

/-- C14, as stated, fails.  On the `Tree` set whose raw collection holds `a` and
its child `b`, the walk starts at `a`, where it reaches `b` and `c`, and then
again at `b`: the visitor is called twice on `b` and twice on `c`.  The head is
not such that no node is reached twice. -/
theorem walk_no_repeat_counterexample :
    xmlSecNodeSetWalk (exHeap [exA, exB]) exSearch exMem (record exVisitor) 9 (some 2)
        ((), []) =
      some (0, ((), [((exA, exDoc), 0), ((exB, exA), 0), ((exC, exB), 0), ((exComment, exA), 0),
        ((exB, exA), 0), ((exC, exB), 0)])) ∧
    ¬ (([((exA, exDoc), 0), ((exB, exA), 0), ((exC, exB), 0), ((exComment, exA), 0),
        ((exB, exA), 0), ((exC, exB), 0)] : List (Visit × Int)).map
          (fun e => visitKey e.1)).Nodup ∧
    ¬ ReachedOnce exMem (exCell 2 xmlSecNodeSetTree [exA, exB]) :=
  ⟨by decide!, by decide!, by decide!⟩

/-- C14, amended.  Let the ring agree with its shape, and let the head and the
document be such that no node is reached twice (`ReachedOnce`): for a walk over
the whole document the records of the document are distinct; for a `Normal`
head the entries of the raw collection are distinct nodes; for a `Tree` or
`TreeWithoutComments` head the records at and below the entries are distinct,
so that the entries are distinct and none lies below another.  Then the walk
returns, and during it the visitor is never called twice on the same node (for
a namespace node: the same prefix with the same element). -/
theorem walk_no_repeat {σ : Type} (h : Heap)
    (search : Option Nat → xmlNodePtr → Option String → xmlNodePtr)
    (mem : Nat → xmlTreePtr) (f : xmlSecNodeSetWalkCallback σ) (t : RingShape) (p : Nat)
    (s : xmlSecNodeSet) (hp : t.headPtr = some p) (hs : h.read p = some s)
    (hch : chained h t = true) (hw : wired h t = true)
    (hmem : ∀ d, s.doc = some d → mem d ≠ xmlTreePtr.NULL)
    (htab : s.type = xmlSecNodeSetTree ∨ s.type = xmlSecNodeSetTreeWithoutComments →
      ∀ tab, s.nodes = some tab → ∀ n ∈ tab, n.isNull = false)
    (hdistinct : ReachedOnce mem s) (data : σ) :
    ∃ r d1 log,
      Returns (fun fuel => xmlSecNodeSetWalk h search mem (record f) fuel (some p) (data, []))
        (r, (d1, log)) ∧
      (log.map (fun e => visitKey e.1)).Nodup := by
  obtain ⟨r, d1, hret, _, _, _, _⟩ := walk_journal h search mem f t p s hp hs hch hw hmem htab
    data
  refine ⟨r, d1, _, hret, ?_⟩
  have h1 : ((calls f (some p) (walkPlan search mem h t s) data).map Prod.fst).Sublist
      (walkPlan search mem h t s) := (calls_initial f (some p) _ data).sublist
  have h2 : (walkPlan search mem h t s).Sublist (walkOrder search mem s) := by
    unfold walkPlan
    split_ifs
    · exact List.Sublist.refl _
    · exact List.filter_sublist _
  have h3 := ((h1.trans h2).map visitKey).nodup (walkOrder_nodup search mem s hdistinct)
  simpa [List.map_map] using h3

/-- C14, instance: the `Tree` set over `{b, comment}` of the small document;
the walk starts at `b`, where it reaches `c`, and at the comment.  And the walk
over the whole document `<r xmlns:x="urn:1" xmlns:y="urn:y"><i xmlns:x="urn:2"/></r>`:
it meets the document, `r` and `i`, and with each element its two namespace
nodes, every one once. -/
theorem walk_no_repeat_witness :
    ((exShape 2).headPtr = some 2 ∧
      (exHeap [exB, exComment]).read 2 = some (exCell 2 xmlSecNodeSetTree [exB, exComment]) ∧
      chained (exHeap [exB, exComment]) (exShape 2) = true ∧
      wired (exHeap [exB, exComment]) (exShape 2) = true ∧
      ReachedOnce exMem (exCell 2 xmlSecNodeSetTree [exB, exComment])) ∧
    (∃ r d1 log,
      Returns (fun fuel => xmlSecNodeSetWalk (exHeap [exB, exComment]) exSearch exMem
        (record exVisitor) fuel (some 2) ((), [])) (r, (d1, log)) ∧
      (log.map (fun e => visitKey e.1)).Nodup) ∧
    xmlSecNodeSetWalk (exHeap [exB, exComment]) exSearch exMem (record exVisitor) 9 (some 2)
        ((), []) =
      some (0, ((), [((exB, exA), 0), ((exC, exB), 0), ((exComment, exA), 0)])) ∧
    ReachedOnce exNsMem exNsCell ∧
    (xmlSecNodeSetWalk exNsHeap exResolve exNsMem (record exVisitor) 20 (some 0) ((), [])).map
        (fun r => (r.1, r.2.2.map (fun e => visitKey e.1))) =
      some (0, [(300, none), (301, none), (301, some (some "x")), (301, some (some "y")),
        (302, none), (302, some (some "x")), (302, some (some "y"))]) :=
  ⟨⟨rfl, rfl, by decide!, by decide!, by decide!⟩,
    walk_no_repeat (exHeap [exB, exComment]) exSearch exMem exVisitor (exShape 2) 2
      (exCell 2 xmlSecNodeSetTree [exB, exComment]) rfl rfl (by decide!) (by decide!)
      (fun d hd => by cases hd; decide!)
      (fun _ tab htab n hn => by
        cases htab
        simp only [List.mem_cons, List.mem_singleton, List.not_mem_nil, or_false] at hn
        rcases hn with rfl | rfl <;> rfl)
      (by decide!) (),
    by decide!, by decide!, by decide!⟩

end XmlSec
